import Mathlib

/-! # Static data-initialisation engine of flang2 (`tools/flang2/flang2exe/dinit.c`)

A shallow embedding of the routines of `dinit.c` that lower DATA statements and
type initialisers into dinit records, followed by theorems about them.

Conventions of the embedding.

* The symbol table, the type-descriptor table and the numeric primitive library
  are not part of `dinit.c`; the queries the code makes are fields of `Env`
  (immutable attributes) and of `St` (attributes that `dinit.c` itself writes).
* `ISZ_T`, `INT` and `int` values are mathematical integers (`Int`).  The
  constant folder reduces its 32-bit results explicitly (`wrap32`); the walk of
  a DATA statement (offsets, repeat counts, the implied-do stack) is modelled
  without overflow.  The index of an implied do of the constant folder is
  stepped in the integers by `eval_do_body`; `eval_do_body_isz` and
  `eval_do_isz` are the same loop with the increment of an `ISZ_T` of a given
  width, undefined when it overflows.
* A `CONST *` is the list of nodes reached through `next` (`NULL` is `[]`); a
  clone of a node or list is the same value.
* ILM operand links are sub-terms: `IExpr` for the integer-valued ILMs that
  `eval` understands and `IRef` for the address ILMs that `mkeffadr` understands.
* A `VAR *` is an index into the statement's reference list; `next` is the
  following index.
* Loops and (mutually) recursive calls that are not structural are bounded by a
  fuel argument: it bounds the depth of calls and, separately, the number of
  iterations of each loop.  `Res.fuel` is the answer of the model when the
  budget is too small, `Res.undef` marks undefined behaviour of the C code (a
  null dereference, an uninitialised read, an index out of its array).
-/

namespace Dinit

/-! ## Results and loops -/

/-- Outcome of a modelled routine. -/
inductive Res (α : Type) where
  | ok (a : α)
  | fuel
  | undef
deriving Repr, DecidableEq

/-- A loop whose body either continues with a new loop state (`Sum.inl`) or
leaves the loop with a result (`Sum.inr`); at most `n` iterations are run. -/
def loopN {σ ρ : Type} (body : σ → Res (σ ⊕ ρ)) : Nat → σ → Res ρ
  | 0, _ => Res.fuel
  | n + 1, s =>
    match body s with
    | Res.ok (Sum.inl s') => loopN body n s'
    | Res.ok (Sum.inr r) => Res.ok r
    | Res.fuel => Res.fuel
    | Res.undef => Res.undef

/-! ## Constants of `dinit.c` -/

/-- Macro `THRESHOLD`: repeat value from which REPEAT records become worthwhile. -/
def THRESHOLD : Int := 6

/-- Macro `MAXDEPTH`: size of the implied-do stack. -/
def MAXDEPTH : Nat := 8

/-! ## External vocabulary (symtab.h, ilm.h, semant.h) -/

/-- Storage classes tested by `dinit.c` (`SC_*`). -/
inductive SC where
  | NONE | LOCAL | STATIC | DUMMY | CMBLK | EXTERN | BASED | PRIVATE
deriving DecidableEq, Repr

/-- Symbol kinds tested by `dinit.c` (`ST_*`). -/
inductive STYPE where
  | UNKNOWN | IDENT | VAR | ARRAY | CONST | OTHER
deriving DecidableEq, Repr

/-- Type kinds tested by `dinit.c` (`TY_*`); `TY_FLOAT` is `TY_REAL`. -/
inductive TY where
  | NONE | WORD | DWORD | HOLL | BINT | SINT | INT | INT8 | REAL | DBLE
  | CMPLX | DCMPLX | BLOG | SLOG | LOG | LOG8 | CHAR | NCHAR | ARRAY
  | STRUCT | UNION | OTHER
deriving DecidableEq, Repr

/-- Node kinds of the initialiser constant tree (`AC_*` ids, see `acl_idname`);
`ZERO` is the id of the static `const_err` node. -/
inductive ACID where
  | ZERO | IDENT | CONST | EXPR | IEXPR | AST | IDO | REPEAT | ACONST | SCONST
  | LIST | VMSSTRUCT | VMSUNION | TYPEINIT | ICONST | CONVAL | TRIPLE
deriving DecidableEq, Repr

/-- Operators of an `AC_IEXPR` node (`AC_*` operators, see `ac_opname`). -/
inductive ACOP where
  | NONE | ADD | SUB | MUL | DIV | NEG | EXP | INTR_CALL | ARRAYREF | MEMBR_SEL
  | CONV | CAT | EXPK | LEQV | LNEQV | LOR | LAND | EQ | GE | GT | LE | LT | NE
  | LNOT | EXPX | TRIPLE
deriving DecidableEq, Repr

/-- Operators of `init_fold_const` (`OP_*` of ast.h). -/
inductive OP where
  | NEG | ADD | SUB | MUL | DIV | CAT | LEQV | LNEQV | LOR | LAND | EQ | GE | GT
  | LE | LT | NE | LNOT | XTOI | XTOK | XTOX | CMP
deriving DecidableEq, Repr

/-- A record written by `dinit_put`: `DINIT_LOC`, `DINIT_OFFSET`,
`DINIT_REPEAT`, `DINIT_ZEROES`, or a typed value. -/
inductive Directive where
  | SetLocation (entity : Int)
  | SetOffset (offset : Int)
  | Repeat (count : Int)
  | ZeroFill (bytes : Int)
  | StoreValue (dtype : Nat) (val : Int)
deriving DecidableEq, Repr

/-- A diagnostic handed to the diagnostic sink. -/
inductive Diag where
  | error (code sev : Nat)
  | errsev (code : Nat)
  | interr (sev : Nat)
  | uf
deriving DecidableEq, Repr

/-- Integer-valued ILMs, as `eval` and `chk_doindex` see them.
`LD s` is a `KLD/ILD/SILD/CHLD` of `BASE s`; `NARROW` is `I8TOI/STOI/SCTOI`. -/
inductive IExpr where
  | LD (sptr : Nat)
  | KCON (c : Nat)
  | ICON (c : Nat)
  | NEG (x : IExpr)
  | ADD (x y : IExpr)
  | SUB (x y : IExpr)
  | MUL (x y : IExpr)
  | DIV (x y : IExpr)
  | ITOI8 (x : IExpr)
  | NARROW (x : IExpr)
  | OTHER
deriving DecidableEq, Repr

/-- Address ILMs, as `mkeffadr` and `dinit_varref` see them.  `ELEMENT` holds
its subscripts (`opr1` is their number), `SUBS`/`NSUBS` the two substring
bounds, `FUNC s` is any of the call ILMs with `opr2 = s`. -/
inductive IRef where
  | BASE (sptr : Nat)
  | PLD (base : IRef)
  | MEMBER (base : IRef) (mem : Nat)
  | ELEMENT (base : IRef) (subs : List IExpr)
  | SUBS (base : IRef) (lw up : IExpr)
  | NSUBS (base : IRef) (lw up : IExpr)
  | FUNC (opr2 : Nat)
  | OTHER
deriving DecidableEq, Repr

/-- Tag `u.varref.id` of a variable reference. -/
inductive SID where
  | S_IDENT | S_LVALUE
deriving DecidableEq, Repr

/-- The `u.varref` part of a `VAR` node. -/
structure Varref where
  id : SID
  ptr : IRef
  dtype : Nat
  shape : Nat
deriving DecidableEq, Repr

/-- A node of the initialiser variable list.  `Doend` holds the position of
its `Dostart` in the list. -/
inductive VAR where
  | Varref (v : Varref)
  | Dostart (indvar lowbd upbd step : IExpr)
  | Doend (dostart : Nat)
deriving DecidableEq, Repr

/-- A node of the initialiser constant tree (`CONST` of semant.h) without its
`next` link.  The members of the union `u1` are separate fields: `conval`,
the expression `op/lop/rop`, and the implied do
`index_var/initval/limitval/stepval`. -/
inductive CONST where
  | mk (id : ACID) (subc : List CONST) (repeatc : Int) (sptr : Nat) (mbr : Nat)
      (dtype : Nat) (no_dinitp : Bool) (conval : Int)
      (op : ACOP) (lop rop : List CONST)
      (index_var : Nat) (initval limitval stepval : List CONST)

namespace CONST

/-- Field `id`. -/
def id : CONST → ACID
  | mk i _ _ _ _ _ _ _ _ _ _ _ _ _ _ => i

/-- Field `subc`. -/
def subc : CONST → List CONST
  | mk _ s _ _ _ _ _ _ _ _ _ _ _ _ _ => s

/-- Field `repeatc`. -/
def repeatc : CONST → Int
  | mk _ _ r _ _ _ _ _ _ _ _ _ _ _ _ => r

/-- Field `sptr`. -/
def sptr : CONST → Nat
  | mk _ _ _ s _ _ _ _ _ _ _ _ _ _ _ => s

/-- Field `mbr`. -/
def mbr : CONST → Nat
  | mk _ _ _ _ m _ _ _ _ _ _ _ _ _ _ => m

/-- Field `dtype`. -/
def dtype : CONST → Nat
  | mk _ _ _ _ _ d _ _ _ _ _ _ _ _ _ => d

/-- Field `no_dinitp`. -/
def no_dinitp : CONST → Bool
  | mk _ _ _ _ _ _ n _ _ _ _ _ _ _ _ => n

/-- Field `u1.conval`. -/
def conval : CONST → Int
  | mk _ _ _ _ _ _ _ c _ _ _ _ _ _ _ => c

/-- Field `u1.expr.op`. -/
def op : CONST → ACOP
  | mk _ _ _ _ _ _ _ _ o _ _ _ _ _ _ => o

/-- Field `u1.expr.lop`. -/
def lop : CONST → List CONST
  | mk _ _ _ _ _ _ _ _ _ l _ _ _ _ _ => l

/-- Field `u1.expr.rop`. -/
def rop : CONST → List CONST
  | mk _ _ _ _ _ _ _ _ _ _ r _ _ _ _ => r

/-- Field `u1.ido.index_var`. -/
def index_var : CONST → Nat
  | mk _ _ _ _ _ _ _ _ _ _ _ i _ _ _ => i

/-- Field `u1.ido.initval`. -/
def initval : CONST → List CONST
  | mk _ _ _ _ _ _ _ _ _ _ _ _ i _ _ => i

/-- Field `u1.ido.limitval`. -/
def limitval : CONST → List CONST
  | mk _ _ _ _ _ _ _ _ _ _ _ _ _ l _ => l

/-- Field `u1.ido.stepval`. -/
def stepval : CONST → List CONST
  | mk _ _ _ _ _ _ _ _ _ _ _ _ _ _ s => s

/-- Assignment `c->u1.conval = v`. -/
def setConval : CONST → Int → CONST
  | mk i s r sp m d n _ o l ro iv a b c, v => mk i s r sp m d n v o l ro iv a b c

/-- Assignment `c->sptr = v`. -/
def setSptr : CONST → Nat → CONST
  | mk i s r _ m d n cv o l ro iv a b c, v => mk i s r v m d n cv o l ro iv a b c

/-- Assignment `c->subc = v`. -/
def setSubc : CONST → List CONST → CONST
  | mk i _ r sp m d n cv o l ro iv a b c, v => mk i v r sp m d n cv o l ro iv a b c

/-- Assignment `c->id = v`. -/
def setId : CONST → ACID → CONST
  | mk _ s r sp m d n cv o l ro iv a b c, v => mk v s r sp m d n cv o l ro iv a b c

/-- Assignment `c->dtype = v`. -/
def setDtype : CONST → Nat → CONST
  | mk i s r sp m _ n cv o l ro iv a b c, v => mk i s r sp m v n cv o l ro iv a b c

/-- Assignment `c->repeatc = v`. -/
def setRepeatc : CONST → Int → CONST
  | mk i s _ sp m d n cv o l ro iv a b c, v => mk i s v sp m d n cv o l ro iv a b c

/-- A zeroed node (`BZERO`) with the given id, type, repeat count and value:
the shape in which `dinit.c` builds every `AC_CONST` leaf. -/
def leaf (dtype : Nat) (repeatc : Int) (conval : Int) : CONST :=
  mk ACID.CONST [] repeatc 0 0 dtype false conval ACOP.NONE [] [] 0 [] [] []

end CONST

/-- One record of the deferred-dinit file written by `dinit`: the two pointers
and the position kept in the `IM_BOS` words of the saved ILM block.  The ILMs
themselves are the sub-terms of the variable list; a null `ivl` is `[]`. -/
structure Deferred where
  ivl : List VAR
  ict : List CONST
  lineno : Int
  findex : Int

/-- One entry of the implied-do stack (`DOSTACK`). -/
structure DOSTACK where
  sptr : Nat
  currval : Int
  upbd : Int
  step : Int
deriving DecidableEq, Repr

/-- Effective address of a reference being initialised (`EFFADR`). -/
structure EFFADR where
  sptr : Nat
  mem : Nat
  offset : Int
deriving DecidableEq, Repr

/-- Read-only collaborators of `dinit.c`: symbol attributes that the file only
reads, the type-descriptor table, array descriptors, constant conversion and
compiler flags. -/
structure Env where
  SCG : Nat → SC
  DTYPEG : Nat → Nat
  POINTERG : Nat → Bool
  UPLEVELG : Nat → Bool
  PARAMG : Nat → Bool
  CCSYMG : Nat → Bool
  ALLOCG : Nat → Bool
  ASUMSZG : Nat → Bool
  ADJARRG : Nat → Bool
  CLASSG : Nat → Bool
  VTABLEG : Nat → Bool
  TBPLNKG : Nat → Bool
  FINALG : Nat → Bool
  ADDRESSG : Nat → Int
  SYMLKG : Nat → Nat
  MIDNUMG : Nat → Nat
  CONVAL1G : Int → Int
  CONVAL2G : Int → Int
  /-- The symbol `NOSYM` that ends a member list. -/
  NOSYM : Nat
  /-- Kind `DTY(dtype)` of a type. -/
  DTY : Nat → TY
  /-- Word `DTY(dtype + n)` of a type descriptor, `n ≥ 1`. -/
  DTYn : Nat → Nat → Int
  /-- Element type `DDTG(dtype)`. -/
  DDTG : Nat → Nat
  size_of : Nat → Int
  extent_of : Nat → Int
  /-- Value `ad_val_of(AD_NUMELM(AD_PTR(sptr)))`. -/
  numelm : Nat → Int
  /-- Value `ad_val_of(AD_NUMELM(AD_DPTR(dtype)))`. -/
  numelm_d : Nat → Int
  /-- Value `ad_val_of(AD_LWBD(AD_PTR(sptr), i))`. -/
  lwbd : Nat → Nat → Int
  /-- Value `ad_val_of(AD_UPBD(AD_PTR(sptr), i))`. -/
  upbd : Nat → Nat → Int
  /-- Value `ad_val_of(AD_MLPYR(AD_PTR(sptr), i))`. -/
  mlpyr : Nat → Nat → Int
  no_data_components : Nat → Bool
  is_empty_typedef : Nat → Bool
  /-- Constant conversion `cngcon(val, from, to)`. -/
  cngcon : Int → Nat → Nat → Int
  /-- Character type of a given length, `get_type(2, ty, len)`. -/
  get_type : TY → Int → Nat
  /-- Constant `getstring(" ", 1)`. -/
  getstring_blank : Int
  /-- Constant `getstring(buf, 1)` for the one-character string `buf[0] = val`. -/
  getstring_char : Int → Int
  get_isz_cval : Int → Int
  /-- Constant `getcon(num, dtype)` after `ISZ_2_INT64(i, num)`. -/
  getcon_isz : Int → Nat → Int
  /-- Predicate `DT_ISINT(dtype)`. -/
  DT_ISINT : Nat → Bool
  /-- Predicate `DT_ISLOG(dtype)`. -/
  DT_ISLOG : Nat → Bool
  DT_CHAR : Nat
  /-- Symbol `stb.dbl0`. -/
  dbl0 : Int
  /-- Flag `XBIT(124, 0x400)`. -/
  xbit_124_0x400 : Bool
  flg_standard : Bool
  flg_opt : Int
  SCFTN_TRUE : Int
  SCFTN_FALSE : Int
  DT_INT : Nat
  DT_INT8 : Nat
  /-- Symbol `stb.k1`, the 64-bit constant one. -/
  k1 : Int
  /-- Result and diagnostics of `init_fold_const` for the type kinds whose
  arithmetic is done by the numeric primitive library or on the string table. -/
  fold_other : OP → Int → Int → Nat → Int × List Diag
  /-- Result and diagnostics of `init_negate_const` for the non-integer kinds. -/
  negate_other : Int → Nat → Int × List Diag
  /-- The cases of `eval_init_op` that are not embedded here: `AC_ARRAYREF`
  (with `eval_const_array_triple_section`), `AC_CAT`, `AC_INTR_CALL` and the
  operators with an array operand; the arguments are those of `eval_init_op`. -/
  eval_init_op_ext : ACOP → List CONST → Nat → List CONST → Nat → Nat → Nat →
    List CONST × List Diag
  /-- Size `init_list_count` of the table of saved initialisers. -/
  init_list_count : Nat
  /-- Value of a local variable that the C code reads before any assignment
  (`elsize` of a scalar `S_IDENT` reference in `dinit_varref`). -/
  indeterminate : Int
  /-- Character `stb.n_base[i]` of the name table, as a C `char` value. -/
  n_base : Int → Int
  /-- Rank `AD_NUMDIM(AD_DPTR(dtype))` of an array type. -/
  numdim_d : Nat → Nat
  /-- Value `ad_val_of(AD_UPBD(AD_DPTR(dtype), i))`. -/
  upbd_d : Nat → Nat → Int
  /-- Predicate `DT_ISWORD(dtype)`. -/
  DT_ISWORD : Nat → Bool
  /-- Value `ad_val_of(sym)` of a constant symbol. -/
  ad_val_of : Int → Int
  /-- Value `ad_val_of(AD_LWBD(AD_DPTR(dtype), i))`. -/
  lwbd_d : Nat → Nat → Int
  /-- Value `ad_val_of(AD_MLPYR(AD_DPTR(dtype), i))`. -/
  mlpyr_d : Nat → Nat → Int
  /-- Value `strcmp(stb.n_base + CONVAL1G(a), stb.n_base + CONVAL1G(b))` for
  the character constants `a` and `b`. -/
  strcmp : Int → Int → Int
  /-- Comparison `xfcmp(a, b)` of two single-precision constants. -/
  xfcmp : Int → Int → Int
  /-- The four bytes of an `int` in memory, in the order of their addresses
  (`INT` and `int` are 32 bits wide). -/
  int_bytes : Int → List Int
  /-- The `int` read from four bytes of memory, given in the order of their
  addresses. -/
  bytes_int : List Int → Int
  /-- Constant `getcon(num, dtype)` for the words `num[0]` and `num[1]`. -/
  getcon : Int → Int → Nat → Int
  /-- String constant `getstring(s, len)` of the characters `s[0 .. len-1]`. -/
  getstring : List Int → Int
  DT_DBLE : Nat
  /-- Content of the bytes of the local buffer `value` of `eval_transfer` that
  the code reads before it has written them. -/
  uninit : Nat → Int
  /-- Result of `sem_eq_str(con, name)` (semutil0.c): does the character
  constant `con` spell the character-set name `name`? -/
  sem_eq_str : Int → String → Bool

/-- Everything `dinit.c` writes: the dinit file, the diagnostics, `sem.dinit_error`,
its file-scope statics, and the symbol attributes it sets. -/
structure St where
  /-- Records written by `dinit_put`, oldest first. -/
  out : List Directive
  /-- Diagnostics reported, oldest first. -/
  errs : List Diag
  /-- Counter `sem.dinit_error`. -/
  dinit_error : Int
  substr_len : Int
  /-- Array `dostack`. -/
  dostack : Nat → DOSTACK
  /-- Index of `top` in `dostack` (`bottom` is index 0). -/
  top : Nat
  /-- Static `buf` of `mkeffadr`. -/
  buf : EFFADR
  /-- Table `init_const` of saved initialiser lists. -/
  init_const : Nat → List CONST
  cur_init : Nat
  DINITG : Nat → Bool
  STYPEG : Nat → STYPE
  PARAMVALG : Nat → Nat
  DOVARG : Nat → Bool
  REDUCG : Nat → Bool
  /-- Table `aux.dvl_base` (`DVL_SPTR`, `DVL_CONVAL`). -/
  dvl : List (Nat × Int)
  /-- Fields `gbl.lineno` and `gbl.findex`. -/
  lineno : Int
  findex : Int
  /-- The deferred-dinit file `df`: `none` when there is no file, else its
  records, oldest first. -/
  df : Option (List Deferred)

/-- Function update at one symbol or index. -/
def upd {β : Type} (f : Nat → β) (k : Nat) (v : β) : Nat → β :=
  fun x => if x = k then v else f x

/-- Call `dinit_put(...)`: append one record to the dinit file. -/
def dinit_put (d : Directive) (st : St) : St :=
  { st with out := st.out ++ [d] }

/-- Report a diagnostic. -/
def report (d : Diag) (st : St) : St :=
  { st with errs := st.errs ++ [d] }

/-- Assignment `sem.dinit_error = TRUE`. -/
def set_dinit_error (st : St) : St :=
  { st with dinit_error := 1 }

/-- C truth value of an integer. -/
def truthy (x : Int) : Bool := x != 0

/-- Sequencing of modelled routines. -/
def Res.bind {α β : Type} (r : Res α) (f : α → Res β) : Res β :=
  match r with
  | Res.ok a => f a
  | Res.fuel => Res.fuel
  | Res.undef => Res.undef

/-- Macro `DTYG(dtype)`: kind of the element type. -/
def DTYG (env : Env) (dtype : Nat) : TY := env.DTY (env.DDTG dtype)

/-! ## `eval`, `chk_doindex`: integer ILMs and the implied-do stack -/

/-- The search `for (p = bottom; p < top; p++) if (p->sptr == opr1) return p->currval`
of `eval`, started at entry `p` with `n` entries left below `top`. -/
def dostack_find (stack : Nat → DOSTACK) (sptr : Nat) : Nat → Nat → Option Int
  | 0, _ => none
  | n + 1, p =>
    if (stack p).sptr = sptr then some (stack p).currval
    else dostack_find stack sptr n (p + 1)

/-- Routine `eval`: value of an integer ILM.  The quotient of `IM_IDIV`/`IM_KDIV`
is the C quotient (truncated); a zero divisor, undefined in C, gives 0 here. -/
def eval (env : Env) : IExpr → St → Int × St
  | IExpr.LD s, st =>
    match dostack_find st.dostack s st.top 0 with
    | some v => (v, st)
    | none => (1, set_dinit_error (report (Diag.error 64 3) st))
  | IExpr.KCON c, st => (env.get_isz_cval c, st)
  | IExpr.ICON c, st => (env.CONVAL2G c, st)
  | IExpr.NEG x, st =>
    let r := eval env x st
    (- r.1, r.2)
  | IExpr.ADD x y, st =>
    let r1 := eval env x st
    let r2 := eval env y r1.2
    (r1.1 + r2.1, r2.2)
  | IExpr.SUB x y, st =>
    let r1 := eval env x st
    let r2 := eval env y r1.2
    (r1.1 - r2.1, r2.2)
  | IExpr.MUL x y, st =>
    let r1 := eval env x st
    let r2 := eval env y r1.2
    (r1.1 * r2.1, r2.2)
  | IExpr.DIV x y, st =>
    let r1 := eval env x st
    let r2 := eval env y r1.2
    (Int.tdiv r1.1 r2.1, r2.2)
  | IExpr.ITOI8 x, st => eval env x st
  | IExpr.NARROW x, st => eval env x st
  | IExpr.OTHER, st => (1, set_dinit_error (report (Diag.errsev 69) st))

/-- Routine `chk_doindex`: the symbol of an implied-do index variable, or 1
after reporting error 106. -/
def chk_doindex : IExpr → St → Nat × St
  | IExpr.NARROW x, st => chk_doindex x st
  | IExpr.LD s, st => (s, st)
  | _, st => (1, set_dinit_error (report (Diag.errsev 106) st))

/-! ## `dinit_ok`, `mkeffadr` -/

/-- The common exit `error_exit` of `dinit_ok`, after the diagnostic `d`. -/
def dinit_ok_fail (d : Diag) (st : St) : Bool × St :=
  (false, set_dinit_error (report d st))

/-- The second half of `dinit_ok`: the checks made for an `ST_ARRAY` symbol. -/
def dinit_ok_array (env : Env) (sptr : Nat) (st : St) : Bool × St :=
  if st.STYPEG sptr = STYPE.ARRAY then
    if env.ALLOCG sptr then dinit_ok_fail (Diag.error 84 3) st
    else if env.ASUMSZG sptr then dinit_ok_fail (Diag.error 84 3) st
    else if env.ADJARRG sptr then dinit_ok_fail (Diag.error 84 3) st
    else (true, st)
  else (true, st)

/-- Routine `dinit_ok`: can the symbol legally be data initialised? -/
def dinit_ok (env : Env) (sptr : Nat) (st : St) : Bool × St :=
  match env.SCG sptr with
  | SC.DUMMY => dinit_ok_fail (Diag.error 41 3) st
  | SC.BASED => dinit_ok_fail (Diag.error 116 3) st
  | SC.CMBLK =>
    if env.ALLOCG (env.MIDNUMG sptr) then dinit_ok_fail (Diag.error 163 3) st
    else dinit_ok_array env sptr st
  | _ => dinit_ok_array env sptr st

/-- The subscript loop of the `IM_ELEMENT` case of `mkeffadr`: `i` is the
dimension, `tot` the element offset accumulated so far; `mem` is `effadr->mem`. -/
def mkeffadr_subs (env : Env) (mem : Nat) : List IExpr → Nat → Int → St → Int × St
  | [], _, tot, st => (tot, st)
  | e :: es, i, tot, st =>
    let lwbd := env.lwbd mem i
    let r := eval env e st
    if r.1 < lwbd ∨ r.1 > env.upbd mem i then
      (tot, set_dinit_error (report (Diag.error 80 3) r.2))
    else mkeffadr_subs env mem es (i + 1) (tot + (r.1 - lwbd) * env.mlpyr mem i) r.2

/-- Addition `effadr->offset += d` on the static buffer. -/
def buf_add (d : Int) (st : St) : St :=
  { st with buf := { st.buf with offset := st.buf.offset + d } }

/-- The `IM_SUBS`/`IM_NSUBS` case of `mkeffadr` after the base has been
resolved; `w` is the width of a character (1, or 2 for `IM_NSUBS`). -/
def mkeffadr_substr (env : Env) (w : Int) (lw up : IExpr) (st : St) : St :=
  let r1 := eval env lw st
  let st1 := buf_add (w * (r1.1 - 1)) r1.2
  let r2 := eval env up st1
  { r2.2 with substr_len := r2.1 - r1.1 + 1 }

/-- Routine `mkeffadr`: the effective address of a reference, left in the
static buffer `buf` (the returned pointer always is `&buf`). -/
def mkeffadr (env : Env) : IRef → St → St
  | IRef.SUBS base lw up, st =>
    let st1 := mkeffadr env base st
    if truthy st1.dinit_error then st1 else mkeffadr_substr env 1 lw up st1
  | IRef.NSUBS base lw up, st =>
    let st1 := mkeffadr env base st
    if truthy st1.dinit_error then st1 else mkeffadr_substr env 2 lw up st1
  | IRef.ELEMENT base subs, st =>
    let st1 := mkeffadr env base st
    if truthy st1.dinit_error then st1
    else
      let r := mkeffadr_subs env st1.buf.mem subs 0 0 st1
      buf_add (r.1 * env.size_of (env.DDTG (env.DTYPEG r.2.buf.mem))) r.2
  | IRef.BASE opr1, st =>
    let r := dinit_ok env opr1 st
    if r.1 then { r.2 with buf := { sptr := opr1, mem := opr1, offset := 0 } }
    else r.2
  | IRef.MEMBER base opr2, st =>
    let st1 := mkeffadr env base st
    if truthy st1.dinit_error then st1
    else { st1 with buf := { st1.buf with mem := opr2, offset := st1.buf.offset + env.ADDRESSG opr2 } }
  | IRef.FUNC opr2, st =>
    let st1 := { st with buf := { st.buf with sptr := opr2, mem := opr2 } }
    set_dinit_error (report (Diag.error 76 3) st1)
  | IRef.PLD _, st =>
    set_dinit_error { st with buf := { st.buf with sptr := 0, mem := 0 } }
  | IRef.OTHER, st =>
    set_dinit_error { st with buf := { st.buf with sptr := 0, mem := 0 } }

/-! ## `is_zero`, `get_ival`, `sym_is_dinitd`, `dinit_val`, `save_init` -/

/-- Routine `is_zero`: does the constant of the given type represent zero? -/
def is_zero (env : Env) (dtype : Nat) (conval : Int) : Bool :=
  match env.DTY dtype with
  | TY.INT8 | TY.LOG8 =>
    env.CONVAL2G conval == 0 && (!env.xbit_124_0x400 || env.CONVAL1G conval == 0)
  | TY.INT | TY.LOG | TY.SINT | TY.SLOG | TY.BINT | TY.BLOG | TY.REAL => conval == 0
  | TY.DBLE => conval == env.dbl0
  | TY.CMPLX => env.CONVAL1G conval == 0 && env.CONVAL2G conval == 0
  | TY.DCMPLX => env.CONVAL1G conval == env.dbl0 && env.CONVAL2G conval == env.dbl0
  | _ => false

/-- Routine `get_ival`: the integer value of a constant of the given type. -/
def get_ival (env : Env) (dtype : Nat) (conval : Int) : Int :=
  match env.DTY dtype with
  | TY.INT8 | TY.LOG8 => env.get_isz_cval conval
  | _ => conval

/-- Routine `sym_is_dinitd`: a symbol is being initialised. -/
def sym_is_dinitd (env : Env) (sptr : Nat) (st : St) : St :=
  let st1 := { st with DINITG := upd st.DINITG sptr true }
  let st2 :=
    if env.SCG sptr = SC.CMBLK then
      { st1 with DINITG := upd st1.DINITG (env.MIDNUMG sptr) true }
    else st1
  if st2.STYPEG sptr = STYPE.IDENT ∨ st2.STYPEG sptr = STYPE.UNKNOWN then
    { st2 with STYPEG := upd st2.STYPEG sptr STYPE.VAR }
  else st2

/-- The conversion of the value in `dinit_val`, for a symbol element type
`dtype` and a value of type `dtypev`: the converted value and the state after
the diagnostics. -/
def dinit_val_convert (env : Env) (dtype dtypev : Nat) (val : Int) (st : St) : Int × St :=
  if DTYG env dtypev = TY.HOLL then
    (env.cngcon val (env.DTYPEG val.toNat) dtype, st)
  else if DTYG env dtypev = TY.CHAR ∨ DTYG env dtypev = TY.NCHAR ∨
      DTYG env dtypev ≠ env.DTY dtype then
    if env.DTY dtype = TY.CHAR ∧ env.DTYn dtype 1 = 1 then
      if env.DT_ISINT dtypev ∧ ¬ env.DT_ISLOG dtypev then
        let st1 := if env.flg_standard then report (Diag.error 172 2) st else st
        if val < 0 ∨ val > 255 then
          (env.cngcon env.getstring_blank env.DT_CHAR dtype, report (Diag.error 68 3) st1)
        else
          (env.cngcon (env.getstring_char val) env.DT_CHAR dtype, st1)
      else (env.cngcon val dtypev dtype, st)
    else (env.cngcon val dtypev dtype, st)
  else (val, st)

/-- Type of the value record of `dinit_val`: the element type of the symbol,
or the character type of length `substr_len` when a substring is initialised. -/
def dinit_val_dtype (env : Env) (sptr : Nat) (st : St) : Nat :=
  if truthy st.substr_len then env.get_type (env.DTY (env.DDTG (env.DTYPEG sptr))) st.substr_len
  else env.DDTG (env.DTYPEG sptr)

/-- Routine `dinit_val`: convert the constant to the type of the symbol and
write the value record. -/
def dinit_val (env : Env) (sptr dtypev : Nat) (val : Int) (st : St) : St :=
  if env.no_data_components (env.DDTG (env.DTYPEG sptr)) then st
  else
    let dtype := dinit_val_dtype env sptr st
    let st1 := if truthy st.substr_len then { st with substr_len := 0 } else st
    let r := dinit_val_convert env dtype dtypev val st1
    let st2 := dinit_put (Directive.StoreValue dtype r.1) r.2
    if env.flg_opt ≥ 2 ∧ st2.STYPEG sptr = STYPE.VAR ∧ env.SCG sptr = SC.LOCAL then
      { st2 with dvl := st2.dvl ++ [(sptr, r.1)], REDUCG := upd st2.REDUCG sptr true }
    else st2

/-- Routine `save_init`: record the initialiser list of a symbol, unless the
symbol already has one or the table is full. -/
def save_init (env : Env) (ict : List CONST) (sptr : Nat) (st : St) : St :=
  if st.PARAMVALG sptr ≠ 0 then st
  else if st.cur_init ≥ env.init_list_count then report (Diag.interr 3) st
  else
    { st with
      init_const := upd st.init_const st.cur_init ict,
      PARAMVALG := upd st.PARAMVALG sptr (st.cur_init + 1),
      cur_init := st.cur_init + 1 }

/-- Routine `clone_init_const_list`: a structural copy of a list; the C code
dereferences its argument, so a null list is undefined. -/
def clone_init_const_list (original : List CONST) : Res (List CONST) :=
  match original with
  | [] => Res.undef
  | c :: cs => Res.ok (c :: cs)

/-! ## `dinit_varref`, `dinit_data`: the walk of a DATA statement -/

/-- What the first part of `dinit_varref` computes about the reference. -/
structure VarrefTarget where
  /-- The containing object being initialised. -/
  sptr : Nat
  /-- The member or variable being initialised. -/
  init_sym : Nat
  offset : Int
  elsize : Int
  num_elem : Int
deriving DecidableEq, Repr

/-- Number of elements and element size of a whole array, as the `S_IDENT` and
the member branch of `dinit_varref` compute them; `elsize0` is the value of
`elsize` before. -/
def whole_array_layout (env : Env) (sptr : Nat) (elsize0 : Int) : Int × Int :=
  if ¬ env.POINTERG sptr ∧ env.DTY (env.DTYPEG sptr) = TY.ARRAY then
    let num_elem := if truthy (env.extent_of (env.DTYPEG sptr)) then env.numelm sptr else 0
    if num_elem = 0 then (num_elem, env.size_of (env.DTYPEG sptr))
    else (num_elem, Int.tdiv (env.size_of (env.DTYPEG sptr)) num_elem)
  else (1, elsize0)

/-- The symbol of an `S_IDENT` reference: the operand of the `IM_BASE` ILM,
found directly or below an `IM_PLD`. -/
def ident_sptr : IRef → Option Nat
  | IRef.BASE s => some s
  | IRef.PLD (IRef.BASE s) => some s
  | _ => none

/-- Is the ILM an `IM_ELEMENT`? -/
def IRef.isElement : IRef → Bool
  | IRef.ELEMENT _ _ => true
  | _ => false

/-- The first part of `dinit_varref`, up to the comment "now process enough
dinit constant list items": the target of the reference, or `none` for the
jump to `error_exit`.  An `S_IDENT` reference whose ILM is not an `IM_BASE`
(the assertion of the code) and a null `ivl` without a member are undefined. -/
def varref_target (env : Env) (ivl : Option Varref) (member : Nat) (base_off : Int)
    (st : St) : Res (Option VarrefTarget × St) :=
  match ivl, member with
  | some v, m =>
    if v.id = SID.S_IDENT then
      match ident_sptr v.ptr with
      | none => Res.undef
      | some sptr =>
        let r := dinit_ok env sptr st
        if r.1 then
          let l := whole_array_layout env sptr env.indeterminate
          Res.ok (some { sptr := sptr, init_sym := sptr, offset := 0, elsize := l.2, num_elem := l.1 }, r.2)
        else Res.ok (none, r.2)
    else if m ≠ 0 then
      let l := whole_array_layout env m (env.size_of (env.DTYPEG m))
      Res.ok (some { sptr := m, init_sym := m, offset := env.ADDRESSG m + base_off,
                     elsize := l.2, num_elem := l.1 }, st)
    else
      let st1 := mkeffadr env v.ptr st
      if truthy st1.dinit_error then Res.ok (none, st1)
      else
        let st2 := if v.shape ≠ 0 then report Diag.uf st1 else st1
        let sptr := st2.buf.sptr
        let init_sym := st2.buf.mem
        if sptr ≠ init_sym ∧ env.DTY (env.DTYPEG init_sym) = TY.ARRAY ∧ ¬ v.ptr.isElement then
          let num_elem := env.numelm init_sym
          let elsize := if num_elem = 0 then env.size_of (env.DTYPEG sptr)
                        else Int.tdiv (env.size_of (env.DTYPEG init_sym)) num_elem
          Res.ok (some { sptr := sptr, init_sym := init_sym, offset := st2.buf.offset,
                         elsize := elsize, num_elem := num_elem }, st2)
        else
          Res.ok (some { sptr := sptr, init_sym := init_sym, offset := st2.buf.offset,
                         elsize := 1, num_elem := 1 }, st2)
  | none, m =>
    if m ≠ 0 then
      let l := whole_array_layout env m (env.size_of (env.DTYPEG m))
      Res.ok (some { sptr := m, init_sym := m, offset := env.ADDRESSG m + base_off,
                     elsize := l.2, num_elem := l.1 }, st)
    else Res.undef

/-- Flag `put_value` of `dinit_varref`: false for a symbol of an outer scope
and for a common-block member whose DINIT flag is not set. -/
def put_value (env : Env) (sptr : Nat) (st : St) : Bool :=
  !(env.UPLEVELG sptr || (env.SCG sptr == SC.CMBLK && !st.DINITG sptr))

/-- The locals of `dinit_varref` that change in its `do ... while` loop. -/
structure VarrefLoop where
  ict : List CONST
  repeat_ : Int
  offset : Int
  num_elem : Int
  new_block : Bool
  st : St

/-- Repeat count used for a run: `i = (num_elem < *repeat) ? num_elem : *repeat`,
reset to 1 below `THRESHOLD` and for a member walked without a reference. -/
def run_count (ivl : Option Varref) (member : Nat) (num_elem rep : Int) : Int :=
  let i := if num_elem < rep then num_elem else rep
  let i := if i < THRESHOLD then 1 else i
  if ivl.isNone ∧ member ≠ 0 then 1 else i

/-- The records `DINIT_LOC`, `DINIT_OFFSET`, `DINIT_ZEROES`/`DINIT_REPEAT`
written at the head of a run by the last branch of the loop of `dinit_varref`
(`put_value` holds); returns `zero`, the new `new_block`, and the state. -/
def run_head (env : Env) (t : VarrefTarget) (member : Nat) (c : CONST) (i offset : Int)
    (new_block : Bool) (st : St) : Bool × Bool × St :=
  if new_block ∨ i ≠ 1 then
    let st1 := if member = 0 then dinit_put (Directive.SetLocation t.sptr) st else st
    let st2 := if truthy offset then dinit_put (Directive.SetOffset offset) st1 else st1
    if i ≠ 1 then
      if i > 1 ∧ is_zero env c.dtype c.conval then
        (true, true, dinit_put (Directive.ZeroFill (i * t.elsize)) st2)
      else (false, true, dinit_put (Directive.Repeat i) st2)
    else (false, false, st2)
  else (false, new_block, st)

/-- Value `ict ? ict->repeatc : 0` for the node that follows. -/
def next_repeat (next : List CONST) : Int :=
  match next with
  | [] => 0
  | n :: _ => n.repeatc

/-- The end of one iteration of the loop of `dinit_varref`: advance by `i`
elements and test `num_elem > 0`. -/
def varref_advance (t : VarrefTarget) (c : CONST) (next : List CONST) (i rep : Int)
    (s : VarrefLoop) (new_block : Bool) (st : St) : VarrefLoop ⊕ VarrefLoop :=
  let rep1 := rep - i
  let ict1 := if rep1 = 0 then next else c :: next
  let rep2 := if rep1 = 0 then next_repeat next else rep1
  let s1 : VarrefLoop :=
    { ict := ict1, repeat_ := rep2, offset := s.offset + i * t.elsize,
      num_elem := s.num_elem - i, new_block := new_block, st := st }
  if s1.num_elem > 0 then Sum.inl s1 else Sum.inr s1

/-- The part of `dinit_varref` after its loop: mark the symbol, save the
initialiser list of a parameter or compiler-created symbol, return `ict`. -/
def varref_finish (env : Env) (t : VarrefTarget) (member : Nat) (saved_ict : List CONST)
    (pv : Bool) (s : VarrefLoop) : Res (List CONST × Int × St) :=
  let st1 := if pv then sym_is_dinitd env t.sptr s.st else s.st
  if (member = 0 ∧ env.PARAMG t.sptr) ∨ (env.CCSYMG t.sptr ∧ st1.DINITG t.sptr) then
    (clone_init_const_list saved_ict).bind fun cl =>
      Res.ok (s.ict, s.repeat_, save_init env cl t.sptr st1)
  else Res.ok (s.ict, s.repeat_, st1)

/-- Label `error_exit` of `dinit_varref`: count the error and return null. -/
def varref_error_exit (rep : Int) (st : St) : List CONST × Int × St :=
  ([], rep, { st with dinit_error := st.dinit_error + 1 })

/-- The skip of a zero-trip loop in `dinit_data`:
`for (wivl = ivl; wivl->id != Doend && wivl->u.doend.dostart != ivl; wivl = wivl->next)`.
Read on a node that is not a `Doend`, the union member `u.doend.dostart` is
taken to differ from `ivl`, so the walk stops at the first `Doend` at or after
position `pc`; running off the list is a null dereference (`none`). -/
def skip_to_doend (vars : List VAR) : Nat → Nat → Option Nat
  | 0, _ => none
  | n + 1, pc =>
    match vars.get? pc with
    | none => none
    | some (VAR.Doend _) => some pc
    | some _ => skip_to_doend vars n (pc + 1)

/-- The locals of `dinit_data` that change in its `do ... while` loop. -/
structure DataLoop where
  /-- Position of `ivl` in the variable list, `none` for null. -/
  ivl : Option Nat
  member : Nat
  ict : List CONST
  repeat_ : Int
  st : St

/-- Step `member = SYMLKG(member); if (member == NOSYM) member = 0`. -/
def next_member (env : Env) (member : Nat) : Nat :=
  if env.SYMLKG member = env.NOSYM then 0 else env.SYMLKG member

/-- The adjustment of `member` at the head of an iteration of `dinit_data`. -/
def member_head (env : Env) (member : Nat) : Nat :=
  if member ≠ 0 then
    let m1 := if env.POINTERG member then env.SYMLKG member else member
    if env.is_empty_typedef (env.DTYPEG m1) then next_member env m1 else m1
  else member

/-- The end of an iteration of `dinit_data`, from the test of
`sem.dinit_error` to the loop condition `ivl || member`. -/
def data_advance (env : Env) (vars : List VAR) (s : DataLoop) : DataLoop ⊕ St :=
  if truthy s.st.dinit_error then Sum.inr s.st
  else
    let ivl1 : Option Nat :=
      match s.ivl with
      | none => none
      | some pc => if pc + 1 < vars.length then some (pc + 1) else none
    let member1 :=
      if s.member ≠ 0 then
        let m1 := env.SYMLKG s.member
        let m2 := if env.POINTERG m1 then env.SYMLKG m1 else m1
        if m2 = env.NOSYM then 0 else m2
      else s.member
    if ivl1.isSome ∨ member1 ≠ 0 then Sum.inl { s with ivl := ivl1, member := member1 }
    else Sum.inr s.st

/-- The `Dostart` case of the loop of `dinit_data`: `none` is the `return`
out of the routine. -/
def data_dostart (env : Env) (vars : List VAR) (pc : Nat) (indvar lowbd upbd step : IExpr)
    (s : DataLoop) : Res (DataLoop ⊕ St) :=
  if s.st.top = MAXDEPTH then Res.ok (Sum.inr (report (Diag.errsev 34) s.st))
  else
    let r0 := chk_doindex indvar s.st
    let st0 := { r0.2 with dostack := upd r0.2.dostack r0.2.top { r0.2.dostack r0.2.top with sptr := r0.1 } }
    if r0.1 = 1 then Res.ok (Sum.inr st0)
    else
      let r1 := eval env lowbd st0
      let st1 := { r1.2 with dostack := upd r1.2.dostack r1.2.top { r1.2.dostack r1.2.top with currval := r1.1 } }
      let r2 := eval env upbd st1
      let st2 := { r2.2 with dostack := upd r2.2.dostack r2.2.top { r2.2.dostack r2.2.top with upbd := r2.1 } }
      let r3 := eval env step st2
      let st3 := { r3.2 with dostack := upd r3.2.dostack r3.2.top { r3.2.dostack r3.2.top with step := r3.1 } }
      if (r3.1 > 0 ∧ r1.1 > r2.1) ∨ (r3.1 ≤ 0 ∧ r1.1 < r2.1) then
        match skip_to_doend vars (vars.length - pc) pc with
        | none => Res.undef
        | some pc1 => Res.ok (data_advance env vars { s with ivl := some pc1, st := st3 })
      else
        Res.ok (data_advance env vars { s with st := { st3 with top := st3.top + 1 } })

/-- The `Doend` case of the loop of `dinit_data`. -/
def data_doend (env : Env) (vars : List VAR) (pc : Nat) (dostart : Nat)
    (s : DataLoop) : Res (DataLoop ⊕ St) :=
  match s.st.top with
  | 0 => Res.undef
  | t + 1 =>
    let e := s.st.dostack t
    let e1 := { e with currval := e.currval + e.step }
    let st1 := { s.st with top := t, dostack := upd s.st.dostack t e1 }
    if (e1.step > 0 ∧ e1.currval ≤ e1.upbd) ∨ (e1.step ≤ 0 ∧ e1.currval ≥ e1.upbd) then
      Res.ok (data_advance env vars { s with ivl := some dostart, st := { st1 with top := t + 1 } })
    else Res.ok (data_advance env vars { s with ivl := some pc, st := st1 })

/-- Initial value of `member` in `dinit_data`: the first member of the
structure type when there is no variable list. -/
def first_member (env : Env) (ivl : Option Nat) (dtype : Nat) : Nat :=
  if ivl.isNone ∧ dtype ≠ 0 then
    let m := (env.DTYn (env.DDTG dtype) 1).toNat
    if env.POINTERG m then env.SYMLKG m else m
  else 0

/-- Test `ivl && DTY(DDTG(ivl->u.varref.dtype)) == TY_STRUCT`. -/
def ivl_struct (env : Env) (ivl : Option Varref) : Bool :=
  match ivl with
  | some v => DTYG env v.dtype == TY.STRUCT
  | none => false

/-- One iteration of the `do ... while` loop of `dinit_varref`, up to the
loop test.  `recV ict st` is the recursive call
`dinit_varref(ivl, member, ict, dtype, struct_bytes_initd, repeat, base_off)`
with `*repeat = 0`, `recD ict dtype off st` the call
`dinit_data(NULL, ict, dtype, off)`.  The loop is left with `(true, s)` by the
`break` and after the last element, with `(false, s)` when the constant list
is exhausted (the jump to `error_exit` after error 66). -/
def varref_body (env : Env)
    (recV : List CONST → St → Res (List CONST × Int × St))
    (recD : List CONST → Nat → Int → St → Res St)
    (t : VarrefTarget) (ivl : Option Varref) (member : Nat) (pv : Bool) (base_off : Int)
    (s : VarrefLoop) : Res (VarrefLoop ⊕ (Bool × VarrefLoop)) :=
  if env.no_data_components (env.DDTG (env.DTYPEG t.sptr)) then Res.ok (Sum.inr (true, s))
  else
    match s.ict with
    | [] => Res.ok (Sum.inr (false, s))
    | c :: next =>
      if c.id = ACID.ACONST then
        (recV c.subc s.st).bind fun r =>
          let i := env.numelm_d c.dtype
          Res.ok (Sum.map id (Prod.mk true) (varref_advance t c next i i s s.new_block r.2.2))
      else if ivl_struct env ivl then
        let k : St → Res (VarrefLoop ⊕ (Bool × VarrefLoop)) := fun st1 =>
          Res.ok (Sum.map id (Prod.mk true) (varref_advance t c next 1 s.repeat_ s true st1))
        if pv then
          let st1 := if base_off = 0 then dinit_put (Directive.SetLocation t.sptr) s.st else s.st
          if env.DTY (env.DTYPEG t.sptr) = TY.ARRAY ∧ truthy s.offset then
            (recD c.subc c.dtype 0 (dinit_put (Directive.SetOffset s.offset) st1)).bind k
          else (recD c.subc c.dtype s.offset st1).bind k
        else k s.st
      else if member ≠ 0 ∧ env.DTY c.dtype = TY.STRUCT then
        let k : St → Res (VarrefLoop ⊕ (Bool × VarrefLoop)) := fun st1 =>
          Res.ok (Sum.map id (Prod.mk true) (varref_advance t c next 1 s.repeat_ s true st1))
        if pv then (recD c.subc c.dtype s.offset s.st).bind k
        else k s.st
      else
        let i := run_count ivl member s.num_elem s.repeat_
        if pv then
          let h := run_head env t member c i s.offset s.new_block s.st
          if h.1 then
            Res.ok (Sum.map id (Prod.mk true) (varref_advance t c next i s.repeat_ s h.2.1 h.2.2))
          else if env.DTY c.dtype = TY.STRUCT then
            (recD c.subc c.dtype base_off h.2.2).bind fun st1 =>
              Res.ok (Sum.map id (Prod.mk true) (varref_advance t c next i s.repeat_ s h.2.1 st1))
          else
            Res.ok (Sum.map id (Prod.mk true) (varref_advance t c next i s.repeat_ s h.2.1
              (dinit_val env t.init_sym c.dtype c.conval h.2.2)))
        else
          Res.ok (Sum.map id (Prod.mk true) (varref_advance t c next i s.repeat_ s s.new_block s.st))

/-- Value of `*repeat` after `if (ict && *repeat == 0) *repeat = ict->repeatc`. -/
def repeat_start (ict : List CONST) (rep : Int) : Int :=
  match ict with
  | [] => rep
  | c :: _ => if rep = 0 then c.repeatc else rep

/-- One iteration of the `do ... while` loop of `dinit_data`.  `recV v member
ict repeat st` is the call of `dinit_varref` for the node `v`. -/
def data_body (env : Env)
    (recV : Option Varref → Nat → List CONST → Int → St → Res (List CONST × Int × St))
    (vars : List VAR) (s0 : DataLoop) : Res (DataLoop ⊕ St) :=
  let s := { s0 with member := member_head env s0.member }
  let call_varref : Option Varref → Res (DataLoop ⊕ St) := fun v =>
    if s.member ≠ 0 ∧ (env.CLASSG s.member ∧ env.VTABLEG s.member ∧
        (env.TBPLNKG s.member ∨ env.FINALG s.member)) then
      let m := next_member env s.member
      if s.ivl.isSome ∨ m ≠ 0 then Res.ok (Sum.inl { s with member := m })
      else Res.ok (Sum.inr s.st)
    else
      (recV v s.member s.ict s.repeat_ s.st).bind fun r =>
        Res.ok (data_advance env vars { s with ict := r.1, repeat_ := r.2.1, st := r.2.2 })
  match s.ivl with
  | none => if s.member ≠ 0 then call_varref none else Res.undef
  | some pc =>
    match vars.get? pc with
    | none => Res.undef
    | some (VAR.Varref v) => call_varref (some v)
    | some (VAR.Dostart indvar lowbd upbd step) =>
      if s.member ≠ 0 then Res.undef
      else data_dostart env vars pc indvar lowbd upbd step s
    | some (VAR.Doend dostart) =>
      if s.member ≠ 0 then Res.undef
      else data_doend env vars pc dostart s

mutual

/-- Routine `dinit_varref`: consume the constants of one reference and write
their records.  Returns the remaining constant list, `*repeat` and the state;
the parameter `struct_bytes_initd`, which is never read, is left out. -/
def dinit_varref (env : Env) : Nat → Option Varref → Nat → List CONST → Nat → Int → Int → St →
    Res (List CONST × Int × St)
  | 0, _, _, _, _, _, _, _ => Res.fuel
  | fuel + 1, ivl, member, ict, dtype, rep, base_off, st =>
    (varref_target env ivl member base_off st).bind fun tg =>
    match tg.1 with
    | none => Res.ok (varref_error_exit rep tg.2)
    | some t =>
      let pv := put_value env t.sptr tg.2
      (loopN (varref_body env
          (fun ic st1 => dinit_varref env fuel ivl member ic dtype 0 base_off st1)
          (fun ic dt off st1 => dinit_data env fuel [] none ic dt off st1)
          t ivl member pv base_off) fuel
        { ict := ict, repeat_ := repeat_start ict rep, offset := t.offset,
          num_elem := t.num_elem, new_block := true, st := tg.2 }).bind fun fin =>
      if fin.1 then varref_finish env t member ict pv fin.2
      else Res.ok (varref_error_exit fin.2.repeat_ (report (Diag.errsev 66) fin.2.st))

/-- Routine `dinit_data`: initialise a data object.  `vars` is the variable
list of the statement and `ivl` the position of the node to start at (`none`
for a null `ivl`). -/
def dinit_data (env : Env) : Nat → List VAR → Option Nat → List CONST → Nat → Int → St → Res St
  | 0, _, _, _, _, _, _ => Res.fuel
  | fuel + 1, vars, ivl, ict, dtype, base_off, st =>
    loopN (data_body env
        (fun v member ic rep st1 => dinit_varref env fuel v member ic dtype rep base_off st1)
        vars) fuel
      { ivl := ivl, member := first_member env ivl dtype, ict := ict, repeat_ := 0, st := st }

end

/-! ## `dinit_subs`: the walk of a type-declaration or structure initialiser -/

/-- The locals of `dinit_subs` that live across iterations of its `while`
loop.  `sptr` and `dtype` have no initial value in the C code (`none`). -/
structure SubsLoop where
  ict : List CONST
  mbr_sptr : Nat
  loffset : Int
  roffset : Int
  elsize : Int
  sptr : Option Nat
  dtype : Option Nat
  new_block : Bool
  st : St

/-- The loop `do { dinit_val(sptr, ict->dtype, ict->u1.conval); ict = ict->next; }
while (--num_elem > 0)` of `dinit_subs`; returns the remaining list, the final
`num_elem` and the state.  Reading past the end of the list is undefined. -/
def subs_vals (env : Env) (sptr : Nat) : List CONST → Int → St → Res (List CONST × Int × St)
  | [], _, _ => Res.undef
  | c :: next, num_elem, st =>
    let st1 := dinit_val env sptr c.dtype c.conval st
    if num_elem - 1 > 0 then subs_vals env sptr next (num_elem - 1) st1
    else Res.ok (next, num_elem - 1, st1)

/-- Element size computed by `dinit_subs` for the symbol being initialised:
`size_of(dtype)`, divided by the number of elements for an array.  A zero
divisor, undefined in C, gives 0 here. -/
def subs_elsize (env : Env) (sptr : Nat) : Int :=
  if env.DTY (env.DTYPEG sptr) = TY.ARRAY then
    Int.tdiv (env.size_of (env.DTYPEG sptr)) (env.numelm sptr)
  else env.size_of (env.DTYPEG sptr)

/-- The end of an iteration of the `while` loop of `dinit_subs`: the update of
`mbr_sptr` and `new_block` when constants remain. -/
def subs_tail (env : Env) (num_elem : Int) (s : SubsLoop) : SubsLoop :=
  match s.ict with
  | [] => s
  | c :: _ =>
    if s.mbr_sptr ≠ 0 then
      let m := if c.sptr ≠ 0 then c.sptr
               else if num_elem ≤ 0 then env.SYMLKG s.mbr_sptr else s.mbr_sptr
      if m = env.NOSYM then { s with mbr_sptr := 0 }
      else { s with mbr_sptr := m, new_block := true }
    else s

/-- The branch of `dinit_subs` for a node without substructure: "Handle basic
type declaration init statement". -/
def subs_leaf (env : Env) (base : Nat) (boffset : Int) (c : CONST) (next : List CONST)
    (s : SubsLoop) : Res SubsLoop :=
  let s1 : SubsLoop :=
    if c.sptr ≠ 0 then
      { s with sptr := some c.sptr, roffset := 0, loffset := env.ADDRESSG c.sptr,
               dtype := some (env.DTYPEG c.sptr), elsize := subs_elsize env c.sptr,
               new_block := true }
    else
      let s0 := if c.repeatc > 1 then { s with new_block := true } else s
      if s.mbr_sptr ≠ 0 then
        { s0 with sptr := some s.mbr_sptr, dtype := some (env.DTYPEG s.mbr_sptr),
                  loffset := env.ADDRESSG s.mbr_sptr, roffset := 0,
                  elsize := subs_elsize env s.mbr_sptr }
      else s0
  let st1 :=
    if s1.new_block then
      dinit_put (Directive.SetOffset (boffset + s1.loffset + s1.roffset))
        (dinit_put (Directive.SetLocation base) s1.st)
    else s1.st
  let nb1 := if s1.new_block then false else s1.new_block
  match s1.sptr with
  | none => Res.undef
  | some sptr =>
    let nb2 := if c.repeatc > 1 then true else nb1
    let st2 := if c.repeatc > 1 then dinit_put (Directive.Repeat c.repeatc) st1 else st1
    let num_elem : Option Int :=
      if c.repeatc > 1 then some 1
      else s1.dtype.map fun dtype => if env.DTY dtype = TY.ARRAY then env.numelm_d dtype else 1
    match num_elem with
    | none => Res.undef
    | some n =>
      (subs_vals env sptr (c :: next) n st2).bind fun r =>
        Res.ok (subs_tail env r.2.1
          { s1 with roffset := s1.roffset + s1.elsize * c.repeatc, new_block := nb2,
                    ict := r.1, st := r.2.2 })

/-- The choice of `sub_sptr`, `loffset` and `num_elem` in the branch of
`dinit_subs` for a node with substructure; `none` is the `interr` + `return`. -/
def subs_sub_sptr (env : Env) (c : CONST) (mbr_sptr : Nat) : Option (Nat × Int × Int × Option Nat) :=
  if c.id = ACID.SCONST then
    if c.sptr ≠ 0 then
      some ((env.DTYn (env.DDTG (env.DTYPEG c.sptr)) 1).toNat,
            (if mbr_sptr ≠ 0 then env.ADDRESSG c.sptr else 0), 1, none)
    else if mbr_sptr ≠ 0 then
      let dtype := env.DDTG (env.DTYPEG mbr_sptr)
      let sub := if env.DTY dtype = TY.STRUCT then (env.DTYn (env.DDTG (env.DTYPEG mbr_sptr)) 1).toNat
                 else mbr_sptr
      let n := if env.DTY (env.DTYPEG mbr_sptr) = TY.ARRAY then env.numelm_d (env.DTYPEG mbr_sptr) else 1
      some (sub, env.ADDRESSG mbr_sptr, n, some dtype)
    else none
  else if c.id = ACID.ACONST then
    if c.sptr ≠ 0 then some (c.sptr, 0, 1, none)
    else if mbr_sptr ≠ 0 then some (mbr_sptr, 0, 1, none)
    else none
  else some (0, 0, 1, none)

/-- One iteration of the `while (ict)` loop of `dinit_subs`; `recS ict boffset
mbr st` is the recursive call `dinit_subs(ict, base, boffset, mbr)`. -/
def subs_body (env : Env) (recS : List CONST → Int → Nat → St → Res St) (fuel : Nat)
    (base : Nat) (boffset : Int) (s : SubsLoop) : Res (SubsLoop ⊕ St) :=
  match s.ict with
  | [] => Res.ok (Sum.inr s.st)
  | c :: next =>
    match c.subc with
    | _ :: _ =>
      match subs_sub_sptr env c s.mbr_sptr with
      | none => Res.ok (Sum.inr (report (Diag.interr 3) s.st))
      | some (sub_sptr, loffset, num_elem, dt) =>
        (loopN (fun (x : Int × Int × St) =>
            if x.1 ≠ 0 then
              (recS c.subc (boffset + loffset + x.2.1) sub_sptr x.2.2).bind fun st1 =>
                Res.ok (Sum.inl (x.1 - 1, x.2.1 + env.DTYn c.dtype 2, st1))
            else Res.ok (Sum.inr x.2.2)) fuel (c.repeatc, 0, s.st)).bind fun st1 =>
          Res.ok (Sum.inl (subs_tail env (num_elem - c.repeatc)
            { s with ict := next, loffset := loffset, roffset := 0, new_block := true,
                     dtype := (match dt with | some d => some d | none => s.dtype),
                     st := st1 }))
    | [] => (subs_leaf env base boffset c next s).bind fun s1 => Res.ok (Sum.inl s1)

/-- Routine `dinit_subs`: follow the constants of a (sub)structure.
`boffset` is the offset of the structure from the beginning of its parent. -/
def dinit_subs (env : Env) : Nat → List CONST → Nat → Int → Nat → St → Res St
  | 0, _, _, _, _, _ => Res.fuel
  | fuel + 1, ict, base, boffset, mbr_sptr, st =>
    loopN (subs_body env (fun ic bo mbr st1 => dinit_subs env fuel ic base bo mbr st1)
        fuel base boffset) fuel
      { ict := ict, mbr_sptr := mbr_sptr, loffset := 0, roffset := 0, elsize := 0,
        sptr := none, dtype := none, new_block := true, st := st }

/-! ## The constant-expression evaluator -/

/-- Two's-complement reduction of an integer to the 32 bits of an `INT`. -/
def wrap32 (x : Int) : Int := (x + 2147483648) % 4294967296 - 2147483648

/-- Routine `get_ast_op`: the `OP_*` operator of an `AC_*` operator; `none`
stands for the `interr` of the default case, after which the C code returns
an unassigned variable. -/
def get_ast_op : ACOP → Option OP
  | ACOP.NEG => some OP.NEG
  | ACOP.ADD => some OP.ADD
  | ACOP.SUB => some OP.SUB
  | ACOP.MUL => some OP.MUL
  | ACOP.DIV => some OP.DIV
  | ACOP.CAT => some OP.CAT
  | ACOP.LEQV => some OP.LEQV
  | ACOP.LNEQV => some OP.LNEQV
  | ACOP.LOR => some OP.LOR
  | ACOP.LAND => some OP.LAND
  | ACOP.EQ => some OP.EQ
  | ACOP.GE => some OP.GE
  | ACOP.GT => some OP.GT
  | ACOP.LE => some OP.LE
  | ACOP.LT => some OP.LT
  | ACOP.NE => some OP.NE
  | ACOP.LNOT => some OP.LNOT
  | ACOP.EXP => some OP.XTOI
  | ACOP.EXPK => some OP.XTOK
  | ACOP.EXPX => some OP.XTOX
  | _ => none

/-- The loop `do { if (*p != *q) return (*p - *q); ++p; ++q; } while (--cvlen1)`
of the `TY_CHAR` case of `init_fold_const`, for a count of at least 1 (the
count is positive where the code reaches the loop); `p` and `q` are indices
into the name table. -/
def char_cmp (env : Env) : Nat → Int → Int → Int
  | 0, _, _ => 0
  | n + 1, p, q =>
    if env.n_base p ≠ env.n_base q then env.n_base p - env.n_base q
    else char_cmp env n (p + 1) (q + 1)

/-- The case `TY_CHAR` of `init_fold_const`: only `OP_CMP` is folded.  The
lengths are `DTY(DTYPEG(conval) + 1)`; with a zero length the difference of the
lengths is returned, else the shorter constant is converted by `cngcon` to the
type of the longer and the strings are compared character by character. -/
def fold_char (env : Env) (opr : OP) (conval1 conval2 : Int) : Int × List Diag :=
  if opr ≠ OP.CMP then (0, [Diag.interr 3])
  else
    let cvlen1 := env.DTYn (env.DTYPEG conval1.toNat) 1
    let cvlen2 := env.DTYn (env.DTYPEG conval2.toNat) 1
    if cvlen1 = 0 ∨ cvlen2 = 0 then (cvlen1 - cvlen2, [])
    else if cvlen1 < cvlen2 then
      (char_cmp env cvlen2.toNat
        (env.CONVAL1G (env.cngcon conval1 (env.DTYPEG conval1.toNat) (env.DTYPEG conval2.toNat)))
        (env.CONVAL1G conval2), [])
    else
      (char_cmp env cvlen1.toNat (env.CONVAL1G conval1)
        (env.CONVAL1G (env.cngcon conval2 (env.DTYPEG conval2.toNat) (env.DTYPEG conval1.toNat))),
        [])

/-- The `switch (DTY(dtype))` of `init_fold_const`: the cases `TY_BINT`,
`TY_SINT`, `TY_INT` are those of the code, with the 32-bit result of `INT`
arithmetic, and the case `TY_CHAR` is `fold_char`; an operator without a case
ends at `err_exit`.  The other kinds are delegated to `Env.fold_other`. -/
def fold_switch (env : Env) (opr : OP) (conval1 conval2 : Int) (dtype : Nat) : Int × List Diag :=
  match env.DTY dtype with
  | TY.BINT | TY.SINT | TY.INT =>
    match opr with
    | OP.ADD => (wrap32 (conval1 + conval2), [])
    | OP.CMP => ((if conval1 < conval2 then -1 else if conval1 > conval2 then 1 else 0), [])
    | OP.SUB => (wrap32 (conval1 - conval2), [])
    | OP.MUL => (wrap32 (conval1 * conval2), [])
    | OP.DIV =>
      if conval2 = 0 then (wrap32 (Int.tdiv conval1 1), [Diag.errsev 98])
      else (wrap32 (Int.tdiv conval1 conval2), [])
    | _ => (0, [Diag.interr 3])
  | TY.CHAR => fold_char env opr conval1 conval2
  | _ => env.fold_other opr conval1 conval2 dtype

/-- The loop `while (cnt--) val = init_fold_const(OP_MUL, val, conval1, dtype)`
of the exponentiation cases of `init_fold_const`. -/
def fold_power (env : Env) (conval1 : Int) (dtype : Nat) : Nat → Int × List Diag → Int × List Diag
  | 0, acc => acc
  | n + 1, acc =>
    let r := fold_switch env OP.MUL acc.1 conval1 dtype
    fold_power env conval1 dtype n (r.1, acc.2 ++ r.2)

/-- Routine `init_fold_const`: fold a binary operation on two constants. -/
def init_fold_const (env : Env) (opr : OP) (conval1 conval2 : Int) (dtype : Nat) : Int × List Diag :=
  match opr with
  | OP.XTOI =>
    let term := if dtype ≠ env.DT_INT then env.cngcon 1 env.DT_INT dtype else 1
    let p := fold_power env conval1 dtype conval2.natAbs (term, [])
    if conval2 ≥ 0 then p
    else
      let d := fold_switch env OP.DIV term p.1 dtype
      (d.1, p.2 ++ d.2)
  | OP.XTOK =>
    let term := if dtype ≠ env.DT_INT8 then env.cngcon env.k1 env.DT_INT8 dtype else env.k1
    let cnt := env.get_isz_cval conval2
    let p := fold_power env conval1 dtype cnt.natAbs (term, [])
    if cnt ≥ 0 then p
    else
      let d := fold_switch env OP.DIV term p.1 dtype
      (d.1, p.2 ++ d.2)
  | _ => fold_switch env opr conval1 conval2 dtype

/-- Routine `init_negate_const`, integer and logical kinds of 32 bits or
less; the other kinds are delegated to `Env.negate_other`. -/
def init_negate_const (env : Env) (conval : Int) (dtype : Nat) : Int × List Diag :=
  match env.DTY dtype with
  | TY.BINT | TY.SINT | TY.INT | TY.BLOG | TY.SLOG | TY.LOG => (wrap32 (- conval), [])
  | _ => env.negate_other conval dtype

/-- Report a list of diagnostics. -/
def reports (ds : List Diag) (st : St) : St :=
  { st with errs := st.errs ++ ds }

/-- Macro `CONST_ERR(dt)`: a clone of the static node `const_err`, all of
whose fields are zero, with its type set to `dt`. -/
def CONST_ERR (dt : Nat) : CONST :=
  CONST.mk ACID.ZERO [] 0 0 0 dt false 0 ACOP.NONE [] [] 0 [] [] []

/-- The operand list walked by the element-wise cases of `eval_init_op`:
`lop->id == AC_ACONST ? lop->subc : lop`. -/
def operand_list (lop : List CONST) : Res (List CONST) :=
  match lop with
  | [] => Res.undef
  | c :: rest => if c.id = ACID.ACONST then Res.ok c.subc else Res.ok (c :: rest)

/-- The case `op == AC_NEG || op == AC_LNOT` of `eval_init_op`: one leaf of
type `dt` per node of the operand list. -/
def eval_init_op_unary (env : Env) (op : ACOP) (dt : Nat) : List CONST → List CONST × List Diag
  | [] => ([], [])
  | c :: rest =>
    let l := if dt ≠ c.dtype then env.cngcon c.conval (env.DDTG c.dtype) dt else c.conval
    let v := if op = ACOP.LNOT then (Int.not l, []) else init_negate_const env l dt
    let r := eval_init_op_unary env op dt rest
    (CONST.leaf dt 1 v.1 :: r.1, v.2 ++ r.2)

/-- The loop of the case `op == AC_CONV` of `eval_init_op`: one leaf per
element of the operand list, `l_repeatc` being the count left for the first
node.  The recursion is on the list and on the count left. -/
def eval_init_op_conv (env : Env) (ldtype dtype : Nat) : Nat → List CONST → Int → Res (List CONST)
  | 0, _, _ => Res.fuel
  | _ + 1, [], _ => Res.ok []
  | fuel + 1, c :: rest, l_repeatc =>
    let leaf := CONST.leaf (env.DDTG dtype) 1 (env.cngcon c.conval (env.DDTG ldtype) (env.DDTG dtype))
    if l_repeatc - 1 ≤ 0 then
      (eval_init_op_conv env ldtype dtype fuel rest
        (match rest with | [] => l_repeatc - 1 | n :: _ => n.repeatc)).bind fun r => Res.ok (leaf :: r)
    else
      (eval_init_op_conv env ldtype dtype fuel (c :: rest) (l_repeatc - 1)).bind fun r =>
        Res.ok (leaf :: r)

/-- The case "scalar <binop> scalar" of `eval_init_op`: the leaf built from
the first nodes `lop` and `rop` of the operands. -/
def eval_init_op_scalar (env : Env) (op : ACOP) (lop : CONST) (ldtype : Nat) (rop : CONST)
    (dt : Nat) : Res (CONST × List Diag) :=
  match get_ast_op op with
  | none => Res.undef
  | some o =>
    let cmp := init_fold_const env OP.CMP lop.conval rop.conval ldtype
    let logical (b : Bool) : Res (CONST × List Diag) :=
      Res.ok (CONST.leaf dt 1 (if b then env.SCFTN_TRUE else env.SCFTN_FALSE), cmp.2)
    match o with
    | OP.EQ => logical (cmp.1 == 0)
    | OP.GE => logical (cmp.1 ≥ 0)
    | OP.GT => logical (cmp.1 > 0)
    | OP.LE => logical (cmp.1 ≤ 0)
    | OP.LT => logical (cmp.1 < 0)
    | OP.NE => logical (cmp.1 != 0)
    | OP.LEQV => Res.ok (CONST.leaf dt 1 (if cmp.1 = 0 then 1 else 0), cmp.2)
    | OP.LNEQV => Res.ok (CONST.leaf dt 1 (if cmp.1 ≠ 0 then 1 else 0), cmp.2)
    | OP.LOR => Res.ok (CONST.leaf dt 1 (Int.lor lop.conval rop.conval), [])
    | OP.LAND => Res.ok (CONST.leaf dt 1 (Int.land lop.conval rop.conval), [])
    | OP.XTOI =>
      let r := init_fold_const env OP.XTOI lop.conval rop.conval dt
      Res.ok (CONST.leaf dt 1 r.1, r.2)
    | OP.XTOK =>
      let r := init_fold_const env OP.XTOK lop.conval rop.conval dt
      Res.ok (CONST.leaf dt 1 r.1, r.2)
    | _ =>
      let l := if lop.dtype ≠ dt then env.cngcon lop.conval lop.dtype dt else lop.conval
      let r := if rop.dtype ≠ dt then env.cngcon rop.conval rop.dtype dt else rop.conval
      let v := init_fold_const env o l r dt
      Res.ok (CONST.leaf dt 1 v.1, v.2)

/-- The step at the end of an iteration of the element-wise loops of
`eval_init_op`: `if (--repeatc <= 0) { cur = cur->next; if (cur) repeatc =
cur->repeatc; }`, for the node `c` followed by `rest`. -/
def operand_step (c : CONST) (rest : List CONST) (repeatc : Int) : List CONST × Int :=
  if repeatc - 1 ≤ 0 then
    (rest, match rest with | [] => repeatc - 1 | n :: _ => n.repeatc)
  else (c :: rest, repeatc - 1)

/-- The value of one element of "array <binop> array": the operands are
converted to the element type `dt` (the right one not for the exponentiation
operators) and folded by `init_fold_const`. -/
def fold_elements (env : Env) (o : OP) (dt : Nat) (cl cr : CONST) : Int × List Diag :=
  let l_conval := if env.DDTG cl.dtype ≠ dt then env.cngcon cl.conval (env.DDTG cl.dtype) dt
                  else cl.conval
  let r_conval :=
    match o with
    | OP.XTOI | OP.XTOK | OP.XTOX => cr.conval
    | _ => if env.DDTG cr.dtype ≠ dt then env.cngcon cr.conval (env.DDTG cr.dtype) dt
           else cr.conval
  init_fold_const env o l_conval r_conval dt

/-- The loop `for (; cur_rop && cur_lop;)` of the case "array <binop> array"
of `eval_init_op` for an operator other than `AC_CAT`: one leaf of repeat count
1 per iteration; `l_repeatc` and `r_repeatc` count what is left of the first
node of each operand.  Returns the leaves and the diagnostics. -/
def eval_init_op_arrays (env : Env) (o : OP) (dt : Nat) :
    Nat → List CONST → List CONST → Int → Int → Res (List CONST × List Diag)
  | 0, _, _, _, _ => Res.fuel
  | _ + 1, [], _, _, _ => Res.ok ([], [])
  | _ + 1, _ :: _, [], _, _ => Res.ok ([], [])
  | fuel + 1, cl :: lrest, cr :: rrest, l_repeatc, r_repeatc =>
    let v := fold_elements env o dt cl cr
    let l := operand_step cl lrest l_repeatc
    let r := operand_step cr rrest r_repeatc
    (eval_init_op_arrays env o dt fuel l.1 r.1 l.2 r.2).bind fun x =>
      Res.ok (CONST.leaf dt 1 v.1 :: x.1, v.2 ++ x.2)

/-- Routine `convert_acl_dtype`: convert every leaf of a list of `AC_CONST`
nodes to the element type of `newtype`. -/
def convert_acl_dtype (env : Env) (head : List CONST) (oldtype newtype : Nat) : List CONST :=
  if env.DTY oldtype = TY.STRUCT ∨ env.DTY oldtype = TY.CHAR ∨ env.DTY oldtype = TY.NCHAR ∨
      env.DTY oldtype = TY.UNION then head
  else if head.all (fun c => c.id == ACID.CONST) then
    head.map fun c =>
      if c.dtype ≠ env.DDTG newtype then
        (c.setConval (env.cngcon c.conval c.dtype (env.DDTG newtype))).setDtype (env.DDTG newtype)
      else c
  else head

/-- The pointer `idx_ict` of `eval_do`: the first node of a saved initialiser
list (`slot k` is `init_const[k]`), or a node that is in no list. -/
inductive IdxLoc where
  | slot (k : Nat)
  | detached (dtype : Nat)
deriving DecidableEq, Repr

/-- Type `idx_ict->dtype`; a null `idx_ict` is undefined. -/
def idx_dtype (loc : IdxLoc) (st : St) : Res Nat :=
  match loc with
  | IdxLoc.detached d => Res.ok d
  | IdxLoc.slot k =>
    match st.init_const k with
    | [] => Res.undef
    | c :: _ => Res.ok c.dtype

/-- The value stored in `idx_ict->u1.conval` for the index value `i`: a 64-bit
constant for `TY_INT8`/`TY_LOG8`, else `i` converted to `INT`. -/
def idx_conval (env : Env) (dtype : Nat) (i : Int) : Int :=
  match env.DTY dtype with
  | TY.INT8 | TY.LOG8 => env.getcon_isz i dtype
  | _ => wrap32 i

/-- Assignment `idx_ict->u1.conval = v`. -/
def idx_store (loc : IdxLoc) (v : Int) (st : St) : St :=
  match loc with
  | IdxLoc.detached _ => st
  | IdxLoc.slot k =>
    match st.init_const k with
    | [] => st
    | c :: rest => { st with init_const := upd st.init_const k (c.setConval v :: rest) }

/-- The first part of `eval_do`: find or create the node `idx_ict` that holds
the value of the index variable, then `DOVARP(idx_sptr, 1)`. -/
def eval_do_index (env : Env) (idx_sptr : Nat) (st : St) : IdxLoc × St :=
  if st.DINITG idx_sptr ∧ st.PARAMVALG idx_sptr ≠ 0 then
    (IdxLoc.slot (st.PARAMVALG idx_sptr - 1), { st with DOVARG := upd st.DOVARG idx_sptr true })
  else
    let node := CONST.leaf (env.DTYPEG idx_sptr) 1 0
    let loc := if st.PARAMVALG idx_sptr = 0 ∧ st.cur_init < env.init_list_count
               then IdxLoc.slot st.cur_init else IdxLoc.detached (env.DTYPEG idx_sptr)
    let st1 := save_init env [node] idx_sptr st
    (loc, { st1 with DINITG := upd st1.DINITG idx_sptr true,
                     DOVARG := upd st1.DOVARG idx_sptr true })

/-- One iteration of a `for` loop of `eval_do`, for the index value `x.1`:
the loop test (`i <= limitval` when `up`, else `i >= limitval`), the binding
of the index, the fold of the body by `recE`, the append to `root`, and the
increment, taken in the integers (it is the increment of the code as long as
the sum is an `ISZ_T` value, see `eval_do_body_isz`).  The loop state is
`(i, root, inflag, state)`. -/
def eval_do_body (env : Env) (recE : St → Res (List CONST × St)) (loc : IdxLoc)
    (up : Bool) (limitval stepval : Int) (x : Int × List CONST × Bool × St) :
    Res ((Int × List CONST × Bool × St) ⊕ (List CONST × Bool × St)) :=
  if (if up then x.1 ≤ limitval else x.1 ≥ limitval) then
    (idx_dtype loc x.2.2.2).bind fun dt =>
    (recE (idx_store loc (idx_conval env dt x.1) x.2.2.2)).bind fun r =>
      Res.ok (Sum.inl (x.1 + stepval, x.2.1 ++ r.1, true, r.2))
  else Res.ok (Sum.inr x.2)

/-- Test `temp && temp->u1.expr.op == AC_TRIPLE`. -/
def is_triple (temp : List CONST) : Bool :=
  match temp with
  | [] => false
  | t :: _ => t.op == ACOP.TRIPLE

/-- First node of a list reached through a pointer that the C code
dereferences. -/
def deref (l : List CONST) : Res CONST :=
  match l with
  | [] => Res.undef
  | c :: _ => Res.ok c

/-- A loop over the nodes of a list that appends the lists produced for each
node (`add_to_list(new_e, &root, &roottail)`). -/
def append_each (f : CONST → St → Res (List CONST × St)) : List CONST → St → Res (List CONST × St)
  | [], st => Res.ok ([], st)
  | c :: rest, st =>
    (f c st).bind fun r =>
    (append_each f rest r.2).bind fun r2 => Res.ok (r.1 ++ r2.1, r2.2)

mutual

/-- Routine `eval_init_expr_item`: fold one node of the constant tree. -/
def eval_init_expr_item (env : Env) : Nat → CONST → St → Res (List CONST × St)
  | 0, _, _ => Res.fuel
  | fuel + 1, cur_e, st =>
    match cur_e.id with
    | ACID.IDENT =>
      if env.PARAMG cur_e.sptr ∨ (st.DOVARG cur_e.sptr ∧ st.DINITG cur_e.sptr) ∨
          (env.CCSYMG cur_e.sptr ∧ st.DINITG cur_e.sptr) then
        match st.PARAMVALG cur_e.sptr with
        | 0 => Res.undef
        | k + 1 =>
          (clone_init_const_list (st.init_const k)).bind fun new_e =>
            match new_e with
            | [] => Res.undef
            | c :: rest =>
              if cur_e.mbr ≠ 0 then Res.ok (c.setSptr cur_e.mbr :: rest, st)
              else Res.ok (c :: rest, st)
      else Res.undef
    | ACID.CONST => Res.ok ([cur_e], st)
    | ACID.IEXPR =>
      let finish : List CONST × St → Res (List CONST × St) := fun r =>
        match r.1 with
        | [] => Res.undef
        | c :: rest =>
          if cur_e.repeatc > 1 then
            Res.ok (c.setSptr cur_e.sptr ::
              (List.replicate (cur_e.repeatc - 1).toNat (c :: rest)).flatten, r.2)
          else Res.ok (c.setSptr cur_e.sptr :: rest, r.2)
      if cur_e.op ≠ ACOP.INTR_CALL then
        (eval_init_expr env fuel cur_e.lop st).bind fun l =>
        (deref cur_e.lop).bind fun lop0 =>
        let temp := cur_e.rop
        if cur_e.op = ACOP.ARRAYREF ∧ is_triple temp = true then
          let x := env.eval_init_op_ext ACOP.TRIPLE [] 0 temp 0 0 0
          (eval_init_op env fuel cur_e.op l.1 lop0.dtype x.1
            (match x.1, temp with | _ :: _, t :: _ => t.dtype | _, _ => 0)
            cur_e.sptr cur_e.dtype (reports x.2 l.2)).bind finish
        else
          (eval_init_expr env fuel temp l.2).bind fun r =>
          (eval_init_op env fuel cur_e.op l.1 lop0.dtype r.1
            (match r.1, temp with | _ :: _, t :: _ => t.dtype | _, _ => 0)
            cur_e.sptr cur_e.dtype r.2).bind finish
      else
        (deref cur_e.lop).bind fun lop0 =>
        (eval_init_op env fuel cur_e.op cur_e.lop lop0.dtype cur_e.rop
          (match cur_e.rop with | t :: _ => t.dtype | [] => 0)
          cur_e.sptr cur_e.dtype st).bind finish
    | ACID.ACONST =>
      (eval_array_constructor env fuel cur_e st).bind fun r =>
        match r.1 with
        | [] => Res.ok ([cur_e.setSubc []], r.2)
        | c :: rest =>
          Res.ok ([cur_e.setSubc (convert_acl_dtype env (c :: rest) (env.DDTG c.dtype)
            (env.DDTG cur_e.dtype))], r.2)
    | ACID.SCONST =>
      (eval_init_expr env fuel cur_e.subc st).bind fun r =>
        match r.1 with
        | [] => Res.undef
        | c :: rest =>
          if c.dtype = cur_e.dtype then Res.ok ([cur_e.setSubc c.subc], r.2)
          else Res.ok ([cur_e.setSubc (c :: rest)], r.2)
    | ACID.IDO => eval_do env fuel cur_e st
    | _ => Res.undef

/-- Routine `eval_init_expr`: fold a list of nodes of the constant tree. -/
def eval_init_expr (env : Env) : Nat → List CONST → St → Res (List CONST × St)
  | 0, _, _ => Res.fuel
  | fuel + 1, e, st =>
    append_each (fun cur_e st1 =>
      match cur_e.id with
      | ACID.SCONST =>
        (eval_init_expr env fuel cur_e.subc st1).bind fun r =>
          match r.1 with
          | [] => Res.undef
          | c :: rest =>
            if c.dtype = cur_e.dtype then Res.ok ([cur_e.setSubc c.subc], r.2)
            else Res.ok ([cur_e.setSubc (c :: rest)], r.2)
      | ACID.ACONST =>
        (eval_array_constructor env fuel cur_e st1).bind fun r =>
          match r.1 with
          | [] => Res.ok ([cur_e.setSubc []], r.2)
          | c :: rest =>
            Res.ok ([cur_e.setSubc (convert_acl_dtype env (c :: rest) (env.DDTG c.dtype)
              (env.DDTG cur_e.dtype))], r.2)
      | ACID.IDENT =>
        if cur_e.sptr ≠ 0 ∧ env.DTY (env.DTYPEG cur_e.sptr) = TY.ARRAY then
          (eval_init_expr_item env fuel cur_e st1).bind fun r =>
            Res.ok ([((cur_e.setSubc r.1).setSptr 0).setId ACID.ACONST], r.2)
        else eval_init_expr_item env fuel cur_e st1
      | _ => eval_init_expr_item env fuel cur_e st1) e st

/-- Routine `eval_array_constructor`: collapse nested array constructors. -/
def eval_array_constructor (env : Env) : Nat → CONST → St → Res (List CONST × St)
  | 0, _, _ => Res.fuel
  | fuel + 1, e, st =>
    append_each (fun cur_e st1 =>
      if cur_e.id = ACID.ACONST then eval_array_constructor env fuel cur_e st1
      else
        (eval_init_expr_item env fuel cur_e st1).bind fun r =>
          match r.1 with
          | [] => Res.ok r
          | c :: _ =>
            if c.id = ACID.ACONST then eval_array_constructor env fuel c r.2
            else Res.ok r) e.subc st

/-- Routine `eval_do`: expand an implied-do generator. -/
def eval_do (env : Env) : Nat → CONST → St → Res (List CONST × St)
  | 0, _, _ => Res.fuel
  | fuel + 1, ido, st =>
    (deref ido.initval).bind fun e1 =>
    (eval_init_expr_item env fuel e1 st).bind fun r1 =>
    (deref ido.limitval).bind fun e2 =>
    (eval_init_expr_item env fuel e2 r1.2).bind fun r2 =>
    (deref ido.stepval).bind fun e3 =>
    (eval_init_expr_item env fuel e3 r2.2).bind fun r3 =>
    (deref r1.1).bind fun initict =>
    (deref r2.1).bind fun limitict =>
    (deref r3.1).bind fun stepict =>
    let initval := get_ival env initict.dtype initict.conval
    let limitval := get_ival env limitict.dtype limitict.conval
    let stepval := get_ival env stepict.dtype stepict.conval
    let ix := eval_do_index env ido.index_var r3.2
    (loopN (eval_do_body env (fun st1 => eval_init_expr env fuel ido.subc st1) ix.1
        (decide (stepval ≥ 0)) limitval stepval) fuel (initval, [], false, ix.2)).bind fun x =>
    let clear : St → St := fun st1 => { st1 with DOVARG := upd st1.DOVARG ido.index_var false }
    if x.2.1 = false ∧ ido.subc.isEmpty = false then
      (eval_init_expr env fuel ido.subc x.2.2).bind fun r =>
        Res.ok (x.1 ++ r.1, clear r.2)
    else Res.ok (x.1, clear x.2.2)

/-- Routine `eval_init_op`: fold an operator applied to folded operands.  The
cases embedded from the code are `AC_NEG`/`AC_LNOT`, `AC_CONV`,
`AC_MEMBR_SEL`, "array <binop> array" for the operators other than `AC_CAT`,
and "scalar <binop> scalar"; the others go to `Env.eval_init_op_ext`. -/
def eval_init_op (env : Env) : Nat → ACOP → List CONST → Nat → List CONST → Nat → Nat → Nat →
    St → Res (List CONST × St)
  | 0, _, _, _, _, _, _, _, _ => Res.fuel
  | fuel + 1, op, lop, ldtype, rop, rdtype, sptr, dtype, st =>
    let dt := env.DDTG dtype
    if op = ACOP.NEG ∨ op = ACOP.LNOT then
      (operand_list lop).bind fun l =>
        let r := eval_init_op_unary env op dt l
        Res.ok (r.1, reports r.2 st)
    else if op = ACOP.ARRAYREF then
      let x := env.eval_init_op_ext op lop ldtype rop rdtype sptr dtype
      Res.ok (x.1, reports x.2 st)
    else if op = ACOP.CONV then
      (operand_list lop).bind fun l =>
      (deref l).bind fun c =>
      (eval_init_op_conv env ldtype dtype fuel l c.repeatc).bind fun r => Res.ok (r, st)
    else if op = ACOP.MEMBR_SEL then
      (eval_init_expr env fuel lop st).bind fun c =>
      (deref c.1).bind fun c0 =>
      (deref rop).bind fun r0 =>
        match (c0.subc.drop r0.conval.toNat) with
        | [] => Res.ok ([CONST_ERR dtype], report (Diag.interr 3) c.2)
        | m :: _ => Res.ok ([m], c.2)
    else if op = ACOP.INTR_CALL then
      let x := env.eval_init_op_ext op lop ldtype rop rdtype sptr dtype
      Res.ok (x.1, reports x.2 st)
    else if env.DTY ldtype = TY.ARRAY ∧ env.DTY rdtype = TY.ARRAY ∧ op ≠ ACOP.CAT then
      (operand_list lop).bind fun l =>
      (operand_list rop).bind fun r =>
      (deref l).bind fun l0 =>
      (deref r).bind fun r0 =>
        match get_ast_op op with
        | none => Res.undef
        | some o =>
          (eval_init_op_arrays env o dt fuel l r l0.repeatc r0.repeatc).bind fun x =>
            Res.ok (x.1, reports x.2 st)
    else if op = ACOP.CAT ∨ env.DTY ldtype = TY.ARRAY ∨ env.DTY rdtype = TY.ARRAY then
      let x := env.eval_init_op_ext op lop ldtype rop rdtype sptr dtype
      Res.ok (x.1, reports x.2 st)
    else
      (deref lop).bind fun l0 =>
      (deref rop).bind fun r0 =>
      (eval_init_op_scalar env op l0 ldtype r0 dt).bind fun r =>
        Res.ok ([r.1], reports r.2 st)

end

/-! ## `eval_reshape` -/

/-- Read of `arr[pos]` in an array of `arr.length` elements; an index outside
the array is undefined. -/
def arr_get {α : Type} (arr : List α) (pos : Int) : Res α :=
  if 0 ≤ pos then
    match arr.get? pos.toNat with
    | some v => Res.ok v
    | none => Res.undef
  else Res.undef

/-- Store `arr[pos] = v`; an index outside the array is undefined. -/
def arr_set {α : Type} (arr : List α) (pos : Int) (v : α) : Res (List α) :=
  if 0 ≤ pos ∧ pos < arr.length then Res.ok (arr.set pos.toNat v) else Res.undef

/-- The `for` loop of `copy_initconst_to_array` from the node list `c` on:
`arr` is the whole array, `pos` the index that the pointer `arr` of the C code
has reached, `i` the count so far.  `recC` is the recursive call for a nested
constructor.  Returns the array, the value returned, and the diagnostics. -/
def copy_nodes
    (recC : List (Option CONST) → Int → List CONST → Int →
      Res (List (Option CONST) × Int × List Diag))
    (count : Int) :
    List CONST → List (Option CONST) → Int → Int → Res (List (Option CONST) × Int × List Diag)
  | [], arr, _, i => Res.ok (arr, i, [])
  | c :: rest, arr, pos, i =>
    if i < count then
      match c.id with
      | ACID.ACONST =>
        (recC arr pos c.subc (count - i)).bind fun r =>
        (copy_nodes recC count rest r.1 (pos + r.2.1) (i + r.2.1)).bind fun r2 =>
          Res.ok (r2.1, r2.2.1, r.2.2 ++ r2.2.2)
      | ACID.CONST =>
        (arr_set arr pos (some c)).bind fun arr1 =>
          if c.repeatc > 1 then copy_nodes recC count rest arr1 (pos + c.repeatc) (i + c.repeatc)
          else copy_nodes recC count rest arr1 (pos + 1) (i + 1)
      | _ => Res.ok (arr, count, [Diag.interr 3])
    else Res.ok (arr, i, [])

/-- Routine `copy_initconst_to_array`: store a clone of every leaf of the list
`c` at its element position, leaving the positions covered by a repeat count
null; the fuel bounds the nesting of constructors. -/
def copy_initconst_to_array :
    Nat → List (Option CONST) → Int → List CONST → Int →
      Res (List (Option CONST) × Int × List Diag)
  | 0, _, _, _, _ => Res.fuel
  | fuel + 1, arr, pos, c, count => copy_nodes (copy_initconst_to_array fuel) count c arr pos 0

/-- The loop of `eval_reshape` that reads the order argument: `order[i]` for
the nodes of the list while `i < rank`, and the flag `out_of_order`. -/
def reshape_order (env : Env) (rank : Nat) : List CONST → Nat → List Int × Bool
  | [], _ => ([], false)
  | c :: rest, i =>
    if i < rank then
      let o := if env.DT_ISWORD c.dtype then c.conval - 1 else env.ad_val_of c.conval - 1
      let r := reshape_order env rank rest (i + 1)
      (o :: r.1, (o != (i : Int)) || r.2)
    else ([], false)

/-- The multipliers `mult[i]`: the product of the extents before dimension `i`. -/
def reshape_mult : List Int → Int → List Int
  | [], _ => []
  | u :: us, sz => sz :: reshape_mult us (sz * u)

/-- The loop "update loop indices" of `eval_reshape` from `j` on, with `n`
dimensions left: `none` when `j` reaches the rank.  An entry of `order` that
was never assigned, or that is no dimension, is undefined. -/
def odo_update (upb : List Int) : Nat → List Int → List Int → Res (Option (List Int))
  | 0, _, _ => Res.ok none
  | _ + 1, [], _ => Res.undef
  | n + 1, loop :: rest, lwb =>
    (arr_get lwb loop).bind fun v =>
    (arr_get upb loop).bind fun u =>
      if v + 1 < u then (arr_set lwb loop (v + 1)).bind fun l1 => Res.ok (some l1)
      else (arr_set lwb loop 0).bind fun l1 => odo_update upb n rest l1

/-- One iteration of the `while (TRUE)` loop of `eval_reshape` that fills
`new_index`; the loop state is `(i, lwb, new_index)`. -/
def odo_body (rank : Nat) (order upb mult : List Int) (x : Int × List Int × List Int) :
    Res ((Int × List Int × List Int) ⊕ List Int) :=
  (arr_set x.2.2 (List.zipWith (fun a b => a * b) x.2.1 mult).sum x.1).bind fun ni =>
  (odo_update upb rank order x.2.1).bind fun u =>
    match u with
    | some l1 => Res.ok (Sum.inl (x.1 + 1, l1, ni))
    | none => Res.ok (Sum.inr ni)

/-- The loop `while (new_index[++start] == idx) { ++idx; --end; if (end <= 0
|| start > dest_sz - 1) break; }` of `eval_reshape`: the value of `idx` after
it.  The read of `new_index[dest_sz]` is outside the array. -/
def run_len (new_index : List Int) (dest_sz : Int) : Nat → Int → Int → Int → Res Int
  | 0, _, _, _ => Res.fuel
  | f + 1, start, idx, end_ =>
    (arr_get new_index (start + 1)).bind fun v =>
      if v = idx then
        if end_ - 1 ≤ 0 ∨ start + 1 > dest_sz - 1 then Res.ok (idx + 1)
        else run_len new_index dest_sz f (start + 1) (idx + 1) (end_ - 1)
      else Res.ok idx

/-- The search `while (tail == NULL && idx >= 0) tail = old_val[idx--]` of
`eval_reshape`: the nearest non-null entry at or below `idx`, with its index. -/
def find_tail (old_val : List (Option CONST)) : Nat → Option (Nat × CONST)
  | 0 =>
    match old_val.get? 0 with
    | some (some c) => some (0, c)
    | _ => none
  | k + 1 =>
    match old_val.get? (k + 1) with
    | some (some c) => some (k + 1, c)
    | _ => find_tail old_val k

/-- An entry `new_val[i]`: the node `old_val[k]` itself, or a clone. -/
inductive Entry where
  | ref (k : Nat)
  | fresh (c : CONST)

/-- One iteration of the loop `for (i = 0; i < dest_sz; i++)` of `eval_reshape`
that fills `new_val`; the state is `(old_val, new_val)`. -/
def reshape_step (new_index : List Int) (dest_sz : Int) (i : Nat)
    (x : List (Option CONST) × List Entry) : Res (List (Option CONST) × List Entry) :=
  (arr_get new_index i).bind fun index =>
  (arr_get x.1 index).bind fun cell =>
    match cell with
    | some c =>
      if c.repeatc ≤ 1 then
        Res.ok (x.1.set index.toNat (some (c.setId ACID.CONVAL)), x.2 ++ [Entry.ref index.toNat])
      else
        (run_len new_index dest_sz (new_index.length + 1) i (index + 1) (c.repeatc - 1)).bind
          fun idx =>
            Res.ok (x.1.set index.toNat (some (c.setRepeatc (index - (idx - index)))),
              x.2 ++ [Entry.fresh ((c.setRepeatc (idx - index)).setId ACID.CONVAL)])
    | none =>
      match find_tail x.1 index.toNat with
      | none => Res.undef
      | some (k, tail) =>
        (run_len new_index dest_sz (new_index.length + 1) i (index + 1) (tail.repeatc - 1)).bind
          fun idx =>
            Res.ok (x.1.set k (some (tail.setRepeatc (index - (idx - index)))),
              x.2 ++ [Entry.fresh ((tail.setRepeatc (idx - index)).setId ACID.CONVAL)])

/-- The loop over `i` of `reshape_step`. -/
def reshape_fill (new_index : List Int) (dest_sz : Int) :
    List Nat → List (Option CONST) × List Entry → Res (List (Option CONST) × List Entry)
  | [], x => Res.ok x
  | i :: rest, x => (reshape_step new_index dest_sz i x).bind (reshape_fill new_index dest_sz rest)

/-- Last position from `p` on at which `new_val` holds the node of position `p`. -/
def last_same (new_val : List Entry) (p : Nat) : Nat :=
  match new_val.get? p with
  | some (Entry.ref k) =>
    ((List.range new_val.length).filter fun j =>
      decide (p ≤ j) && (match new_val.get? j with
        | some (Entry.ref k2) => k2 == k
        | _ => false)).foldl max p
  | _ => p

/-- The list linked by the last loop of `eval_reshape` (`tacl->next =
new_val[i + 1]` for every `i`, then `new_val[dest_sz - 1]->next = NULL`), read
from `new_val[0]`: the link that a node keeps is the one made at its last
position. -/
def link_chain (new_val : List Entry) : Nat → Nat → List Entry
  | 0, _ => []
  | f + 1, p =>
    match new_val.get? p with
    | none => []
    | some e => e :: link_chain new_val f (last_same new_val p + 1)

/-- The node that an entry of `new_val` stands for at the end. -/
def resolve (old_val : List (Option CONST)) : Entry → Res CONST
  | Entry.fresh c => Res.ok c
  | Entry.ref k =>
    match old_val.get? k with
    | some (some c) => Res.ok c
    | _ => Res.undef

/-- The nodes of a list of entries. -/
def resolve_all (old_val : List (Option CONST)) : List Entry → Res (List CONST)
  | [] => Res.ok []
  | e :: es =>
    (resolve old_val e).bind fun c =>
    (resolve_all old_val es).bind fun cs => Res.ok (c :: cs)

/-- The evaluation of the pad and order arguments at the head of
`eval_reshape`: `args` is the list from `arg->next->next` on.  Returns `pad`
and `orderarg` (`[]` for null) and the state. -/
def reshape_pad_order (recItem : CONST → St → Res (List CONST × St)) (args : List CONST)
    (st : St) : Res (List CONST × List CONST × St) :=
  match args with
  | [] => Res.ok ([], [], st)
  | p :: rest =>
    (if p.id ≠ ACID.CONST then recItem p st else Res.ok (p :: rest, st)).bind fun pd =>
      match rest with
      | [] => Res.ok (pd.1, [], pd.2)
      | o :: _ =>
        if o.id ≠ ACID.CONST then (recItem o pd.2).bind fun od => Res.ok (pd.1, od.1, od.2)
        else Res.ok (pd.1, [], pd.2)

/-- One iteration of the loop `while (count > 0)` of `eval_reshape` that
copies the pad values; the state is `(old_val, src_sz, count, diagnostics)`. -/
def reshape_pad_body (fuel : Nat) (wrklist : List CONST)
    (x : List (Option CONST) × Int × Int × List Diag) :
    Res ((List (Option CONST) × Int × Int × List Diag) ⊕ (List (Option CONST) × List Diag)) :=
  if x.2.2.1 > 0 then
    (copy_initconst_to_array fuel x.1 x.2.1 wrklist x.2.2.1).bind fun r =>
      Res.ok (Sum.inl (r.1, x.2.1 + r.2.1, x.2.2.1 - r.2.1, x.2.2.2 ++ r.2.2))
  else Res.ok (Sum.inr (x.1, x.2.2.2))

/-- The part of `eval_reshape` after the tests for an early return: fill
`old_val` from the source (and the pad), compute `new_index`, fill `new_val`
and link it. -/
def reshape_permute (fuel : Nat) (srclist pad : List CONST) (src_sz dest_sz : Int)
    (rank : Nat) (order upb : List Int) : Res (List CONST × List Diag) :=
  (operand_list srclist).bind fun wrk =>
  (copy_initconst_to_array fuel (List.replicate dest_sz.toNat none) 0 wrk
    (if dest_sz > src_sz then src_sz else dest_sz)).bind fun cp =>
  (if dest_sz > src_sz then
    (operand_list pad).bind fun pw =>
      loopN (reshape_pad_body fuel pw) fuel (cp.1, src_sz, dest_sz - src_sz, cp.2.2)
   else Res.ok (cp.1, cp.2.2)).bind fun ov =>
  (loopN (odo_body rank order upb (reshape_mult upb 1)) fuel
    (0, List.replicate rank 0, List.replicate dest_sz.toNat 0)).bind fun new_index =>
  (reshape_fill new_index dest_sz (List.range dest_sz.toNat) (ov.1, [])).bind fun nv =>
  (resolve_all nv.1 (link_chain nv.2 nv.2.length 0)).bind fun l => Res.ok (l, ov.2)

/-- Routine `eval_reshape`: the intrinsic RESHAPE; `arg` is the list of its
arguments (source, shape, pad, order) and `dtype` the type of the result. -/
def eval_reshape (env : Env) (fuel : Nat) (arg : List CONST) (dtype : Nat) (st : St) :
    Res (List CONST × St) :=
  (deref arg).bind fun a0 =>
  (eval_init_expr_item env fuel a0 st).bind fun src =>
  (deref (arg.drop 1)).bind fun a1 =>
  (eval_init_expr_item env fuel a1 src.2).bind fun shp =>
  (reshape_pad_order (eval_init_expr_item env fuel) (arg.drop 2) shp.2).bind fun po =>
    let src_sz := env.numelm_d a0.dtype
    let dest_sz := env.numelm_d dtype
    let rank := env.numdim_d dtype
    let upb := (List.range rank).map fun (i : Nat) => env.upbd_d dtype i
    if rank > 7 then Res.undef
    else
      match po.2.1 with
      | [] =>
        if src_sz = dest_sz then Res.ok (src.1, po.2.2)
        else
          (reshape_permute fuel src.1 po.1 src_sz dest_sz rank
            ((List.range rank).map fun (i : Nat) => (i : Int)) upb).bind fun r =>
            Res.ok (r.1, reports r.2 po.2.2)
      | o :: orest =>
        let ord := reshape_order env rank (if o.id = ACID.ACONST then o.subc else o :: orest) 0
        if ord.2 = false ∧ src_sz = dest_sz then Res.ok (src.1, po.2.2)
        else
          (reshape_permute fuel src.1 po.1 src_sz dest_sz rank ord.1 upb).bind fun r =>
            Res.ok (r.1, reports r.2 po.2.2)

/-! ## `eval_sub_index`, `eval_sb`, `eval_const_array_section` -/

/-- One subscript `sb.sub[i]` of the section being evaluated; a null
`subscr_base` is `[]`. -/
structure SbSub where
  dtype : Nat
  idx : Int
  subscr_base : List CONST
  lowb : Int
  upb : Int
  stride : Int

/-- One dimension `sb.dim[i]` of the array that is subscripted. -/
structure SbDim where
  lowb : Int
  upb : Int
  mplyr : Int
deriving DecidableEq, Repr

/-- The static `sb` of the section evaluator; `root`/`roottail` is the list
built so far. -/
structure SB where
  root : List CONST
  arrbase : List CONST
  ndims : Nat
  sub : List SbSub
  dim : List SbDim

/-- The loop `while (repeat > 0 && elem_offset) { --elem_offset; --repeat; }`:
the value of `elem_offset` after it, for `repeat` the given natural number. -/
def repeat_walk : Nat → Int → Int
  | 0, e => e
  | r + 1, e => if e ≠ 0 then repeat_walk r (e - 1) else e

/-- The loop `while (v && elem_offset) { ... }` of `eval_sb` (and, with the
two tests in the other order, of `eval_sub_index`): the node `v` it ends at,
`[]` for null. -/
def sb_lookup : Nat → List CONST → Int → Res (List CONST)
  | 0, _, _ => Res.fuel
  | fuel + 1, v, e =>
    match v with
    | [] => Res.ok []
    | c :: next =>
      if e = 0 then Res.ok (c :: next)
      else if c.repeatc > 1 then sb_lookup fuel (c :: next) (repeat_walk c.repeatc.toNat e)
      else sb_lookup fuel next (e - 1)

/-- Routine `eval_sub_index`: the value of a vector subscript of dimension
`dim` at its current index. -/
def eval_sub_index (env : Env) (fuel : Nat) (sb : SB) (dim : Nat) : Res Int :=
  match sb.sub.get? dim with
  | none => Res.undef
  | some s =>
    (sb_lookup fuel s.subscr_base (s.idx - env.lwbd_d s.dtype 0)).bind fun v =>
    (deref v).bind fun c => Res.ok (get_ival env c.dtype c.conval)

/-- The loop `for (i = 0; i < sb.ndims; i++)` of `eval_sb` that computes
`elem_offset`, with `n` dimensions left from dimension `i` on. -/
def sb_elem_offset (env : Env) (fuel : Nat) (sb : SB) : Nat → Nat → Int → Res Int
  | 0, _, acc => Res.ok acc
  | n + 1, i, acc =>
    match sb.sub.get? i, sb.dim.get? i with
    | some s, some d =>
      (if s.subscr_base.isEmpty then Res.ok s.idx else eval_sub_index env fuel sb i).bind
        fun sub_idx => sb_elem_offset env fuel sb n (i + 1) (acc + (sub_idx - d.lowb) * d.mplyr)
    | _, _ => Res.undef

/-- Assignment `sb.sub[d].idx = f(sb.sub[d])`. -/
def sb_set_idx (sb : SB) (d : Nat) (f : SbSub → Int) : SB :=
  { sb with sub := sb.sub.modify (fun s => { s with idx := f s }) d }

/-- Loop test of a subscript: `idx <= upb` for a positive stride, else
`idx >= upb`. -/
def sb_in_range (s : SbSub) : Bool :=
  if s.stride > 0 then decide (s.idx ≤ s.upb) else decide (s.idx ≥ s.upb)

/-- One iteration of the `while` loop of `eval_sb(0)`: `recItem` is
`eval_init_expr_item`.  The loop ends with the value that `eval_sb` returns. -/
def eval_sb_body (env : Env) (recItem : CONST → St → Res (List CONST × St)) (fuel : Nat)
    (x : SB × St) : Res ((SB × St) ⊕ (Int × SB × St)) :=
  match x.1.sub.get? 0 with
  | none => Res.undef
  | some s0 =>
    if sb_in_range s0 then
      (sb_elem_offset env fuel x.1 x.1.ndims 0 0).bind fun eo =>
      (sb_lookup fuel x.1.arrbase eo).bind fun v =>
        match v with
        | [] => Res.ok (Sum.inr (1, x.1, report (Diag.interr 3) x.2))
        | c0 :: _ =>
          (recItem (c0.setRepeatc 1) x.2).bind fun r =>
          (deref r.1).bind fun c =>
            Res.ok (Sum.inl (sb_set_idx { x.1 with root := x.1.root ++ [c] } 0
              (fun s => s.idx + s.stride), r.2))
    else Res.ok (Sum.inr (0, x.1, x.2))

/-- Routine `eval_sb`: walk the elements of the section, dimension `d` being
the outermost loop, and append the value of each to `sb.root`; returns 1
after an invalid subscript. -/
def eval_sb (env : Env) (recItem : CONST → St → Res (List CONST × St)) (fuel : Nat) :
    Nat → SB → St → Res (Int × SB × St)
  | 0, sb, st => loopN (eval_sb_body env recItem fuel) fuel (sb_set_idx sb 0 (fun s => s.lowb), st)
  | d + 1, sb, st =>
    loopN (fun x : SB × St =>
      match x.1.sub.get? (d + 1) with
      | none => Res.undef
      | some s =>
        if sb_in_range s then
          (eval_sb env recItem fuel d x.1 x.2).bind fun r =>
            if r.1 ≠ 0 then Res.ok (Sum.inr (1, r.2.1, r.2.2))
            else Res.ok (Sum.inl (sb_set_idx r.2.1 (d + 1) (fun s => s.idx + s.stride), r.2.2))
        else Res.ok (Sum.inr (0, x.1, x.2))) fuel (sb_set_idx sb (d + 1) (fun s => s.lowb), st)

/-- The loop of `eval_const_array_section` that copies the bounds and
multipliers of the array type into `sb.dim`. -/
def sb_dims (env : Env) (ldtype : Nat) (ndims : Nat) : List SbDim :=
  (List.range ndims).map fun i =>
    { lowb := env.lwbd_d ldtype i, upb := env.upbd_d ldtype i, mplyr := env.mlpyr_d ldtype i }

/-- Routine `eval_const_array_section`: the elements of the array value `lop`
(of type `ldtype`) selected by the subscripts left in `sb.sub` by
`eval_const_array_triple_section`.  `recCtor` is `eval_array_constructor`. -/
def eval_const_array_section (env : Env)
    (recItem : CONST → St → Res (List CONST × St))
    (recCtor : CONST → St → Res (List CONST × St)) (fuel : Nat)
    (sb : SB) (lop : List CONST) (ldtype dtype : Nat) (st : St) : Res (List CONST × SB × St) :=
  (deref lop).bind fun l0 =>
  (if l0.id = ACID.ACONST then recCtor l0 st else Res.ok (lop, st)).bind fun a =>
    let sb1 := { sb with root := [], arrbase := a.1 }
    if sb1.ndims ≠ env.numdim_d ldtype then
      Res.ok ([CONST_ERR dtype], sb1, report (Diag.interr 3) a.2)
    else
      let sb2 := { sb1 with dim := sb_dims env ldtype (env.numdim_d ldtype),
                            ndims := env.numdim_d ldtype }
      (eval_sb env recItem fuel (env.numdim_d ldtype - 1) sb2 a.2).bind fun r =>
        if r.1 ≠ 0 then Res.ok ([CONST_ERR dtype], r.2.1, r.2.2)
        else Res.ok (r.2.1.root, r.2.1, r.2.2)

/-! ## `eval_min`, `eval_max` -/

/-- Assignment `c->u1 = d->u1` of the whole union `u1`, whose members are the
fields `conval`, `op/lop/rop` and `index_var/initval/limitval/stepval` here. -/
def CONST.setU1 : CONST → CONST → CONST
  | CONST.mk i s r sp m d n _ _ _ _ _ _ _ _, CONST.mk _ _ _ _ _ _ _ cv o l ro iv a b c =>
    CONST.mk i s r sp m d n cv o l ro iv a b c

/-- Has the `switch (DTY(dtype))` of `eval_min` and `eval_max` a case for the
kind of `dtype`? -/
def minmax_case (env : Env) (dtype : Nat) : Bool :=
  match env.DTY dtype with
  | TY.INT | TY.CHAR | TY.REAL | TY.INT8 | TY.DBLE => true
  | _ => false

/-- The `switch (DTY(dtype))` of `eval_min`: does the value `c2` of `wrkarg2`
replace the value `c1` of `wrkarg1`; with the diagnostics of `init_fold_const`. -/
def min_replaces (env : Env) (dtype : Nat) (c2 c1 : Int) : Bool × List Diag :=
  match env.DTY dtype with
  | TY.INT => (decide (c2 < c1), [])
  | TY.CHAR => (decide (env.strcmp c2 c1 < 0), [])
  | TY.REAL => (decide (env.xfcmp c2 c1 < 0), [])
  | TY.INT8 | TY.DBLE =>
    let r := init_fold_const env OP.CMP c2 c1 dtype
    (decide (r.1 < 0), r.2)
  | _ => (false, [])

/-- The `switch (DTY(dtype))` of `eval_max`. -/
def max_replaces (env : Env) (dtype : Nat) (c2 c1 : Int) : Bool × List Diag :=
  match env.DTY dtype with
  | TY.CHAR => (decide (env.strcmp c2 c1 > 0), [])
  | TY.INT => (decide (c2 > c1), [])
  | TY.REAL => (decide (env.xfcmp c2 c1 > 0), [])
  | TY.INT8 | TY.DBLE =>
    let r := init_fold_const env OP.CMP c2 c1 dtype
    (decide (r.1 > 0), r.2)
  | _ => (false, [])

/-- The loop `for (j = 1; j < nargs; j++)` of `eval_min`/`eval_max` for the
element `i`, over the arguments `arglist[1], ...`: `wrkarg2` is walked `i`
nodes into the argument, and `w1` is the node `wrkarg1`.  A kind without a
case dereferences neither node. -/
def minmax_args (replaces : Int → Int → Bool × List Diag) (has_case : Bool) (i : Nat) :
    List (List CONST) → CONST → Res (CONST × List Diag)
  | [], w1 => Res.ok (w1, [])
  | a :: rest, w1 =>
    (operand_list a).bind fun l =>
      if l.length < i then Res.undef
      else
        match l.get? i with
        | none =>
          if has_case then Res.undef else minmax_args replaces has_case i rest w1
        | some w2 =>
          let t := replaces w2.conval w1.conval
          (minmax_args replaces has_case i rest (if t.1 then w1.setU1 w2 else w1)).bind fun r =>
            Res.ok (r.1, t.2 ++ r.2)

/-- The loop `for (i = 0; i < nelems; i++)` of `eval_min`/`eval_max`, with `n`
elements left from element `i` on; `wrkarg1` is at the head of the list given
and is moved to `wrkarg1->next` after each element. -/
def minmax_elems (replaces : Int → Int → Bool × List Diag) (has_case : Bool)
    (others : List (List CONST)) : Nat → Nat → List CONST → Res (List CONST × List Diag)
  | 0, _, w => Res.ok (w, [])
  | _ + 1, _, [] => Res.undef
  | n + 1, i, w1 :: ws =>
    (minmax_args replaces has_case i others w1).bind fun r =>
    (minmax_elems replaces has_case others n (i + 1) ws).bind fun r2 =>
      Res.ok (r.1 :: r2.1, r.2 ++ r2.2)

/-- The loop that fills `arglist`: every argument node is folded by
`eval_init_expr_item`. -/
def eval_arglist (recItem : CONST → St → Res (List CONST × St)) :
    List CONST → St → Res (List (List CONST) × St)
  | [], st => Res.ok ([], st)
  | a :: rest, st =>
    (recItem a st).bind fun r =>
    (eval_arglist recItem rest r.2).bind fun r2 => Res.ok (r.1 :: r2.1, r2.2)

/-- The body shared by `eval_min` and `eval_max`, which differ in the
comparisons of their `switch` only. -/
def minmax (env : Env) (replaces : Int → Int → Bool × List Diag) (has_case : Bool)
    (recItem : CONST → St → Res (List CONST × St)) (arg : List CONST) (st : St) :
    Res (List CONST × St) :=
  (deref arg).bind fun a0 =>
    let nelems : Int := if env.DTY a0.dtype = TY.ARRAY then env.numelm_d a0.dtype else 1
    (eval_arglist recItem arg st).bind fun al =>
      match al.1 with
      | [] => Res.undef
      | first :: others =>
        (clone_init_const_list first).bind fun rslt =>
        (deref rslt).bind fun r0 =>
          if r0.id = ACID.ACONST then
            (minmax_elems replaces has_case others nelems.toNat 0 r0.subc).bind fun x =>
              Res.ok (r0.setSubc x.1 :: rslt.tail, reports x.2 al.2)
          else
            (minmax_elems replaces has_case others nelems.toNat 0 rslt).bind fun x =>
              Res.ok (x.1, reports x.2 al.2)

/-- Routine `eval_min`: the element-wise minimum of the folded arguments, built
in a clone of the first; `recItem` is `eval_init_expr_item`. -/
def eval_min (env : Env) (recItem : CONST → St → Res (List CONST × St)) (arg : List CONST)
    (dtype : Nat) (st : St) : Res (List CONST × St) :=
  minmax env (min_replaces env dtype) (minmax_case env dtype) recItem arg st

/-- Routine `eval_max`: the element-wise maximum of the folded arguments. -/
def eval_max (env : Env) (recItem : CONST → St → Res (List CONST × St)) (arg : List CONST)
    (dtype : Nat) (st : St) : Res (List CONST × St) :=
  minmax env (max_replaces env dtype) (minmax_case env dtype) recItem arg st

/-! ## `transfer_store`, `transfer_load`, `eval_transfer` -/

/-- The `n` bytes of a buffer from the position `pos` on. -/
def buf_read (buf : Nat → Int) (pos n : Nat) : List Int :=
  (List.range n).map fun i => buf (pos + i)

/-- The buffer after the given bytes have been stored from `pos` on. -/
def buf_write (buf : Nat → Int) (pos : Nat) (bytes : List Int) : Nat → Int :=
  fun i => if pos ≤ i ∧ i < pos + bytes.length then bytes.getD (i - pos) 0 else buf i

/-- Store `dest[k] = v` through the `int *` view of the buffer at `pos`. -/
def store_int (env : Env) (buf : Nat → Int) (pos k : Nat) (v : Int) : Nat → Int :=
  buf_write buf (pos + 4 * k) (env.int_bytes v)

/-- Read `src[k]` through the `int *` view of the buffer at `pos`. -/
def load_int (env : Env) (buf : Nat → Int) (pos k : Nat) : Int :=
  env.bytes_int (buf_read buf (pos + 4 * k) 4)

/-- Routine `transfer_store`: store the value `conval` of type `dtype` into
the buffer at `pos`; returns the buffer and the diagnostics. -/
def transfer_store (env : Env) (conval : Int) (dtype : Nat) (buf : Nat → Int) (pos : Nat) :
    (Nat → Int) × List Diag :=
  if env.DT_ISWORD dtype then (store_int env buf pos 0 conval, [])
  else
    match env.DTY dtype with
    | TY.DWORD | TY.INT8 | TY.LOG8 | TY.DBLE =>
      (store_int env (store_int env buf pos 0 (env.CONVAL2G conval)) pos 1 (env.CONVAL1G conval),
        [])
    | TY.CMPLX =>
      (store_int env (store_int env buf pos 0 (env.CONVAL1G conval)) pos 1 (env.CONVAL2G conval),
        [])
    | TY.DCMPLX =>
      let real := env.CONVAL1G conval
      let imag := env.CONVAL2G conval
      (store_int env (store_int env (store_int env (store_int env buf pos 0 (env.CONVAL2G real))
        pos 1 (env.CONVAL1G real)) pos 2 (env.CONVAL2G imag)) pos 3 (env.CONVAL1G imag), [])
    | TY.CHAR =>
      (buf_write buf pos ((List.range (env.size_of dtype).toNat).map fun (i : Nat) =>
        env.n_base (env.CONVAL1G conval + (i : Int))), [])
    | _ => (buf, [Diag.interr 3])

/-- Routine `transfer_load`: the value of type `dtype` held by the buffer at
`pos`, and the diagnostics; the words of `num` that are read without having
been set are `Env.indeterminate`. -/
def transfer_load (env : Env) (dtype : Nat) (buf : Nat → Int) (pos : Nat) : Int × List Diag :=
  if env.DT_ISWORD dtype then (load_int env buf pos 0, [])
  else
    match env.DTY dtype with
    | TY.DWORD | TY.INT8 | TY.LOG8 | TY.DBLE =>
      (env.getcon (load_int env buf pos 1) (load_int env buf pos 0) dtype, [])
    | TY.CMPLX =>
      (env.getcon (load_int env buf pos 0) (load_int env buf pos 1) dtype, [])
    | TY.DCMPLX =>
      (env.getcon (env.getcon (load_int env buf pos 1) (load_int env buf pos 0) env.DT_DBLE)
        (env.getcon (load_int env buf pos 3) (load_int env buf pos 2) env.DT_DBLE) dtype, [])
    | TY.CHAR => (env.getstring (buf_read buf pos (env.size_of dtype).toNat), [])
    | _ => (env.getcon env.indeterminate env.indeterminate dtype, [Diag.interr 3])

/-- What the loop `while (avail < rsize)` of `eval_transfer` leaves. -/
structure TransferFill where
  src : List CONST
  bp : Nat
  avail : Int
  buf : Nat → Int
  diags : List Diag

/-- The loop `while (avail < rsize)` of `eval_transfer`: source elements, and
the pad value after the last, are stored at `bp` until `rsize` bytes are
available. -/
def transfer_fill (env : Env) (sdtype : Nat) (ssize rsize pad : Int) :
    Nat → List CONST → Nat → Int → (Nat → Int) → Res TransferFill
  | 0, _, _, _, _ => Res.fuel
  | fuel + 1, src, bp, avail, buf =>
    if avail < rsize then
      let s := match src with
        | c :: _ => transfer_store env c.conval sdtype buf bp
        | [] => transfer_store env pad sdtype buf bp
      (transfer_fill env sdtype ssize rsize pad fuel src.tail (bp + ssize.toNat) (avail + ssize)
        s.1).bind fun f => Res.ok { f with diags := s.2 ++ f.diags }
    else Res.ok { src := src, bp := bp, avail := avail, buf := buf, diags := [] }

/-- The loop `for (i = 0; i < nelem; i++)` of the array case of
`eval_transfer`, with `n` elements left: fill, load one element, and move
the bytes left over to the start of the buffer. -/
def transfer_elems (env : Env) (sdtype rdtype : Nat) (ssize rsize pad : Int) (fuel : Nat) :
    Nat → List CONST → Nat → Int → (Nat → Int) → Res (List CONST × List Diag)
  | 0, _, _, _, _ => Res.ok ([], [])
  | n + 1, src, bp, avail, buf =>
    (transfer_fill env sdtype ssize rsize pad fuel src bp avail buf).bind fun f =>
      let v := transfer_load env rdtype f.buf 0
      let buf1 : Nat → Int := fun j =>
        if (j : Int) < f.avail - rsize then f.buf (rsize.toNat + j) else f.buf j
      (transfer_elems env sdtype rdtype ssize rsize pad fuel n f.src (f.bp - rsize.toNat)
        (f.avail - rsize) buf1).bind fun r =>
        Res.ok (CONST.leaf rdtype 1 v.1 :: r.1, f.diags ++ v.2 ++ r.2)

/-- The local buffer of `eval_transfer` after the fill for the pad value:
`ssize` blanks for a character source, else `ssize` zero bytes. -/
def transfer_buffer (env : Env) (sdtype : Nat) (ssize : Int) : Nat → Int :=
  fun i => if (i : Int) < ssize then (if env.DTY sdtype = TY.CHAR then 32 else 0) else env.uninit i

/-- Routine `eval_transfer`: the bytes of the folded source, taken as values
of the result type; `recE` is `eval_init_expr`. -/
def eval_transfer (env : Env) (recE : List CONST → St → Res (List CONST × St)) (fuel : Nat)
    (arg : List CONST) (dtype : Nat) (st : St) : Res (List CONST × St) :=
  (recE arg st).bind fun r =>
  (deref r.1).bind fun s0 =>
    let sdtype := env.DDTG s0.dtype
    let ssize := env.size_of sdtype
    let rdtype := env.DDTG dtype
    let rsize := env.size_of rdtype
    let buffer := transfer_buffer env sdtype ssize
    let pad := transfer_load env sdtype buffer 0
    let src := if s0.id = ACID.ACONST then s0.subc else r.1
    if env.DTY dtype ≠ TY.ARRAY then
      (transfer_fill env sdtype ssize rsize pad.1 fuel src 0 0 buffer).bind fun f =>
        let v := transfer_load env rdtype f.buf 0
        Res.ok ([CONST.leaf rdtype 1 v.1], reports (pad.2 ++ f.diags ++ v.2) r.2)
    else
      (transfer_elems env sdtype rdtype ssize rsize pad.1 fuel (env.numelm_d dtype).toNat src 0 0
        buffer).bind fun x =>
        Res.ok ([((CONST.leaf dtype 1 0).setId ACID.ACONST).setSubc x.1],
          reports (pad.2 ++ x.2) r.2)

/-! ## Complex division in `init_fold_const`, over exact real arithmetic -/

/-- Routines `_fdiv` and `_ddiv`, the real primitives taken as exact rational
arithmetic: `xfdiv(dividend, divisor)`, or `xfrcp(divisor)` followed by
`xfmul` when `TM_FRCP` is defined and `flg.ieee` is clear (`frcp`).  A
division by zero is `none`. -/
def real_div (frcp : Bool) (dividend divisor : ℚ) : Option ℚ :=
  if divisor = 0 then none
  else if frcp then some (dividend * (1 / divisor))
  else some (dividend / divisor)

/-- The case `OP_DIV` of `TY_CMPLX` in `init_fold_const`, the real primitives
`xfadd`, `xfsub`, `xfmul`, `xfcmp` taken as exact rational arithmetic:
`(real1 + imag1 i) / (real2 + imag2 i)`.  Returns `(realrs, imagrs)`. -/
def cmplx_div (frcp : Bool) (real1 imag1 real2 imag2 : ℚ) : Option (ℚ × ℚ) :=
  let realrs := if real2 < 0 then 0 - real2 else real2
  let imagrs := if imag2 < 0 then 0 - imag2 else imag2
  if realrs ≤ imagrs then
    (real_div frcp real2 imag2).bind fun temp =>
    let temp1 := temp * temp
    let temp1 := 1 + temp1
    let temp1 := imag2 * temp1
    (real_div frcp 1 temp1).bind fun temp1 =>
    let realrs := real1 * temp
    let realrs := realrs + imag1
    let realrs := realrs * temp1
    let imagrs := imag1 * temp
    let imagrs := imagrs - real1
    let imagrs := imagrs * temp1
    some (realrs, imagrs)
  else
    (real_div frcp imag2 real2).bind fun temp =>
    let temp1 := temp * temp
    let temp1 := 1 + temp1
    let temp1 := real2 * temp1
    (real_div frcp 1 temp1).bind fun temp1 =>
    let realrs := imag1 * temp
    let realrs := real1 + realrs
    let realrs := realrs * temp1
    let imagrs := real1 * temp
    let imagrs := imag1 - imagrs
    let imagrs := imagrs * temp1
    some (realrs, imagrs)

/-- The case `OP_DIV` of `TY_DCMPLX` in `init_fold_const`, the real
primitives `xdadd`, `xdsub`, `xdmul`, `xdcmp` taken as exact rational
arithmetic; `dtemp2` holds `stb.dbl0`, then `stb.dbl1`.  Returns
`(drealrs, dimagrs)`. -/
def dcmplx_div (frcp : Bool) (dreal1 dimag1 dreal2 dimag2 : ℚ) : Option (ℚ × ℚ) :=
  let dtemp2 : ℚ := 0
  let drealrs := if dreal2 < dtemp2 then dtemp2 - dreal2 else dreal2
  let dimagrs := if dimag2 < dtemp2 then dtemp2 - dimag2 else dimag2
  let dtemp2 : ℚ := 1
  if drealrs ≤ dimagrs then
    (real_div frcp dreal2 dimag2).bind fun dtemp =>
    let dtemp1 := dtemp * dtemp
    let dtemp1 := dtemp2 + dtemp1
    let dtemp1 := dimag2 * dtemp1
    (real_div frcp dtemp2 dtemp1).bind fun dtemp1 =>
    let drealrs := dreal1 * dtemp
    let drealrs := drealrs + dimag1
    let drealrs := drealrs * dtemp1
    let dimagrs := dimag1 * dtemp
    let dimagrs := dimagrs - dreal1
    let dimagrs := dimagrs * dtemp1
    some (drealrs, dimagrs)
  else
    (real_div frcp dimag2 dreal2).bind fun dtemp =>
    let dtemp1 := dtemp * dtemp
    let dtemp1 := dtemp2 + dtemp1
    let dtemp1 := dreal2 * dtemp1
    (real_div frcp dtemp2 dtemp1).bind fun dtemp1 =>
    let drealrs := dimag1 * dtemp
    let drealrs := dreal1 + drealrs
    let drealrs := drealrs * dtemp1
    let dimagrs := dreal1 * dtemp
    let dimagrs := dimag1 - dimagrs
    let dimagrs := dimagrs * dtemp1
    some (drealrs, dimagrs)

/-! ## `_selected_char_kind`, `eval_selected_char_kind` -/

/-- What a routine that returns `CONST *` hands back: a node, or an address
that is not a node (an integer cast to the pointer type). -/
inductive ConstPtr where
  | node (c : CONST)
  | addr (a : Nat)

/-- Routine `_selected_char_kind`: the kind of the character set named by the
constant `con`. -/
def _selected_char_kind (env : Env) (con : Int) : Int :=
  if env.sem_eq_str con "ASCII" then 1
  else if env.sem_eq_str con "DEFAULT" then 1
  else -1

/-- Routine `eval_selected_char_kind`; `recE` is `eval_init_expr`.  For the
name `DEFAULT` the routine executes `return (CONST *)1`. -/
def eval_selected_char_kind (env : Env) (recE : List CONST → St → Res (List CONST × St))
    (arg : List CONST) (st : St) : Res (ConstPtr × St) :=
  (recE arg st).bind fun r =>
  (deref r.1).bind fun rslt =>
    let con := rslt.conval
    if env.sem_eq_str con "ASCII" then Res.ok (ConstPtr.node (CONST.leaf env.DT_INT 1 1), r.2)
    else if env.sem_eq_str con "DEFAULT" then Res.ok (ConstPtr.addr 1, r.2)
    else Res.ok (ConstPtr.node (CONST.leaf env.DT_INT 1 (-1)), r.2)

/-! ## Concatenation of two arrays in `eval_init_op` -/

/-- The characters `stb.n_base[CONVAL1G(sptr) .. CONVAL1G(sptr) + len - 1]` of
a character constant. -/
def chars_of (env : Env) (sptr : Int) (len : Int) : List Int :=
  (List.range len.toNat).map fun (i : Nat) => env.n_base (env.CONVAL1G sptr + (i : Int))

/-- The leaf built by the `AC_CAT` loops of `eval_init_op` from the constants
`lsptr` of length `llen` and `rsptr` of length `rlen`: the two strings are
copied one after the other and entered by `getstring`. -/
def cat_leaf (env : Env) (lsptr llen rsptr rlen : Int) : CONST :=
  let s := chars_of env lsptr llen ++ chars_of env rsptr rlen
  (CONST.leaf (env.get_type TY.CHAR (llen + rlen)) 1 (env.getstring s)).setSptr
    (env.getstring s).toNat

/-- The loop `for (; cur_rop && cur_lop;)` of the case `op == AC_CAT` of
"array <binop> array" in `eval_init_op`.  When the count of the left node is
used up the code moves to the next left node and assigns its repeat count to
`r_repeatc`. -/
def eval_init_op_cat_arrays (env : Env) (ldtype rdtype : Nat) :
    Nat → List CONST → List CONST → Int → Int → Res (List CONST)
  | 0, _, _, _, _ => Res.fuel
  | _ + 1, [], _, _, _ => Res.ok []
  | _ + 1, _ :: _, [], _, _ => Res.ok []
  | fuel + 1, cl :: lrest, cr :: rrest, l_repeatc, r_repeatc =>
    let c := cat_leaf env cl.conval (env.size_of (env.DDTG ldtype)) cr.conval
      (env.size_of (env.DDTG rdtype))
    let l1 := l_repeatc - 1
    let cur_lop := if l1 ≤ 0 then lrest else cl :: lrest
    let r0 := if l1 ≤ 0 then (match lrest with | [] => r_repeatc | n :: _ => n.repeatc)
              else r_repeatc
    let r1 := r0 - 1
    let cur_rop := if r1 ≤ 0 then rrest else cr :: rrest
    let r2 := if r1 ≤ 0 then (match rrest with | [] => r1 | n :: _ => n.repeatc) else r1
    (eval_init_op_cat_arrays env ldtype rdtype fuel cur_lop cur_rop l1 r2).bind fun x =>
      Res.ok (c :: x)

/-- The case "array <binop> array" of `eval_init_op` for `op == AC_CAT`,
embedded from the code (the routine `eval_init_op` above hands this case to
`Env.eval_init_op_ext`). -/
def eval_init_op_cat (env : Env) (fuel : Nat) (lop : List CONST) (ldtype : Nat)
    (rop : List CONST) (rdtype : Nat) : Res (List CONST) :=
  (operand_list lop).bind fun l =>
  (operand_list rop).bind fun r =>
  (deref l).bind fun l0 =>
  (deref r).bind fun r0 =>
    eval_init_op_cat_arrays env ldtype rdtype fuel l r l0.repeatc r0.repeatc

/-! ## `eval_index` -/

/-- Test `strncmp(stb.n_base + p, stb.n_base + q, n) == 0`. -/
def strncmp_eq (env : Env) : Nat → Int → Int → Bool
  | 0, _, _ => true
  | n + 1, p, q =>
    if env.n_base p ≠ env.n_base q then false
    else if env.n_base p = 0 then true
    else strncmp_eq env n (p + 1) (q + 1)

/-- The test of the two search loops of `eval_index` at the position `i`:
`p_string[i] == p_substring[0] && strncmp(p_string + i, p_substring, l_substring) == 0`. -/
def index_match (env : Env) (p_string p_substring l_substring : Int) (i : Int) : Bool :=
  env.n_base (p_string + i) == env.n_base p_substring &&
    strncmp_eq env l_substring.toNat (p_string + i) p_substring

/-- The value `c->u1.conval` that `eval_index` computes for one string: the
node is zeroed, and each of the two loops runs over all the positions
`0 .. n` and assigns `i + 1` at every position that matches. -/
def index_value (env : Env) (p_string l_string p_substring l_substring back : Int) : Int :=
  let n := l_string - l_substring
  let step : Int → Nat → Int := fun acc i =>
    if index_match env p_string p_substring l_substring (i : Int) then (i : Int) + 1 else acc
  if back = 0 then
    (List.range (n + 1).toNat).foldl step (if l_substring = 0 then 1 else 0)
  else
    (List.range (n + 1).toNat).reverse.foldl step (if l_substring = 0 then l_string + 1 else 0)

/-- Routine `eval_index`; `recI` is `eval_init_expr_item`.  A node of the
folded string argument that is not an `AC_CONST` fails the `assert` of the
loop, which reports and goes on. -/
def eval_index (env : Env) (recI : CONST → St → Res (List CONST × St)) (arg : List CONST)
    (st : St) : Res (List CONST × St) :=
  match arg with
  | [] => Res.undef
  | [_] => Res.undef
  | a0 :: a1 :: rest =>
    (recI a1 st).bind fun r1 =>
    (deref r1.1).bind fun w1 =>
    let p_substring := env.CONVAL1G w1.conval
    let l_substring := env.size_of w1.dtype
    let k : Int → St → Res (List CONST × St) := fun back st2 =>
      (deref (if a0.id = ACID.ACONST then a0.subc else a0 :: a1 :: rest)).bind fun w =>
      (recI w st2).bind fun r =>
        Res.ok (r.1.map (fun c => CONST.leaf env.DT_INT 1
          (index_value env (env.CONVAL1G c.conval) (env.size_of c.dtype) p_substring
            l_substring back)),
          reports ((r.1.filter fun c => c.id != ACID.CONST).map fun _ => Diag.interr 4) r.2)
    match rest with
    | [] => k 0 r1.2
    | a2 :: _ =>
      (recI a2 r1.2).bind fun r2 =>
      (deref r2.1).bind fun w2 => k (get_ival env w2.dtype w2.conval) r2.2

/-! ## `eval_trim`, `eval_len_trim` -/

/-- The loop `while (cvlen-- > 0) { if (*p-- != ' ') break; newlen--; }` of
`eval_trim` and `eval_len_trim`, `p` starting at the last of the `cvlen`
characters from `base` on: the value of `newlen` (`result`) after the loop. -/
def skip_trailing_blanks (env : Env) (base : Int) : Nat → Nat
  | 0 => 0
  | n + 1 =>
    if env.n_base (base + (n : Int)) ≠ 32 then n + 1 else skip_trailing_blanks env base n

/-- Routine `eval_trim`; `recE` is `eval_init_expr`.  The first node of the
folded argument is changed in place and returned: its value is the string
without its trailing blanks, entered by `getstring`, or the string `" "` if
nothing is left; its type is `get_type(2, DTY(dtype), newlen)`. -/
def eval_trim (env : Env) (recE : List CONST → St → Res (List CONST × St)) (arg : List CONST)
    (dtype : Nat) (st : St) : Res (List CONST × St) :=
  (recE arg st).bind fun r =>
    match r.1 with
    | [] => Res.undef
    | rslt :: rest =>
      let newlen := skip_trailing_blanks env (env.CONVAL1G rslt.conval)
        (env.size_of rslt.dtype).toNat
      let v := if newlen = 0 then env.getstring [32]
               else env.getstring (chars_of env rslt.conval (newlen : Int))
      Res.ok ((rslt.setConval v).setDtype (env.get_type (env.DTY dtype) (newlen : Int)) :: rest,
        r.2)

/-- The assignments of the loop of `eval_len_trim` to one node: it becomes an
integer leaf of repeat count 1 that holds the length without the trailing
blanks. -/
def len_trim_node (env : Env) (c : CONST) : CONST :=
  (((c.setId ACID.CONST).setDtype env.DT_INT).setRepeatc 1).setConval
    (skip_trailing_blanks env (env.CONVAL1G c.conval) (env.size_of c.dtype).toNat : Nat)

/-- Routine `eval_len_trim`; `recI` is `eval_init_expr_item`.  The nodes of
the folded argument, or the items of a folded array constructor, are changed
in place. -/
def eval_len_trim (env : Env) (recI : CONST → St → Res (List CONST × St)) (arg : List CONST)
    (st : St) : Res (List CONST × St) :=
  (deref arg).bind fun a =>
  (recI a st).bind fun r =>
    match r.1 with
    | [] => Res.undef
    | rslt :: rest =>
      if rslt.id = ACID.ACONST then
        Res.ok (rslt.setSubc (rslt.subc.map (len_trim_node env)) :: rest, r.2)
      else Res.ok ((rslt :: rest).map (len_trim_node env), r.2)

/-- Test that `x` is a value of the signed type `ISZ_T` of `w` bits (the
typedef is not part of `dinit.c`; `w` is 64 where `ISZ_T` is `long`). -/
def isz_ok (w : Nat) (x : Int) : Bool :=
  decide (-(2 ^ (w - 1) : Int) ≤ x) && decide (x < (2 ^ (w - 1) : Int))

/-- One iteration of a `for` loop of `eval_do` with the index `ISZ_T i` of `w`
bits: as `eval_do_body`, and the increment `i += stepval` is undefined when
the sum is no `ISZ_T` value. -/
def eval_do_body_isz (w : Nat) (env : Env) (recE : St → Res (List CONST × St)) (loc : IdxLoc)
    (up : Bool) (limitval stepval : Int) (x : Int × List CONST × Bool × St) :
    Res ((Int × List CONST × Bool × St) ⊕ (List CONST × Bool × St)) :=
  if (if up then x.1 ≤ limitval else x.1 ≥ limitval) then
    (idx_dtype loc x.2.2.2).bind fun dt =>
    (recE (idx_store loc (idx_conval env dt x.1) x.2.2.2)).bind fun r =>
      if isz_ok w (x.1 + stepval) then Res.ok (Sum.inl (x.1 + stepval, x.2.1 ++ r.1, true, r.2))
      else Res.undef
  else Res.ok (Sum.inr x.2)

/-- Routine `eval_do` with the index `ISZ_T i` of `w` bits: as `eval_do`, with
the loop body `eval_do_body_isz`. -/
def eval_do_isz (w : Nat) (env : Env) : Nat → CONST → St → Res (List CONST × St)
  | 0, _, _ => Res.fuel
  | fuel + 1, ido, st =>
    (deref ido.initval).bind fun e1 =>
    (eval_init_expr_item env fuel e1 st).bind fun r1 =>
    (deref ido.limitval).bind fun e2 =>
    (eval_init_expr_item env fuel e2 r1.2).bind fun r2 =>
    (deref ido.stepval).bind fun e3 =>
    (eval_init_expr_item env fuel e3 r2.2).bind fun r3 =>
    (deref r1.1).bind fun initict =>
    (deref r2.1).bind fun limitict =>
    (deref r3.1).bind fun stepict =>
    let initval := get_ival env initict.dtype initict.conval
    let limitval := get_ival env limitict.dtype limitict.conval
    let stepval := get_ival env stepict.dtype stepict.conval
    let ix := eval_do_index env ido.index_var r3.2
    (loopN (eval_do_body_isz w env (fun st1 => eval_init_expr env fuel ido.subc st1) ix.1
        (decide (stepval ≥ 0)) limitval stepval) fuel (initval, [], false, ix.2)).bind fun x =>
    let clear : St → St := fun st1 => { st1 with DOVARG := upd st1.DOVARG ido.index_var false }
    if x.2.1 = false ∧ ido.subc.isEmpty = false then
      (eval_init_expr env fuel ido.subc x.2.2).bind fun r =>
        Res.ok (x.1 ++ r.1, clear r.2)
    else Res.ok (x.1, clear x.2.2)

/-! ## `dinit`, `do_dinit`, `df_dinit`: the deferred queue -/

/-- Routine `dinit`: save the variable list, the constant tree and the
current position at the end of the deferred-dinit file. -/
def dinit (ivl : List VAR) (ict : List CONST) (st : St) : St :=
  { st with df := some ((match st.df with | none => [] | some q => q) ++
      [{ ivl := ivl, ict := ict, lineno := st.lineno, findex := st.findex }]) }

/-- Routine `df_dinit`: fold the constant tree of one record and walk it,
with the variable list of a DATA statement or as a type/structure initialiser. -/
def df_dinit (env : Env) (fuel : Nat) (ivl : List VAR) (ict : List CONST) (st : St) : Res St :=
  (eval_init_expr env fuel ict { st with substr_len := 0 }).bind fun r =>
    match ivl with
    | _ :: _ => dinit_data env fuel ivl (some 0) r.1 0 0 { r.2 with top := 0 }
    | [] =>
      (deref ict).bind fun c =>
        dinit_subs env fuel r.1 c.sptr 0 0 (sym_is_dinitd env c.sptr r.2)

/-- Test of `do_dinit` for a record that is not processed:
`ict && ict->no_dinitp && (SCG(ict->sptr) == SC_LOCAL || SCG(ict->sptr) == SC_PRIVATE)`. -/
def skip_record (env : Env) (ict : List CONST) : Bool :=
  match ict with
  | [] => false
  | c :: _ => c.no_dinitp && (env.SCG c.sptr == SC.LOCAL || env.SCG c.sptr == SC.PRIVATE)

/-- The `while (TRUE)` loop of `do_dinit` over the records of the file. -/
def do_dinit_loop (env : Env) (fuel : Nat) : List Deferred → St → Res St
  | [], st => Res.ok st
  | d :: rest, st =>
    let st1 := { st with lineno := d.lineno, findex := d.findex }
    if skip_record env d.ict then do_dinit_loop env fuel rest st1
    else (df_dinit env fuel d.ivl d.ict st1).bind fun st2 => do_dinit_loop env fuel rest st2

/-- Routine `do_dinit`: read back the records saved by `dinit` and write the
dinit records of each; the file is closed at the end. -/
def do_dinit (env : Env) (fuel : Nat) (st : St) : Res St :=
  match st.df with
  | none => Res.ok st
  | some q =>
    (do_dinit_loop env fuel q { st with init_const := fun _ => [] }).bind fun st1 =>
      Res.ok { st1 with df := none }

/-- The ILM of a reference `x%m1%m2%...`: an `IM_MEMBER` for every member of
`mems`, innermost first, over the `IM_BASE` of the variable `base`. -/
def member_chain (base : Nat) (mems : List Nat) : IRef :=
  mems.foldl IRef.MEMBER (IRef.BASE base)

/-- Sum of the offsets `ADDRESSG(m)` of the members of a list. -/
def member_offsets (env : Env) (mems : List Nat) : Int :=
  (mems.map env.ADDRESSG).sum

/-! ## A concrete symbol table for examples -/

/-- A small program used in the examples: symbol 10 is `integer a(6)`, symbol
11 is `integer b(3)`, symbol 12 is the integer scalar `k`, symbol 13 is the
implied-do index `i`; symbol 20 is a variable of a derived type whose member
21 (offset 8) is of a derived type with the integer member 22 (offset 4) and
the array member 23, `integer c(6)` at offset 16.  Type 5 is `integer`, 6 is
`integer(6)`, 7 is `integer(3)`, 8 and 9 are the two derived types.
Constant symbols 100 + n hold the integer n. -/
def exEnv : Env where
  SCG := fun _ => SC.LOCAL
  DTYPEG := fun s =>
    if s = 10 then 6 else if s = 11 then 7 else if s = 20 then 8 else if s = 21 then 9
    else if s = 23 then 6 else 5
  POINTERG := fun _ => false
  UPLEVELG := fun _ => false
  PARAMG := fun _ => false
  CCSYMG := fun _ => false
  ALLOCG := fun _ => false
  ASUMSZG := fun _ => false
  ADJARRG := fun _ => false
  CLASSG := fun _ => false
  VTABLEG := fun _ => false
  TBPLNKG := fun _ => false
  FINALG := fun _ => false
  ADDRESSG := fun s => if s = 21 then 8 else if s = 22 then 4 else if s = 23 then 16 else 0
  SYMLKG := fun _ => 1
  MIDNUMG := fun _ => 0
  CONVAL1G := fun _ => 0
  CONVAL2G := fun c => c - 100
  NOSYM := 1
  DTY := fun d =>
    if d = 6 ∨ d = 7 then TY.ARRAY else if d = 8 ∨ d = 9 then TY.STRUCT else TY.INT
  DTYn := fun _ _ => 0
  DDTG := fun d => if d = 6 ∨ d = 7 then 5 else d
  size_of := fun d =>
    if d = 6 then 24 else if d = 7 then 12 else if d = 8 then 48 else if d = 9 then 40 else 4
  extent_of := fun d => if d = 6 then 6 else if d = 7 then 3 else 0
  numelm := fun s => if s = 10 ∨ s = 23 then 6 else if s = 11 then 3 else 1
  numelm_d := fun d => if d = 6 then 6 else if d = 7 then 3 else 1
  lwbd := fun _ _ => 1
  upbd := fun s _ => if s = 10 ∨ s = 23 then 6 else if s = 11 then 3 else 1
  mlpyr := fun _ _ => 1
  no_data_components := fun _ => false
  is_empty_typedef := fun _ => false
  cngcon := fun v _ _ => v
  get_type := fun _ _ => 5
  getstring_blank := 0
  getstring_char := fun v => v
  get_isz_cval := fun c => c - 100
  getcon_isz := fun v _ => v + 100
  DT_ISINT := fun d => d = 5
  DT_ISLOG := fun _ => false
  DT_CHAR := 4
  dbl0 := 0
  xbit_124_0x400 := false
  flg_standard := false
  flg_opt := 0
  SCFTN_TRUE := -1
  SCFTN_FALSE := 0
  DT_INT := 5
  DT_INT8 := 3
  k1 := 101
  fold_other := fun _ _ _ _ => (0, [])
  negate_other := fun _ _ => (0, [])
  eval_init_op_ext := fun _ _ _ _ _ _ _ => ([], [])
  init_list_count := 8
  indeterminate := 0
  n_base := fun _ => 32
  numdim_d := fun _ => 1
  upbd_d := fun d _ => if d = 6 then 6 else if d = 7 then 3 else 1
  DT_ISWORD := fun _ => true
  ad_val_of := fun c => c - 100
  lwbd_d := fun _ _ => 1
  mlpyr_d := fun _ _ => 1
  strcmp := fun a b => a - b
  xfcmp := fun a b => a - b
  int_bytes := fun x =>
    [x % 4294967296 % 256, x % 4294967296 / 256 % 256, x % 4294967296 / 65536 % 256,
      x % 4294967296 / 16777216 % 256]
  bytes_int := fun l =>
    match l with
    | [b0, b1, b2, b3] => wrap32 (b0 + 256 * b1 + 65536 * b2 + 16777216 * b3)
    | _ => 0
  getcon := fun _ b _ => b + 100
  getstring := fun _ => 0
  DT_DBLE := 12
  uninit := fun _ => 0
  sem_eq_str := fun _ _ => false

/-- The state at the start of a drain pass: nothing written, no error, empty
implied-do stack, empty table of saved initialisers. -/
def exSt : St where
  out := []
  errs := []
  dinit_error := 0
  substr_len := 0
  dostack := fun _ => { sptr := 0, currval := 0, upbd := 0, step := 0 }
  top := 0
  buf := { sptr := 0, mem := 0, offset := 0 }
  init_const := fun _ => []
  cur_init := 0
  DINITG := fun _ => false
  STYPEG := fun s => if s = 10 ∨ s = 11 ∨ s = 23 then STYPE.ARRAY else STYPE.VAR
  PARAMVALG := fun _ => 0
  DOVARG := fun _ => false
  REDUCG := fun _ => false
  dvl := []
  lineno := 0
  findex := 0
  df := none

/-- The whole-array reference `a` (an `S_IDENT` reference to symbol 10). -/
def exRefA : Varref := { id := SID.S_IDENT, ptr := IRef.BASE 10, dtype := 6, shape := 0 }

/-- The whole-array reference `b` (an `S_IDENT` reference to symbol 11). -/
def exRefB : Varref := { id := SID.S_IDENT, ptr := IRef.BASE 11, dtype := 7, shape := 0 }

/-- The scalar reference `k` (an `S_IDENT` reference to symbol 12). -/
def exRefK : Varref := { id := SID.S_IDENT, ptr := IRef.BASE 12, dtype := 5, shape := 0 }

/-- The reference `x%m%n`: member 22 of member 21 of the variable 20. -/
def exRefNested : Varref :=
  { id := SID.S_LVALUE, ptr := member_chain 20 [21, 22], dtype := 5, shape := 0 }

/-- The element reference `a(7)`, outside the bounds `1:6` of `a`. -/
def exRefOob : Varref :=
  { id := SID.S_LVALUE, ptr := IRef.ELEMENT (IRef.BASE 10) [IExpr.ICON 107], dtype := 5,
    shape := 0 }

/-- The leaf `3 * 7` of a type-declaration initialiser of the array `b`
(symbol 11): repeat count 3, value 7, naming the symbol it initialises. -/
def exLeafB : CONST := (CONST.leaf 5 3 7).setSptr 11

/-- Projection of the result of `dinit_varref` on what can be compared:
the values and repeat counts of the remaining constants, `*repeat`, the
records written, the diagnostics and the error counter. -/
def varref_view (r : Res (List CONST × Int × St)) :
    Res (List (Int × Int) × Int × List Directive × List Diag × Int) :=
  r.bind fun x => Res.ok (x.1.map (fun c => (c.conval, c.repeatc)), x.2.1, x.2.2.out,
    x.2.2.errs, x.2.2.dinit_error)

/-- Is the record a `DINIT_OFFSET`? -/
def Directive.isSetOffset : Directive → Bool
  | Directive.SetOffset _ => true
  | _ => false

/-- Is the record a `DINIT_REPEAT`? -/
def Directive.isRepeat : Directive → Bool
  | Directive.Repeat _ => true
  | _ => false

/-- Is the record a typed value? -/
def Directive.isStoreValue : Directive → Bool
  | Directive.StoreValue _ _ => true
  | _ => false

/-- The records written by a routine that returns a state; nothing when the
routine does not return. -/
def written : Res St → List Directive
  | Res.ok st => st.out
  | _ => []

/-- Run-length expansion of a list of leaves: every node stands for
`repeatc` consecutive elements. -/
def expand : List CONST → List CONST
  | [] => []
  | c :: cs => List.replicate c.repeatc.toNat c ++ expand cs

/-- The elements that remain at a list position of `dinit_varref`: `rep`
elements of the first node (the value of `*repeat`), then the expansion of the
following nodes. -/
def expand_at (ict : List CONST) (rep : Int) : List CONST :=
  match ict with
  | [] => []
  | c :: cs => List.replicate rep.toNat c ++ expand cs

/-- A list position of `dinit_varref` is well formed: at the end of the list
with `*repeat = 0`, or at a node with between 1 and `repeatc` elements left. -/
def position_wf (ict : List CONST) (rep : Int) : Prop :=
  match ict with
  | [] => rep = 0
  | c :: _ => 1 ≤ rep ∧ rep ≤ c.repeatc

/-- A flat list of leaves: `AC_CONST` nodes of a non-structure type with a
repeat count of at least 1. -/
def flat_leaves (env : Env) (ict : List CONST) : Prop :=
  ∀ c ∈ ict, c.id = ACID.CONST ∧ env.DTY c.dtype ≠ TY.STRUCT ∧ 1 ≤ c.repeatc

/-- Number of index values `init, init + step, ...` that do not pass `limit`
(0 for a zero step). -/
def trip_count (init limit step : Int) : Nat :=
  if step > 0 then ((limit - init) / step + 1).toNat
  else if step < 0 then ((init - limit) / (- step) + 1).toNat
  else 0

/-- The index values of an implied do: `init, init + step, init + 2 * step, ...`
for as long as the value is `≤ limit` (`step > 0`) or `≥ limit` (`step < 0`). -/
def ido_values (init limit step : Int) : List Int :=
  (List.range (trip_count init limit step)).map fun (k : Nat) => init + (k : Int) * step

/-- The expansion of an implied do as the specification describes it: for each
index value in turn, bind the index node to the value, fold the body with
`recE`, and concatenate the results in iteration order. -/
def ido_unroll (env : Env) (recE : St → Res (List CONST × St)) (loc : IdxLoc) :
    List Int → St → Res (List CONST × St)
  | [], st => Res.ok ([], st)
  | v :: vs, st =>
    (idx_dtype loc st).bind fun dt =>
    (recE (idx_store loc (idx_conval env dt v) st)).bind fun r =>
    (ido_unroll env recE loc vs r.2).bind fun r2 => Res.ok (r.1 ++ r2.1, r2.2)

/-- The implied do `(i * i, i = 1, 5, 2)` over the index symbol 13. -/
def exIdoSquares : CONST :=
  CONST.mk ACID.IDO
    [CONST.mk ACID.IEXPR [] 1 0 0 5 false 0 ACOP.MUL
      [CONST.mk ACID.IDENT [] 1 13 0 5 false 0 ACOP.NONE [] [] 0 [] [] []]
      [CONST.mk ACID.IDENT [] 1 13 0 5 false 0 ACOP.NONE [] [] 0 [] [] []] 0 [] [] []]
    1 0 0 5 false 0 ACOP.NONE [] [] 13 [CONST.leaf 5 1 1] [CONST.leaf 5 1 5] [CONST.leaf 5 1 2]

/-- The implied do `(i, i = 5, 1, -2)` over the index symbol 13. -/
def exIdoDown : CONST :=
  CONST.mk ACID.IDO [CONST.mk ACID.IDENT [] 1 13 0 5 false 0 ACOP.NONE [] [] 0 [] [] []]
    1 0 0 5 false 0 ACOP.NONE [] [] 13 [CONST.leaf 5 1 5] [CONST.leaf 5 1 1] [CONST.leaf 5 1 (-2)]

/-- The zero-trip implied do `(i, i = 5, 1, 2)` over the index symbol 13. -/
def exIdoZeroTrip : CONST :=
  CONST.mk ACID.IDO [CONST.mk ACID.IDENT [] 1 13 0 5 false 0 ACOP.NONE [] [] 0 [] [] []]
    1 0 0 5 false 0 ACOP.NONE [] [] 13 [CONST.leaf 5 1 5] [CONST.leaf 5 1 1] [CONST.leaf 5 1 2]

/-- The values of the leaves of a folded list. -/
def leaf_values (r : Res (List CONST × St)) : Res (List Int) :=
  r.bind fun x => Res.ok (x.1.map fun c => c.conval)

/-- The state held by the outcome of one iteration of the loop of
`dinit_varref`. -/
def varref_iter_state : VarrefLoop ⊕ (Bool × VarrefLoop) → St
  | Sum.inl s => s.st
  | Sum.inr x => x.2.st

/-- The state held by the outcome of one iteration of the loop of `dinit_data`. -/
def data_iter_state : DataLoop ⊕ St → St
  | Sum.inl s => s.st
  | Sum.inr st => st

/-- What the walk of one reference leaves alone: the implied-do stack and its
top, and an error flag that is already set. -/
def frame (s s' : St) : Prop :=
  s'.dostack = s.dostack ∧ s'.top = s.top ∧ (0 < s.dinit_error → 0 < s'.dinit_error)

/-- The `do ... while` loop of `dinit_data`, for at most the given number of
iterations; the calls of `dinit_varref` are made with fuel `fuel`.  The
routine `dinit_data env (fuel + 1) vars ivl ict dtype base_off st` is this
loop run for at most `fuel` iterations from the node `ivl` with `repeat = 0`. -/
def data_loop (env : Env) (fuel : Nat) (vars : List VAR) (dtype : Nat) (base_off : Int) :
    Nat → DataLoop → Res St :=
  loopN (data_body env
    (fun v member ic rep st1 => dinit_varref env fuel v member ic dtype rep base_off st1) vars)

/-- One pass over the references of the body of an implied do: each reference
in turn is walked by `dinit_varref`, which hands the remaining constants and
`repeat` to the next; the pass ends early after a reference that leaves
`sem.dinit_error` set. -/
def walk_refs (env : Env) (fuel : Nat) (dtype : Nat) (base_off : Int) :
    List Varref → List CONST × Int × St → Res (List CONST × Int × St)
  | [], x => Res.ok x
  | v :: vs, x =>
    (dinit_varref env fuel (some v) 0 x.1 dtype x.2.1 base_off x.2.2).bind fun a =>
      if truthy a.2.2.dinit_error then Res.ok a
      else walk_refs env fuel dtype base_off vs a

/-- The implied-do stack of the pass with index value `val`: the only active
entry holds the index variable, its value, the upper bound and the step. -/
def ido_bind (idx : Nat) (val upbd step : Int) (st : St) : St :=
  { st with top := 1, dostack := upd st.dostack 0 ⟨idx, val, upbd, step⟩ }

/-- The implied-do stack after the last pass: the entry is popped; its slot
keeps the first index value that is past the bound. -/
def ido_exit (idx : Nat) (val upbd step : Int) (st : St) : St :=
  { st with top := 0, dostack := upd st.dostack 0 ⟨idx, val, upbd, step⟩ }

/-- The passes `k, k + 1, ..., k + n - 1` over the body of an implied do with
lower bound `lower`: pass `j` is made with the index bound to
`lower + j * step`; a pass that leaves `sem.dinit_error` set is the last. -/
def walk_passes (env : Env) (fuel : Nat) (dtype : Nat) (base_off : Int) (body : List Varref)
    (idx : Nat) (lower upbd step : Int) :
    Nat → Nat → List CONST × Int × St → Res (List CONST × Int × St)
  | 0, _, x => Res.ok x
  | n + 1, k, x =>
    (walk_refs env fuel dtype base_off body
      (x.1, x.2.1, ido_bind idx (lower + (k : Int) * step) upbd step x.2.2)).bind fun a =>
      if truthy a.2.2.dinit_error then Res.ok a
      else walk_passes env fuel dtype base_off body idx lower upbd step n (k + 1) a

/-- The walk returned and left `sem.dinit_error` clear. -/
def walk_clean (r : Res (List CONST × Int × St)) : Bool :=
  match r with
  | Res.ok x => x.2.2.dinit_error == 0
  | _ => false

/-- Number of passes of an implied do that is entered:
`floor((upper - lower) / step) + 1`. -/
def ido_trips (lower upper step : Int) : Nat :=
  (Int.fdiv (upper - lower) step + 1).toNat

/-- The element reference `a(i)`, with the implied-do index `i` (symbol 13) as
subscript. -/
def exRefAi : Varref :=
  { id := SID.S_LVALUE, ptr := IRef.ELEMENT (IRef.BASE 10) [IExpr.LD 13], dtype := 5,
    shape := 0 }

/-- The variable list of `DATA (a(i), i = 1, 5, 2) / ... /`. -/
def exVarsIdo : List VAR :=
  [VAR.Dostart (IExpr.LD 13) (IExpr.ICON 101) (IExpr.ICON 105) (IExpr.ICON 102),
   VAR.Varref exRefAi, VAR.Doend 0]

/-- The constants `7, 8, 9` of `DATA (a(i), i = 1, 5, 2) /7, 8, 9/`. -/
def exIctIdo : List CONST := [CONST.leaf 5 1 7, CONST.leaf 5 1 8, CONST.leaf 5 1 9]

/-- The element reference `a(2)`, inside the bounds `1:6` of `a`. -/
def exRefA2 : Varref :=
  { id := SID.S_LVALUE, ptr := IRef.ELEMENT (IRef.BASE 10) [IExpr.ICON 102], dtype := 5,
    shape := 0 }

/-- What a drain pass leaves that can be compared: the records written, the
diagnostics and `sem.dinit_error`. -/
def drain_view (r : Res St) : Res (List Directive × List Diag × Int) :=
  r.bind fun s => Res.ok (s.out, s.errs, s.dinit_error)

/-- The symbols that cannot be data initialised, as the specification lists
them: a dummy argument, a symbol with based storage, a member of a common
block that is allocatable, and an array symbol that is allocatable, of assumed
size or adjustable. -/
def not_initialisable (env : Env) (sptr : Nat) (st : St) : Bool :=
  env.SCG sptr == SC.DUMMY || env.SCG sptr == SC.BASED ||
  (env.SCG sptr == SC.CMBLK && env.ALLOCG (env.MIDNUMG sptr)) ||
  (st.STYPEG sptr == STYPE.ARRAY &&
    (env.ALLOCG sptr || env.ASUMSZG sptr || env.ADJARRG sptr))

/-- The symbol of the `IM_BASE` ILM that a reference starts from. -/
def IRef.root : IRef → Option Nat
  | IRef.BASE s => some s
  | IRef.MEMBER b _ => b.root
  | IRef.ELEMENT b _ => b.root
  | IRef.SUBS b _ _ => b.root
  | IRef.NSUBS b _ _ => b.root
  | _ => none

/-- The symbol table of the examples with symbol 10, the array `a`, made a
dummy argument. -/
def exEnvDummy : Env := { exEnv with SCG := fun s => if s = 10 then SC.DUMMY else SC.LOCAL }

/-- The integer kinds held in one 32-bit word: `TY_BINT`, `TY_SINT`, `TY_INT`. -/
def is_int32_kind (t : TY) : Bool :=
  t == TY.BINT || t == TY.SINT || t == TY.INT

/-- The value `v` is the integer `r` modulo `2^32`, as a signed 32-bit number. -/
def is_int32_of (v r : Int) : Prop :=
  v % 4294967296 = r % 4294967296 ∧ -2147483648 ≤ v ∧ v < 2147483648

/-- The first `n` characters of the string of the character constant `c`. -/
def char_bytes (env : Env) (c : Int) (n : Nat) : List Int :=
  (List.range n).map fun (i : Nat) => env.n_base (env.CONVAL1G c + (i : Int))

/-- The string of the character constant `c` of length `len`, padded with
blanks (character 32) to the length `n`. -/
def blank_padded (env : Env) (c : Int) (len n : Nat) : List Int :=
  (List.range n).map fun (i : Nat) =>
    if i < len then env.n_base (env.CONVAL1G c + (i : Int)) else 32

/-- Comparison of two strings of equal length, character by character: the
difference at the first position where they differ, 0 when there is none. -/
def bytes_cmp : List Int → List Int → Int
  | a :: as, b :: bs => if a ≠ b then a - b else bytes_cmp as bs
  | _, _ => 0

/-- Length `DTY(DTYPEG(c) + 1)` of a character constant. -/
def char_len (env : Env) (c : Int) : Int := env.DTYn (env.DTYPEG c.toNat) 1

/-- The symbol table of the examples with character constants: 200 is the
empty string (type 30), 201 is `" "` and 202 is `"a"` (type 31, length 1), 203
is `"ab"` and 204 is `"a "` (type 32, length 2); `cngcon` turns 202 into 204
when asked for type 32. -/
def exEnvChar : Env :=
  { exEnv with
    DTY := fun d => if d = 30 ∨ d = 31 ∨ d = 32 then TY.CHAR else exEnv.DTY d
    DTYPEG := fun s =>
      if s = 200 then 30 else if s = 201 ∨ s = 202 then 31
      else if s = 203 ∨ s = 204 then 32 else exEnv.DTYPEG s
    DTYn := fun d n => if n = 1 then (if d = 31 then 1 else if d = 32 then 2 else 0) else 0
    CONVAL1G := fun c =>
      if c = 201 then 10 else if c = 202 then 20 else if c = 203 then 30
      else if c = 204 then 40 else 0
    n_base := fun i =>
      if i = 20 ∨ i = 30 ∨ i = 40 then 97 else if i = 31 then 98 else 32
    cngcon := fun c t t' => if c = 202 ∧ t = 31 ∧ t' = 32 then 204 else c }

/-- An array constructor whose items are leaves (`AC_CONST`) or array
constructors of the same kind, nested at most `d` deep. -/
def ac_tree : Nat → CONST → Bool
  | 0, e => e.subc.all fun c => c.id == ACID.CONST
  | d + 1, e => e.subc.all fun c => c.id == ACID.CONST || (c.id == ACID.ACONST && ac_tree d c)

/-- The leaves of an array constructor nested at most `d` deep, from left to
right. -/
def ac_leaves : Nat → CONST → List CONST
  | 0, e => e.subc
  | d + 1, e => (e.subc.map fun c => if c.id = ACID.ACONST then ac_leaves d c else [c]).flatten

/-- An array-constructor node with the given items. -/
def exCtor (items : List CONST) : CONST :=
  ((CONST.leaf 6 1 0).setId ACID.ACONST).setSubc items

/-- The constructor `(/ 1, (/ 2, (/ 3 /) /), 4 /)`, the leaf 2 with a repeat
count of 2. -/
def exCtorNested : CONST :=
  exCtor [CONST.leaf 5 1 1, exCtor [CONST.leaf 5 2 2, exCtor [CONST.leaf 5 1 3]], CONST.leaf 5 1 4]

/-- Element-wise application of an operator to two lists of elements: the
`k`-th result is a leaf of repeat count 1 that holds the fold of the `k`-th
elements; the list ends with the shorter operand.  Returned with the
diagnostics of the folds, in order. -/
def elementwise (env : Env) (o : OP) (dt : Nat) (xs ys : List CONST) : List CONST × List Diag :=
  ((List.zipWith (fold_elements env o dt) xs ys).map fun v => CONST.leaf dt 1 v.1,
   ((List.zipWith (fold_elements env o dt) xs ys).map fun v => v.2).flatten)

/-- The arithmetic operators `AC_ADD`, `AC_SUB`, `AC_MUL`, `AC_DIV` with their
`OP_*` codes. -/
def arith_op : ACOP → Option OP
  | ACOP.ADD => some OP.ADD
  | ACOP.SUB => some OP.SUB
  | ACOP.MUL => some OP.MUL
  | ACOP.DIV => some OP.DIV
  | _ => none

/-- The saved initialiser list of a symbol: `init_const[PARAMVALG(sptr) - 1]`,
or `none` for a symbol without a saved entry (`PARAMVALG` is 0). -/
def saved_list (st : St) (sptr : Nat) : Option (List CONST) :=
  if st.PARAMVALG sptr = 0 then none else some (st.init_const (st.PARAMVALG sptr - 1))

/-- The dimension named by a node of the order argument of RESHAPE (dimensions
are numbered from 1). -/
def order_entry (env : Env) (c : CONST) : Int :=
  if env.DT_ISWORD c.dtype then c.conval else env.ad_val_of c.conval

/-- The order argument is the identity permutation: its `i`-th node, counted
from `i`, names dimension `i + 1`. -/
def identity_order (env : Env) : List CONST → Nat → Bool
  | [], _ => true
  | c :: rest, i => order_entry env c == (i : Int) + 1 && identity_order env rest (i + 1)

/-- The nodes of the order argument as `eval_reshape` walks them:
`orderarg->id == AC_ACONST ? orderarg->subc : orderarg`. -/
def order_nodes (orderarg : List CONST) : List CONST :=
  match orderarg with
  | [] => []
  | o :: orest => if o.id = ACID.ACONST then o.subc else o :: orest

/-- What `eval_reshape` returns when it returns its folded source list: the
arguments are evaluated in order (source, shape, pad, order) and the result is
the list that folding the source gave. -/
def reshape_source (env : Env) (fuel : Nat) (arg : List CONST) (st : St) :
    Res (List CONST × St) :=
  (deref arg).bind fun a0 =>
  (eval_init_expr_item env fuel a0 st).bind fun src =>
  (deref (arg.drop 1)).bind fun a1 =>
  (eval_init_expr_item env fuel a1 src.2).bind fun shp =>
  (reshape_pad_order (eval_init_expr_item env fuel) (arg.drop 2) shp.2).bind fun po =>
    Res.ok (src.1, po.2.2)

/-- The order argument as `eval_reshape` evaluates it (`[]` when there is
none), `none` when the evaluation of the arguments does not return. -/
def reshape_orderarg (env : Env) (fuel : Nat) (arg : List CONST) (st : St) :
    Option (List CONST) :=
  match ((deref arg).bind fun a0 =>
    (eval_init_expr_item env fuel a0 st).bind fun src =>
    (deref (arg.drop 1)).bind fun a1 =>
    (eval_init_expr_item env fuel a1 src.2).bind fun shp =>
    (reshape_pad_order (eval_init_expr_item env fuel) (arg.drop 2) shp.2).bind fun po =>
      Res.ok po.2.1) with
  | Res.ok l => some l
  | _ => none

/-- The symbol table of the examples with array types for RESHAPE: types 40
(shape `(2, 2)`) and 41 have 4 elements, types 42 (shape `(1, 3)`) and 43 have
3 elements, type 44 has 2; their element type is the integer type 5. -/
def exEnvReshape : Env :=
  { exEnv with
    DDTG := fun d => if 40 ≤ d ∧ d ≤ 45 then 5 else exEnv.DDTG d
    numelm_d := fun d =>
      if d = 40 ∨ d = 41 then 4 else if d = 42 ∨ d = 43 then 3 else if d = 44 then 2
      else exEnv.numelm_d d
    numdim_d := fun d => if d = 40 ∨ d = 42 then 2 else 1
    upbd_d := fun d i => if d = 40 then 2 else if d = 42 then (if i = 0 then 1 else 3) else 1 }

/-- An array-constructor node of the given type with the given items. -/
def exCtorOf (dt : Nat) (items : List CONST) : CONST :=
  ((CONST.leaf dt 1 0).setId ACID.ACONST).setSubc items

/-- The values and repeat counts of the leaves of a folded list; for a list
that is one array-constructor node, of its items. -/
def reshape_view (r : Res (List CONST × St)) : Res (List (Int × Int)) :=
  r.bind fun x =>
    match operand_list x.1 with
    | Res.ok l => Res.ok (l.map fun c => (c.conval, c.repeatc))
    | _ => Res.ok []

/-- What a reference that is not written leaves alone: the dinit file and the
DINIT flags. -/
def quiet (s s' : St) : Prop :=
  s'.out = s.out ∧ s'.DINITG = s.DINITG

/-- The symbol that `dinit_varref` takes as `sptr`, the owner of the storage of
the reference: the symbol of an `S_IDENT` reference, the member walked without
a reference, or else the symbol of the `IM_BASE` ILM that `mkeffadr` leaves in
`effadr->sptr`. -/
def owner (ivl : Option Varref) (member : Nat) : Option Nat :=
  match ivl with
  | some v =>
    if v.id = SID.S_IDENT then ident_sptr v.ptr
    else if member ≠ 0 then some member
    else v.ptr.root
  | none => if member ≠ 0 then some member else none

/-- The symbol is of an outer scope, or a member of a common block whose DINIT
flag is not set. -/
def outer_storage (env : Env) (sptr : Nat) (st : St) : Prop :=
  env.UPLEVELG sptr = true ∨ (env.SCG sptr = SC.CMBLK ∧ st.DINITG sptr = false)

/-- The symbol table of the examples with symbol 11, the array `b`, made a
symbol of an outer scope. -/
def exEnvUplevel : Env := { exEnv with UPLEVELG := fun s => s == 11 }

/-- The symbol table of the examples with symbol 30, a variable of the derived
type 10 that has no data components. -/
def exEnvEmpty : Env :=
  { exEnv with
    DTYPEG := fun s => if s = 30 then 10 else exEnv.DTYPEG s,
    DTY := fun d => if d = 10 then TY.STRUCT else exEnv.DTY d,
    size_of := fun d => if d = 10 then 0 else exEnv.size_of d,
    no_data_components := fun d => d == 10 }

/-- The reference to the variable of the empty type (symbol 30). -/
def exRefEmpty : Varref := { id := SID.S_IDENT, ptr := IRef.BASE 30, dtype := 10, shape := 0 }

/-- What a loop has reached after at most `n` iterations: the locals at the
head of the next iteration, or the result if the loop has ended. -/
def iterN {σ ρ : Type} (body : σ → Res (σ ⊕ ρ)) : Nat → σ → Res (σ ⊕ ρ)
  | 0, s => Res.ok (Sum.inl s)
  | n + 1, s =>
    match body s with
    | Res.ok (Sum.inl s') => iterN body n s'
    | r => r

/-- The locals of `dinit_data` after at most `n` iterations of its loop; the
calls of `dinit_varref` are made with fuel `fuel`. -/
def data_iter (env : Env) (fuel : Nat) (vars : List VAR) (dtype : Nat) (base_off : Int) :
    Nat → DataLoop → Res (DataLoop ⊕ St) :=
  iterN (data_body env
    (fun v member ic rep st1 => dinit_varref env fuel v member ic dtype rep base_off st1) vars)

/-- The variable list of a DATA statement with nine nested implied do loops
around the element `a(i)`; the index variables are the symbols 13, 31, ..., 38. -/
def exVarsDeep : List VAR :=
  ([31, 32, 33, 34, 35, 36, 37, 38, 13].map fun i =>
    VAR.Dostart (IExpr.LD i) (IExpr.ICON 101) (IExpr.ICON 101) (IExpr.ICON 101)) ++
  [VAR.Varref exRefAi] ++
  ([8, 7, 6, 5, 4, 3, 2, 1, 0].map fun i => VAR.Doend i)

/-- The depth of the implied-do stack that a loop state holds. -/
def depth_view (r : Res (DataLoop ⊕ St)) : Res (Nat × List Diag × List Directive) :=
  r.bind fun x => Res.ok ((data_iter_state x).top, (data_iter_state x).errs,
    (data_iter_state x).out)

/-- The records of the deferred-dinit file, oldest first; none without a file. -/
def queue (st : St) : List Deferred :=
  match st.df with
  | none => []
  | some q => q

/-- A sequence of calls `dinit(ivl, ict)`, each made while `gbl.lineno` and
`gbl.findex` hold the position given with it. -/
def enqueue_all (calls : List Deferred) (st : St) : St :=
  calls.foldl (fun s d => dinit d.ivl d.ict { s with lineno := d.lineno, findex := d.findex }) st

/-- The loop of `do_dinit` with a log of the calls of `df_dinit` it makes, in
the order it makes them: the two pointers handed over, and the values of
`gbl.lineno` and `gbl.findex` at the call. -/
def do_dinit_log (env : Env) (fuel : Nat) : List Deferred → St → Res (List Deferred × St)
  | [], st => Res.ok ([], st)
  | d :: rest, st =>
    let st1 := { st with lineno := d.lineno, findex := d.findex }
    if skip_record env d.ict then do_dinit_log env fuel rest st1
    else (df_dinit env fuel d.ivl d.ict st1).bind fun st2 =>
      (do_dinit_log env fuel rest st2).bind fun r =>
        Res.ok ({ ivl := d.ivl, ict := d.ict, lineno := st1.lineno, findex := st1.findex } :: r.1,
          r.2)

/-- The pointers and positions of a list of records, for comparison. -/
def log_view (r : Res (List Deferred × St)) : Res (List (List VAR × Int × Int)) :=
  r.bind fun x => Res.ok (x.1.map fun d => (d.ivl, d.lineno, d.findex))

/-- Two DATA statements, `DATA k /7/` at line 3 and `DATA a(2) /8/` at line 9. -/
def exCalls : List Deferred :=
  [{ ivl := [VAR.Varref exRefK], ict := [CONST.leaf 5 1 7], lineno := 3, findex := 1 },
   { ivl := [VAR.Varref exRefA2], ict := [CONST.leaf 5 1 8], lineno := 9, findex := 1 }]

/-- What a walk of a variable list leaves that can be compared: the records
written, the diagnostics, `sem.dinit_error` and the depth of the implied-do
stack. -/
def walk_view (r : Res St) : Res (List Directive × List Diag × Int × Nat) :=
  r.bind fun s => Res.ok (s.out, s.errs, s.dinit_error, s.top)

/-- The element reference `b(l)`, with the implied-do index `l` (symbol 14)
as subscript. -/
def exRefBl : Varref :=
  { id := SID.S_LVALUE, ptr := IRef.ELEMENT (IRef.BASE 11) [IExpr.LD 14], dtype := 5,
    shape := 0 }

/-- The variable list of `DATA ((a(i), i = 1, 0), b(l), l = 1, 3) / ... /`:
the inner loop has zero trips and no loop in its body. -/
def exVarsZeroTrip : List VAR :=
  [VAR.Dostart (IExpr.LD 14) (IExpr.ICON 101) (IExpr.ICON 103) (IExpr.ICON 101),
   VAR.Dostart (IExpr.LD 13) (IExpr.ICON 101) (IExpr.ICON 100) (IExpr.ICON 101),
   VAR.Varref exRefAi, VAR.Doend 1,
   VAR.Varref exRefBl, VAR.Doend 0]

/-- The variable list of
`DATA (((a(i), i = 1, 2), j = 1, 0), b(l), l = 1, 3) / ... /`: the loop over
`j` (symbol 15) has zero trips and the loop over `i` in its body. -/
def exVarsZeroTripNested : List VAR :=
  [VAR.Dostart (IExpr.LD 14) (IExpr.ICON 101) (IExpr.ICON 103) (IExpr.ICON 101),
   VAR.Dostart (IExpr.LD 15) (IExpr.ICON 101) (IExpr.ICON 100) (IExpr.ICON 101),
   VAR.Dostart (IExpr.LD 13) (IExpr.ICON 101) (IExpr.ICON 102) (IExpr.ICON 101),
   VAR.Varref exRefAi, VAR.Doend 2, VAR.Doend 1,
   VAR.Varref exRefBl, VAR.Doend 0]

/-- The element offset `(s_i - lb_i) * mlpyr_i + ...` of the subscript values
`vals`, the first of which is the subscript of dimension `i` of the array
`mem`. -/
def element_offset (env : Env) (mem : Nat) : List Int → Nat → Int
  | [], _ => 0
  | v :: vs, i => (v - env.lwbd mem i) * env.mlpyr mem i + element_offset env mem vs (i + 1)

/-- Every subscript value lies within the declared bounds of its dimension. -/
def in_bounds (env : Env) (mem : Nat) : List Int → Nat → Bool
  | [], _ => true
  | v :: vs, i =>
    decide (env.lwbd mem i ≤ v) && decide (v ≤ env.upbd mem i) && in_bounds env mem vs (i + 1)

/-- Number of elements of `n` dimensions of the array `mem`, from dimension `i`
on: the product of the extents `ub - lb + 1`. -/
def extent_product (env : Env) (mem : Nat) : Nat → Nat → Int
  | 0, _ => 1
  | n + 1, i => (env.upbd mem i - env.lwbd mem i + 1) * extent_product env mem n (i + 1)

/-- Column-major multipliers of an array of the given rank: 1 for the first
dimension, and for every further dimension the multiplier of the dimension
before times its extent. -/
def column_major (env : Env) (mem : Nat) (rank : Nat) : Prop :=
  env.mlpyr mem 0 = 1 ∧
  ∀ i, i < rank - 1 →
    env.mlpyr mem (i + 1) = env.mlpyr mem i * (env.upbd mem i - env.lwbd mem i + 1)

/-- The symbol table of the examples with symbol 40, `integer c(2, 3)` of the
array type 11, with column-major multipliers 1 and 2. -/
def exEnv2D : Env :=
  { exEnv with
    DTYPEG := fun s => if s = 40 then 11 else exEnv.DTYPEG s,
    DTY := fun d => if d = 11 then TY.ARRAY else exEnv.DTY d,
    DDTG := fun d => if d = 11 then 5 else exEnv.DDTG d,
    size_of := fun d => if d = 11 then 24 else exEnv.size_of d,
    numelm := fun s => if s = 40 then 6 else exEnv.numelm s,
    upbd := fun s i => if s = 40 then (if i = 0 then 2 else 3) else exEnv.upbd s i,
    mlpyr := fun s i => if s = 40 ∧ i = 1 then 2 else 1 }

/-- The element reference `c(2, 3)`. -/
def exRefC23 : IRef := IRef.ELEMENT (IRef.BASE 40) [IExpr.ICON 102, IExpr.ICON 103]

/-- The subscript triplet `lowb : upb : stride` without a vector subscript. -/
def exTriple (lowb upb stride : Int) : SbSub :=
  { dtype := 0, idx := 0, subscr_base := [], lowb := lowb, upb := upb, stride := stride }

/-- The values and repeat counts of a list of leaves. -/
def leaf_view (r : Res (List CONST)) : Res (List (Int × Int)) :=
  r.bind fun l => Res.ok (l.map fun c => (c.conval, c.repeatc))

/-- The values of the section that `eval_const_array_section` returns. -/
def section_view (r : Res (List CONST × SB × St)) : Res (List (Int × Int)) :=
  r.bind fun x => Res.ok (x.1.map fun c => (c.conval, c.repeatc))

/-- The symbol table of the examples with the array types 44 (two elements of
the integer type 5) and 46 (two elements of the two-byte integer type 2). -/
def exEnvMinMax : Env :=
  { exEnvReshape with
    DTY := fun d => if d = 44 ∨ d = 46 then TY.ARRAY else if d = 2 then TY.SINT else exEnv.DTY d,
    DDTG := fun d => if d = 44 then 5 else if d = 46 then 2 else exEnv.DDTG d,
    numelm_d := fun d => if d = 44 ∨ d = 46 then 2 else exEnv.numelm_d d }

/-- Every leaf of the tree below a node, the node included, has a repeat count
of at least 1; a leaf is a node of id `AC_CONST` or `AC_CONVAL` (the id that
`eval_reshape` gives to the leaves it returns), and the tree is followed
through `subc`, the operands `lop` and `rop`, and the bounds of an implied
do. -/
inductive Good : CONST → Prop
  | mk (id : ACID) (subc : List CONST) (repeatc : Int) (sptr mbr dtype : Nat)
      (no_dinitp : Bool) (conval : Int) (op : ACOP) (lop rop : List CONST) (index_var : Nat)
      (initval limitval stepval : List CONST) :
      (id = ACID.CONST ∨ id = ACID.CONVAL → 1 ≤ repeatc) →
      (∀ d, d ∈ subc → Good d) → (∀ d, d ∈ lop → Good d) → (∀ d, d ∈ rop → Good d) →
      (∀ d, d ∈ initval → Good d) → (∀ d, d ∈ limitval → Good d) →
      (∀ d, d ∈ stepval → Good d) →
      Good (CONST.mk id subc repeatc sptr mbr dtype no_dinitp conval op lop rop index_var
        initval limitval stepval)

/-- Every node of a list is `Good`. -/
def GoodL (l : List CONST) : Prop := ∀ c, c ∈ l → Good c

/-- Every saved initialiser list is `GoodL`. -/
def GoodSt (st : St) : Prop := ∀ k, GoodL (st.init_const k)

/-- The ids, values and repeat counts of the nodes of a folded list. -/
def node_view (r : Res (List CONST × St)) : Res (List (ACID × Int × Int)) :=
  r.bind fun x => Res.ok (x.1.map fun c => (c.id, c.conval, c.repeatc))

/-- A one-to-one coding of the integers in the natural numbers. -/
def int_code (z : Int) : Nat := if 0 ≤ z then 2 * z.toNat else 2 * (-z).toNat - 1

/-- The integer with the given code. -/
def code_int (n : Nat) : Int := if n % 2 = 0 then (n / 2 : Nat) else - (((n + 1) / 2 : Nat) : Int)

/-- The symbol table of the examples for TRANSFER: type 2 is the two-byte
integer, type 12 is double precision (8 bytes), types 44 and 47 are arrays of
two integers and of two double precision numbers; the integer types are held
in one word.  A two-word constant is the code of the pair of its words. -/
def exEnvTransfer : Env :=
  { exEnv with
    DTY := fun d => if d = 44 ∨ d = 47 then TY.ARRAY else if d = 2 then TY.SINT
      else if d = 12 then TY.DBLE else if d = 4 then TY.CHAR else TY.INT,
    DDTG := fun d => if d = 44 then 5 else if d = 47 then 12 else d,
    size_of := fun d => if d = 2 then 2 else if d = 12 then 8 else if d = 44 then 8
      else if d = 47 then 16 else 4,
    numelm_d := fun d => if d = 44 ∨ d = 47 then 2 else 1,
    DT_ISWORD := fun d => d = 5 ∨ d = 2,
    getcon := fun a b _ => (Nat.pair (int_code a) (int_code b) : Nat),
    CONVAL1G := fun c => code_int (Nat.unpair c.toNat).1,
    CONVAL2G := fun c => code_int (Nat.unpair c.toNat).2 }

/-- Word `k` of the buffer is the memory image of the `int` it reads as. -/
def word_ok (env : Env) (buf : Nat → Int) (k : Nat) : Prop :=
  env.int_bytes (load_int env buf 0 k) = buf_read buf (4 * k) 4

/-- The two words of a constant made by `getcon` are the words it was made
from. -/
def getcon_ok (env : Env) : Prop :=
  ∀ a b d, env.CONVAL1G (env.getcon a b d) = a ∧ env.CONVAL2G (env.getcon a b d) = b

/-- The characters of a constant made by `getstring` are the characters it
was made from. -/
def getstring_ok (env : Env) : Prop :=
  ∀ (l : List Int) (i : Nat), i < l.length →
    env.n_base (env.CONVAL1G (env.getstring l) + i) = l.getD i 0

/-- The result type is of a kind that `transfer_load` and `transfer_store`
handle, its size is that of the kind, and the memory and the symbol table
give back what is stored in them. -/
def transfer_ok (env : Env) (rdtype : Nat) (buf : Nat → Int) : Prop :=
  if env.DT_ISWORD rdtype then env.size_of rdtype ≤ 4 ∧ word_ok env buf 0
  else
    match env.DTY rdtype with
    | TY.DWORD | TY.INT8 | TY.LOG8 | TY.DBLE | TY.CMPLX =>
      env.size_of rdtype ≤ 8 ∧ word_ok env buf 0 ∧ word_ok env buf 1 ∧ getcon_ok env
    | TY.DCMPLX =>
      env.size_of rdtype ≤ 16 ∧ word_ok env buf 0 ∧ word_ok env buf 1 ∧ word_ok env buf 2 ∧
        word_ok env buf 3 ∧ getcon_ok env
    | TY.CHAR => getstring_ok env
    | _ => False

/-- The symbol table of the examples for SELECTED_CHAR_KIND: the character
constants 1, 2 and 3 spell `ASCII`, `DEFAULT` and `ISO_10646`. -/
def exEnvCharKind : Env :=
  { exEnv with sem_eq_str := fun con name =>
      (con == 1 && name == "ASCII") || (con == 2 && name == "DEFAULT") }

/-- The kind, the type and the repeat count of the leaf returned, or the
address returned in place of a node. -/
def char_kind_view (r : Res (ConstPtr × St)) : Res ((Int × Nat × Int) ⊕ Nat) :=
  r.bind fun x =>
    match x.1 with
    | ConstPtr.node c => Res.ok (Sum.inl (c.conval, c.dtype, c.repeatc))
    | ConstPtr.addr a => Res.ok (Sum.inr a)

/-- The symbol table of the examples with type 13, the default logical:
`.TRUE.` is -1, `.FALSE.` is 0, and the comparison of two logical constants
is `conval1 != conval2`, as the `TY_LOG` case of `init_fold_const` has it. -/
def exEnvLogical : Env :=
  { exEnv with
    DTY := fun d => if d = 13 then TY.LOG else exEnv.DTY d
    DT_ISLOG := fun d => d = 13
    fold_other := fun o a b d =>
      if o = OP.CMP ∧ d = 13 then ((if a ≠ b then 1 else 0), []) else exEnv.fold_other o a b d }

/-- The symbol table of the examples with 64-bit integers: type 3 is
`INTEGER*8` (8 bytes), the array `a` (symbol 10, type 6) has six elements of
that type, and the constant symbol 200 is the value `2^32`, whose high word
`CONVAL1G` is 1 and whose low word `CONVAL2G` is 0.  The option bit
`XBIT(124, 0x400)` is clear. -/
def exEnvInt8 : Env :=
  { exEnv with
    DTY := fun d => if d = 3 then TY.INT8 else exEnv.DTY d
    DDTG := fun d => if d = 6 then 3 else exEnv.DDTG d
    size_of := fun d => if d = 6 then 48 else if d = 3 then 8 else exEnv.size_of d
    CONVAL1G := fun c => if c = 200 then 1 else 0
    CONVAL2G := fun c => if c = 200 then 0 else c - 100
    DT_ISINT := fun d => d = 5 ∨ d = 3
    DT_ISWORD := fun d => d ≠ 3 }

/-- An `int` stored in memory takes four bytes and is read back unchanged. -/
def int_ok (env : Env) (v : Int) : Prop :=
  (env.int_bytes v).length = 4 ∧ env.bytes_int (env.int_bytes v) = v

/-- The characters `stb.n_base[CONVAL1G(v) ..]` of a character constant of the
type `dtype`. -/
def const_chars (env : Env) (dtype : Nat) (v : Int) : List Int :=
  (List.range (env.size_of dtype).toNat).map fun (i : Nat) => env.n_base (env.CONVAL1G v + (i : Int))

/-- The value `v` is a constant of the type `dtype`, of a kind that
`transfer_store` and `transfer_load` handle, in a symbol table where `getcon`
and `getstring` return the one symbol of a given value: a word; two words
that make up `v`; two double precision constants, of two words each, that make
up `v`; or the characters that make up `v`. -/
def const_ok (env : Env) (dtype : Nat) (v : Int) : Prop :=
  if env.DT_ISWORD dtype then int_ok env v
  else
    match env.DTY dtype with
    | TY.DWORD | TY.INT8 | TY.LOG8 | TY.DBLE | TY.CMPLX =>
      int_ok env (env.CONVAL1G v) ∧ int_ok env (env.CONVAL2G v) ∧
        env.getcon (env.CONVAL1G v) (env.CONVAL2G v) dtype = v
    | TY.DCMPLX =>
      int_ok env (env.CONVAL1G (env.CONVAL1G v)) ∧ int_ok env (env.CONVAL2G (env.CONVAL1G v)) ∧
      int_ok env (env.CONVAL1G (env.CONVAL2G v)) ∧ int_ok env (env.CONVAL2G (env.CONVAL2G v)) ∧
      env.getcon (env.CONVAL1G (env.CONVAL1G v)) (env.CONVAL2G (env.CONVAL1G v)) env.DT_DBLE =
        env.CONVAL1G v ∧
      env.getcon (env.CONVAL1G (env.CONVAL2G v)) (env.CONVAL2G (env.CONVAL2G v)) env.DT_DBLE =
        env.CONVAL2G v ∧
      env.getcon (env.CONVAL1G v) (env.CONVAL2G v) dtype = v
    | TY.CHAR => env.getstring (const_chars env dtype v) = v
    | _ => False

/-- The implied do `(7, i = 1, 2, 0)` over the index symbol 13: a zero step. -/
def exIdoStepZero : CONST :=
  CONST.mk ACID.IDO [CONST.leaf 5 1 7]
    1 0 0 5 false 0 ACOP.NONE [] [] 13 [CONST.leaf 5 1 1] [CONST.leaf 5 1 2] [CONST.leaf 5 1 0]

/-- The implied do `(7, i = 1, 3, 1)` over the index symbol 13. -/
def exIdoSevens : CONST :=
  CONST.mk ACID.IDO [CONST.leaf 5 1 7]
    1 0 0 5 false 0 ACOP.NONE [] [] 13 [CONST.leaf 5 1 1] [CONST.leaf 5 1 3] [CONST.leaf 5 1 1]

/-- The code of a string of fewer than 16 characters in the symbol table of
the examples: its length and its characters. -/
def str_code (l : List Int) : Int :=
  (l.length : Int) + 16 * ((Nat.ofDigits 256 (l.map Int.toNat) : Nat) : Int)

/-- The symbol table of the examples with strings: the type `1000 + n` is
`CHARACTER*n`, the type `2000 + n` an array of such elements; `getstring`
gives the code of a string, and the name table holds the characters of the
constant `c` from the address `16 * c` on. -/
def exEnvStr : Env :=
  { exEnv with
    DTY := fun d => if 2000 ≤ d then TY.ARRAY else if 1000 ≤ d then TY.CHAR else exEnv.DTY d
    DDTG := fun d => if 2000 ≤ d then d - 1000 else d
    size_of := fun d =>
      if 2000 ≤ d then 0 else if 1000 ≤ d then ((d - 1000 : Nat) : Int) else exEnv.size_of d
    get_type := fun _ n => 1000 + n.toNat
    getstring := str_code
    CONVAL1G := fun c => 16 * c
    n_base := fun a =>
      if a % 16 < a / 16 % 16 then a / 16 / 16 / 256 ^ (a % 16).toNat % 256 else 0 }

/-- The character constant of the examples that holds the given characters. -/
def exStr (l : List Int) : CONST := CONST.leaf (1000 + l.length) 1 (str_code l)

/-- The characters and the repeat counts of a list of character leaves. -/
def str_view (env : Env) (r : Res (List CONST)) : Res (List (List Int × Int)) :=
  r.bind fun l => Res.ok (l.map fun c => (chars_of env c.conval (env.size_of c.dtype), c.repeatc))

/-- Element-wise concatenation as the specification describes it: the `k`-th
result is the `k`-th element of the run-length expansion of the left operand
followed by the `k`-th element of the run-length expansion of the right
operand; the list ends with the shorter expansion. -/
def spec_cat_elementwise (env : Env) (ldtype rdtype : Nat) (l r : List CONST) : List CONST :=
  List.zipWith (fun cl cr => cat_leaf env cl.conval (env.size_of (env.DDTG ldtype)) cr.conval
    (env.size_of (env.DDTG rdtype))) (expand l) (expand r)

/-- The 1-based position of the first occurrence of `t` in `s`, 0 if there is
none, as the specification describes INDEX without BACK. -/
def spec_first_occurrence (s t : List Int) : Int :=
  match (List.range (s.length + 1)).find? fun i => t.isPrefixOf (s.drop i) with
  | some i => (i : Int) + 1
  | none => 0

/-- The 1-based position of the last occurrence of `t` in `s`, 0 if there is
none, as the specification describes INDEX with BACK. -/
def spec_last_occurrence (s t : List Int) : Int :=
  match (List.range (s.length + 1)).reverse.find? fun i => t.isPrefixOf (s.drop i) with
  | some i => (i : Int) + 1
  | none => 0

/-- The values of the leaves that `eval_index` returns. -/
def index_view (r : Res (List CONST × St)) : Res (List (Int × Nat × Int)) :=
  r.bind fun x => Res.ok (x.1.map fun c => (c.conval, c.dtype, c.repeatc))

/-- The characters of the string that a code of the symbol table of the
examples stands for. -/
def exStrChars (v : Int) : List Int := chars_of exEnvStr v (v % 16)

/-- The characters of the value, the declared length and the repeat count of
the first node of a folded character expression of the examples. -/
def trim_view (r : Res (List CONST × St)) : Res (List Int × Int × Int) :=
  r.bind fun x =>
    match x.1 with
    | [] => Res.undef
    | c :: _ => Res.ok (exStrChars c.conval, exEnvStr.size_of c.dtype, c.repeatc)

/-- The two-byte integer whose byte image, in the order of the addresses of
a little-endian memory, is `b0`, `b1`: the value that C21 names for a
two-byte result. -/
def short_of_image (b0 b1 : Int) : Int :=
  if b0 + 256 * b1 < 32768 then b0 + 256 * b1 else b0 + 256 * b1 - 65536

/-- The symbol table of the examples with the 64-bit integer type 3, in which
the constant symbol 300 is the largest value of an `ISZ_T` of 64 bits. -/
def exEnvIsz : Env :=
  { exEnvInt8 with
    get_isz_cval := fun c => if c = 300 then 9223372036854775807 else c - 100 }

/-- The implied do `(7, i = m, m, 1_8)` over the index symbol 13, with `m` the
largest value of an `ISZ_T` of 64 bits (the constant symbol 300; the symbol
101 is the value 1). -/
def exIdoLast : CONST :=
  CONST.mk ACID.IDO [CONST.leaf 5 1 7]
    1 0 0 5 false 0 ACOP.NONE [] [] 13 [CONST.leaf 3 1 300] [CONST.leaf 3 1 300]
    [CONST.leaf 3 1 101]

/-- The containing object, the symbol initialised, the element count and the
element size of the target that `varref_target` computes. -/
def target_view (r : Res (Option VarrefTarget × St)) : Res (Option (Nat × Nat × Int × Int)) :=
  r.bind fun x => Res.ok (x.1.map fun t => (t.sptr, t.init_sym, t.num_elem, t.elsize))

/-- The symbol table of the examples with the derived type 10 that has no data
components (its only member, symbol 25, is a type-bound procedure) and with
symbol 24, a member of that type at offset 44 of the variable `x` (symbol
20), whose other members hold data. -/
def exEnvEmptyMember : Env :=
  { exEnv with
    DTYPEG := fun s => if s = 24 then 10 else exEnv.DTYPEG s,
    DTY := fun d => if d = 10 then TY.STRUCT else exEnv.DTY d,
    DTYn := fun d n => if d = 10 ∧ n = 1 then 25 else 0,
    size_of := fun d => if d = 10 then 0 else exEnv.size_of d,
    ADDRESSG := fun s => if s = 24 then 44 else exEnv.ADDRESSG s,
    CLASSG := fun s => s == 25,
    VTABLEG := fun s => s == 25,
    TBPLNKG := fun s => s == 25,
    no_data_components := fun d => d == 10 }

/-- The reference `x%e` to the member 24, of the empty type, of the variable
20. -/
def exRefEmptyMember : Varref :=
  { id := SID.S_LVALUE, ptr := member_chain 20 [24], dtype := 10, shape := 0 }

/-- The structure constructor of the empty type 10: no components. -/
def exEmptyCtor : CONST :=
  CONST.mk ACID.SCONST [] 1 0 0 10 false 0 ACOP.NONE [] [] 0 [] [] []

/-! ## The visiting order of `eval_reshape` and the invariants of its loops -/

/-- The state after the records `DINIT_LOC` and `DINIT_OFFSET` that open a
new block of a reference without member: nothing is written when `new_block`
is false, and the offset record only for a non-zero offset. -/
def block_head (t : VarrefTarget) (s : VarrefLoop) : St :=
  if s.new_block then
    (if truthy s.offset then
      dinit_put (Directive.SetOffset s.offset) (dinit_put (Directive.SetLocation t.sptr) s.st)
     else dinit_put (Directive.SetLocation t.sptr) s.st)
  else s.st

/-! # Theorems -/

/-! ## Basic facts -/

theorem dinit_ok_array_state (env : Env) (sptr : Nat) (st : St)
    (h : (dinit_ok_array env sptr st).1 = true) : (dinit_ok_array env sptr st).2 = st := by
  unfold dinit_ok_array at *
  unfold dinit_ok_fail at *
  split_ifs at * <;> simp_all

theorem dinit_ok_state (env : Env) (sptr : Nat) (st : St)
    (h : (dinit_ok env sptr st).1 = true) : (dinit_ok env sptr st).2 = st := by
  unfold dinit_ok at *
  cases hsc : env.SCG sptr <;> simp only [hsc] at h ⊢ <;>
    first
    | exact dinit_ok_array_state env sptr st h
    | (simp [dinit_ok_fail] at h; done)
    | (split_ifs at h ⊢
       · simp [dinit_ok_fail] at h
       · exact dinit_ok_array_state env sptr st h)

theorem loopN_exit {σ ρ : Type} (body : σ → Res (σ ⊕ ρ)) (n : Nat) (s : σ) (r : ρ)
    (h : body s = Res.ok (Sum.inr r)) : loopN body (n + 1) s = Res.ok r := by
  simp [loopN, h]

theorem loopN_step {σ ρ : Type} (body : σ → Res (σ ⊕ ρ)) (n : Nat) (s s' : σ)
    (h : body s = Res.ok (Sum.inl s')) : loopN body (n + 1) s = loopN body n s' := by
  simp [loopN, h]

theorem sym_is_dinitd_out (env : Env) (sptr : Nat) (st : St) :
    (sym_is_dinitd env sptr st).out = st.out ∧
    (sym_is_dinitd env sptr st).errs = st.errs ∧
    (sym_is_dinitd env sptr st).dinit_error = st.dinit_error := by
  unfold sym_is_dinitd
  by_cases h1 : env.SCG sptr = SC.CMBLK <;>
    by_cases h2 : (st.STYPEG sptr = STYPE.IDENT ∨ st.STYPEG sptr = STYPE.UNKNOWN) <;>
    simp [h1, h2]

theorem save_init_out (env : Env) (ict : List CONST) (sptr : Nat) (st : St) :
    (save_init env ict sptr st).out = st.out ∧
    (save_init env ict sptr st).dinit_error = st.dinit_error := by
  unfold save_init
  split_ifs <;> simp [report]

theorem varref_finish_ok (env : Env) (t : VarrefTarget) (member : Nat) (c : CONST)
    (rest : List CONST) (pv : Bool) (s : VarrefLoop) :
    ∃ st', varref_finish env t member (c :: rest) pv s = Res.ok (s.ict, s.repeat_, st') ∧
      st'.out = s.st.out ∧ st'.dinit_error = s.st.dinit_error := by
  unfold varref_finish
  simp only [clone_init_const_list, Res.bind]
  split_ifs <;>
    simp [(save_init_out env _ _ _).1, (save_init_out env _ _ _).2,
      (sym_is_dinitd_out env _ _).1, (sym_is_dinitd_out env _ _).2.2]

theorem dinit_val_convert_state (env : Env) (d dtypev : Nat) (val : Int) (s : St) :
    (dinit_val_convert env d dtypev val s).2.out = s.out ∧
    (dinit_val_convert env d dtypev val s).2.dinit_error = s.dinit_error := by
  unfold dinit_val_convert
  split_ifs <;> simp [report]

theorem dinit_val_out (env : Env) (sptr dtypev : Nat) (val : Int) (st : St)
    (h : env.no_data_components (env.DDTG (env.DTYPEG sptr)) = false) :
    ∃ v, (dinit_val env sptr dtypev val st).out =
        st.out ++ [Directive.StoreValue (dinit_val_dtype env sptr st) v] ∧
      (dinit_val env sptr dtypev val st).dinit_error = st.dinit_error := by
  unfold dinit_val
  simp only [h, Bool.false_eq_true, if_false]
  refine ⟨(dinit_val_convert env (dinit_val_dtype env sptr st) dtypev val
    (if truthy st.substr_len then { st with substr_len := 0 } else st)).1, ?_, ?_⟩
  · rw [apply_ite St.out]
    simp only [dinit_put, ite_self, (dinit_val_convert_state env _ _ _ _).1]
    split_ifs <;> rfl
  · rw [apply_ite St.dinit_error]
    simp only [dinit_put, ite_self, (dinit_val_convert_state env _ _ _ _).2]
    split_ifs <;> rfl

/-- The target of an `S_IDENT` reference to an array whose extent is known. -/
theorem ident_array_target (env : Env) (st : St) (v : Varref) (sptr member : Nat)
    (base_off : Int) (N : Int)
    (hid : v.id = SID.S_IDENT) (hptr : ident_sptr v.ptr = some sptr)
    (hok : (dinit_ok env sptr st).1 = true)
    (hptrg : env.POINTERG sptr = false) (harr : env.DTY (env.DTYPEG sptr) = TY.ARRAY)
    (hext : env.extent_of (env.DTYPEG sptr) ≠ 0) (hN : env.numelm sptr = N) (hN0 : N ≠ 0) :
    varref_target env (some v) member base_off st =
      Res.ok (some (VarrefTarget.mk sptr sptr 0 (Int.tdiv (env.size_of (env.DTYPEG sptr)) N) N), st) := by
  have hst := dinit_ok_state env sptr st hok
  simp [varref_target, hid, hptr, hok, hst, whole_array_layout, hptrg, harr, truthy, hext, hN, hN0]

/-! ## C1: a run of zeros over a whole array -/

/-- C1, as stated, fails: for the whole-array reference `a` (six integers,
`THRESHOLD = 6`) initialised by one zero leaf of repeat count 6,
`dinit_varref` writes `SetLocation(a)` and `ZeroFill(24)` and no `SetOffset`
record at all, where the claim asks for exactly one. -/
theorem C1_counterexample :
    varref_view (dinit_varref exEnv 2 (some exRefA) 0 [CONST.leaf 5 6 0] 0 0 0 exSt) =
      Res.ok ([], 0, [Directive.SetLocation 10, Directive.ZeroFill 24], [], 0) ∧
    ([Directive.SetLocation 10, Directive.ZeroFill 24].filter Directive.isSetOffset).length ≠ 1 := by
  decide!

/-- C1 (amended): for a whole-array reference (an `S_IDENT` reference to an
array symbol that may be initialised and whose values are to be written) of
`N ≥ THRESHOLD` elements whose initialiser is one leaf of repeat count `N`
holding a zero (`is_zero`), `dinit_varref` consumes the leaf and writes exactly
`SetLocation(sym)` followed by `ZeroFill(N * elsize)`, with
`elsize = size_of(type) / N`: no `StoreValue`, and no `SetOffset` because the
offset of the reference is 0. -/
theorem C1_zero_run (env : Env) (st : St) (v : Varref) (sptr : Nat) (c : CONST)
    (dtype : Nat) (base_off : Int) (N : Int) (fuel : Nat)
    (hfuel : 2 ≤ fuel)
    (hid : v.id = SID.S_IDENT) (hptr : ident_sptr v.ptr = some sptr)
    (hok : (dinit_ok env sptr st).1 = true)
    (hptrg : env.POINTERG sptr = false) (harr : env.DTY (env.DTYPEG sptr) = TY.ARRAY)
    (hext : env.extent_of (env.DTYPEG sptr) ≠ 0) (hN : env.numelm sptr = N)
    (hthr : THRESHOLD ≤ N)
    (hpv : put_value env sptr st = true)
    (hdata : env.no_data_components (env.DDTG (env.DTYPEG sptr)) = false)
    (hns : DTYG env v.dtype ≠ TY.STRUCT)
    (hleaf : c.id = ACID.CONST) (hrep : c.repeatc = N)
    (hzero : is_zero env c.dtype c.conval = true) :
    ∃ st', dinit_varref env fuel (some v) 0 [c] dtype 0 base_off st = Res.ok ([], 0, st') ∧
      st'.out = st.out ++ [Directive.SetLocation sptr,
        Directive.ZeroFill (N * (Int.tdiv (env.size_of (env.DTYPEG sptr)) N))] := by
  obtain ⟨k, rfl⟩ : ∃ k, fuel = k + 2 := ⟨fuel - 2, by omega⟩
  have hN0 : N ≠ 0 := by unfold THRESHOLD at hthr; omega
  have htg := ident_array_target env st v sptr 0 base_off N hid hptr hok hptrg harr hext hN hN0
  unfold dinit_varref
  simp only [htg, Res.bind]
  have hb : varref_body env
      (fun ic st1 => dinit_varref env (k + 1) (some v) 0 ic dtype 0 base_off st1)
      (fun ic dt off st1 => dinit_data env (k + 1) [] none ic dt off st1)
      (VarrefTarget.mk sptr sptr 0 (Int.tdiv (env.size_of (env.DTYPEG sptr)) N) N)
      (some v) 0 (put_value env sptr st) base_off
      (VarrefLoop.mk [c] (repeat_start [c] 0) 0 N true st)
      = Res.ok (Sum.inr (true, VarrefLoop.mk [] 0
          (0 + N * (Int.tdiv (env.size_of (env.DTYPEG sptr)) N)) (N - N) true
          (dinit_put (Directive.ZeroFill (N * (Int.tdiv (env.size_of (env.DTYPEG sptr)) N)))
            (dinit_put (Directive.SetLocation sptr) st)))) := by
    have hi : run_count (some v) 0 N N = N := by
      unfold run_count THRESHOLD at *
      simp
      omega
    have h1 : N ≠ 1 := by unfold THRESHOLD at hthr; omega
    have h2 : N > 1 := by unfold THRESHOLD at hthr; omega
    simp [varref_body, hdata, hleaf, ivl_struct, hns, repeat_start, hrep, hpv, hi, run_head,
      h1, h2, hzero, truthy, varref_advance, next_repeat]
  rw [loopN_exit _ _ _ _ hb]
  obtain ⟨st', h1, h2, _⟩ := varref_finish_ok env
    (VarrefTarget.mk sptr sptr 0 (Int.tdiv (env.size_of (env.DTYPEG sptr)) N) N) 0 c []
    (put_value env sptr st) (VarrefLoop.mk [] 0
          (0 + N * (Int.tdiv (env.size_of (env.DTYPEG sptr)) N)) (N - N) true
          (dinit_put (Directive.ZeroFill (N * (Int.tdiv (env.size_of (env.DTYPEG sptr)) N)))
            (dinit_put (Directive.SetLocation sptr) st)))
  refine ⟨st', ?_, ?_⟩
  · simpa using h1
  · rw [h2]
    simp [dinit_put]

/-! ## C2: a run of one non-zero value over a whole array -/

/-- C2, as stated, fails: for the whole-array reference `a` (six integers)
initialised by one leaf of repeat count 6 holding 7, `dinit_varref` writes
`SetLocation(a)`, `Repeat(6)` and one `StoreValue`, and no `SetOffset` record
between the first two. -/
theorem C2_counterexample :
    varref_view (dinit_varref exEnv 2 (some exRefA) 0 [CONST.leaf 5 6 7] 0 0 0 exSt) =
      Res.ok ([], 0, [Directive.SetLocation 10, Directive.Repeat 6, Directive.StoreValue 5 7],
        [], 0) ∧
    ([Directive.SetLocation 10, Directive.Repeat 6,
      Directive.StoreValue 5 7].filter Directive.isSetOffset).length = 0 := by
  decide!

/-- C2 (amended): for a whole-array reference (an `S_IDENT` reference to an
array symbol that may be initialised and whose values are to be written) of
`N ≥ THRESHOLD` elements whose initialiser is one leaf of repeat count `N`
holding a non-zero value of a non-structure type, `dinit_varref` consumes the
leaf and writes exactly `SetLocation(sym)`, `Repeat(N)` and one `StoreValue`,
in that order, and no `SetOffset` because the offset of the reference is 0.
The value is stored with the type `dinit_val` chooses for the symbol (its
element type when no substring length is pending). -/
theorem C2_nonzero_run (env : Env) (st : St) (v : Varref) (sptr : Nat) (c : CONST)
    (dtype : Nat) (base_off : Int) (N : Int) (fuel : Nat)
    (hfuel : 2 ≤ fuel)
    (hid : v.id = SID.S_IDENT) (hptr : ident_sptr v.ptr = some sptr)
    (hok : (dinit_ok env sptr st).1 = true)
    (hptrg : env.POINTERG sptr = false) (harr : env.DTY (env.DTYPEG sptr) = TY.ARRAY)
    (hext : env.extent_of (env.DTYPEG sptr) ≠ 0) (hN : env.numelm sptr = N)
    (hthr : THRESHOLD ≤ N)
    (hpv : put_value env sptr st = true)
    (hdata : env.no_data_components (env.DDTG (env.DTYPEG sptr)) = false)
    (hns : DTYG env v.dtype ≠ TY.STRUCT)
    (hleaf : c.id = ACID.CONST) (hrep : c.repeatc = N)
    (hval : env.DTY c.dtype ≠ TY.STRUCT)
    (hzero : is_zero env c.dtype c.conval = false) :
    ∃ st' val, dinit_varref env fuel (some v) 0 [c] dtype 0 base_off st = Res.ok ([], 0, st') ∧
      st'.out = st.out ++ [Directive.SetLocation sptr, Directive.Repeat N,
        Directive.StoreValue (dinit_val_dtype env sptr st) val] := by
  obtain ⟨k, rfl⟩ : ∃ k, fuel = k + 2 := ⟨fuel - 2, by omega⟩
  have hN0 : N ≠ 0 := by unfold THRESHOLD at hthr; omega
  have htg := ident_array_target env st v sptr 0 base_off N hid hptr hok hptrg harr hext hN hN0
  obtain ⟨val, hv1, _⟩ := dinit_val_out env sptr c.dtype c.conval
    (dinit_put (Directive.Repeat N) (dinit_put (Directive.SetLocation sptr) st)) hdata
  unfold dinit_varref
  simp only [htg, Res.bind]
  have hb : varref_body env
      (fun ic st1 => dinit_varref env (k + 1) (some v) 0 ic dtype 0 base_off st1)
      (fun ic dt off st1 => dinit_data env (k + 1) [] none ic dt off st1)
      (VarrefTarget.mk sptr sptr 0 (Int.tdiv (env.size_of (env.DTYPEG sptr)) N) N)
      (some v) 0 (put_value env sptr st) base_off
      (VarrefLoop.mk [c] (repeat_start [c] 0) 0 N true st)
      = Res.ok (Sum.inr (true, VarrefLoop.mk [] 0
          (0 + N * (Int.tdiv (env.size_of (env.DTYPEG sptr)) N)) (N - N) true
          (dinit_val env sptr c.dtype c.conval
            (dinit_put (Directive.Repeat N) (dinit_put (Directive.SetLocation sptr) st))))) := by
    have hi : run_count (some v) 0 N N = N := by
      unfold run_count THRESHOLD at *
      simp
      omega
    have h1 : N ≠ 1 := by unfold THRESHOLD at hthr; omega
    simp [varref_body, hdata, hleaf, ivl_struct, hns, repeat_start, hrep, hpv, hi, run_head,
      h1, hzero, truthy, varref_advance, hval, next_repeat]
  rw [loopN_exit _ _ _ _ hb]
  obtain ⟨st', h1, h2, _⟩ := varref_finish_ok env
    (VarrefTarget.mk sptr sptr 0 (Int.tdiv (env.size_of (env.DTYPEG sptr)) N) N) 0 c []
    (put_value env sptr st) (VarrefLoop.mk [] 0
          (0 + N * (Int.tdiv (env.size_of (env.DTYPEG sptr)) N)) (N - N) true
          (dinit_val env sptr c.dtype c.conval
            (dinit_put (Directive.Repeat N) (dinit_put (Directive.SetLocation sptr) st))))
  refine ⟨st', val, ?_, ?_⟩
  · simpa using h1
  · rw [h2]
    simp only [hv1]
    simp [dinit_put, dinit_val_dtype]

/-- C2 (amended), at the array `a` of six integers and the value 7. -/
theorem C2_nonzero_run_witness :
    ∃ st' val, dinit_varref exEnv 2 (some exRefA) 0 [CONST.leaf 5 6 7] 0 0 0 exSt =
        Res.ok ([], 0, st') ∧
      st'.out = exSt.out ++ [Directive.SetLocation (10 : Nat), Directive.Repeat 6,
        Directive.StoreValue (dinit_val_dtype exEnv 10 exSt) val] :=
  C2_nonzero_run exEnv exSt exRefA 10 (CONST.leaf 5 6 7) 0 0 6 2 (by decide) rfl rfl (by decide)
    rfl rfl (by decide) rfl (by decide) (by decide) rfl (by decide) rfl rfl (by decide)
    (by decide)

/-! ## The loop of `dinit_varref` on plain leaves -/

/-- One iteration of the loop of `dinit_varref` on a plain leaf (an `AC_CONST`
node of a non-structure type, for a reference that is not of a derived type):
the position advances by `run_count` elements. -/
theorem varref_body_leaf (env : Env)
    (recV : List CONST → St → Res (List CONST × Int × St))
    (recD : List CONST → Nat → Int → St → Res St)
    (t : VarrefTarget) (ivl : Option Varref) (pv : Bool) (base_off : Int)
    (s : VarrefLoop) (c : CONST) (next : List CONST)
    (hdata : env.no_data_components (env.DDTG (env.DTYPEG t.sptr)) = false)
    (hict : s.ict = c :: next) (hleaf : c.id = ACID.CONST)
    (hns : ivl_struct env ivl = false) (hval : env.DTY c.dtype ≠ TY.STRUCT) :
    ∃ nb st', varref_body env recV recD t ivl 0 pv base_off s =
      Res.ok (Sum.map id (Prod.mk true)
        (varref_advance t c next (run_count ivl 0 s.num_elem s.repeat_) s.repeat_ s nb st')) := by
  unfold varref_body
  simp only [hdata, hict, hleaf, hns, hval, Bool.false_eq_true, if_false, ne_eq,
    not_true_eq_false, false_and]
  by_cases hpv : pv = true
  · simp only [hpv, if_true]
    by_cases hz : (run_head env t 0 c (run_count ivl 0 s.num_elem s.repeat_) s.offset
        s.new_block s.st).1 = true
    · simp only [hz, if_true]
      exact ⟨_, _, rfl⟩
    · simp only [hz, if_false]
      exact ⟨_, _, rfl⟩
  · simp only [hpv, if_false]
    exact ⟨_, _, rfl⟩

/-- One iteration of the loop of `dinit_varref` on a plain leaf when the run
is not worth a REPEAT record (`run_count = 1`) and values are written: the
location records if a new block starts, then one value record. -/
theorem varref_body_leaf_one (env : Env)
    (recV : List CONST → St → Res (List CONST × Int × St))
    (recD : List CONST → Nat → Int → St → Res St)
    (t : VarrefTarget) (ivl : Option Varref) (base_off : Int)
    (s : VarrefLoop) (c : CONST) (next : List CONST)
    (hdata : env.no_data_components (env.DDTG (env.DTYPEG t.sptr)) = false)
    (hict : s.ict = c :: next) (hleaf : c.id = ACID.CONST)
    (hns : ivl_struct env ivl = false) (hval : env.DTY c.dtype ≠ TY.STRUCT)
    (hone : run_count ivl 0 s.num_elem s.repeat_ = 1) :
    varref_body env recV recD t ivl 0 true base_off s =
      Res.ok (Sum.map id (Prod.mk true)
        (varref_advance t c next 1 s.repeat_ s false
          (dinit_val env t.init_sym c.dtype c.conval
            (block_head t s)))) := by
  unfold varref_body
  simp only [hdata, hict, hleaf, hns, hval, hone, Bool.false_eq_true, if_false, ne_eq,
    not_true_eq_false, false_and, if_true]
  unfold run_head block_head
  by_cases hnb : s.new_block = true
  · simp [hnb]
  · simp [hnb]

/-- Below `THRESHOLD` a run is written one element at a time. -/
theorem run_count_short (ivl : Option Varref) (n r : Int) (h1 : n ≤ r) (h2 : n < THRESHOLD) :
    run_count ivl 0 n r = 1 := by
  unfold run_count THRESHOLD at *
  have : (if n < r then n else r) < 6 := by split_ifs <;> omega
  simp [this]

theorem short_run_loop (env : Env)
    (recV : List CONST → St → Res (List CONST × Int × St))
    (recD : List CONST → Nat → Int → St → Res St)
    (t : VarrefTarget) (ivl : Option Varref) (base_off : Int) (c : CONST) (next : List CONST)
    (hdata : env.no_data_components (env.DDTG (env.DTYPEG t.sptr)) = false)
    (hdata2 : env.no_data_components (env.DDTG (env.DTYPEG t.init_sym)) = false)
    (hleaf : c.id = ACID.CONST)
    (hns : ivl_struct env ivl = false) (hval : env.DTY c.dtype ≠ TY.STRUCT) :
    ∀ (m fuel : Nat) (s : VarrefLoop), m + 1 ≤ fuel → s.ict = c :: next →
      s.num_elem = (m : Int) + 1 → s.num_elem ≤ s.repeat_ → s.num_elem < THRESHOLD →
      ∃ s' vals, loopN (varref_body env recV recD t ivl 0 true base_off) fuel s =
          Res.ok (true, s') ∧
        s'.st.out = (block_head t s).out ++ vals ∧
        vals.length = m + 1 ∧ (∀ d ∈ vals, d.isStoreValue = true) ∧
        s'.st.dinit_error = s.st.dinit_error ∧
        s'.ict = (if s.repeat_ - s.num_elem = 0 then next else c :: next) ∧
        s'.repeat_ = (if s.repeat_ - s.num_elem = 0 then next_repeat next
            else s.repeat_ - s.num_elem) := by
  intro m
  induction m with
  | zero =>
    intro fuel s hfuel hict hn hle hthr
    obtain ⟨k, rfl⟩ : ∃ k, fuel = k + 1 := ⟨fuel - 1, by omega⟩
    have hone := run_count_short ivl s.num_elem s.repeat_ hle hthr
    have hb := varref_body_leaf_one env recV recD t ivl base_off s c next hdata hict hleaf hns
      hval hone
    obtain ⟨v, hv, hve⟩ := dinit_val_out env t.init_sym c.dtype c.conval
      (block_head t s) hdata2
    have hn0 : ¬ (s.num_elem - 1 > 0) := by omega
    simp only [varref_advance, hn0, if_false, Sum.map_inr] at hb
    rw [loopN_exit _ _ _ _ hb]
    refine ⟨_, [Directive.StoreValue (dinit_val_dtype env t.init_sym (block_head t s)) v],
      rfl, ?_, rfl, ?_, ?_, ?_, ?_⟩
    · simpa using hv
    · intro d hd
      simp only [List.mem_singleton] at hd
      subst hd
      rfl
    · simp only [hve]
      unfold block_head
      split_ifs <;> simp [dinit_put]
    · simp only [hn]
      simp
    · simp only [hn]
      simp
  | succ m ih =>
    intro fuel s hfuel hict hn hle hthr
    obtain ⟨k, rfl⟩ : ∃ k, fuel = k + 1 := ⟨fuel - 1, by omega⟩
    have hone := run_count_short ivl s.num_elem s.repeat_ hle hthr
    have hb := varref_body_leaf_one env recV recD t ivl base_off s c next hdata hict hleaf hns
      hval hone
    obtain ⟨v, hv, hve⟩ := dinit_val_out env t.init_sym c.dtype c.conval
      (block_head t s) hdata2
    have hn0 : s.num_elem - 1 > 0 := by push_cast at hn; omega
    have hr0 : ¬ (s.repeat_ - 1 = 0) := by push_cast at hn; omega
    simp only [varref_advance, hn0, hr0, if_true, if_false, Sum.map_inl, id] at hb
    rw [loopN_step _ _ _ _ hb]
    obtain ⟨s', vals, h1, h2, h3, h4, h5, h6, h7⟩ := ih k
      (VarrefLoop.mk (c :: next) (s.repeat_ - 1) (s.offset + 1 * t.elsize) (s.num_elem - 1) false
        (dinit_val env t.init_sym c.dtype c.conval (block_head t s)))
      (by omega) rfl
      (by show s.num_elem - 1 = (m : Int) + 1; push_cast at hn; omega)
      (by show s.num_elem - 1 ≤ s.repeat_ - 1; omega)
      (by show s.num_elem - 1 < THRESHOLD; omega)
    refine ⟨s', Directive.StoreValue (dinit_val_dtype env t.init_sym (block_head t s)) v :: vals,
      h1, ?_, ?_, ?_, ?_, ?_, ?_⟩
    · have hbh : block_head t (VarrefLoop.mk (c :: next) (s.repeat_ - 1)
          (s.offset + 1 * t.elsize) (s.num_elem - 1) false
          (dinit_val env t.init_sym c.dtype c.conval (block_head t s))) =
          dinit_val env t.init_sym c.dtype c.conval (block_head t s) := by
        simp [block_head]
      rw [h2, hbh, hv]
      simp
    · simp [h3]
    · intro d hd
      rcases List.mem_cons.mp hd with hd | hd
      · subst hd
        rfl
      · exact h4 d hd
    · rw [h5]
      simp only [hve]
      unfold block_head
      split_ifs <;> simp [dinit_put]
    · rw [h6]
      have : s.repeat_ - 1 - (s.num_elem - 1) = s.repeat_ - s.num_elem := by ring
      simp only [this]
    · rw [h7]
      have : s.repeat_ - 1 - (s.num_elem - 1) = s.repeat_ - s.num_elem := by ring
      simp only [this]

/-! ## C3: short runs -/

/-- C3, as stated, fails for `dinit_subs`: for the type-declaration initialiser
of `integer b(3)` made of one leaf of repeat count 3 (below `THRESHOLD = 6`)
holding 7, `dinit_subs` writes a `Repeat(3)` record and a single `StoreValue`,
not three `StoreValue` records. -/
theorem C3_counterexample :
    written (dinit_subs exEnv 3 [exLeafB] 11 0 0 exSt) =
      [Directive.SetLocation 11, Directive.SetOffset 0, Directive.Repeat 3,
        Directive.StoreValue 5 7] ∧
    ([Directive.SetLocation 11, Directive.SetOffset 0, Directive.Repeat 3,
        Directive.StoreValue 5 7].filter Directive.isRepeat).length = 1 ∧
    ([Directive.SetLocation 11, Directive.SetOffset 0, Directive.Repeat 3,
        Directive.StoreValue 5 7].filter Directive.isStoreValue).length = 1 := by
  decide!

/-- The DATA-statement half of C3: a reference of `N` elements served by a
leaf of repeat count below `THRESHOLD` gets `N` value records and no REPEAT. -/
theorem short_run_varref (env : Env) (st : St) (v : Varref) (sptr : Nat) (c : CONST)
    (rest : List CONST) (dtype : Nat) (base_off : Int) (N : Int) (fuel : Nat)
    (hfuel : N.toNat + 1 ≤ fuel)
    (hid : v.id = SID.S_IDENT) (hptr : ident_sptr v.ptr = some sptr)
    (hok : (dinit_ok env sptr st).1 = true)
    (hptrg : env.POINTERG sptr = false) (harr : env.DTY (env.DTYPEG sptr) = TY.ARRAY)
    (hext : env.extent_of (env.DTYPEG sptr) ≠ 0) (hN : env.numelm sptr = N)
    (hN1 : 1 ≤ N) (hNr : N ≤ c.repeatc) (hthr : c.repeatc < THRESHOLD)
    (hpv : put_value env sptr st = true)
    (hdata : env.no_data_components (env.DDTG (env.DTYPEG sptr)) = false)
    (hns : DTYG env v.dtype ≠ TY.STRUCT)
    (hleaf : c.id = ACID.CONST) (hval : env.DTY c.dtype ≠ TY.STRUCT) :
    ∃ ict' rep' st' vals,
      dinit_varref env fuel (some v) 0 (c :: rest) dtype 0 base_off st = Res.ok (ict', rep', st') ∧
      st'.out = st.out ++ Directive.SetLocation sptr :: vals ∧
      vals.length = N.toNat ∧ (∀ d ∈ vals, d.isStoreValue = true) ∧
      (∀ d ∈ Directive.SetLocation sptr :: vals, d.isRepeat = false) := by
  obtain ⟨k, rfl⟩ : ∃ k, fuel = k + 1 := ⟨fuel - 1, by omega⟩
  obtain ⟨m, hm⟩ : ∃ m : Nat, N = (m : Int) + 1 := ⟨(N - 1).toNat, by omega⟩
  have hN0 : N ≠ 0 := by omega
  have htg := ident_array_target env st v sptr 0 base_off N hid hptr hok hptrg harr hext hN hN0
  have hivl : ivl_struct env (some v) = false := by simp [ivl_struct, hns]
  obtain ⟨s', vals, h1, h2, h3, h4, _, _, _⟩ := short_run_loop env
    (fun ic st1 => dinit_varref env k (some v) 0 ic dtype 0 base_off st1)
    (fun ic dt off st1 => dinit_data env k [] none ic dt off st1)
    (VarrefTarget.mk sptr sptr 0 (Int.tdiv (env.size_of (env.DTYPEG sptr)) N) N)
    (some v) base_off c rest hdata hdata hleaf hivl hval m k
    (VarrefLoop.mk (c :: rest) (repeat_start (c :: rest) 0) 0 N true st)
    (by omega) rfl hm (by simpa [repeat_start] using hNr) (by show N < THRESHOLD; omega)
  obtain ⟨st', hf1, hf2, _⟩ := varref_finish_ok env
    (VarrefTarget.mk sptr sptr 0 (Int.tdiv (env.size_of (env.DTYPEG sptr)) N) N) 0 c rest
    (put_value env sptr st) s'
  unfold dinit_varref
  simp only [htg, Res.bind, hpv] at h1 hf1 ⊢
  rw [h1]
  refine ⟨s'.ict, s'.repeat_, st', vals, ?_, ?_, ?_, h4, ?_⟩
  · simpa using hf1
  · rw [hf2, h2]
    simp [block_head, truthy, dinit_put]
  · rw [h3, hm]
    omega
  · intro d hd
    rcases List.mem_cons.mp hd with hd | hd
    · subst hd
      rfl
    · have := h4 d hd
      cases d <;> simp_all [Directive.isStoreValue, Directive.isRepeat]

/-- The type-declaration half of C3: `dinit_subs` has no threshold; a leaf of
repeat count above 1 gets a REPEAT record and one value record. -/
theorem repeat_run_subs (env : Env) (st : St) (c : CONST) (base : Nat) (boffset : Int)
    (mbr : Nat) (fuel : Nat)
    (hfuel : 3 ≤ fuel) (hsub : c.subc = []) (hs : c.sptr ≠ 0) (hr : 1 < c.repeatc)
    (hdata : env.no_data_components (env.DDTG (env.DTYPEG c.sptr)) = false) :
    ∃ st' val, dinit_subs env fuel [c] base boffset mbr st = Res.ok st' ∧
      st'.out = st.out ++ [Directive.SetLocation base,
        Directive.SetOffset (boffset + env.ADDRESSG c.sptr), Directive.Repeat c.repeatc,
        Directive.StoreValue (dinit_val_dtype env c.sptr st) val] := by
  obtain ⟨k, rfl⟩ : ∃ k, fuel = k + 3 := ⟨fuel - 3, by omega⟩
  obtain ⟨val, hv, _⟩ := dinit_val_out env c.sptr c.dtype c.conval
    (dinit_put (Directive.Repeat c.repeatc)
      (dinit_put (Directive.SetOffset (boffset + env.ADDRESSG c.sptr + 0))
        (dinit_put (Directive.SetLocation base) st))) hdata
  have hrun : dinit_subs env (k + 3) [c] base boffset mbr st =
      Res.ok (dinit_val env c.sptr c.dtype c.conval
          (dinit_put (Directive.Repeat c.repeatc)
            (dinit_put (Directive.SetOffset (boffset + env.ADDRESSG c.sptr + 0))
              (dinit_put (Directive.SetLocation base) st)))) := by
    unfold dinit_subs
    rw [loopN_step _ _ _ (SubsLoop.mk [] mbr (env.ADDRESSG c.sptr)
        (0 + subs_elsize env c.sptr * c.repeatc) (subs_elsize env c.sptr) (some c.sptr)
        (some (env.DTYPEG c.sptr)) true
        (dinit_val env c.sptr c.dtype c.conval
          (dinit_put (Directive.Repeat c.repeatc)
            (dinit_put (Directive.SetOffset (boffset + env.ADDRESSG c.sptr + 0))
              (dinit_put (Directive.SetLocation base) st)))))]
    · rw [loopN_exit]
      simp [subs_body]
    · have h0 : ¬ (1 - 1 > (0 : Int)) := by omega
      simp [subs_body, hsub, subs_leaf, hs, hr, subs_vals, Res.bind, subs_tail, h0]
  refine ⟨_, val, hrun, ?_⟩
  rw [hv]
  simp [dinit_put, dinit_val_dtype]

/-! ## C4: constants consumed by a reference -/

theorem expand_at_head (c : CONST) (next : List CONST) :
    expand_at (c :: next) c.repeatc = expand (c :: next) := rfl

theorem run_count_bounds (ivl : Option Varref) (n r : Int) (hn : 1 ≤ n) (hr : 1 ≤ r) :
    1 ≤ run_count ivl 0 n r ∧ run_count ivl 0 n r ≤ n ∧ run_count ivl 0 n r ≤ r := by
  unfold run_count THRESHOLD
  simp only [ne_eq, not_true_eq_false, and_false, if_false]
  split_ifs <;> omega

/-- Advancing a well-formed position by `i` elements of its first node drops
`i` elements of the expansion and leaves a well-formed position. -/
theorem advance_position (env : Env) (c : CONST) (next : List CONST) (i rep : Int)
    (hi1 : 1 ≤ i) (hi2 : i ≤ rep) (hflat : flat_leaves env next) :
    expand_at (if rep - i = 0 then next else c :: next)
        (if rep - i = 0 then next_repeat next else rep - i) =
      (expand_at (c :: next) rep).drop i.toNat ∧
    (rep ≤ c.repeatc → position_wf (if rep - i = 0 then next else c :: next)
        (if rep - i = 0 then next_repeat next else rep - i)) := by
  by_cases h0 : rep - i = 0
  · have hri : rep = i := by omega
    subst hri
    simp only [h0, if_true]
    constructor
    · cases next with
      | nil => simp [expand_at, expand, next_repeat]
      | cons n tl => simp [expand_at, expand, next_repeat]
    · intro _
      cases next with
      | nil => simp [position_wf, next_repeat]
      | cons n tl =>
        have := (hflat n (List.mem_cons_self n tl)).2.2
        simp [position_wf, next_repeat, this]
  · simp only [h0, if_false]
    constructor
    · simp only [expand_at]
      rw [List.drop_append_of_le_length (by simp; omega)]
      simp only [List.drop_replicate]
      congr 2
      omega
    · intro hle
      simp only [position_wf]
      omega

/-- The loop of `dinit_varref` over a flat list of leaves that holds enough
elements: it ends normally at the position `num_elem` elements further. -/
theorem leaf_loop (env : Env)
    (recV : List CONST → St → Res (List CONST × Int × St))
    (recD : List CONST → Nat → Int → St → Res St)
    (t : VarrefTarget) (ivl : Option Varref) (pv : Bool) (base_off : Int)
    (hdata : env.no_data_components (env.DDTG (env.DTYPEG t.sptr)) = false)
    (hns : ivl_struct env ivl = false) :
    ∀ (fuel : Nat) (s : VarrefLoop), 1 ≤ s.num_elem → s.num_elem.toNat ≤ fuel →
      flat_leaves env s.ict → position_wf s.ict s.repeat_ →
      s.num_elem.toNat ≤ (expand_at s.ict s.repeat_).length →
      ∃ s', loopN (varref_body env recV recD t ivl 0 pv base_off) fuel s = Res.ok (true, s') ∧
        expand_at s'.ict s'.repeat_ = (expand_at s.ict s.repeat_).drop s.num_elem.toNat ∧
        s'.ict <:+ s.ict ∧ position_wf s'.ict s'.repeat_ := by
  intro fuel
  induction fuel with
  | zero =>
    intro s h1 h2
    omega
  | succ k ih =>
    intro s hn hfuel hflat hwf hlen
    cases hict : s.ict with
    | nil =>
      rw [hict] at hlen
      simp [expand_at] at hlen
      omega
    | cons c next =>
      rw [hict] at hflat hwf hlen
      simp only [position_wf] at hwf
      obtain ⟨hc1, hc2, hc3⟩ := hflat c (List.mem_cons_self c next)
      have hflat2 : flat_leaves env next := fun d hd => hflat d (List.mem_cons_of_mem c hd)
      obtain ⟨nb, st', hb⟩ := varref_body_leaf env recV recD t ivl pv base_off s c next hdata
        hict hc1 hns hc2
      obtain ⟨hi1, hi2, hi3⟩ := run_count_bounds ivl s.num_elem s.repeat_ hn hwf.1
      obtain ⟨hp1, hp2⟩ := advance_position env c next (run_count ivl 0 s.num_elem s.repeat_)
        s.repeat_ hi1 hi3 hflat2
      have hp2 := hp2 hwf.2
      have hsuf : (if s.repeat_ - run_count ivl 0 s.num_elem s.repeat_ = 0 then next
          else c :: next) <:+ c :: next := by
        split_ifs
        · exact List.suffix_cons c next
        · exact List.suffix_refl _
      simp only [varref_advance] at hb
      by_cases hgo : s.num_elem - run_count ivl 0 s.num_elem s.repeat_ > 0
      · simp only [hgo, if_true, Sum.map_inl, id] at hb
        rw [loopN_step _ _ _ _ hb]
        obtain ⟨s', h1, h2, h3, h4⟩ := ih
          (VarrefLoop.mk
            (if s.repeat_ - run_count ivl 0 s.num_elem s.repeat_ = 0 then next else c :: next)
            (if s.repeat_ - run_count ivl 0 s.num_elem s.repeat_ = 0 then next_repeat next
              else s.repeat_ - run_count ivl 0 s.num_elem s.repeat_)
            (s.offset + run_count ivl 0 s.num_elem s.repeat_ * t.elsize)
            (s.num_elem - run_count ivl 0 s.num_elem s.repeat_) nb st')
          (by show 1 ≤ s.num_elem - run_count ivl 0 s.num_elem s.repeat_; omega)
          (by show (s.num_elem - run_count ivl 0 s.num_elem s.repeat_).toNat ≤ k; omega)
          (fun d hd => hflat d (hsuf.subset hd)) hp2
          (by
            show (s.num_elem - run_count ivl 0 s.num_elem s.repeat_).toNat ≤ _
            rw [hp1, List.length_drop]
            omega)
        refine ⟨s', h1, ?_, h3.trans hsuf, h4⟩
        rw [h2]
        show List.drop (s.num_elem - run_count ivl 0 s.num_elem s.repeat_).toNat (expand_at _ _) = _
        rw [hp1, List.drop_drop]
        congr 1
        omega
      · simp only [hgo, if_false, Sum.map_inr] at hb
        rw [loopN_exit _ _ _ _ hb]
        refine ⟨_, rfl, ?_, hsuf, hp2⟩
        show expand_at _ _ = _
        rw [hp1]
        congr 1
        omega

/-- The target of an `S_IDENT` reference to a scalar: one element. -/
theorem ident_scalar_target (env : Env) (st : St) (v : Varref) (sptr member : Nat)
    (base_off : Int)
    (hid : v.id = SID.S_IDENT) (hptr : ident_sptr v.ptr = some sptr)
    (hok : (dinit_ok env sptr st).1 = true)
    (hsc : ¬ (env.POINTERG sptr = false ∧ env.DTY (env.DTYPEG sptr) = TY.ARRAY)) :
    varref_target env (some v) member base_off st =
      Res.ok (some (VarrefTarget.mk sptr sptr 0 env.indeterminate 1), st) := by
  have hst := dinit_ok_state env sptr st hok
  simp [varref_target, hid, hptr, hok, hst, whole_array_layout, hsc]

/-- The target of a reference to an array element that resolves: one element. -/
theorem element_target (env : Env) (st : St) (v : Varref) (base : IRef) (subs : List IExpr)
    (base_off : Int) (t : VarrefTarget) (st1 : St)
    (hid : v.id = SID.S_LVALUE) (hptr : v.ptr = IRef.ELEMENT base subs)
    (htg : varref_target env (some v) 0 base_off st = Res.ok (some t, st1)) :
    t.num_elem = 1 := by
  simp only [varref_target, hid, hptr, IRef.isElement] at htg
  simp only [reduceCtorEq, if_false, ne_eq, not_true_eq_false, Bool.not_eq_true, and_false,
    Bool.true_eq_false] at htg
  split_ifs at htg <;>
    first
    | (simp at htg; done)
    | (simp only [Res.ok.injEq, Prod.mk.injEq, Option.some.injEq] at htg
       rw [← htg.1])

theorem dinit_varref_flat (env : Env) (st st1 : St) (v : Varref) (t : VarrefTarget)
    (ict : List CONST) (dtype : Nat) (rep base_off : Int) (fuel : Nat)
    (htg : varref_target env (some v) 0 base_off st = Res.ok (some t, st1))
    (hn : 1 ≤ t.num_elem) (hfuel : t.num_elem.toNat + 1 ≤ fuel)
    (hdata : env.no_data_components (env.DDTG (env.DTYPEG t.sptr)) = false)
    (hns : DTYG env v.dtype ≠ TY.STRUCT)
    (hflat : flat_leaves env ict) (hwf : position_wf ict (repeat_start ict rep))
    (hlen : t.num_elem.toNat ≤ (expand_at ict (repeat_start ict rep)).length) :
    ∃ ict' rep' st',
      dinit_varref env fuel (some v) 0 ict dtype rep base_off st = Res.ok (ict', rep', st') ∧
      expand_at ict' rep' = (expand_at ict (repeat_start ict rep)).drop t.num_elem.toNat ∧
      ict' <:+ ict ∧ position_wf ict' rep' := by
  obtain ⟨k, rfl⟩ : ∃ k, fuel = k + 1 := ⟨fuel - 1, by omega⟩
  have hivl : ivl_struct env (some v) = false := by simp [ivl_struct, hns]
  obtain ⟨s', h1, h2, h3, h4⟩ := leaf_loop env
    (fun ic st1 => dinit_varref env k (some v) 0 ic dtype 0 base_off st1)
    (fun ic dt off st1 => dinit_data env k [] none ic dt off st1)
    t (some v) (put_value env t.sptr st1) base_off hdata hivl k
    (VarrefLoop.mk ict (repeat_start ict rep) t.offset t.num_elem true st1)
    hn (by show t.num_elem.toNat ≤ k; omega) hflat hwf hlen
  cases hict : ict with
  | nil =>
    rw [hict] at hlen
    simp [expand_at] at hlen
    omega
  | cons c rest =>
    obtain ⟨st', hf1, _, _⟩ := varref_finish_ok env t 0 c rest (put_value env t.sptr st1) s'
    unfold dinit_varref
    rw [hict] at h1 h2 h3
    simp only [htg, Res.bind, h1, if_true]
    exact ⟨s'.ict, s'.repeat_, st', hf1, h2, h3, h4⟩

/-- A run is written one element at a time when the count left in the leaf is
below `THRESHOLD`, whatever the number of elements of the reference. -/
theorem run_count_short_leaf (ivl : Option Varref) (n r : Int) (h : r < THRESHOLD) :
    run_count ivl 0 n r = 1 := by
  unfold run_count THRESHOLD at *
  have : (if n < r then n else r) < 6 := by split_ifs <;> omega
  simp [this]

/-- The loop of `dinit_varref` over a flat list of leaves, for a reference of
`m + 1` elements that are all served by leaves of a repeat count below
`THRESHOLD`: one value record per element after the records that open the
block, and the position `m + 1` elements further. -/
theorem short_leaves_loop (env : Env)
    (recV : List CONST → St → Res (List CONST × Int × St))
    (recD : List CONST → Nat → Int → St → Res St)
    (t : VarrefTarget) (ivl : Option Varref) (base_off : Int)
    (hdata : env.no_data_components (env.DDTG (env.DTYPEG t.sptr)) = false)
    (hdata2 : env.no_data_components (env.DDTG (env.DTYPEG t.init_sym)) = false)
    (hns : ivl_struct env ivl = false) :
    ∀ (m fuel : Nat) (s : VarrefLoop), m + 1 ≤ fuel → s.num_elem = (m : Int) + 1 →
      flat_leaves env s.ict → position_wf s.ict s.repeat_ →
      m + 1 ≤ (expand_at s.ict s.repeat_).length →
      (∀ c ∈ (expand_at s.ict s.repeat_).take (m + 1), c.repeatc < THRESHOLD) →
      ∃ s' vals, loopN (varref_body env recV recD t ivl 0 true base_off) fuel s =
          Res.ok (true, s') ∧
        s'.st.out = (block_head t s).out ++ vals ∧
        vals.length = m + 1 ∧ (∀ d ∈ vals, d.isStoreValue = true) ∧
        s'.st.dinit_error = s.st.dinit_error ∧
        expand_at s'.ict s'.repeat_ = (expand_at s.ict s.repeat_).drop (m + 1) := by
  intro m
  induction m with
  | zero =>
    intro fuel s hfuel hn hflat hwf hlen hshort
    obtain ⟨k, rfl⟩ : ∃ k, fuel = k + 1 := ⟨fuel - 1, by omega⟩
    cases hict : s.ict with
    | nil =>
      rw [hict] at hlen
      simp [expand_at] at hlen
    | cons c next =>
      rw [hict] at hflat hwf hlen hshort
      simp only [position_wf] at hwf
      obtain ⟨hc1, hc2, hc3⟩ := hflat c (List.mem_cons_self c next)
      have hflat2 : flat_leaves env next := fun d hd => hflat d (List.mem_cons_of_mem c hd)
      have hhead : c ∈ (expand_at (c :: next) s.repeat_).take (0 + 1) := by
        obtain ⟨j, hj⟩ : ∃ j : Nat, s.repeat_.toNat = j + 1 := ⟨s.repeat_.toNat - 1, by omega⟩
        simp [expand_at, hj, List.replicate_succ]
      have hrep : s.repeat_ < THRESHOLD := lt_of_le_of_lt hwf.2 (hshort c hhead)
      have hone := run_count_short_leaf ivl s.num_elem s.repeat_ hrep
      have hb := varref_body_leaf_one env recV recD t ivl base_off s c next hdata hict hc1 hns
        hc2 hone
      obtain ⟨v, hv, hve⟩ := dinit_val_out env t.init_sym c.dtype c.conval
        (block_head t s) hdata2
      obtain ⟨hp1, _⟩ := advance_position env c next 1 s.repeat_ (le_refl 1) hwf.1 hflat2
      have hn0 : ¬ (s.num_elem - 1 > 0) := by omega
      simp only [varref_advance, hn0, if_false, Sum.map_inr] at hb
      rw [loopN_exit _ _ _ _ hb]
      refine ⟨_, [Directive.StoreValue (dinit_val_dtype env t.init_sym (block_head t s)) v],
        rfl, ?_, rfl, ?_, ?_, ?_⟩
      · simpa using hv
      · intro d hd
        simp only [List.mem_singleton] at hd
        subst hd
        rfl
      · simp only [hve]
        unfold block_head
        split_ifs <;> simp [dinit_put]
      · simpa using hp1
  | succ m ih =>
    intro fuel s hfuel hn hflat hwf hlen hshort
    obtain ⟨k, rfl⟩ : ∃ k, fuel = k + 1 := ⟨fuel - 1, by omega⟩
    cases hict : s.ict with
    | nil =>
      rw [hict] at hlen
      simp [expand_at] at hlen
    | cons c next =>
      rw [hict] at hflat hwf hlen hshort
      simp only [position_wf] at hwf
      obtain ⟨hc1, hc2, hc3⟩ := hflat c (List.mem_cons_self c next)
      have hflat2 : flat_leaves env next := fun d hd => hflat d (List.mem_cons_of_mem c hd)
      have hhead : c ∈ (expand_at (c :: next) s.repeat_).take (m + 1 + 1) := by
        obtain ⟨j, hj⟩ : ∃ j : Nat, s.repeat_.toNat = j + 1 := ⟨s.repeat_.toNat - 1, by omega⟩
        simp [expand_at, hj, List.replicate_succ]
      have hrep : s.repeat_ < THRESHOLD := lt_of_le_of_lt hwf.2 (hshort c hhead)
      have hone := run_count_short_leaf ivl s.num_elem s.repeat_ hrep
      have hb := varref_body_leaf_one env recV recD t ivl base_off s c next hdata hict hc1 hns
        hc2 hone
      obtain ⟨v, hv, hve⟩ := dinit_val_out env t.init_sym c.dtype c.conval
        (block_head t s) hdata2
      obtain ⟨hp1, hp2⟩ := advance_position env c next 1 s.repeat_ (le_refl 1) hwf.1 hflat2
      have hp2 := hp2 hwf.2
      have hsuf : (if s.repeat_ - 1 = 0 then next else c :: next) <:+ c :: next := by
        split_ifs
        · exact List.suffix_cons c next
        · exact List.suffix_refl _
      have hn0 : s.num_elem - 1 > 0 := by push_cast at hn; omega
      simp only [varref_advance, hn0, if_true, Sum.map_inl, id] at hb
      rw [loopN_step _ _ _ _ hb]
      have hp1' : expand_at (if s.repeat_ - 1 = 0 then next else c :: next)
          (if s.repeat_ - 1 = 0 then next_repeat next else s.repeat_ - 1) =
          (expand_at (c :: next) s.repeat_).drop 1 := by simpa using hp1
      obtain ⟨s', vals, h1, h2, h3, h4, h5, h6⟩ := ih k
        (VarrefLoop.mk (if s.repeat_ - 1 = 0 then next else c :: next)
          (if s.repeat_ - 1 = 0 then next_repeat next else s.repeat_ - 1)
          (s.offset + 1 * t.elsize) (s.num_elem - 1) false
          (dinit_val env t.init_sym c.dtype c.conval (block_head t s)))
        (by omega)
        (by show s.num_elem - 1 = (m : Int) + 1; push_cast at hn; omega)
        (fun d hd => hflat d (hsuf.subset hd)) hp2
        (by
          show m + 1 ≤ (expand_at _ _).length
          rw [hp1', List.length_drop]
          omega)
        (by
          intro d hd
          apply hshort d
          have hd' : d ∈ ((expand_at (c :: next) s.repeat_).drop 1).take (m + 1) := by
            rw [← hp1']
            exact hd
          have e : ((expand_at (c :: next) s.repeat_).drop 1).take (m + 1) =
              ((expand_at (c :: next) s.repeat_).take (m + 1 + 1)).drop 1 := by
            rw [List.drop_take]
            simp
          rw [e] at hd'
          exact List.mem_of_mem_drop hd')
      refine ⟨s', Directive.StoreValue (dinit_val_dtype env t.init_sym (block_head t s)) v :: vals,
        h1, ?_, ?_, ?_, ?_, ?_⟩
      · rw [h2]
        have hbh : block_head t (VarrefLoop.mk (if s.repeat_ - 1 = 0 then next else c :: next)
            (if s.repeat_ - 1 = 0 then next_repeat next else s.repeat_ - 1)
            (s.offset + 1 * t.elsize) (s.num_elem - 1) false
            (dinit_val env t.init_sym c.dtype c.conval (block_head t s))) =
            dinit_val env t.init_sym c.dtype c.conval (block_head t s) := by
          simp [block_head]
        rw [hbh, hv]
        simp
      · simp [h3]
      · intro d hd
        rcases List.mem_cons.mp hd with hd | hd
        · subst hd
          rfl
        · exact h4 d hd
      · rw [h5]
        simp only [hve]
        unfold block_head
        split_ifs <;> simp [dinit_put]
      · rw [h6, hp1', List.drop_drop]
        congr 1
        omega

/-- A run is written one element at a time when its length, the smaller of
the number of elements left and of the count left in the leaf, is below
`THRESHOLD`. -/
theorem run_count_min (ivl : Option Varref) (n r : Int) (h : min n r < THRESHOLD) :
    run_count ivl 0 n r = 1 := by
  unfold run_count
  have e : (if n < r then n else r) = min n r := by
    rcases lt_or_le n r with h1 | h1
    · rw [if_pos h1, min_eq_left (le_of_lt h1)]
    · rw [if_neg (not_lt.mpr h1), min_eq_right h1]
  simp [e, h]

/-- One iteration of the loop of `dinit_varref` for a run whose length is
below `THRESHOLD`: one value record, one element. -/
theorem short_run_step (env : Env)
    (recV : List CONST → St → Res (List CONST × Int × St))
    (recD : List CONST → Nat → Int → St → Res St)
    (t : VarrefTarget) (ivl : Option Varref) (base_off : Int)
    (s : VarrefLoop) (c : CONST) (next : List CONST)
    (hdata : env.no_data_components (env.DDTG (env.DTYPEG t.sptr)) = false)
    (hdata2 : env.no_data_components (env.DDTG (env.DTYPEG t.init_sym)) = false)
    (hict : s.ict = c :: next) (hleaf : c.id = ACID.CONST)
    (hns : ivl_struct env ivl = false) (hval : env.DTY c.dtype ≠ TY.STRUCT)
    (hrun : min s.num_elem s.repeat_ < THRESHOLD) :
    ∃ val, varref_body env recV recD t ivl 0 true base_off s =
        Res.ok (Sum.map id (Prod.mk true)
          (varref_advance t c next 1 s.repeat_ s false
            (dinit_val env t.init_sym c.dtype c.conval (block_head t s)))) ∧
      (dinit_val env t.init_sym c.dtype c.conval (block_head t s)).out =
        (block_head t s).out ++
          [Directive.StoreValue (dinit_val_dtype env t.init_sym (block_head t s)) val] := by
  obtain ⟨v, hv, _⟩ := dinit_val_out env t.init_sym c.dtype c.conval (block_head t s) hdata2
  exact ⟨v, varref_body_leaf_one env recV recD t ivl base_off s c next hdata hict hleaf hns hval
    (run_count_min ivl s.num_elem s.repeat_ hrun), hv⟩

/-- The DATA-statement half of C3: a whole-array reference of `N` elements
that are all served by leaves of a repeat count below `THRESHOLD` gets `N`
value records and no REPEAT. -/
theorem short_leaves_varref (env : Env) (st : St) (v : Varref) (sptr : Nat)
    (ict : List CONST) (dtype : Nat) (base_off : Int) (N : Int) (fuel : Nat)
    (hfuel : N.toNat + 1 ≤ fuel)
    (hid : v.id = SID.S_IDENT) (hptr : ident_sptr v.ptr = some sptr)
    (hok : (dinit_ok env sptr st).1 = true)
    (hptrg : env.POINTERG sptr = false) (harr : env.DTY (env.DTYPEG sptr) = TY.ARRAY)
    (hext : env.extent_of (env.DTYPEG sptr) ≠ 0) (hN : env.numelm sptr = N)
    (hN1 : 1 ≤ N) (hflat : flat_leaves env ict) (hlen : N.toNat ≤ (expand ict).length)
    (hshort : ∀ c ∈ (expand ict).take N.toNat, c.repeatc < THRESHOLD)
    (hpv : put_value env sptr st = true)
    (hdata : env.no_data_components (env.DDTG (env.DTYPEG sptr)) = false)
    (hns : DTYG env v.dtype ≠ TY.STRUCT) :
    ∃ ict' rep' st' vals,
      dinit_varref env fuel (some v) 0 ict dtype 0 base_off st = Res.ok (ict', rep', st') ∧
      st'.out = st.out ++ Directive.SetLocation sptr :: vals ∧
      vals.length = N.toNat ∧ (∀ d ∈ vals, d.isStoreValue = true) ∧
      (∀ d ∈ Directive.SetLocation sptr :: vals, d.isRepeat = false) ∧
      expand_at ict' rep' = (expand ict).drop N.toNat := by
  obtain ⟨k, rfl⟩ : ∃ k, fuel = k + 1 := ⟨fuel - 1, by omega⟩
  obtain ⟨m, hm⟩ : ∃ m : Nat, N = (m : Int) + 1 := ⟨(N - 1).toNat, by omega⟩
  have hmN : N.toNat = m + 1 := by omega
  have hN0 : N ≠ 0 := by omega
  have htg := ident_array_target env st v sptr 0 base_off N hid hptr hok hptrg harr hext hN hN0
  have hivl : ivl_struct env (some v) = false := by simp [ivl_struct, hns]
  cases hict : ict with
  | nil =>
    rw [hict] at hlen
    simp [expand] at hlen
    omega
  | cons c rest =>
    rw [hict] at hflat hlen hshort
    rw [hmN] at hlen hshort
    obtain ⟨s', vals, h1, h2, h3, h4, _, h6⟩ := short_leaves_loop env
      (fun ic st1 => dinit_varref env k (some v) 0 ic dtype 0 base_off st1)
      (fun ic dt off st1 => dinit_data env k [] none ic dt off st1)
      (VarrefTarget.mk sptr sptr 0 (Int.tdiv (env.size_of (env.DTYPEG sptr)) N) N)
      (some v) base_off hdata hdata hivl m k
      (VarrefLoop.mk (c :: rest) (repeat_start (c :: rest) 0) 0 N true st)
      (by omega) hm hflat
      (by
        simp only [position_wf, repeat_start, if_true]
        exact ⟨(hflat c (List.mem_cons_self c rest)).2.2, le_refl _⟩)
      (by simpa [repeat_start, expand_at_head] using hlen)
      (by simpa [repeat_start, expand_at_head] using hshort)
    obtain ⟨st', hf1, hf2, _⟩ := varref_finish_ok env
      (VarrefTarget.mk sptr sptr 0 (Int.tdiv (env.size_of (env.DTYPEG sptr)) N) N) 0 c rest
      (put_value env sptr st) s'
    unfold dinit_varref
    simp only [htg, Res.bind, hpv] at h1 hf1 ⊢
    rw [h1]
    refine ⟨s'.ict, s'.repeat_, st', vals, ?_, ?_, ?_, h4, ?_, ?_⟩
    · simpa using hf1
    · rw [hf2, h2]
      simp [block_head, truthy, dinit_put]
    · rw [h3, hmN]
    · intro d hd
      rcases List.mem_cons.mp hd with hd | hd
      · subst hd
        rfl
      · have := h4 d hd
        cases d <;> simp_all [Directive.isStoreValue, Directive.isRepeat]
    · rw [h6, hmN]
      simp [repeat_start, expand_at_head]

/-- C3 (amended): short-run expansion holds in the DATA-statement walk and
not in the type-declaration walk.  (1) In the loop of `dinit_varref`, when
the run length `min(num_elem, *repeat)`, the number of elements left in the
reference that the count left in the leaf covers, is below `THRESHOLD`,
whatever the size of the array and the place of the leaf in the list, an
iteration writes one `StoreValue` (after the records that open a block, if
one starts) and moves by one element.  (2) For a whole-array reference of `N ≥ 1` elements that are all
served by leaves of repeat counts below `THRESHOLD`, `dinit_varref` writes
`SetLocation(sym)` followed by `N` `StoreValue` records, one per element, and
no `Repeat`, and returns the position `N` elements further.  (3) `dinit_subs`
has no threshold: for a leaf of repeat count `r > 1` that names its symbol it
writes `SetLocation`, `SetOffset`, `Repeat(r)` and a single `StoreValue`. -/
theorem C3_short_run :
    (∀ (env : Env) (recV : List CONST → St → Res (List CONST × Int × St))
      (recD : List CONST → Nat → Int → St → Res St)
      (t : VarrefTarget) (ivl : Option Varref) (base_off : Int)
      (s : VarrefLoop) (c : CONST) (next : List CONST),
      env.no_data_components (env.DDTG (env.DTYPEG t.sptr)) = false →
      env.no_data_components (env.DDTG (env.DTYPEG t.init_sym)) = false →
      s.ict = c :: next → c.id = ACID.CONST → ivl_struct env ivl = false →
      env.DTY c.dtype ≠ TY.STRUCT → min s.num_elem s.repeat_ < THRESHOLD →
      ∃ val, varref_body env recV recD t ivl 0 true base_off s =
          Res.ok (Sum.map id (Prod.mk true)
            (varref_advance t c next 1 s.repeat_ s false
              (dinit_val env t.init_sym c.dtype c.conval (block_head t s)))) ∧
        (dinit_val env t.init_sym c.dtype c.conval (block_head t s)).out =
          (block_head t s).out ++
            [Directive.StoreValue (dinit_val_dtype env t.init_sym (block_head t s)) val]) ∧
    (∀ (env : Env) (st : St) (v : Varref) (sptr : Nat) (ict : List CONST)
      (dtype : Nat) (base_off : Int) (N : Int) (fuel : Nat),
      N.toNat + 1 ≤ fuel →
      v.id = SID.S_IDENT → ident_sptr v.ptr = some sptr →
      (dinit_ok env sptr st).1 = true →
      env.POINTERG sptr = false → env.DTY (env.DTYPEG sptr) = TY.ARRAY →
      env.extent_of (env.DTYPEG sptr) ≠ 0 → env.numelm sptr = N →
      1 ≤ N → flat_leaves env ict → N.toNat ≤ (expand ict).length →
      (∀ c ∈ (expand ict).take N.toNat, c.repeatc < THRESHOLD) →
      put_value env sptr st = true →
      env.no_data_components (env.DDTG (env.DTYPEG sptr)) = false →
      DTYG env v.dtype ≠ TY.STRUCT →
      ∃ ict' rep' st' vals,
        dinit_varref env fuel (some v) 0 ict dtype 0 base_off st = Res.ok (ict', rep', st') ∧
        st'.out = st.out ++ Directive.SetLocation sptr :: vals ∧
        vals.length = N.toNat ∧ (∀ d ∈ vals, d.isStoreValue = true) ∧
        (∀ d ∈ Directive.SetLocation sptr :: vals, d.isRepeat = false) ∧
        expand_at ict' rep' = (expand ict).drop N.toNat) ∧
    (∀ (env : Env) (st : St) (c : CONST) (base : Nat) (boffset : Int) (mbr : Nat) (fuel : Nat),
      3 ≤ fuel → c.subc = [] → c.sptr ≠ 0 → 1 < c.repeatc →
      env.no_data_components (env.DDTG (env.DTYPEG c.sptr)) = false →
      ∃ st' val, dinit_subs env fuel [c] base boffset mbr st = Res.ok st' ∧
        st'.out = st.out ++ [Directive.SetLocation base,
          Directive.SetOffset (boffset + env.ADDRESSG c.sptr), Directive.Repeat c.repeatc,
          Directive.StoreValue (dinit_val_dtype env c.sptr st) val]) :=
  ⟨fun env recV recD t ivl base_off s c next h1 h2 h3 h4 h5 h6 h7 =>
    short_run_step env recV recD t ivl base_off s c next h1 h2 h3 h4 h5 h6 h7,
   fun env st v sptr ict dtype base_off N fuel h1 h2 h3 h4 h5 h6 h7 h8 h9 h10 h11 h12 h13
      h14 h15 =>
    short_leaves_varref env st v sptr ict dtype base_off N fuel h1 h2 h3 h4 h5 h6 h7 h8 h9 h10
      h11 h12 h13 h14 h15,
   fun env st c base boffset mbr fuel h1 h2 h3 h4 h5 =>
    repeat_run_subs env st c base boffset mbr fuel h1 h2 h3 h4 h5⟩

/-- C3 (amended), at `DATA a /3*1, 3*2/` for the array `a` of six integers,
two runs of three inside the array: `SetLocation` and six value records in
the DATA-statement walk; and at the leaf `3 * 7` for the array `b` of three
integers: a REPEAT record in the type-declaration walk. -/
theorem C3_short_run_witness :
    (∃ ict' rep' st' vals,
      dinit_varref exEnv 7 (some exRefA) 0 [CONST.leaf 5 3 1, CONST.leaf 5 3 2] 0 0 0 exSt =
          Res.ok (ict', rep', st') ∧
        st'.out = exSt.out ++ Directive.SetLocation (10 : Nat) :: vals ∧
        vals.length = (6 : Int).toNat ∧ (∀ d ∈ vals, d.isStoreValue = true) ∧
        (∀ d ∈ Directive.SetLocation (10 : Nat) :: vals, d.isRepeat = false) ∧
        expand_at ict' rep' =
          (expand [CONST.leaf 5 3 1, CONST.leaf 5 3 2]).drop (6 : Int).toNat) ∧
    (∃ st' val, dinit_subs exEnv 3 [exLeafB] 11 0 0 exSt = Res.ok st' ∧
        st'.out = exSt.out ++ [Directive.SetLocation (11 : Nat),
          Directive.SetOffset (0 + exEnv.ADDRESSG exLeafB.sptr), Directive.Repeat exLeafB.repeatc,
          Directive.StoreValue (dinit_val_dtype exEnv exLeafB.sptr exSt) val]) ∧
    varref_view (dinit_varref exEnv 7 (some exRefA) 0 [CONST.leaf 5 3 1, CONST.leaf 5 3 2] 0 0 0
      exSt) = Res.ok ([], 0, [Directive.SetLocation 10, Directive.StoreValue 5 1,
        Directive.StoreValue 5 1, Directive.StoreValue 5 1, Directive.StoreValue 5 2,
        Directive.StoreValue 5 2, Directive.StoreValue 5 2], [], 0) :=
  ⟨C3_short_run.2.1 exEnv exSt exRefA 10 [CONST.leaf 5 3 1, CONST.leaf 5 3 2] 0 0 6 7
      (by decide) rfl rfl (by decide) rfl rfl (by decide) rfl (by decide)
      (by
        intro c hc
        simp only [List.mem_cons, List.mem_singleton, List.not_mem_nil, or_false] at hc
        rcases hc with rfl | rfl <;> decide)
      (by decide)
      (by
        intro c hc
        have hc2 := List.mem_of_mem_take hc
        simp [expand] at hc2
        rcases hc2 with ⟨_, rfl⟩ | ⟨_, rfl⟩ <;> decide)
      (by decide) rfl (by decide),
   C3_short_run.2.2 exEnv exSt exLeafB 11 0 0 3 (by decide) rfl (by decide) (by decide) rfl,
   by decide!⟩

/-- C4: constant consumption.  (1) For every reference that resolves to a
target of `n ≥ 1` elements of a type with data components, and every flat list
of leaves (repeat counts ≥ 1) entered at a well-formed position that still
holds at least `n` elements, `dinit_varref` returns the position (a suffix of
the list and the count `*repeat` left in its first node) whose run-length
expansion is the expansion of the entry position with exactly `n` elements
dropped.  (2) The target of a whole-array reference has the `n` elements of the
array; (3) the target of a scalar reference and (4) the target of an
array-element reference have one element. -/
theorem C4_constant_consumption :
    (∀ (env : Env) (st st1 : St) (v : Varref) (t : VarrefTarget)
      (ict : List CONST) (dtype : Nat) (rep base_off : Int) (fuel : Nat),
      varref_target env (some v) 0 base_off st = Res.ok (some t, st1) →
      1 ≤ t.num_elem → t.num_elem.toNat + 1 ≤ fuel →
      env.no_data_components (env.DDTG (env.DTYPEG t.sptr)) = false →
      DTYG env v.dtype ≠ TY.STRUCT →
      flat_leaves env ict → position_wf ict (repeat_start ict rep) →
      t.num_elem.toNat ≤ (expand_at ict (repeat_start ict rep)).length →
      ∃ ict' rep' st',
        dinit_varref env fuel (some v) 0 ict dtype rep base_off st = Res.ok (ict', rep', st') ∧
        expand_at ict' rep' = (expand_at ict (repeat_start ict rep)).drop t.num_elem.toNat ∧
        ict' <:+ ict ∧ position_wf ict' rep') ∧
    (∀ (env : Env) (st : St) (v : Varref) (sptr : Nat) (base_off : Int) (n : Int),
      v.id = SID.S_IDENT → ident_sptr v.ptr = some sptr → (dinit_ok env sptr st).1 = true →
      env.POINTERG sptr = false → env.DTY (env.DTYPEG sptr) = TY.ARRAY →
      env.extent_of (env.DTYPEG sptr) ≠ 0 → env.numelm sptr = n → n ≠ 0 →
      ∃ t, varref_target env (some v) 0 base_off st = Res.ok (some t, st) ∧ t.num_elem = n) ∧
    (∀ (env : Env) (st : St) (v : Varref) (sptr : Nat) (base_off : Int),
      v.id = SID.S_IDENT → ident_sptr v.ptr = some sptr → (dinit_ok env sptr st).1 = true →
      ¬ (env.POINTERG sptr = false ∧ env.DTY (env.DTYPEG sptr) = TY.ARRAY) →
      ∃ t, varref_target env (some v) 0 base_off st = Res.ok (some t, st) ∧ t.num_elem = 1) ∧
    (∀ (env : Env) (st st1 : St) (v : Varref) (base : IRef) (subs : List IExpr)
      (base_off : Int) (t : VarrefTarget),
      v.id = SID.S_LVALUE → v.ptr = IRef.ELEMENT base subs →
      varref_target env (some v) 0 base_off st = Res.ok (some t, st1) → t.num_elem = 1) :=
  ⟨fun env st st1 v t ict dtype rep base_off fuel h1 h2 h3 h4 h5 h6 h7 h8 =>
    dinit_varref_flat env st st1 v t ict dtype rep base_off fuel h1 h2 h3 h4 h5 h6 h7 h8,
   fun env st v sptr base_off n h1 h2 h3 h4 h5 h6 h7 h8 =>
    ⟨_, ident_array_target env st v sptr 0 base_off n h1 h2 h3 h4 h5 h6 h7 h8, rfl⟩,
   fun env st v sptr base_off h1 h2 h3 h4 =>
    ⟨_, ident_scalar_target env st v sptr 0 base_off h1 h2 h3 h4, rfl⟩,
   fun env st st1 v base subs base_off t h1 h2 h3 =>
    element_target env st v base subs base_off t st1 h1 h2 h3⟩

/-- C4, at the array `b` of three integers and the list `2 * 7, 4 * 0`: the
position returned is in the second leaf, and its expansion is the expansion of
the list without its first three elements. -/
theorem C4_constant_consumption_witness :
    ∃ ict' rep' st',
      dinit_varref exEnv 4 (some exRefB) 0 [CONST.leaf 5 2 7, CONST.leaf 5 4 0] 0 0 0 exSt =
        Res.ok (ict', rep', st') ∧
      expand_at ict' rep' =
        (expand_at [CONST.leaf 5 2 7, CONST.leaf 5 4 0]
          (repeat_start [CONST.leaf 5 2 7, CONST.leaf 5 4 0] 0)).drop
          (VarrefTarget.mk 11 11 0 (Int.tdiv (exEnv.size_of (exEnv.DTYPEG 11)) 3) 3).num_elem.toNat ∧
      ict' <:+ [CONST.leaf 5 2 7, CONST.leaf 5 4 0] ∧ position_wf ict' rep' :=
  C4_constant_consumption.1 exEnv exSt exSt exRefB
    (VarrefTarget.mk 11 11 0 (Int.tdiv (exEnv.size_of (exEnv.DTYPEG 11)) 3) 3)
    [CONST.leaf 5 2 7, CONST.leaf 5 4 0] 0 0 0 4
    (ident_array_target exEnv exSt exRefB 11 0 0 3 rfl rfl (by decide) rfl rfl (by decide) rfl
      (by decide))
    (by decide) (by decide) rfl (by decide)
    (by
      intro c hc
      simp only [List.mem_cons, List.mem_singleton, List.not_mem_nil, or_false] at hc
      rcases hc with rfl | rfl <;> decide)
    (by simp only [position_wf, repeat_start]; decide) (by decide)

/-! ## C5, C6: implied-do generators -/

/-- The `for` loop of `eval_do` is the unrolled expansion over the index values
`i, i + step, ...` that satisfy the loop test: the first `n` of them. -/
theorem eval_do_loop_unroll (env : Env) (recE : St → Res (List CONST × St)) (loc : IdxLoc)
    (up : Bool) (limit step : Int) :
    ∀ (n : Nat) (i : Int) (root : List CONST) (flag : Bool) (st : St) (fuel : Nat),
      n + 1 ≤ fuel →
      (∀ k : Nat, k < n → (if up then i + (k : Int) * step ≤ limit
        else i + (k : Int) * step ≥ limit)) →
      ¬ (if up then i + (n : Int) * step ≤ limit else i + (n : Int) * step ≥ limit) →
      loopN (eval_do_body env recE loc up limit step) fuel (i, root, flag, st) =
        (ido_unroll env recE loc ((List.range n).map fun (k : Nat) => i + (k : Int) * step) st).bind
          fun r => Res.ok (root ++ r.1, (flag || decide (0 < n)), r.2) := by
  intro n
  induction n with
  | zero =>
    intro i root flag st fuel hfuel _ hstop
    obtain ⟨k, rfl⟩ : ∃ k, fuel = k + 1 := ⟨fuel - 1, by omega⟩
    have hstop2 : ¬ (if up then i ≤ limit else i ≥ limit) := by simpa using hstop
    rw [loopN_exit _ _ _ (root, flag, st)]
    · simp [ido_unroll, Res.bind]
    · simp only [eval_do_body]
      rw [if_neg hstop2]
  | succ n ih =>
    intro i root flag st fuel hfuel hgo hstop
    obtain ⟨k, rfl⟩ : ∃ k, fuel = k + 1 := ⟨fuel - 1, by omega⟩
    have hgo0 : (if up then i ≤ limit else i ≥ limit) := by simpa using hgo 0 (by omega)
    have hrange : (List.range (n + 1)).map (fun (k : Nat) => i + (k : Int) * step) =
        i :: (List.range n).map (fun (k : Nat) => (i + step) + (k : Int) * step) := by
      rw [List.range_succ_eq_map]
      simp only [List.map_cons, List.map_map, Nat.cast_zero, zero_mul, add_zero]
      congr 1
      apply List.map_congr_left
      intro a _
      simp only [Function.comp, Nat.cast_succ]
      ring
    rw [hrange]
    simp only [ido_unroll]
    cases hdt : idx_dtype loc st with
    | fuel => simp [loopN, eval_do_body, hgo0, hdt, Res.bind]
    | undef => simp [loopN, eval_do_body, hgo0, hdt, Res.bind]
    | ok dt =>
      cases hre : recE (idx_store loc (idx_conval env dt i) st) with
      | fuel => simp [loopN, eval_do_body, hgo0, hdt, hre, Res.bind]
      | undef => simp [loopN, eval_do_body, hgo0, hdt, hre, Res.bind]
      | ok r =>
        have hb : eval_do_body env recE loc up limit step (i, root, flag, st) =
            Res.ok (Sum.inl (i + step, root ++ r.1, true, r.2)) := by
          simp only [eval_do_body]
          rw [if_pos hgo0]
          simp [hdt, hre, Res.bind]
        rw [loopN_step _ _ _ _ hb]
        rw [ih (i + step) (root ++ r.1) true r.2 k (by omega)
          (by
            intro j hj
            have := hgo (j + 1) (by omega)
            have e : i + step + (j : Int) * step = i + ((j + 1 : Nat) : Int) * step := by
              push_cast; ring
            rw [e]
            exact this)
          (by
            have e : i + step + (n : Int) * step = i + ((n + 1 : Nat) : Int) * step := by
              push_cast; ring
            rw [e]
            exact hstop)]
        simp only [hre, Res.bind]
        cases ido_unroll env recE loc
          ((List.range n).map fun (k : Nat) => (i + step) + (k : Int) * step) r.2 with
        | fuel => rfl
        | undef => rfl
        | ok r2 => simp

/-- With a positive divisor, `((b - a) / d + 1).toNat` counts the values
`a, a + d, ...` that do not exceed `b`. -/
theorem count_up (a b d : Int) (hd : 0 < d) :
    (∀ k : Nat, k < ((b - a) / d + 1).toNat → a + (k : Int) * d ≤ b) ∧
    ¬ (a + (((b - a) / d + 1).toNat : Int) * d ≤ b) := by
  have h1 : (b - a) / d * d ≤ b - a := Int.ediv_mul_le _ (by omega)
  have h2 : b - a < ((b - a) / d + 1) * d := Int.lt_ediv_add_one_mul_self _ hd
  by_cases hab : 0 ≤ b - a
  · have hq : 0 ≤ (b - a) / d := Int.ediv_nonneg hab (by omega)
    have hn : ((((b - a) / d + 1).toNat : Nat) : Int) = (b - a) / d + 1 :=
      Int.toNat_of_nonneg (by omega)
    constructor
    · intro k hk
      have hk2 : (k : Int) ≤ (b - a) / d := by omega
      have := mul_le_mul_of_nonneg_right hk2 (le_of_lt hd)
      omega
    · rw [hn]
      omega
  · have hq : (b - a) / d < 0 := Int.ediv_neg' (by omega) hd
    have hn : ((b - a) / d + 1).toNat = 0 := by omega
    rw [hn]
    constructor
    · intro k hk
      omega
    · simp only [Nat.cast_zero, zero_mul, add_zero]
      omega

/-- The index values of an implied do with a non-zero step are exactly those
for which the loop test of `eval_do` holds. -/
theorem trip_count_spec (init limit step : Int) (hs : step ≠ 0) :
    (∀ k : Nat, k < trip_count init limit step →
      (if decide (step ≥ 0) = true then init + (k : Int) * step ≤ limit
        else init + (k : Int) * step ≥ limit)) ∧
    ¬ (if decide (step ≥ 0) = true then init + (trip_count init limit step : Int) * step ≤ limit
        else init + (trip_count init limit step : Int) * step ≥ limit) := by
  by_cases hpos : step > 0
  · have hge : step ≥ 0 := by omega
    simp only [trip_count, hpos, if_true, hge, decide_True]
    exact count_up init limit step hpos
  · have hneg : step < 0 := by omega
    have hge : ¬ step ≥ 0 := by omega
    simp only [trip_count, hpos, if_false, hneg, if_true, hge, decide_False,
      Bool.false_eq_true]
    obtain ⟨h1, h2⟩ := count_up (- init) (- limit) (- step) (by omega)
    have e : - limit - - init = init - limit := by ring
    rw [e] at h1 h2
    constructor
    · intro k hk
      have := h1 k hk
      have e2 : (k : Int) * - step = - ((k : Int) * step) := by ring
      rw [e2] at this
      omega
    · intro hcon
      apply h2
      have e2 : (((init - limit) / - step + 1).toNat : Int) * - step =
          - ((((init - limit) / - step + 1).toNat : Int) * step) := by ring
      rw [e2]
      omega

theorem trip_count_pos (init limit step : Int)
    (hsat : (step > 0 ∧ init ≤ limit) ∨ (step < 0 ∧ init ≥ limit)) :
    0 < trip_count init limit step := by
  have hs : step ≠ 0 := by omega
  obtain ⟨_, h2⟩ := trip_count_spec init limit step hs
  by_contra h0
  have hz : trip_count init limit step = 0 := by omega
  rw [hz] at h2
  simp only [Nat.cast_zero, zero_mul, add_zero] at h2
  rcases hsat with ⟨h, h'⟩ | ⟨h, h'⟩
  · have : decide (step ≥ 0) = true := by simp; omega
    rw [if_pos this] at h2
    exact h2 h'
  · have : ¬ decide (step ≥ 0) = true := by simp; omega
    rw [if_neg this] at h2
    exact h2 h'

/-- The expansion of an implied do whose bounds fold to `initval`, `limitval`
and a non-zero `stepval`, when the bound is satisfied at least once. -/
theorem eval_do_unroll (env : Env) (fuel : Nat) (ido : CONST) (st : St)
    (e1 e2 e3 initict limitict stepict : CONST) (r1 r2 r3 : List CONST × St)
    (hd1 : deref ido.initval = Res.ok e1)
    (he1 : eval_init_expr_item env fuel e1 st = Res.ok r1)
    (hd2 : deref ido.limitval = Res.ok e2)
    (he2 : eval_init_expr_item env fuel e2 r1.2 = Res.ok r2)
    (hd3 : deref ido.stepval = Res.ok e3)
    (he3 : eval_init_expr_item env fuel e3 r2.2 = Res.ok r3)
    (hi1 : deref r1.1 = Res.ok initict) (hi2 : deref r2.1 = Res.ok limitict)
    (hi3 : deref r3.1 = Res.ok stepict)
    (hsat : (get_ival env stepict.dtype stepict.conval > 0 ∧
        get_ival env initict.dtype initict.conval ≤ get_ival env limitict.dtype limitict.conval) ∨
      (get_ival env stepict.dtype stepict.conval < 0 ∧
        get_ival env initict.dtype initict.conval ≥ get_ival env limitict.dtype limitict.conval))
    (hfuel : trip_count (get_ival env initict.dtype initict.conval)
      (get_ival env limitict.dtype limitict.conval)
      (get_ival env stepict.dtype stepict.conval) + 1 ≤ fuel) :
    eval_do env (fuel + 1) ido st =
      (ido_unroll env (fun s => eval_init_expr env fuel ido.subc s)
        (eval_do_index env ido.index_var r3.2).1
        (ido_values (get_ival env initict.dtype initict.conval)
          (get_ival env limitict.dtype limitict.conval)
          (get_ival env stepict.dtype stepict.conval))
        (eval_do_index env ido.index_var r3.2).2).bind
      fun r => Res.ok (r.1, { r.2 with DOVARG := upd r.2.DOVARG ido.index_var false }) := by
  have hs : get_ival env stepict.dtype stepict.conval ≠ 0 := by omega
  obtain ⟨hgo, hstop⟩ := trip_count_spec (get_ival env initict.dtype initict.conval)
    (get_ival env limitict.dtype limitict.conval) (get_ival env stepict.dtype stepict.conval) hs
  have hpos := trip_count_pos _ _ _ hsat
  unfold eval_do
  simp only [hd1, he1, hd2, he2, hd3, he3, hi1, hi2, hi3, Res.bind]
  rw [eval_do_loop_unroll env _ _ _ _ _ _ _ _ _ _ fuel hfuel hgo hstop]
  unfold ido_values
  simp only [Res.bind]
  cases ido_unroll env (fun s => eval_init_expr env fuel ido.subc s)
    (eval_do_index env ido.index_var r3.2).1
    (List.map (fun (k : Nat) => get_ival env initict.dtype initict.conval +
      (k : Int) * get_ival env stepict.dtype stepict.conval)
      (List.range (trip_count (get_ival env initict.dtype initict.conval)
        (get_ival env limitict.dtype limitict.conval)
        (get_ival env stepict.dtype stepict.conval))))
    (eval_do_index env ido.index_var r3.2).2 with
  | fuel => rfl
  | undef => rfl
  | ok r => simp [hpos]

/-- C5: implied-do expansion.  For every implied-do generator whose bounds fold
to `init`, `limit` and a non-zero `step` with the bound satisfied at least
once, `eval_do` returns what the unrolled expansion returns: the
concatenation, in iteration order, of the body folded with the index node
bound to `init`, `init + step`, `init + 2 * step`, ... for as long as the value
is `≤ limit` (`step > 0`) or `≥ limit` (`step < 0`).  In particular
`(i * i, i = 1, 5, 2)` folds to `[1, 9, 25]` and `(i, i = 5, 1, -2)` to
`[5, 3, 1]`. -/
theorem C5_implied_do_expansion :
    (∀ (env : Env) (fuel : Nat) (ido : CONST) (st : St)
      (e1 e2 e3 initict limitict stepict : CONST) (r1 r2 r3 : List CONST × St),
      deref ido.initval = Res.ok e1 → eval_init_expr_item env fuel e1 st = Res.ok r1 →
      deref ido.limitval = Res.ok e2 → eval_init_expr_item env fuel e2 r1.2 = Res.ok r2 →
      deref ido.stepval = Res.ok e3 → eval_init_expr_item env fuel e3 r2.2 = Res.ok r3 →
      deref r1.1 = Res.ok initict → deref r2.1 = Res.ok limitict →
      deref r3.1 = Res.ok stepict →
      ((get_ival env stepict.dtype stepict.conval > 0 ∧
          get_ival env initict.dtype initict.conval ≤
            get_ival env limitict.dtype limitict.conval) ∨
        (get_ival env stepict.dtype stepict.conval < 0 ∧
          get_ival env initict.dtype initict.conval ≥
            get_ival env limitict.dtype limitict.conval)) →
      trip_count (get_ival env initict.dtype initict.conval)
        (get_ival env limitict.dtype limitict.conval)
        (get_ival env stepict.dtype stepict.conval) + 1 ≤ fuel →
      eval_do env (fuel + 1) ido st =
        (ido_unroll env (fun s => eval_init_expr env fuel ido.subc s)
          (eval_do_index env ido.index_var r3.2).1
          (ido_values (get_ival env initict.dtype initict.conval)
            (get_ival env limitict.dtype limitict.conval)
            (get_ival env stepict.dtype stepict.conval))
          (eval_do_index env ido.index_var r3.2).2).bind
        fun r => Res.ok (r.1, { r.2 with DOVARG := upd r.2.DOVARG ido.index_var false })) ∧
    leaf_values (eval_do exEnv 6 exIdoSquares exSt) = Res.ok [1, 9, 25] ∧
    leaf_values (eval_do exEnv 6 exIdoDown exSt) = Res.ok [5, 3, 1] :=
  ⟨fun env fuel ido st e1 e2 e3 initict limitict stepict r1 r2 r3 h1 h2 h3 h4 h5 h6 h7 h8 h9
      h10 h11 =>
    eval_do_unroll env fuel ido st e1 e2 e3 initict limitict stepict r1 r2 r3 h1 h2 h3 h4 h5 h6
      h7 h8 h9 h10 h11,
   by decide!, by decide!⟩

/-- C5, at the generator `(i, i = 5, 1, -2)`: `eval_do` is the unrolled
expansion over the index values 5, 3, 1. -/
theorem C5_implied_do_expansion_witness :
    eval_do exEnv (5 + 1) exIdoDown exSt =
      (ido_unroll exEnv (fun s => eval_init_expr exEnv 5 exIdoDown.subc s)
        (eval_do_index exEnv exIdoDown.index_var exSt).1
        (ido_values (get_ival exEnv (CONST.leaf 5 1 5).dtype (CONST.leaf 5 1 5).conval)
          (get_ival exEnv (CONST.leaf 5 1 1).dtype (CONST.leaf 5 1 1).conval)
          (get_ival exEnv (CONST.leaf 5 1 (-2)).dtype (CONST.leaf 5 1 (-2)).conval))
        (eval_do_index exEnv exIdoDown.index_var exSt).2).bind
      fun r => Res.ok (r.1, { r.2 with DOVARG := upd r.2.DOVARG exIdoDown.index_var false }) :=
  C5_implied_do_expansion.1 exEnv 5 exIdoDown exSt (CONST.leaf 5 1 5) (CONST.leaf 5 1 1)
    (CONST.leaf 5 1 (-2)) (CONST.leaf 5 1 5) (CONST.leaf 5 1 1) (CONST.leaf 5 1 (-2))
    ([CONST.leaf 5 1 5], exSt) ([CONST.leaf 5 1 1], exSt) ([CONST.leaf 5 1 (-2)], exSt)
    rfl rfl rfl rfl rfl rfl rfl rfl rfl (by decide) (by decide)

/-- C6: zero-trip implied-do generator.  When the bounds fold to `init`,
`limit`, `step` and the bound is never satisfied (`init > limit` with
`step ≥ 0`, or `init < limit` with `step < 0`), `eval_do` folds a non-empty
body exactly once, in the state left by the set-up of the index node, and
returns that single fold; for an empty body it returns the empty list. -/
theorem C6_zero_trip_generator (env : Env) (fuel : Nat) (ido : CONST) (st : St)
    (e1 e2 e3 initict limitict stepict : CONST) (r1 r2 r3 : List CONST × St)
    (hd1 : deref ido.initval = Res.ok e1)
    (he1 : eval_init_expr_item env fuel e1 st = Res.ok r1)
    (hd2 : deref ido.limitval = Res.ok e2)
    (he2 : eval_init_expr_item env fuel e2 r1.2 = Res.ok r2)
    (hd3 : deref ido.stepval = Res.ok e3)
    (he3 : eval_init_expr_item env fuel e3 r2.2 = Res.ok r3)
    (hi1 : deref r1.1 = Res.ok initict) (hi2 : deref r2.1 = Res.ok limitict)
    (hi3 : deref r3.1 = Res.ok stepict)
    (hzero : (get_ival env stepict.dtype stepict.conval ≥ 0 ∧
        get_ival env initict.dtype initict.conval > get_ival env limitict.dtype limitict.conval) ∨
      (get_ival env stepict.dtype stepict.conval < 0 ∧
        get_ival env initict.dtype initict.conval < get_ival env limitict.dtype limitict.conval))
    (hfuel : 1 ≤ fuel) :
    eval_do env (fuel + 1) ido st =
      (if ido.subc.isEmpty then
        Res.ok ([], { (eval_do_index env ido.index_var r3.2).2 with
          DOVARG := upd (eval_do_index env ido.index_var r3.2).2.DOVARG ido.index_var false })
      else
        (eval_init_expr env fuel ido.subc (eval_do_index env ido.index_var r3.2).2).bind
          fun r => Res.ok (r.1, { r.2 with DOVARG := upd r.2.DOVARG ido.index_var false })) := by
  have hstop : ¬ (if decide (get_ival env stepict.dtype stepict.conval ≥ 0) = true then
      get_ival env initict.dtype initict.conval + ((0 : Nat) : Int) *
        get_ival env stepict.dtype stepict.conval ≤ get_ival env limitict.dtype limitict.conval
      else get_ival env initict.dtype initict.conval + ((0 : Nat) : Int) *
        get_ival env stepict.dtype stepict.conval ≥
          get_ival env limitict.dtype limitict.conval) := by
    simp only [Nat.cast_zero, zero_mul, add_zero]
    rcases hzero with ⟨h, h'⟩ | ⟨h, h'⟩
    · have : decide (get_ival env stepict.dtype stepict.conval ≥ 0) = true := by simpa using h
      rw [if_pos this]
      omega
    · have : ¬ decide (get_ival env stepict.dtype stepict.conval ≥ 0) = true := by
        simp; omega
      rw [if_neg this]
      omega
  unfold eval_do
  simp only [hd1, he1, hd2, he2, hd3, he3, hi1, hi2, hi3, Res.bind]
  rw [eval_do_loop_unroll env _ _ _ _ _ 0 _ _ _ _ fuel (by omega) (by intro k hk; omega) hstop]
  by_cases hempty : ido.subc.isEmpty = true
  · simp [ido_unroll, Res.bind, hempty]
  · simp only [List.range_zero, List.map_nil, ido_unroll, Res.bind, List.append_nil,
      Bool.or_false, lt_self_iff_false, decide_False, hempty, Bool.false_eq_true, if_false]
    simp

/-- C6, at the generator `(i, i = 5, 1, 2)`, whose bound is never satisfied. -/
theorem C6_zero_trip_generator_witness :
    eval_do exEnv (2 + 1) exIdoZeroTrip exSt =
      (if exIdoZeroTrip.subc.isEmpty then
        Res.ok ([], { (eval_do_index exEnv exIdoZeroTrip.index_var exSt).2 with
          DOVARG := upd (eval_do_index exEnv exIdoZeroTrip.index_var exSt).2.DOVARG
            exIdoZeroTrip.index_var false })
      else
        (eval_init_expr exEnv 2 exIdoZeroTrip.subc
            (eval_do_index exEnv exIdoZeroTrip.index_var exSt).2).bind
          fun r => Res.ok (r.1, { r.2 with
            DOVARG := upd r.2.DOVARG exIdoZeroTrip.index_var false })) :=
  C6_zero_trip_generator exEnv 2 exIdoZeroTrip exSt (CONST.leaf 5 1 5) (CONST.leaf 5 1 1)
    (CONST.leaf 5 1 2) (CONST.leaf 5 1 5) (CONST.leaf 5 1 1) (CONST.leaf 5 1 2)
    ([CONST.leaf 5 1 5], exSt) ([CONST.leaf 5 1 1], exSt) ([CONST.leaf 5 1 2], exSt)
    rfl rfl rfl rfl rfl rfl rfl rfl rfl (by decide) (by decide)

/-! ## C8: nested aggregates -/

/-- The effective address of `x%m1%...%mk`: the variable, the last member, and
the sum of the member offsets. -/
theorem mkeffadr_member_chain (env : Env) (base : Nat) (st : St)
    (hok : (dinit_ok env base st).1 = true) (herr : st.dinit_error = 0) :
    ∀ mems : List Nat, mkeffadr env (member_chain base mems) st =
      { st with buf := { sptr := base, mem := (mems.getLast?).getD base,
                         offset := member_offsets env mems } } := by
  have hst := dinit_ok_state env base st hok
  intro mems
  induction mems using List.reverseRecOn with
  | nil => simp [member_chain, mkeffadr, hok, hst, member_offsets]
  | append_singleton ms m ih =>
    have hc : member_chain base (ms ++ [m]) = IRef.MEMBER (member_chain base ms) m := by
      simp [member_chain]
    rw [hc]
    simp only [mkeffadr, ih, truthy, herr]
    simp [member_offsets]

/-- The records of a reference to a scalar member reached through a chain of
member selections, served by one leaf. -/
theorem member_ref_records (env : Env) (st : St) (v : Varref) (base : Nat) (mems : List Nat)
    (c : CONST) (rest : List CONST) (dtype : Nat) (base_off : Int) (fuel : Nat)
    (hfuel : 2 ≤ fuel)
    (hid : v.id = SID.S_LVALUE) (hptr : v.ptr = member_chain base mems) (hshape : v.shape = 0)
    (hok : (dinit_ok env base st).1 = true) (herr : st.dinit_error = 0)
    (hscalar : env.DTY (env.DTYPEG ((mems.getLast?).getD base)) ≠ TY.ARRAY)
    (hpv : put_value env base st = true)
    (hdata : env.no_data_components (env.DDTG (env.DTYPEG base)) = false)
    (hdata2 : env.no_data_components
      (env.DDTG (env.DTYPEG ((mems.getLast?).getD base))) = false)
    (hns : DTYG env v.dtype ≠ TY.STRUCT)
    (hleaf : c.id = ACID.CONST) (hval : env.DTY c.dtype ≠ TY.STRUCT) (hrep : 1 ≤ c.repeatc)
    (hoff : member_offsets env mems ≠ 0) :
    ∃ ict' rep' st' d,
      dinit_varref env fuel (some v) 0 (c :: rest) dtype 0 base_off st = Res.ok (ict', rep', st') ∧
      st'.out = st.out ++ [Directive.SetLocation base,
        Directive.SetOffset (member_offsets env mems), d] ∧
      d.isStoreValue = true := by
  obtain ⟨k, rfl⟩ : ∃ k, fuel = k + 2 := ⟨fuel - 2, by omega⟩
  have hm := mkeffadr_member_chain env base st hok herr mems
  have htg : varref_target env (some v) 0 base_off st =
      Res.ok (some (VarrefTarget.mk base ((mems.getLast?).getD base)
        (member_offsets env mems) 1 1),
        { st with buf := EFFADR.mk base ((mems.getLast?).getD base) (member_offsets env mems) }) := by
    simp [varref_target, hid, hptr, hm, truthy, herr, hshape, hscalar]
  have hivl : ivl_struct env (some v) = false := by simp [ivl_struct, hns]
  have hpv2 : put_value env base { st with buf := EFFADR.mk base ((mems.getLast?).getD base) (member_offsets env mems) } = true := hpv
  obtain ⟨s', vals, h1, h2, h3, h4, _, _, _⟩ := short_run_loop env
    (fun ic st1 => dinit_varref env (k + 1) (some v) 0 ic dtype 0 base_off st1)
    (fun ic dt off st1 => dinit_data env (k + 1) [] none ic dt off st1)
    (VarrefTarget.mk base ((mems.getLast?).getD base) (member_offsets env mems) 1 1)
    (some v) base_off c rest hdata hdata2 hleaf hivl hval 0 (k + 1)
    (VarrefLoop.mk (c :: rest) (repeat_start (c :: rest) 0) (member_offsets env mems) 1 true
      { st with buf := EFFADR.mk base ((mems.getLast?).getD base) (member_offsets env mems) })
    (by omega) rfl (by simp) (by simpa [repeat_start] using hrep)
    (by show (1 : Int) < THRESHOLD; decide)
  obtain ⟨st', hf1, hf2, _⟩ := varref_finish_ok env
    (VarrefTarget.mk base ((mems.getLast?).getD base) (member_offsets env mems) 1 1) 0 c rest
    true s'
  obtain ⟨d, hd⟩ : ∃ d, vals = [d] := by
    match vals, h3 with
    | [d], _ => exact ⟨d, rfl⟩
  subst hd
  unfold dinit_varref
  simp only [htg, Res.bind, hpv2]
  rw [h1]
  refine ⟨s'.ict, s'.repeat_, st', d, ?_, ?_, h4 d (by simp)⟩
  · simpa using hf1
  · rw [hf2, h2]
    simp [block_head, truthy, hoff, dinit_put]

/-- C8: aggregate nesting.  (1) For every reference `x%m1%...%mk` to a member
selected through any number of levels (two or more in particular) of a plain
variable `x` that may be initialised, `mkeffadr` returns the variable, the last
member and, as byte offset, the sum of the member offsets `ADDRESSG` of all
levels.  (2) When that sum is not zero, `dinit_varref` writes for such a
reference to a scalar member `SetLocation(x)`, `SetOffset(sum)` and the value
record. -/
theorem C8_aggregate_nesting :
    (∀ (env : Env) (base : Nat) (st : St) (mems : List Nat),
      (dinit_ok env base st).1 = true → st.dinit_error = 0 →
      (mkeffadr env (member_chain base mems) st).buf =
        { sptr := base, mem := (mems.getLast?).getD base, offset := member_offsets env mems }) ∧
    (∀ (env : Env) (st : St) (v : Varref) (base : Nat) (mems : List Nat)
      (c : CONST) (rest : List CONST) (dtype : Nat) (base_off : Int) (fuel : Nat),
      2 ≤ fuel →
      v.id = SID.S_LVALUE → v.ptr = member_chain base mems → v.shape = 0 →
      (dinit_ok env base st).1 = true → st.dinit_error = 0 →
      env.DTY (env.DTYPEG ((mems.getLast?).getD base)) ≠ TY.ARRAY →
      put_value env base st = true →
      env.no_data_components (env.DDTG (env.DTYPEG base)) = false →
      env.no_data_components (env.DDTG (env.DTYPEG ((mems.getLast?).getD base))) = false →
      DTYG env v.dtype ≠ TY.STRUCT →
      c.id = ACID.CONST → env.DTY c.dtype ≠ TY.STRUCT → 1 ≤ c.repeatc →
      member_offsets env mems ≠ 0 →
      ∃ ict' rep' st' d,
        dinit_varref env fuel (some v) 0 (c :: rest) dtype 0 base_off st =
          Res.ok (ict', rep', st') ∧
        st'.out = st.out ++ [Directive.SetLocation base,
          Directive.SetOffset (member_offsets env mems), d] ∧
        d.isStoreValue = true) :=
  ⟨fun env base st mems h1 h2 => by rw [mkeffadr_member_chain env base st h1 h2 mems],
   fun env st v base mems c rest dtype base_off fuel h1 h2 h3 h4 h5 h6 h7 h8 h9 h10 h11 h12 h13
      h14 h15 =>
    member_ref_records env st v base mems c rest dtype base_off fuel h1 h2 h3 h4 h5 h6 h7 h8 h9
      h10 h11 h12 h13 h14 h15⟩

/-- C8, at the reference `x%m%n` with member offsets 8 and 4: the effective
address has offset 12, which is the operand of the `SetOffset` record. -/
theorem C8_aggregate_nesting_witness :
    (mkeffadr exEnv (member_chain 20 [21, 22]) exSt).buf =
      { sptr := 20, mem := (([21, 22] : List Nat).getLast?).getD 20,
        offset := member_offsets exEnv [21, 22] } ∧
    member_offsets exEnv [21, 22] = 12 ∧
    (∃ ict' rep' st' d,
      dinit_varref exEnv 2 (some exRefNested) 0 [CONST.leaf 5 1 7] 0 0 0 exSt =
        Res.ok (ict', rep', st') ∧
      st'.out = exSt.out ++ [Directive.SetLocation (20 : Nat),
        Directive.SetOffset (member_offsets exEnv [21, 22]), d] ∧
      d.isStoreValue = true) :=
  ⟨C8_aggregate_nesting.1 exEnv 20 exSt [21, 22] (by decide) rfl, by decide,
   C8_aggregate_nesting.2 exEnv exSt exRefNested 20 [21, 22] (CONST.leaf 5 1 7) [] 0 0 2
     (by decide) rfl rfl rfl (by decide) rfl (by decide) (by decide) rfl rfl (by decide) rfl
     (by decide) (by decide) (by decide)⟩

/-! ## C9: subscripts out of bounds -/

/-- Routine `eval` only reports diagnostics and sets the error flag. -/
theorem eval_frame (env : Env) (e : IExpr) : ∀ s : St,
    (eval env e s).2.out = s.out ∧ (eval env e s).2.dostack = s.dostack ∧
    (eval env e s).2.top = s.top ∧ (eval env e s).2.buf = s.buf := by
  induction e with
  | LD sp =>
    intro s
    simp only [eval]
    split <;> simp [set_dinit_error, report]
  | KCON c => intro s; simp [eval]
  | ICON c => intro s; simp [eval]
  | NEG x ih => intro s; simpa [eval] using ih s
  | ADD x y ihx ihy =>
    intro s
    simp only [eval]
    obtain ⟨a1, a2, a3, a4⟩ := ihx s
    obtain ⟨b1, b2, b3, b4⟩ := ihy (eval env x s).2
    exact ⟨b1.trans a1, b2.trans a2, b3.trans a3, b4.trans a4⟩
  | SUB x y ihx ihy =>
    intro s
    simp only [eval]
    obtain ⟨a1, a2, a3, a4⟩ := ihx s
    obtain ⟨b1, b2, b3, b4⟩ := ihy (eval env x s).2
    exact ⟨b1.trans a1, b2.trans a2, b3.trans a3, b4.trans a4⟩
  | MUL x y ihx ihy =>
    intro s
    simp only [eval]
    obtain ⟨a1, a2, a3, a4⟩ := ihx s
    obtain ⟨b1, b2, b3, b4⟩ := ihy (eval env x s).2
    exact ⟨b1.trans a1, b2.trans a2, b3.trans a3, b4.trans a4⟩
  | DIV x y ihx ihy =>
    intro s
    simp only [eval]
    obtain ⟨a1, a2, a3, a4⟩ := ihx s
    obtain ⟨b1, b2, b3, b4⟩ := ihy (eval env x s).2
    exact ⟨b1.trans a1, b2.trans a2, b3.trans a3, b4.trans a4⟩
  | ITOI8 x ih => intro s; simpa [eval] using ih s
  | NARROW x ih => intro s; simpa [eval] using ih s
  | OTHER => intro s; simp [eval, set_dinit_error, report]

/-- The value of `eval` depends on the state only through the implied-do stack. -/
theorem eval_value_congr (env : Env) (e : IExpr) : ∀ s s' : St,
    s.dostack = s'.dostack → s.top = s'.top → (eval env e s).1 = (eval env e s').1 := by
  induction e with
  | LD sp =>
    intro s s' h1 h2
    simp only [eval, h1, h2]
    split <;> rfl
  | KCON c => intro s s' _ _; rfl
  | ICON c => intro s s' _ _; rfl
  | NEG x ih =>
    intro s s' h1 h2
    simp only [eval, ih s s' h1 h2]
  | ADD x y ihx ihy =>
    intro s s' h1 h2
    simp only [eval]
    rw [ihx s s' h1 h2, ihy (eval env x s).2 (eval env x s').2
      (((eval_frame env x s).2.1).trans (h1.trans ((eval_frame env x s').2.1).symm))
      (((eval_frame env x s).2.2.1).trans (h2.trans ((eval_frame env x s').2.2.1).symm))]
  | SUB x y ihx ihy =>
    intro s s' h1 h2
    simp only [eval]
    rw [ihx s s' h1 h2, ihy (eval env x s).2 (eval env x s').2
      (((eval_frame env x s).2.1).trans (h1.trans ((eval_frame env x s').2.1).symm))
      (((eval_frame env x s).2.2.1).trans (h2.trans ((eval_frame env x s').2.2.1).symm))]
  | MUL x y ihx ihy =>
    intro s s' h1 h2
    simp only [eval]
    rw [ihx s s' h1 h2, ihy (eval env x s).2 (eval env x s').2
      (((eval_frame env x s).2.1).trans (h1.trans ((eval_frame env x s').2.1).symm))
      (((eval_frame env x s).2.2.1).trans (h2.trans ((eval_frame env x s').2.2.1).symm))]
  | DIV x y ihx ihy =>
    intro s s' h1 h2
    simp only [eval]
    rw [ihx s s' h1 h2, ihy (eval env x s).2 (eval env x s').2
      (((eval_frame env x s).2.1).trans (h1.trans ((eval_frame env x s').2.1).symm))
      (((eval_frame env x s).2.2.1).trans (h2.trans ((eval_frame env x s').2.2.1).symm))]
  | ITOI8 x ih =>
    intro s s' h1 h2
    simp only [eval, ih s s' h1 h2]
  | NARROW x ih =>
    intro s s' h1 h2
    simp only [eval, ih s s' h1 h2]
  | OTHER => intro s s' _ _; rfl

/-- The subscript loop of `mkeffadr` writes no record and keeps the stack and
the buffer. -/
theorem mkeffadr_subs_frame (env : Env) (mem : Nat) : ∀ (subs : List IExpr) (i : Nat)
    (tot : Int) (s : St),
    (mkeffadr_subs env mem subs i tot s).2.out = s.out ∧
    (mkeffadr_subs env mem subs i tot s).2.dostack = s.dostack ∧
    (mkeffadr_subs env mem subs i tot s).2.top = s.top ∧
    (mkeffadr_subs env mem subs i tot s).2.buf = s.buf := by
  intro subs
  induction subs with
  | nil => intro i tot s; simp [mkeffadr_subs]
  | cons e es ih =>
    intro i tot s
    obtain ⟨a1, a2, a3, a4⟩ := eval_frame env e s
    simp only [mkeffadr_subs]
    split_ifs
    · simp [set_dinit_error, report, a1, a2, a3, a4]
    · obtain ⟨b1, b2, b3, b4⟩ := ih (i + 1)
        (tot + ((eval env e s).1 - env.lwbd mem i) * env.mlpyr mem i) (eval env e s).2
      exact ⟨b1.trans a1, b2.trans a2, b3.trans a3, b4.trans a4⟩

/-- A subscript outside its declared bounds makes the subscript loop of
`mkeffadr` report error 80 and set the error flag. -/
theorem mkeffadr_subs_oob (env : Env) (mem : Nat) : ∀ (subs : List IExpr) (i : Nat)
    (tot : Int) (s : St) (j : Nat) (e : IExpr), subs.get? j = some e →
    ((eval env e s).1 < env.lwbd mem (i + j) ∨ (eval env e s).1 > env.upbd mem (i + j)) →
    Diag.error 80 3 ∈ (mkeffadr_subs env mem subs i tot s).2.errs ∧
    (mkeffadr_subs env mem subs i tot s).2.dinit_error = 1 := by
  intro subs
  induction subs with
  | nil => intro i tot s j e hj; simp at hj
  | cons e0 es ih =>
    intro i tot s j e hj hoob
    simp only [mkeffadr_subs]
    split_ifs with h0
    · simp [set_dinit_error, report]
    · cases j with
      | zero =>
        simp only [List.get?_cons_zero, Option.some.injEq] at hj
        subst hj
        exact absurd (by simpa using hoob) h0
      | succ j' =>
        simp only [List.get?_cons_succ] at hj
        have hv : (eval env e (eval env e0 s).2).1 = (eval env e s).1 :=
          eval_value_congr env e _ _ (eval_frame env e0 s).2.1 (eval_frame env e0 s).2.2.1
        apply ih (i + 1) _ (eval env e0 s).2 j' e hj
        rw [hv]
        have e2 : i + 1 + j' = i + (j' + 1) := by omega
        rw [e2]
        exact hoob

/-- Routine `mkeffadr` writes no record. -/
theorem mkeffadr_out (env : Env) (r : IRef) : ∀ s : St, (mkeffadr env r s).out = s.out := by
  induction r with
  | BASE sp =>
    intro s
    simp only [mkeffadr]
    have : (dinit_ok env sp s).2.out = s.out := by
      unfold dinit_ok dinit_ok_array dinit_ok_fail
      split <;> (try split_ifs) <;> simp [set_dinit_error, report]
    split_ifs <;> simp [this]
  | PLD b _ => intro s; simp [mkeffadr, set_dinit_error]
  | MEMBER b m ih =>
    intro s
    simp only [mkeffadr]
    split_ifs <;> simp [ih s]
  | ELEMENT b subs ih =>
    intro s
    simp only [mkeffadr]
    split_ifs
    · exact ih s
    · simp [buf_add, (mkeffadr_subs_frame env _ subs 0 0 _).1, ih s]
  | SUBS b lw up ih =>
    intro s
    simp only [mkeffadr]
    split_ifs
    · exact ih s
    · simp [mkeffadr_substr, buf_add, (eval_frame env _ _).1, ih s]
  | NSUBS b lw up ih =>
    intro s
    simp only [mkeffadr]
    split_ifs
    · exact ih s
    · simp [mkeffadr_substr, buf_add, (eval_frame env _ _).1, ih s]
  | FUNC o => intro s; simp [mkeffadr, set_dinit_error, report]
  | OTHER => intro s; simp [mkeffadr, set_dinit_error]

theorem mkeffadr_element_oob (env : Env) (st : St) (base : IRef) (subs : List IExpr)
    (j : Nat) (e : IExpr)
    (hbase : (mkeffadr env base st).dinit_error = 0)
    (hj : subs.get? j = some e)
    (hoob : (eval env e (mkeffadr env base st)).1 < env.lwbd (mkeffadr env base st).buf.mem j ∨
      (eval env e (mkeffadr env base st)).1 > env.upbd (mkeffadr env base st).buf.mem j) :
    Diag.error 80 3 ∈ (mkeffadr env (IRef.ELEMENT base subs) st).errs ∧
    (mkeffadr env (IRef.ELEMENT base subs) st).dinit_error = 1 := by
  obtain ⟨h1, h2⟩ := mkeffadr_subs_oob env (mkeffadr env base st).buf.mem subs 0 0
    (mkeffadr env base st) j e hj (by simpa using hoob)
  simp only [mkeffadr, truthy, hbase]
  simpa [buf_add] using And.intro h1 h2

theorem varref_element_oob (env : Env) (st : St) (v : Varref) (base : IRef)
    (subs : List IExpr) (j : Nat) (e : IExpr) (ict : List CONST) (dtype : Nat)
    (rep base_off : Int) (fuel : Nat)
    (hfuel : 1 ≤ fuel) (hid : v.id = SID.S_LVALUE) (hptr : v.ptr = IRef.ELEMENT base subs)
    (hbase : (mkeffadr env base st).dinit_error = 0)
    (hj : subs.get? j = some e)
    (hoob : (eval env e (mkeffadr env base st)).1 < env.lwbd (mkeffadr env base st).buf.mem j ∨
      (eval env e (mkeffadr env base st)).1 > env.upbd (mkeffadr env base st).buf.mem j) :
    ∃ st', dinit_varref env fuel (some v) 0 ict dtype rep base_off st = Res.ok ([], rep, st') ∧
      st'.out = st.out ∧ Diag.error 80 3 ∈ st'.errs ∧ st'.dinit_error ≠ 0 := by
  obtain ⟨k, rfl⟩ : ∃ k, fuel = k + 1 := ⟨fuel - 1, by omega⟩
  obtain ⟨h1, h2⟩ := mkeffadr_element_oob env st base subs j e hbase hj hoob
  have hout := mkeffadr_out env (IRef.ELEMENT base subs) st
  have htg : varref_target env (some v) 0 base_off st =
      Res.ok (none, mkeffadr env (IRef.ELEMENT base subs) st) := by
    simp [varref_target, hid, hptr, truthy, h2]
  unfold dinit_varref
  simp only [htg, Res.bind, varref_error_exit]
  exact ⟨_, rfl, hout, h1, by simp [h2]⟩

/-- C9: out-of-bounds subscript.  For every array-element reference over a
base that resolves without error, if some subscript evaluates below the lower
or above the upper bound of its dimension, then (1) `mkeffadr` reports error 80
and sets `sem.dinit_error`, and (2) `dinit_varref` returns through `error_exit`
with no record written for the reference, whatever the constant list. -/
theorem C9_out_of_bounds_subscript :
    (∀ (env : Env) (st : St) (base : IRef) (subs : List IExpr) (j : Nat) (e : IExpr),
      (mkeffadr env base st).dinit_error = 0 → subs.get? j = some e →
      ((eval env e (mkeffadr env base st)).1 < env.lwbd (mkeffadr env base st).buf.mem j ∨
        (eval env e (mkeffadr env base st)).1 > env.upbd (mkeffadr env base st).buf.mem j) →
      Diag.error 80 3 ∈ (mkeffadr env (IRef.ELEMENT base subs) st).errs ∧
      (mkeffadr env (IRef.ELEMENT base subs) st).dinit_error = 1) ∧
    (∀ (env : Env) (st : St) (v : Varref) (base : IRef) (subs : List IExpr) (j : Nat)
      (e : IExpr) (ict : List CONST) (dtype : Nat) (rep base_off : Int) (fuel : Nat),
      1 ≤ fuel → v.id = SID.S_LVALUE → v.ptr = IRef.ELEMENT base subs →
      (mkeffadr env base st).dinit_error = 0 → subs.get? j = some e →
      ((eval env e (mkeffadr env base st)).1 < env.lwbd (mkeffadr env base st).buf.mem j ∨
        (eval env e (mkeffadr env base st)).1 > env.upbd (mkeffadr env base st).buf.mem j) →
      ∃ st', dinit_varref env fuel (some v) 0 ict dtype rep base_off st =
          Res.ok ([], rep, st') ∧
        st'.out = st.out ∧ Diag.error 80 3 ∈ st'.errs ∧ st'.dinit_error ≠ 0) :=
  ⟨fun env st base subs j e h1 h2 h3 => mkeffadr_element_oob env st base subs j e h1 h2 h3,
   fun env st v base subs j e ict dtype rep base_off fuel h1 h2 h3 h4 h5 h6 =>
    varref_element_oob env st v base subs j e ict dtype rep base_off fuel h1 h2 h3 h4 h5 h6⟩

/-- C9, at the reference `a(7)` to the array `a(1:6)`. -/
theorem C9_out_of_bounds_subscript_witness :
    (Diag.error 80 3 ∈ (mkeffadr exEnv (IRef.ELEMENT (IRef.BASE 10) [IExpr.ICON 107]) exSt).errs ∧
      (mkeffadr exEnv (IRef.ELEMENT (IRef.BASE 10) [IExpr.ICON 107]) exSt).dinit_error = 1) ∧
    (∃ st', dinit_varref exEnv 1 (some exRefOob) 0 [CONST.leaf 5 1 7] 0 0 0 exSt =
          Res.ok ([], 0, st') ∧
        st'.out = exSt.out ∧ Diag.error 80 3 ∈ st'.errs ∧ st'.dinit_error ≠ 0) :=
  ⟨C9_out_of_bounds_subscript.1 exEnv exSt (IRef.BASE 10) [IExpr.ICON 107] 0 (IExpr.ICON 107)
      (by decide) rfl (by decide),
   C9_out_of_bounds_subscript.2 exEnv exSt exRefOob (IRef.BASE 10) [IExpr.ICON 107] 0
      (IExpr.ICON 107) [CONST.leaf 5 1 7] 0 0 0 1 (by decide) rfl rfl (by decide) rfl
      (by decide)⟩

/-! ## What the walk of a reference leaves unchanged -/

theorem frame_refl (s : St) : frame s s := ⟨rfl, rfl, id⟩

theorem frame_trans {a b c : St} (h1 : frame a b) (h2 : frame b c) : frame a c :=
  ⟨h2.1.trans h1.1, h2.2.1.trans h1.2.1, fun h => h2.2.2 (h1.2.2 h)⟩

theorem frame_put (d : Directive) (s : St) : frame s (dinit_put d s) := ⟨rfl, rfl, id⟩

theorem frame_report (d : Diag) (s : St) : frame s (report d s) := ⟨rfl, rfl, id⟩

theorem frame_set_error (s : St) : frame s (set_dinit_error s) :=
  ⟨rfl, rfl, fun _ => by simp [set_dinit_error]⟩

theorem frame_eval (env : Env) (e : IExpr) : ∀ s : St, frame s (eval env e s).2 := by
  induction e with
  | LD sp =>
    intro s
    simp only [eval]
    split
    · exact frame_refl s
    · exact frame_trans (frame_report _ s) (frame_set_error _)
  | KCON c => intro s; exact frame_refl s
  | ICON c => intro s; exact frame_refl s
  | NEG x ih => intro s; exact ih s
  | ADD x y ihx ihy => intro s; exact frame_trans (ihx s) (ihy _)
  | SUB x y ihx ihy => intro s; exact frame_trans (ihx s) (ihy _)
  | MUL x y ihx ihy => intro s; exact frame_trans (ihx s) (ihy _)
  | DIV x y ihx ihy => intro s; exact frame_trans (ihx s) (ihy _)
  | ITOI8 x ih => intro s; exact ih s
  | NARROW x ih => intro s; exact ih s
  | OTHER => intro s; exact frame_trans (frame_report _ s) (frame_set_error _)

theorem frame_dinit_ok (env : Env) (sptr : Nat) (s : St) : frame s (dinit_ok env sptr s).2 := by
  have hf : ∀ d, frame s (dinit_ok_fail d s).2 := fun d =>
    frame_trans (frame_report d s) (frame_set_error _)
  have ha : frame s (dinit_ok_array env sptr s).2 := by
    unfold dinit_ok_array
    split_ifs <;> first | exact hf _ | exact frame_refl s
  unfold dinit_ok
  split <;> (try split_ifs) <;> first | exact hf _ | exact ha

theorem frame_mkeffadr_subs (env : Env) (mem : Nat) : ∀ (subs : List IExpr) (i : Nat)
    (tot : Int) (s : St), frame s (mkeffadr_subs env mem subs i tot s).2 := by
  intro subs
  induction subs with
  | nil => intro i tot s; exact frame_refl s
  | cons e es ih =>
    intro i tot s
    simp only [mkeffadr_subs]
    split_ifs
    · exact frame_trans (frame_eval env e s) (frame_trans (frame_report _ _) (frame_set_error _))
    · exact frame_trans (frame_eval env e s) (ih _ _ _)

theorem frame_buf (s : St) (b : EFFADR) : frame s { s with buf := b } := ⟨rfl, rfl, id⟩

theorem frame_mkeffadr (env : Env) (r : IRef) : ∀ s : St, frame s (mkeffadr env r s) := by
  induction r with
  | BASE sp =>
    intro s
    simp only [mkeffadr]
    split_ifs
    · exact frame_trans (frame_dinit_ok env sp s) (frame_buf _ _)
    · exact frame_dinit_ok env sp s
  | PLD b _ => intro s; exact frame_trans (frame_buf s _) (frame_set_error _)
  | MEMBER b m ih =>
    intro s
    simp only [mkeffadr]
    split_ifs
    · exact ih s
    · exact frame_trans (ih s) (frame_buf _ _)
  | ELEMENT b subs ih =>
    intro s
    simp only [mkeffadr]
    split_ifs
    · exact ih s
    · exact frame_trans (ih s) (frame_trans (frame_mkeffadr_subs env _ subs 0 0 _)
        (frame_buf _ _))
  | SUBS b lw up ih =>
    intro s
    simp only [mkeffadr]
    split_ifs
    · exact ih s
    · refine frame_trans (ih s) ?_
      unfold mkeffadr_substr
      exact frame_trans (frame_eval env lw _) (frame_trans (frame_buf _ _)
        (frame_trans (frame_eval env up _) ⟨rfl, rfl, id⟩))
  | NSUBS b lw up ih =>
    intro s
    simp only [mkeffadr]
    split_ifs
    · exact ih s
    · refine frame_trans (ih s) ?_
      unfold mkeffadr_substr
      exact frame_trans (frame_eval env lw _) (frame_trans (frame_buf _ _)
        (frame_trans (frame_eval env up _) ⟨rfl, rfl, id⟩))
  | FUNC o =>
    intro s
    exact frame_trans (frame_buf s _) (frame_trans (frame_report _ _) (frame_set_error _))
  | OTHER => intro s; exact frame_trans (frame_buf s _) (frame_set_error _)

theorem frame_dinit_val (env : Env) (sptr dtypev : Nat) (val : Int) (s : St) :
    frame s (dinit_val env sptr dtypev val s) := by
  have hc : ∀ d (x : St), frame x (dinit_val_convert env d dtypev val x).2 := by
    intro d x
    unfold dinit_val_convert
    split_ifs <;> exact frame_refl x
  have hA : frame s (if truthy s.substr_len then { s with substr_len := 0 } else s) := by
    split_ifs
    · exact ⟨rfl, rfl, id⟩
    · exact frame_refl s
  have hB : ∀ (st2 : St) (x : Int),
      frame st2 (if env.flg_opt ≥ 2 ∧ st2.STYPEG sptr = STYPE.VAR ∧ env.SCG sptr = SC.LOCAL then
        { st2 with dvl := st2.dvl ++ [(sptr, x)], REDUCG := upd st2.REDUCG sptr true }
      else st2) := by
    intro st2 x
    split_ifs
    · exact ⟨rfl, rfl, id⟩
    · exact frame_refl st2
  unfold dinit_val
  by_cases hnd : env.no_data_components (env.DDTG (env.DTYPEG sptr)) = true
  · simp only [hnd, if_true]
    exact frame_refl s
  · simp only [hnd, Bool.false_eq_true, if_false]
    exact frame_trans (frame_trans hA (hc _ _)) (frame_trans (frame_put _ _) (hB _ _))

theorem frame_sym_is_dinitd (env : Env) (sptr : Nat) (s : St) :
    frame s (sym_is_dinitd env sptr s) := by
  unfold sym_is_dinitd
  by_cases h1 : env.SCG sptr = SC.CMBLK <;>
    by_cases h2 : (s.STYPEG sptr = STYPE.IDENT ∨ s.STYPEG sptr = STYPE.UNKNOWN) <;>
    simp only [h1, h2, if_true, if_false] <;> exact ⟨rfl, rfl, id⟩

theorem frame_save_init (env : Env) (ict : List CONST) (sptr : Nat) (s : St) :
    frame s (save_init env ict sptr s) := by
  unfold save_init
  split_ifs <;> exact frame_refl s

theorem bind_eq_ok {α β : Type} {x : Res α} {f : α → Res β} {r : β}
    (h : x.bind f = Res.ok r) : ∃ a, x = Res.ok a ∧ f a = Res.ok r := by
  cases x with
  | ok a => exact ⟨a, rfl, h⟩
  | fuel => simp [Res.bind] at h
  | undef => simp [Res.bind] at h

theorem frame_varref_target (env : Env) (ivl : Option Varref) (member : Nat) (base_off : Int)
    (st : St) (r : Option VarrefTarget × St)
    (h : varref_target env ivl member base_off st = Res.ok r) : frame st r.2 := by
  unfold varref_target at h
  simp only [] at h
  split at h
  all_goals (try split_ifs at h)
  all_goals (try split at h)
  all_goals (try split_ifs at h)
  all_goals first
    | (simp at h; done)
    | (simp only [Res.ok.injEq] at h
       rw [← h]
       first
         | exact frame_refl st
         | exact frame_dinit_ok env _ st
         | exact frame_mkeffadr env _ st)

theorem varref_iter_state_advance (t : VarrefTarget) (c : CONST) (next : List CONST)
    (i rep : Int) (s : VarrefLoop) (nb : Bool) (st : St) :
    varref_iter_state (Sum.map id (Prod.mk true) (varref_advance t c next i rep s nb st)) = st := by
  unfold varref_advance
  simp only []
  split_ifs <;> rfl

theorem frame_run_head (env : Env) (t : VarrefTarget) (member : Nat) (c : CONST)
    (i offset : Int) (nb : Bool) (st : St) :
    frame st (run_head env t member c i offset nb st).2.2 := by
  unfold run_head
  have h1 : frame st (if member = 0 then dinit_put (Directive.SetLocation t.sptr) st else st) := by
    split_ifs
    · exact frame_put _ _
    · exact frame_refl _
  have h2 : frame st (if truthy offset then dinit_put (Directive.SetOffset offset)
      (if member = 0 then dinit_put (Directive.SetLocation t.sptr) st else st)
      else (if member = 0 then dinit_put (Directive.SetLocation t.sptr) st else st)) := by
    split_ifs <;> first
      | exact frame_trans (frame_put _ _) (frame_put _ _)
      | exact frame_put _ _
      | exact frame_refl _
  split_ifs <;> first
    | exact frame_trans h2 (frame_put _ _)
    | exact h2
    | exact frame_refl _

/-- One iteration of the loop of `dinit_varref` keeps the frame, if the
recursive calls do. -/
theorem frame_varref_body (env : Env)
    (recV : List CONST → St → Res (List CONST × Int × St))
    (recD : List CONST → Nat → Int → St → Res St)
    (t : VarrefTarget) (ivl : Option Varref) (member : Nat) (pv : Bool) (base_off : Int)
    (hV : ∀ ic st x, recV ic st = Res.ok x → frame st x.2.2)
    (hD : ∀ ic dt off st x, recD ic dt off st = Res.ok x → frame st x)
    (s : VarrefLoop) (r : VarrefLoop ⊕ (Bool × VarrefLoop))
    (h : varref_body env recV recD t ivl member pv base_off s = Res.ok r) :
    frame s.st (varref_iter_state r) := by
  unfold varref_body at h
  simp only [] at h
  split_ifs at h
  all_goals (try split at h)
  all_goals (try split_ifs at h)
  all_goals first
    | (simp only [Res.ok.injEq] at h
       rw [← h]
       first
         | exact frame_refl _
         | (rw [varref_iter_state_advance]
            first
              | exact frame_refl _
              | exact frame_run_head _ _ _ _ _ _ _ _
              | exact frame_trans (frame_run_head _ _ _ _ _ _ _ _) (frame_dinit_val _ _ _ _ _)))
    | (obtain ⟨a, ha, hk⟩ := bind_eq_ok h
       simp only [Res.ok.injEq] at hk
       rw [← hk, varref_iter_state_advance]
       first
         | exact hV _ _ _ ha
         | exact hD _ _ _ _ _ ha
         | exact frame_trans (frame_put _ _) (hD _ _ _ _ _ ha)
         | exact frame_trans (frame_trans (frame_put _ _) (frame_put _ _)) (hD _ _ _ _ _ ha)
         | exact frame_trans (frame_run_head _ _ _ _ _ _ _ _) (hD _ _ _ _ _ ha))

theorem frame_varref_finish (env : Env) (t : VarrefTarget) (member : Nat)
    (saved_ict : List CONST) (pv : Bool) (s : VarrefLoop) (r : List CONST × Int × St)
    (h : varref_finish env t member saved_ict pv s = Res.ok r) : frame s.st r.2.2 := by
  unfold varref_finish at h
  simp only [] at h
  have h1 : frame s.st (if pv = true then sym_is_dinitd env t.sptr s.st else s.st) := by
    split_ifs
    · exact frame_sym_is_dinitd _ _ _
    · exact frame_refl _
  split_ifs at h
  all_goals first
    | (simp only [Res.ok.injEq] at h
       rw [← h]
       first
         | exact frame_sym_is_dinitd _ _ _
         | exact frame_refl _)
    | (obtain ⟨a, _, hk⟩ := bind_eq_ok h
       simp only [Res.ok.injEq] at hk
       rw [← hk]
       first
         | exact frame_trans (frame_sym_is_dinitd _ _ _) (frame_save_init _ _ _ _)
         | exact frame_save_init _ _ _ _)

theorem frame_error_exit (rep : Int) (st : St) : frame st (varref_error_exit rep st).2.2 := by
  refine ⟨rfl, rfl, ?_⟩
  intro h0
  show 0 < st.dinit_error + 1
  omega

/-- A property kept by every iteration of a loop holds for its result. -/
theorem loopN_invariant {σ ρ : Type} (body : σ → Res (σ ⊕ ρ)) (I : σ → Prop) (J : ρ → Prop)
    (hstep : ∀ s s', I s → body s = Res.ok (Sum.inl s') → I s')
    (hexit : ∀ s r, I s → body s = Res.ok (Sum.inr r) → J r) :
    ∀ (n : Nat) (s : σ) (r : ρ), I s → loopN body n s = Res.ok r → J r := by
  intro n
  induction n with
  | zero =>
    intro s r _ h
    simp [loopN] at h
  | succ n ih =>
    intro s r hI h
    unfold loopN at h
    split at h
    · rename_i s' hb
      exact ih s' r (hstep s s' hI hb) h
    · rename_i r' hb
      simp only [Res.ok.injEq] at h
      rw [← h]
      exact hexit s r' hI hb
    · simp at h
    · simp at h

theorem data_advance_state (env : Env) (vars : List VAR) (s : DataLoop) :
    data_iter_state (data_advance env vars s) = s.st := by
  unfold data_advance
  simp only []
  split_ifs <;> rfl

theorem data_advance_none (env : Env) (vars : List VAR) (s s' : DataLoop)
    (hs : s.ivl = none) (h : data_advance env vars s = Sum.inl s') : s'.ivl = none := by
  unfold data_advance at h
  simp only [hs] at h
  split_ifs at h
  all_goals
    simp only [Sum.inl.injEq] at h
    rw [← h]

/-- One iteration of the loop of `dinit_data` over the members of a structure
(null `ivl`) keeps the frame, if the call of `dinit_varref` does. -/
theorem frame_data_body_none (env : Env)
    (recV : Option Varref → Nat → List CONST → Int → St → Res (List CONST × Int × St))
    (hV : ∀ v m ic rp st x, recV v m ic rp st = Res.ok x → frame st x.2.2)
    (s : DataLoop) (r : DataLoop ⊕ St) (hs : s.ivl = none)
    (h : data_body env recV [] s = Res.ok r) :
    frame s.st (data_iter_state r) ∧ (∀ s', r = Sum.inl s' → s'.ivl = none) := by
  unfold data_body at h
  simp only [hs] at h
  split_ifs at h
  all_goals first
    | (simp at h; done)
    | (simp only [Res.ok.injEq] at h
       rw [← h]
       refine ⟨frame_refl _, ?_⟩
       intro s' hs'
       first
         | (simp only [Sum.inl.injEq] at hs'
            rw [← hs'])
         | simp at hs')
    | (obtain ⟨a, ha, hk⟩ := bind_eq_ok h
       simp only [Res.ok.injEq] at hk
       rw [← hk, data_advance_state]
       refine ⟨hV _ _ _ _ _ _ ha, ?_⟩
       intro s' hs'
       exact data_advance_none env _ _ s' rfl hs')

/-- The walk of a reference, and of the members of a structure, leaves the
implied-do stack alone and never clears the error flag. -/
theorem frame_walk (env : Env) : ∀ (fuel : Nat),
    (∀ ivl member ict dtype rep base_off st x,
      dinit_varref env fuel ivl member ict dtype rep base_off st = Res.ok x → frame st x.2.2) ∧
    (∀ ict dtype base_off st x,
      dinit_data env fuel [] none ict dtype base_off st = Res.ok x → frame st x) := by
  intro fuel
  induction fuel with
  | zero =>
    constructor
    · intro ivl member ict dtype rep base_off st x h
      simp [dinit_varref] at h
    · intro ict dtype base_off st x h
      simp [dinit_data] at h
  | succ fuel ih =>
    obtain ⟨ihV, ihD⟩ := ih
    constructor
    · intro ivl member ict dtype rep base_off st x h
      unfold dinit_varref at h
      obtain ⟨tg, htg, h⟩ := bind_eq_ok h
      have f1 : frame st tg.2 := frame_varref_target env ivl member base_off st tg htg
      split at h
      · simp only [Res.ok.injEq] at h
        rw [← h]
        exact frame_trans f1 (frame_error_exit _ _)
      · rename_i t ht
        simp only [] at h
        obtain ⟨fin, hfin, h⟩ := bind_eq_ok h
        have f2 : frame tg.2 fin.2.st :=
          loopN_invariant _ (fun s => frame tg.2 s.st) (fun r => frame tg.2 r.2.st)
            (fun s s' hI hb => frame_trans hI
              (frame_varref_body env _ _ t ivl member _ base_off
                (fun ic st1 x1 hx => ihV _ _ _ _ _ _ _ _ hx)
                (fun ic dt off st1 x1 hx => ihD _ _ _ _ _ hx) s _ hb))
            (fun s r hI hb => frame_trans hI
              (frame_varref_body env _ _ t ivl member _ base_off
                (fun ic st1 x1 hx => ihV _ _ _ _ _ _ _ _ hx)
                (fun ic dt off st1 x1 hx => ihD _ _ _ _ _ hx) s _ hb))
            fuel _ fin (frame_refl _) hfin
        split_ifs at h
        · exact frame_trans f1 (frame_trans f2 (frame_varref_finish env t member ict _ fin.2 x h))
        · simp only [Res.ok.injEq] at h
          rw [← h]
          exact frame_trans f1 (frame_trans f2
            (frame_trans (frame_report _ _) (frame_error_exit _ _)))
    · intro ict dtype base_off st x h
      unfold dinit_data at h
      exact loopN_invariant _ (fun s => s.ivl = none ∧ frame st s.st) (fun r => frame st r)
        (fun s s' hI hb =>
          have hb2 := frame_data_body_none env _
            (fun v m ic rp st1 x1 hx => ihV _ _ _ _ _ _ _ _ hx) s _ hI.1 hb
          ⟨hb2.2 s' rfl, frame_trans hI.2 hb2.1⟩)
        (fun s r hI hb =>
          have hb2 := frame_data_body_none env _
            (fun v m ic rp st1 x1 hx => ihV _ _ _ _ _ _ _ _ hx) s _ hI.1 hb
          frame_trans hI.2 hb2.1)
        fuel _ x ⟨rfl, frame_refl _⟩ h

/-! ## The implied do of a variable list -/

theorem dinit_data_loop (env : Env) (fuel : Nat) (vars : List VAR) (ivl : Option Nat)
    (ict : List CONST) (dtype : Nat) (base_off : Int) (st : St) :
    dinit_data env (fuel + 1) vars ivl ict dtype base_off st =
      data_loop env fuel vars dtype base_off fuel
        ⟨ivl, first_member env ivl dtype, ict, 0, st⟩ := by
  unfold dinit_data data_loop
  rfl

theorem walk_clean_ok (r : Res (List CONST × Int × St)) (h : walk_clean r = true) :
    ∃ x, r = Res.ok x ∧ x.2.2.dinit_error = 0 := by
  cases r with
  | ok x =>
    refine ⟨x, rfl, ?_⟩
    simpa [walk_clean] using h
  | fuel => simp [walk_clean] at h
  | undef => simp [walk_clean] at h

/-- The iteration of the loop of `dinit_data` at a reference node whose walk
leaves no error: the loop moves to the next node. -/
theorem data_body_varref (env : Env) (fuel : Nat) (vars : List VAR) (dtype : Nat)
    (base_off : Int) (pc : Nat) (v : Varref) (ict : List CONST) (rep : Int) (st : St)
    (r : List CONST × Int × St)
    (hv : vars.get? pc = some (VAR.Varref v)) (hnext : pc + 1 < vars.length)
    (hr : dinit_varref env fuel (some v) 0 ict dtype rep base_off st = Res.ok r)
    (he : r.2.2.dinit_error = 0) :
    data_body env
      (fun v member ic rep st1 => dinit_varref env fuel v member ic dtype rep base_off st1)
      vars ⟨some pc, 0, ict, rep, st⟩ = Res.ok (Sum.inl ⟨some (pc + 1), 0, r.1, r.2.1, r.2.2⟩) := by
  have hv2 : vars[pc]? = some (VAR.Varref v) := by simpa using hv
  unfold data_body
  simp [member_head, hv2, hr, Res.bind, data_advance, truthy, he, hnext]

/-- The iterations of the loop of `dinit_data` over a run of reference nodes
whose walk leaves no error are the pass `walk_refs` over them. -/
theorem data_loop_refs (env : Env) (fuel : Nat) (vars : List VAR) (dtype : Nat)
    (base_off : Int) (r : List CONST × Int × St) (he : r.2.2.dinit_error = 0) :
    ∀ (vs : List Varref) (q : Nat) (x : List CONST × Int × St),
      (∀ j v, vs.get? j = some v → vars.get? (q + j) = some (VAR.Varref v)) →
      q + vs.length < vars.length →
      walk_refs env fuel dtype base_off vs x = Res.ok r →
      (∀ g, data_loop env fuel vars dtype base_off (vs.length + g)
          ⟨some q, 0, x.1, x.2.1, x.2.2⟩ =
        data_loop env fuel vars dtype base_off g
          ⟨some (q + vs.length), 0, r.1, r.2.1, r.2.2⟩) ∧
      frame x.2.2 r.2.2 := by
  intro vs
  induction vs with
  | nil =>
    intro q x _ _ h
    simp only [walk_refs, Res.ok.injEq] at h
    subst h
    exact ⟨fun g => by simp, frame_refl _⟩
  | cons v vs ih =>
    intro q x hb hlen h
    unfold walk_refs at h
    obtain ⟨a, ha, hk⟩ := bind_eq_ok h
    have hae : a.2.2.dinit_error = 0 := by
      by_contra hne
      have ht : truthy a.2.2.dinit_error = true := by simpa [truthy] using hne
      rw [if_pos ht] at hk
      simp only [Res.ok.injEq] at hk
      rw [hk] at hne
      exact hne he
    have ht : ¬ truthy a.2.2.dinit_error = true := by simp [truthy, hae]
    rw [if_neg ht] at hk
    have hlen2 : q + 1 + vs.length < vars.length := by
      simp only [List.length_cons] at hlen
      omega
    obtain ⟨hloop, hfr⟩ := ih (q + 1) a
      (fun j w hj => by
        have := hb (j + 1) w (by simpa using hj)
        rw [← this]
        congr 1
        omega)
      hlen2 hk
    have hstep := data_body_varref env fuel vars dtype base_off q v x.1 x.2.1 x.2.2 a
      (by simpa using hb 0 v (by simp)) (by omega) ha hae
    refine ⟨?_, frame_trans ((frame_walk env fuel).1 _ _ _ _ _ _ _ _ ha) hfr⟩
    intro g
    have e1 : (v :: vs).length + g = (vs.length + g) + 1 := by
      simp only [List.length_cons]
      omega
    have e2 : q + (v :: vs).length = q + 1 + vs.length := by
      simp only [List.length_cons]
      omega
    rw [e1, e2, ← hloop g]
    exact loopN_step _ _ _ _ hstep

theorem upd_upd {β : Type} (f : Nat → β) (k : Nat) (a b : β) :
    upd (upd f k a) k b = upd f k b := by
  funext x
  unfold upd
  split_ifs <;> rfl

theorem upd_same {β : Type} (f : Nat → β) (k : Nat) (a : β) : upd f k a k = a := by
  simp [upd]

/-- The iteration of the loop of `dinit_data` at the `Doend` node of a loop
whose entry is the only one on the stack: the index advances by the step, and
the walk goes back to the node after `Dostart` while the bound is not passed. -/
theorem data_body_doend (env : Env) (fuel : Nat) (vars : List VAR) (dtype : Nat)
    (base_off : Int) (pc p idx : Nat) (c U S : Int) (ict : List CONST) (rep : Int) (st : St)
    (hv : vars.get? pc = some (VAR.Doend p)) (hp : p + 1 < vars.length)
    (htop : st.top = 1) (hent : st.dostack 0 = ⟨idx, c, U, S⟩) (he : st.dinit_error = 0) :
    data_body env
      (fun v member ic rep st1 => dinit_varref env fuel v member ic dtype rep base_off st1)
      vars ⟨some pc, 0, ict, rep, st⟩ =
      Res.ok (if (S > 0 ∧ c + S ≤ U) ∨ (S ≤ 0 ∧ c + S ≥ U) then
          Sum.inl ⟨some (p + 1), 0, ict, rep, ido_bind idx (c + S) U S st⟩
        else if pc + 1 < vars.length then
          Sum.inl ⟨some (pc + 1), 0, ict, rep, ido_exit idx (c + S) U S st⟩
        else Sum.inr (ido_exit idx (c + S) U S st)) := by
  have hv2 : vars[pc]? = some (VAR.Doend p) := by simpa using hv
  unfold data_body
  simp only [member_head, hv, data_doend, htop, hent]
  by_cases hc : (S > 0 ∧ c + S ≤ U) ∨ (S ≤ 0 ∧ c + S ≥ U)
  · simp [hc, data_advance, truthy, he, hp, ido_bind]
  · by_cases hn : pc + 1 < vars.length
    · simp [hc, data_advance, truthy, he, hn, ido_exit]
    · simp [hc, data_advance, truthy, he, hn, ido_exit]

/-- The iteration of the loop of `dinit_data` at the `Dostart` node of a loop
that is entered: the entry is pushed with the index at the lower bound. -/
theorem data_body_dostart (env : Env) (fuel : Nat) (vars : List VAR) (dtype : Nat)
    (base_off : Int) (p idx : Nat) (indvar lo up stp : IExpr) (L U S : Int)
    (ict : List CONST) (rep : Int) (st : St)
    (hv : vars.get? p = some (VAR.Dostart indvar lo up stp)) (hp : p + 1 < vars.length)
    (htop : st.top = 0) (he : st.dinit_error = 0)
    (hidx : ∀ s, chk_doindex indvar s = (idx, s)) (hne : idx ≠ 1)
    (hlo : ∀ s, eval env lo s = (L, s)) (hup : ∀ s, eval env up s = (U, s))
    (hstp : ∀ s, eval env stp s = (S, s))
    (hdir : (S > 0 ∧ L ≤ U) ∨ (S < 0 ∧ L ≥ U)) :
    data_body env
      (fun v member ic rep st1 => dinit_varref env fuel v member ic dtype rep base_off st1)
      vars ⟨some p, 0, ict, rep, st⟩ =
      Res.ok (Sum.inl ⟨some (p + 1), 0, ict, rep, ido_bind idx L U S st⟩) := by
  have hv2 : vars[p]? = some (VAR.Dostart indvar lo up stp) := by simpa using hv
  have hz : ¬ ((S > 0 ∧ L > U) ∨ (S ≤ 0 ∧ L < U)) := by omega
  unfold data_body
  simp only [member_head, hv, data_dostart, htop, hidx, hlo, hup, hstp]
  simp [MAXDEPTH, hne, hz, data_advance, truthy, he, hp, ido_bind, upd_upd, upd_same]

/-- The test made at `Doend` after pass `k` of a loop of `trip_count` passes:
it holds before the last pass and fails after it. -/
theorem ido_continue (L U S : Int) (hdir : (S > 0 ∧ L ≤ U) ∨ (S < 0 ∧ L ≥ U)) (k : Nat) :
    (k + 1 < trip_count L U S →
      ((S > 0 ∧ L + (k : Int) * S + S ≤ U) ∨ (S ≤ 0 ∧ L + (k : Int) * S + S ≥ U))) ∧
    (k + 1 = trip_count L U S →
      ¬ ((S > 0 ∧ L + (k : Int) * S + S ≤ U) ∨ (S ≤ 0 ∧ L + (k : Int) * S + S ≥ U))) := by
  have hs : S ≠ 0 := by omega
  obtain ⟨h1, h2⟩ := trip_count_spec L U S hs
  have e : L + ((k + 1 : Nat) : Int) * S = L + (k : Int) * S + S := by
    push_cast
    ring
  constructor
  · intro hk
    have := h1 (k + 1) hk
    rw [e] at this
    by_cases hp : S > 0
    · have hd : decide (S ≥ 0) = true := by simp; omega
      rw [if_pos hd] at this
      exact Or.inl ⟨hp, this⟩
    · have hd : ¬ decide (S ≥ 0) = true := by simp; omega
      rw [if_neg hd] at this
      exact Or.inr ⟨by omega, this⟩
  · intro hk
    rw [← hk, e] at h2
    by_cases hp : S > 0
    · have hd : decide (S ≥ 0) = true := by simp; omega
      rw [if_pos hd] at h2
      omega
    · have hd : ¬ decide (S ≥ 0) = true := by simp; omega
      rw [if_neg hd] at h2
      omega

/-- From the node after `Dostart`, with pass `k` about to start and `j + 1`
passes left, the loop of `dinit_data` makes these passes and leaves the
implied do. -/
theorem data_loop_passes (env : Env) (fuel : Nat) (vars : List VAR) (dtype : Nat)
    (base_off : Int) (p idx : Nat) (body : List Varref) (L U S : Int)
    (r : List CONST × Int × St) (he : r.2.2.dinit_error = 0)
    (hbody : ∀ j v, body.get? j = some v → vars.get? (p + 1 + j) = some (VAR.Varref v))
    (hend : vars.get? (p + 1 + body.length) = some (VAR.Doend p))
    (hlen : p + 1 + body.length < vars.length)
    (hdir : (S > 0 ∧ L ≤ U) ∨ (S < 0 ∧ L ≥ U)) :
    ∀ (j k : Nat) (x : List CONST × Int × St),
      k + (j + 1) = trip_count L U S →
      walk_passes env fuel dtype base_off body idx L U S (j + 1) k x = Res.ok r →
      ∀ g, data_loop env fuel vars dtype base_off ((j + 1) * (body.length + 1) + g)
          ⟨some (p + 1), 0, x.1, x.2.1, ido_bind idx (L + (k : Int) * S) U S x.2.2⟩ =
        (if p + body.length + 2 < vars.length then
          data_loop env fuel vars dtype base_off g
            ⟨some (p + body.length + 2), 0, r.1, r.2.1,
              ido_exit idx (L + (trip_count L U S : Int) * S) U S r.2.2⟩
        else Res.ok (ido_exit idx (L + (trip_count L U S : Int) * S) U S r.2.2)) := by
  intro j
  induction j with
  | zero =>
    intro k x hn h g
    unfold walk_passes at h
    obtain ⟨a, ha, hk⟩ := bind_eq_ok h
    have hra : a = r := by
      split_ifs at hk
      · simpa using hk
      · simpa [walk_passes] using hk
    subst hra
    obtain ⟨hloop, hfr⟩ := data_loop_refs env fuel vars dtype base_off a he body (p + 1)
      (x.1, x.2.1, ido_bind idx (L + (k : Int) * S) U S x.2.2) hbody hlen ha
    have hent : a.2.2.dostack 0 = ⟨idx, L + (k : Int) * S, U, S⟩ := by
      rw [hfr.1]
      simp [ido_bind, upd_same]
    have hstep := data_body_doend env fuel vars dtype base_off (p + 1 + body.length) p idx
      (L + (k : Int) * S) U S a.1 a.2.1 a.2.2 hend (by omega) hfr.2.1 hent he
    rw [if_neg ((ido_continue L U S hdir k).2 (by omega))] at hstep
    have e1 : (0 + 1) * (body.length + 1) + g = body.length + (g + 1) := by ring
    have e2 : L + (trip_count L U S : Int) * S = L + (k : Int) * S + S := by
      rw [← hn]
      push_cast
      ring
    have e3 : p + 1 + body.length + 1 = p + body.length + 2 := by ring
    rw [e1, hloop (g + 1), e2]
    rw [e3] at hstep
    by_cases hpost : p + body.length + 2 < vars.length
    · rw [if_pos hpost] at hstep ⊢
      exact loopN_step _ _ _ _ hstep
    · rw [if_neg hpost] at hstep ⊢
      exact loopN_exit _ _ _ _ hstep
  | succ j ih =>
    intro k x hn h g
    unfold walk_passes at h
    obtain ⟨a, ha, hk⟩ := bind_eq_ok h
    have hae : a.2.2.dinit_error = 0 := by
      by_contra hne
      have ht : truthy a.2.2.dinit_error = true := by simpa [truthy] using hne
      rw [if_pos ht] at hk
      simp only [Res.ok.injEq] at hk
      rw [hk] at hne
      exact hne he
    have ht : ¬ truthy a.2.2.dinit_error = true := by simp [truthy, hae]
    rw [if_neg ht] at hk
    obtain ⟨hloop, hfr⟩ := data_loop_refs env fuel vars dtype base_off a hae body (p + 1)
      (x.1, x.2.1, ido_bind idx (L + (k : Int) * S) U S x.2.2) hbody hlen ha
    have hent : a.2.2.dostack 0 = ⟨idx, L + (k : Int) * S, U, S⟩ := by
      rw [hfr.1]
      simp [ido_bind, upd_same]
    have hstep := data_body_doend env fuel vars dtype base_off (p + 1 + body.length) p idx
      (L + (k : Int) * S) U S a.1 a.2.1 a.2.2 hend (by omega) hfr.2.1 hent hae
    rw [if_pos ((ido_continue L U S hdir k).1 (by omega))] at hstep
    have e1 : (j + 1 + 1) * (body.length + 1) + g =
        body.length + (((j + 1) * (body.length + 1) + g) + 1) := by ring
    have e2 : L + (k : Int) * S + S = L + ((k + 1 : Nat) : Int) * S := by
      push_cast
      ring
    rw [e1, hloop _, ← ih (k + 1) a (by omega) hk g, ← e2]
    exact loopN_step _ _ _ _ hstep

theorem fdiv_nonpos_neg : ∀ (a b : Int), a ≤ 0 → b < 0 → Int.fdiv a b = (-a) / (-b)
  | 0, _, _, _ => by simp [Int.fdiv]
  | Int.ofNat (m + 1), _, h, _ => by
    exfalso
    have : (0 : Int) < Int.ofNat (m + 1) := by
      simp only [Int.ofNat_eq_coe]
      omega
    omega
  | Int.negSucc m, Int.ofNat n, _, h => by
    exfalso
    have : (0 : Int) ≤ Int.ofNat n := by
      simp only [Int.ofNat_eq_coe]
      omega
    omega
  | Int.negSucc m, Int.negSucc n, _, _ => by
    simp only [Int.fdiv, Int.neg_negSucc]
    norm_cast

theorem ido_positions {α β : Type} (f : β → α) (pre post : List α) (body : List β) (d e : α) :
    (pre ++ d :: (body.map f ++ e :: post)).get? pre.length = some d ∧
    (∀ j v, body.get? j = some v →
      (pre ++ d :: (body.map f ++ e :: post)).get? (pre.length + 1 + j) = some (f v)) ∧
    (pre ++ d :: (body.map f ++ e :: post)).get? (pre.length + 1 + body.length) = some e ∧
    (pre ++ d :: (body.map f ++ e :: post)).length = pre.length + body.length + 2 + post.length := by
  refine ⟨?_, ?_, ?_, ?_⟩
  · simp only [List.get?_eq_getElem?]
    rw [List.getElem?_append_right (by omega)]
    simp
  · intro j v hj
    have hj2 : body[j]? = some v := by simpa using hj
    have hlt : j < body.length := by
      by_contra hc
      rw [List.getElem?_eq_none (by omega)] at hj2
      simp at hj2
    simp only [List.get?_eq_getElem?]
    rw [List.getElem?_append_right (by omega)]
    have e1 : pre.length + 1 + j - pre.length = j + 1 := by omega
    rw [e1, List.getElem?_cons_succ, List.getElem?_append_left (by simpa using hlt)]
    simp [hj2]
  · simp only [List.get?_eq_getElem?]
    rw [List.getElem?_append_right (by omega)]
    have e1 : pre.length + 1 + body.length - pre.length = body.length + 1 := by omega
    rw [e1, List.getElem?_cons_succ, List.getElem?_append_right (by simp)]
    simp
  · simp
    omega

theorem ido_trips_eq (L U S : Int) (hdir : (S > 0 ∧ L ≤ U) ∨ (S < 0 ∧ L ≥ U)) :
    ido_trips L U S = trip_count L U S := by
  unfold ido_trips trip_count
  rcases hdir with ⟨h1, _⟩ | ⟨h1, h2⟩
  · rw [Int.fdiv_eq_ediv _ (le_of_lt h1), if_pos h1]
  · have hn : ¬ S > 0 := by omega
    rw [fdiv_nonpos_neg _ _ (by omega) h1, if_neg hn, if_pos h1]
    have e : -(U - L) = L - U := by ring
    rw [e]

/-- The load of the index variable, in a state whose stack is that of a pass
with index value `val`. -/
theorem eval_index_load (env : Env) (idx : Nat) (val U S : Int) (s0 s : St)
    (h : frame (ido_bind idx val U S s0) s) : eval env (IExpr.LD idx) s = (val, s) := by
  obtain ⟨h1, h2, _⟩ := h
  have ht : s.top = 1 := h2
  have hd : s.dostack 0 = ⟨idx, val, U, S⟩ := by
    rw [h1]
    simp [ido_bind, upd_same]
  simp [eval, ht, dostack_find, hd]

/-- C7: an implied do `Dostart indvar lo up stp, body, Doend` of a variable
list that is entered with an empty stack, whose bounds evaluate without error
to `L`, `U`, `S` with `S > 0` and `L ≤ U` (or `S < 0` and `L ≥ U`), and whose
passes leave `sem.dinit_error` clear: the loop of `dinit_data`, started at the
`Dostart` node, walks the references of the body in exactly
`floor((U - L) / S) + 1` passes (`walk_passes`, pass `k` with the stack entry
of the index at `L + k * S`) and then leaves the implied do, going on with the
node after `Doend` or returning when there is none; in every state with the
stack of pass `k`, `eval` of a load of the index variable gives `L + k * S`;
with enough fuel `dinit_data` itself returns the state after the last pass. -/
theorem C7_reference_implied_do (env : Env) (fuel : Nat) (vars pre post : List VAR)
    (body : List Varref) (indvar lo up stp : IExpr) (idx : Nat) (L U S : Int)
    (dtype : Nat) (base_off : Int) (ict : List CONST) (rep : Int) (st : St)
    (hvars : vars = pre ++ VAR.Dostart indvar lo up stp ::
      (body.map VAR.Varref ++ VAR.Doend pre.length :: post))
    (htop : st.top = 0) (he : st.dinit_error = 0)
    (hidx : ∀ s, chk_doindex indvar s = (idx, s)) (hne : idx ≠ 1)
    (hlo : ∀ s, eval env lo s = (L, s)) (hup : ∀ s, eval env up s = (U, s))
    (hstp : ∀ s, eval env stp s = (S, s))
    (hdir : (S > 0 ∧ L ≤ U) ∨ (S < 0 ∧ L ≥ U))
    (hclean : walk_clean (walk_passes env fuel dtype base_off body idx L U S
      (ido_trips L U S) 0 (ict, rep, st)) = true) :
    ∃ r, walk_passes env fuel dtype base_off body idx L U S (ido_trips L U S) 0
        (ict, rep, st) = Res.ok r ∧
      (∀ g, data_loop env fuel vars dtype base_off
          (1 + ido_trips L U S * (body.length + 1) + g) ⟨some pre.length, 0, ict, rep, st⟩ =
        (if pre.length + body.length + 2 < vars.length then
          data_loop env fuel vars dtype base_off g
            ⟨some (pre.length + body.length + 2), 0, r.1, r.2.1,
              ido_exit idx (L + (ido_trips L U S : Int) * S) U S r.2.2⟩
        else Res.ok (ido_exit idx (L + (ido_trips L U S : Int) * S) U S r.2.2))) ∧
      (∀ (k : Nat) (s0 s : St), frame (ido_bind idx (L + (k : Int) * S) U S s0) s →
        eval env (IExpr.LD idx) s = (L + (k : Int) * S, s)) ∧
      (rep = 0 → post = [] → 1 + ido_trips L U S * (body.length + 1) ≤ fuel →
        dinit_data env (fuel + 1) vars (some pre.length) ict dtype base_off st =
          Res.ok (ido_exit idx (L + (ido_trips L U S : Int) * S) U S r.2.2)) := by
  obtain ⟨r, hr, hre⟩ := walk_clean_ok _ hclean
  obtain ⟨hstart, hbody, hend, hlen⟩ := ido_positions VAR.Varref pre post body
    (VAR.Dostart indvar lo up stp) (VAR.Doend pre.length)
  rw [← hvars] at hstart hbody hend hlen
  have hn : ido_trips L U S = trip_count L U S := ido_trips_eq L U S hdir
  have hpos : 0 < trip_count L U S := trip_count_pos L U S hdir
  have hloop : ∀ g, data_loop env fuel vars dtype base_off
      (1 + ido_trips L U S * (body.length + 1) + g) ⟨some pre.length, 0, ict, rep, st⟩ =
      (if pre.length + body.length + 2 < vars.length then
        data_loop env fuel vars dtype base_off g
          ⟨some (pre.length + body.length + 2), 0, r.1, r.2.1,
            ido_exit idx (L + (ido_trips L U S : Int) * S) U S r.2.2⟩
      else Res.ok (ido_exit idx (L + (ido_trips L U S : Int) * S) U S r.2.2)) := by
    intro g
    have hstep := data_body_dostart env fuel vars dtype base_off pre.length idx indvar lo up stp
      L U S ict rep st hstart (by omega) htop he hidx hne hlo hup hstp hdir
    obtain ⟨j, hj⟩ : ∃ j, trip_count L U S = j + 1 := ⟨trip_count L U S - 1, by omega⟩
    have hr2 : walk_passes env fuel dtype base_off body idx L U S (j + 1) 0 (ict, rep, st) =
        Res.ok r := by
      rw [← hj, ← hn]
      exact hr
    have hp := data_loop_passes env fuel vars dtype base_off pre.length idx body L U S r hre
      hbody hend (by omega) hdir j 0 (ict, rep, st) (by omega) hr2 g
    have e0 : L + ((0 : Nat) : Int) * S = L := by simp
    rw [e0] at hp
    have e1 : 1 + ido_trips L U S * (body.length + 1) + g =
        ((j + 1) * (body.length + 1) + g) + 1 := by
      rw [hn, hj]
      ring
    rw [e1, hn, ← hp]
    exact loopN_step _ _ _ _ hstep
  refine ⟨r, hr, hloop, ?_, ?_⟩
  · intro k s0 s h
    exact eval_index_load env idx _ U S s0 s h
  · intro hrep hpost hfuel
    have hlast : ¬ pre.length + body.length + 2 < vars.length := by
      rw [hlen, hpost]
      simp
    have hl := hloop (fuel - (1 + ido_trips L U S * (body.length + 1)))
    rw [if_neg hlast] at hl
    have e2 : 1 + ido_trips L U S * (body.length + 1) +
        (fuel - (1 + ido_trips L U S * (body.length + 1))) = fuel := by omega
    rw [e2] at hl
    rw [dinit_data_loop, ← hl, hrep]
    simp [first_member]

/-- C7 at `DATA (a(i), i = 1, 5, 2) /7, 8, 9/`: three passes, after which
`dinit_data` returns. -/
theorem C7_reference_implied_do_witness :
    walk_clean (walk_passes exEnv 9 0 0 [exRefAi] 13 1 5 2 (ido_trips 1 5 2) 0
      (exIctIdo, 0, exSt)) = true ∧
    ido_trips 1 5 2 = 3 ∧
    ∃ r, walk_passes exEnv 9 0 0 [exRefAi] 13 1 5 2 (ido_trips 1 5 2) 0
        (exIctIdo, 0, exSt) = Res.ok r ∧
      dinit_data exEnv 10 exVarsIdo (some 0) exIctIdo 0 0 exSt =
        Res.ok (ido_exit 13 (1 + (ido_trips 1 5 2 : Int) * 2) 5 2 r.2.2) := by
  have hc : walk_clean (walk_passes exEnv 9 0 0 [exRefAi] 13 1 5 2 (ido_trips 1 5 2) 0
      (exIctIdo, 0, exSt)) = true := by decide!
  obtain ⟨r, hr, _, _, hd⟩ := C7_reference_implied_do exEnv 9 exVarsIdo [] [] [exRefAi]
    (IExpr.LD 13) (IExpr.ICON 101) (IExpr.ICON 105) (IExpr.ICON 102) 13 1 5 2 0 0
    exIctIdo 0 exSt rfl rfl rfl (fun _ => rfl) (by decide)
    (fun _ => rfl) (fun _ => rfl) (fun _ => rfl) (by decide) hc
  exact ⟨hc, by decide, r, hr, hd rfl rfl (by decide)⟩

/-! ## Errors and the drain pass -/

/-- The drain loop over a queue is the drain of its first part followed by the
drain of the rest, from the state the first part leaves. -/
theorem do_dinit_loop_append (env : Env) (fuel : Nat) :
    ∀ (q1 q2 : List Deferred) (st : St),
      do_dinit_loop env fuel (q1 ++ q2) st =
        (do_dinit_loop env fuel q1 st).bind (do_dinit_loop env fuel q2) := by
  intro q1
  induction q1 with
  | nil =>
    intro q2 st
    simp [do_dinit_loop, Res.bind]
  | cons d rest ih =>
    intro q2 st
    simp only [List.cons_append, do_dinit_loop]
    split_ifs
    · exact ih q2 _
    · cases hd : df_dinit env fuel d.ivl d.ict { st with lineno := d.lineno, findex := d.findex } with
      | ok a => exact ih q2 a
      | fuel => rfl
      | undef => rfl

/-- With `sem.dinit_error` set, `dinit_data` walks the first reference of a
variable list and returns. -/
theorem dinit_data_after_error (env : Env) (fuel : Nat) (v : Varref) (rest : List VAR)
    (ict : List CONST) (dtype : Nat) (base_off : Int) (st : St) (he : 0 < st.dinit_error) :
    dinit_data env (fuel + 1) (VAR.Varref v :: rest) (some 0) ict dtype base_off st =
      (dinit_varref env fuel (some v) 0 ict dtype 0 base_off st).bind fun r => Res.ok r.2.2 := by
  cases fuel with
  | zero => simp [dinit_data, loopN, dinit_varref, Res.bind]
  | succ n =>
    unfold dinit_data
    cases hr : dinit_varref env (n + 1) (some v) 0 ict dtype 0 base_off st with
    | ok r =>
      have hf := (frame_walk env (n + 1)).1 _ _ _ _ _ _ _ _ hr
      have hpos : 0 < r.2.2.dinit_error := hf.2.2 he
      have hne : r.2.2.dinit_error ≠ 0 := by omega
      have hb : data_body env
          (fun v member ic rep st1 => dinit_varref env (n + 1) v member ic dtype rep base_off st1)
          (VAR.Varref v :: rest) ⟨some 0, first_member env (some 0) dtype, ict, 0, st⟩ =
          Res.ok (Sum.inr r.2.2) := by
        unfold data_body
        simp [first_member, member_head, hr, Res.bind, data_advance, truthy, hne]
      rw [loopN_exit _ _ _ _ hb]
      simp [Res.bind]
    | fuel =>
      unfold loopN data_body
      simp [first_member, member_head, hr, Res.bind]
    | undef =>
      unfold loopN data_body
      simp [first_member, member_head, hr, Res.bind]

/-- With `sem.dinit_error` set, the walk of a reference that needs an address
computation writes no record. -/
theorem dinit_varref_after_error (env : Env) (fuel : Nat) (v : Varref) (ict : List CONST)
    (dtype : Nat) (rep base_off : Int) (st : St) (he : 0 < st.dinit_error)
    (hv : v.id = SID.S_LVALUE) (r : List CONST × Int × St)
    (hr : dinit_varref env fuel (some v) 0 ict dtype rep base_off st = Res.ok r) :
    r.2.2.out = st.out := by
  cases fuel with
  | zero => simp [dinit_varref] at hr
  | succ n =>
    have hid : ¬ v.id = SID.S_IDENT := by
      rw [hv]
      decide
    have hpos : 0 < (mkeffadr env v.ptr st).dinit_error := (frame_mkeffadr env v.ptr st).2.2 he
    have ht : truthy (mkeffadr env v.ptr st).dinit_error = true := by
      simp only [truthy, bne_iff_ne, ne_eq]
      omega
    have htg : varref_target env (some v) 0 base_off st =
        Res.ok (none, mkeffadr env v.ptr st) := by
      unfold varref_target
      simp [hid, ht]
    unfold dinit_varref at hr
    simp only [htg, Res.bind, Res.ok.injEq] at hr
    rw [← hr]
    exact mkeffadr_out env v.ptr st

/-- C10, as stated, fails: the statement `DATA a(2) /5/` drained alone, or
after the error-free `DATA k /3/`, writes `SetLocation`, `SetOffset(4)`,
`StoreValue`; drained after `DATA a(7) /1/`, whose subscript is out of bounds,
it writes nothing, because `sem.dinit_error` is still set. -/
theorem C10_counterexample :
    drain_view (do_dinit exEnv 12
      (dinit [VAR.Varref exRefA2] [CONST.leaf 5 1 5] exSt)) =
      Res.ok ([Directive.SetLocation 10, Directive.SetOffset 4, Directive.StoreValue 5 5],
        [], 0) ∧
    drain_view (do_dinit exEnv 12
      (dinit [VAR.Varref exRefA2] [CONST.leaf 5 1 5]
        (dinit [VAR.Varref exRefK] [CONST.leaf 5 1 3] exSt))) =
      Res.ok ([Directive.SetLocation 12, Directive.StoreValue 5 3,
        Directive.SetLocation 10, Directive.SetOffset 4, Directive.StoreValue 5 5], [], 0) ∧
    drain_view (do_dinit exEnv 12
      (dinit [VAR.Varref exRefA2] [CONST.leaf 5 1 5]
        (dinit [VAR.Varref exRefOob] [CONST.leaf 5 1 1] exSt))) =
      Res.ok ([], [Diag.error 80 3], 3) := by
  decide!

/-- C10 (amended): the drain loop hands every queued statement to `df_dinit`,
each from the state the earlier ones leave, whatever they reported; but
`sem.dinit_error` is never cleared, so in a state where it is set `dinit_data`
walks only the first reference of a variable list, the walk of that reference
leaves the flag set, and for a reference that needs an address computation
(`S_LVALUE`) it writes no record. -/
theorem C10_error_persists (env : Env) (fuel : Nat) (q1 q2 : List Deferred) (s0 : St)
    (v : Varref) (rest : List VAR) (ict : List CONST) (dtype : Nat) (base_off : Int)
    (st : St) (he : 0 < st.dinit_error) :
    do_dinit_loop env fuel (q1 ++ q2) s0 =
      (do_dinit_loop env fuel q1 s0).bind (do_dinit_loop env fuel q2) ∧
    dinit_data env (fuel + 1) (VAR.Varref v :: rest) (some 0) ict dtype base_off st =
      ((dinit_varref env fuel (some v) 0 ict dtype 0 base_off st).bind
        fun r => Res.ok r.2.2) ∧
    (∀ r, dinit_varref env fuel (some v) 0 ict dtype 0 base_off st = Res.ok r →
      0 < r.2.2.dinit_error ∧ (v.id = SID.S_LVALUE → r.2.2.out = st.out)) := by
  refine ⟨do_dinit_loop_append env fuel q1 q2 s0,
    dinit_data_after_error env fuel v rest ict dtype base_off st he, ?_⟩
  intro r hr
  exact ⟨((frame_walk env fuel).1 _ _ _ _ _ _ _ _ hr).2.2 he,
    fun hv => dinit_varref_after_error env fuel v ict dtype 0 base_off st he hv r hr⟩

/-- C10 (amended) at `DATA a(2), k /5, 3/` walked with `sem.dinit_error` set. -/
theorem C10_error_persists_witness :
    0 < (set_dinit_error exSt).dinit_error ∧
    dinit_data exEnv 10 [VAR.Varref exRefA2, VAR.Varref exRefK] (some 0)
        [CONST.leaf 5 1 5, CONST.leaf 5 1 3] 0 0 (set_dinit_error exSt) =
      ((dinit_varref exEnv 9 (some exRefA2) 0 [CONST.leaf 5 1 5, CONST.leaf 5 1 3] 0 0 0
        (set_dinit_error exSt)).bind fun r => Res.ok r.2.2) :=
  ⟨by decide, (C10_error_persists exEnv 9 [] [] exSt exRefA2 [VAR.Varref exRefK]
    [CONST.leaf 5 1 5, CONST.leaf 5 1 3] 0 0 (set_dinit_error exSt) (by decide)).2.1⟩

/-! ## C11: the symbols that cannot be initialised -/

theorem dinit_ok_fail_iff (env : Env) (sptr : Nat) (st : St) :
    (dinit_ok env sptr st).1 = false ↔ not_initialisable env sptr st = true := by
  unfold dinit_ok dinit_ok_array dinit_ok_fail not_initialisable
  cases hsc : env.SCG sptr <;> cases hst : st.STYPEG sptr <;>
    cases h1 : env.ALLOCG sptr <;> cases h2 : env.ASUMSZG sptr <;>
    cases h3 : env.ADJARRG sptr <;> cases h4 : env.ALLOCG (env.MIDNUMG sptr) <;>
    simp

theorem dinit_ok_fail_state (env : Env) (sptr : Nat) (st : St)
    (h : (dinit_ok env sptr st).1 = false) :
    (dinit_ok env sptr st).2.dinit_error = 1 ∧ (dinit_ok env sptr st).2.out = st.out := by
  unfold dinit_ok dinit_ok_array dinit_ok_fail at *
  cases hsc : env.SCG sptr <;> simp only [hsc] at h ⊢ <;>
    first
    | exact ⟨rfl, rfl⟩
    | (split_ifs at h ⊢ <;>
        first
        | (simp at h; done)
        | exact ⟨rfl, rfl⟩)

/-- A reference that starts from a symbol that cannot be initialised leaves
`mkeffadr` with `sem.dinit_error` set. -/
theorem mkeffadr_root_fail (env : Env) (sptr : Nat) :
    ∀ (r : IRef) (st : St), r.root = some sptr → (dinit_ok env sptr st).1 = false →
      (mkeffadr env r st).dinit_error = 1 := by
  intro r
  induction r with
  | BASE s =>
    intro st hr hf
    simp only [IRef.root, Option.some.injEq] at hr
    subst hr
    simp only [mkeffadr, hf]
    exact (dinit_ok_fail_state env s st hf).1
  | PLD b _ =>
    intro st hr
    simp [IRef.root] at hr
  | MEMBER b m ih =>
    intro st hr hf
    have h1 := ih st (by simpa [IRef.root] using hr) hf
    simp [mkeffadr, truthy, h1]
  | ELEMENT b subs ih =>
    intro st hr hf
    have h1 := ih st (by simpa [IRef.root] using hr) hf
    simp [mkeffadr, truthy, h1]
  | SUBS b lw up ih =>
    intro st hr hf
    have h1 := ih st (by simpa [IRef.root] using hr) hf
    simp [mkeffadr, truthy, h1]
  | NSUBS b lw up ih =>
    intro st hr hf
    have h1 := ih st (by simpa [IRef.root] using hr) hf
    simp [mkeffadr, truthy, h1]
  | FUNC o =>
    intro st hr
    simp [IRef.root] at hr
  | OTHER =>
    intro st hr
    simp [IRef.root] at hr

/-- C11: `dinit_ok` returns FALSE exactly for a dummy argument, a symbol with
based storage, a member of an allocatable common block and an allocatable,
assumed-size or adjustable array symbol, and then sets `sem.dinit_error`
(writing no record); for every other symbol it returns TRUE and leaves the
state, the error flag included, as it was.  A reference whose target is
rejected, named directly (`S_IDENT`) or reached through `mkeffadr`, makes
`dinit_varref` return through `error_exit` with no record written. -/
theorem C11_dinit_ok (env : Env) (sptr : Nat) (st : St) :
    ((dinit_ok env sptr st).1 = false ↔ not_initialisable env sptr st = true) ∧
    (not_initialisable env sptr st = true →
      (dinit_ok env sptr st).2.dinit_error = 1 ∧ (dinit_ok env sptr st).2.out = st.out) ∧
    (not_initialisable env sptr st = false → dinit_ok env sptr st = (true, st)) ∧
    (∀ (fuel : Nat) (v : Varref) (member : Nat) (ict : List CONST) (dtype : Nat)
        (rep base_off : Int),
      not_initialisable env sptr st = true → v.id = SID.S_IDENT →
      ident_sptr v.ptr = some sptr →
      ∃ st', dinit_varref env (fuel + 1) (some v) member ict dtype rep base_off st =
          Res.ok ([], rep, st') ∧ st'.out = st.out ∧ st'.dinit_error ≠ 0) ∧
    (∀ (fuel : Nat) (v : Varref) (ict : List CONST) (dtype : Nat) (rep base_off : Int),
      not_initialisable env sptr st = true → v.id = SID.S_LVALUE →
      v.ptr.root = some sptr →
      ∃ st', dinit_varref env (fuel + 1) (some v) 0 ict dtype rep base_off st =
          Res.ok ([], rep, st') ∧ st'.out = st.out ∧ st'.dinit_error ≠ 0) := by
  have hiff := dinit_ok_fail_iff env sptr st
  refine ⟨hiff, ?_, ?_, ?_, ?_⟩
  · intro h
    exact dinit_ok_fail_state env sptr st (hiff.2 h)
  · intro h
    have ht : (dinit_ok env sptr st).1 = true := by
      cases hb : (dinit_ok env sptr st).1
      · rw [hiff.1 hb] at h
        cases h
      · rfl
    have hs := dinit_ok_state env sptr st ht
    exact Prod.ext ht hs
  · intro fuel v member ict dtype rep base_off h hid hptr
    have hf := hiff.2 h
    have hs := dinit_ok_fail_state env sptr st hf
    have htg : varref_target env (some v) member base_off st =
        Res.ok (none, (dinit_ok env sptr st).2) := by
      simp [varref_target, hid, hptr, hf]
    unfold dinit_varref
    simp only [htg, Res.bind, varref_error_exit]
    refine ⟨_, rfl, hs.2, ?_⟩
    show (dinit_ok env sptr st).2.dinit_error + 1 ≠ 0
    rw [hs.1]
    decide
  · intro fuel v ict dtype rep base_off h hid hroot
    have hf := hiff.2 h
    have he := mkeffadr_root_fail env sptr v.ptr st hroot hf
    have hne : ¬ v.id = SID.S_IDENT := by
      rw [hid]
      decide
    have htg : varref_target env (some v) 0 base_off st =
        Res.ok (none, mkeffadr env v.ptr st) := by
      simp [varref_target, hne, truthy, he]
    unfold dinit_varref
    simp only [htg, Res.bind, varref_error_exit]
    refine ⟨_, rfl, mkeffadr_out env v.ptr st, ?_⟩
    show (mkeffadr env v.ptr st).dinit_error + 1 ≠ 0
    rw [he]
    decide

/-- C11 at the array `a` made a dummy argument: `DATA a /.../` writes nothing. -/
theorem C11_dinit_ok_witness :
    not_initialisable exEnvDummy 10 exSt = true ∧
    ∃ st', dinit_varref exEnvDummy 1 (some exRefA) 0 [CONST.leaf 5 6 0] 0 0 0 exSt =
      Res.ok ([], 0, st') ∧ st'.out = exSt.out ∧ st'.dinit_error ≠ 0 :=
  ⟨by decide, (C11_dinit_ok exEnvDummy 10 exSt).2.2.2.1 0 exRefA 0 [CONST.leaf 5 6 0] 0 0 0
    (by decide) rfl rfl⟩

/-! ## C12: the layout of a whole array -/

theorem wrap32_spec (x : Int) : is_int32_of (wrap32 x) x := by
  unfold is_int32_of wrap32
  omega

theorem wrap32_id (x : Int) (h1 : -2147483648 ≤ x) (h2 : x < 2147483648) : wrap32 x = x := by
  unfold wrap32
  omega

/-- The truncated quotient of two 32-bit integers is a 32-bit integer, except
for the smallest integer divided by -1. -/
theorem tdiv_int32 (a b : Int) (h1 : -2147483648 ≤ a) (h2 : a < 2147483648) (hb : b ≠ 0)
    (hov : ¬ (a = -2147483648 ∧ b = -1)) :
    -2147483648 ≤ Int.tdiv a b ∧ Int.tdiv a b < 2147483648 := by
  have hq : (Int.tdiv a b).natAbs = a.natAbs / b.natAbs := Int.natAbs_tdiv a b
  have hle : a.natAbs / b.natAbs ≤ a.natAbs := Nat.div_le_self _ _
  have ha : a.natAbs ≤ 2147483648 := by omega
  by_cases hb1 : b.natAbs = 1
  · have hb2 : b = 1 ∨ b = -1 := by omega
    rcases hb2 with rfl | rfl
    · rw [Int.tdiv_one]
      omega
    · have : Int.tdiv a (-1) = - a := by
        rw [Int.tdiv_neg, Int.tdiv_one]
      rw [this]
      omega
  · have hb2 : 2 ≤ b.natAbs := by omega
    have h3 : a.natAbs / b.natAbs ≤ a.natAbs / 2 := Nat.div_le_div_left hb2 (by decide)
    omega

theorem fold_switch_int32 (env : Env) (opr : OP) (a b : Int) (dtype : Nat)
    (hk : is_int32_kind (env.DTY dtype) = true) :
    fold_switch env opr a b dtype =
      (match opr with
      | OP.ADD => (wrap32 (a + b), [])
      | OP.CMP => ((if a < b then -1 else if a > b then 1 else 0), [])
      | OP.SUB => (wrap32 (a - b), [])
      | OP.MUL => (wrap32 (a * b), [])
      | OP.DIV =>
        if b = 0 then (wrap32 (Int.tdiv a 1), [Diag.errsev 98])
        else (wrap32 (Int.tdiv a b), [])
      | _ => (0, [Diag.interr 3])) := by
  unfold fold_switch
  cases hd : env.DTY dtype <;> simp [is_int32_kind, hd] at hk <;> rfl

/-- C13: for the integer kinds of one 32-bit word, `init_fold_const` returns the
sum, the difference and the product of its operands modulo `2^32`, with no
diagnostic; for `OP_DIV` with a non-zero divisor the quotient truncated toward
zero (reduced modulo `2^32`, which changes it only for the smallest integer
divided by -1), with no diagnostic; for `OP_DIV` with a zero divisor it reports
`errsev(98)` and divides by 1 instead. -/
theorem C13_integer_folding (env : Env) (a b : Int) (dtype : Nat)
    (hk : is_int32_kind (env.DTY dtype) = true) :
    (∃ v, init_fold_const env OP.ADD a b dtype = (v, []) ∧ is_int32_of v (a + b)) ∧
    (∃ v, init_fold_const env OP.SUB a b dtype = (v, []) ∧ is_int32_of v (a - b)) ∧
    (∃ v, init_fold_const env OP.MUL a b dtype = (v, []) ∧ is_int32_of v (a * b)) ∧
    (b ≠ 0 → ∃ v, init_fold_const env OP.DIV a b dtype = (v, []) ∧
      is_int32_of v (Int.tdiv a b) ∧
      (-2147483648 ≤ a → a < 2147483648 → ¬ (a = -2147483648 ∧ b = -1) →
        v = Int.tdiv a b)) ∧
    (∃ v, init_fold_const env OP.DIV a 0 dtype = (v, [Diag.errsev 98]) ∧
      is_int32_of v (Int.tdiv a 1)) := by
  refine ⟨⟨_, ?_, wrap32_spec _⟩, ⟨_, ?_, wrap32_spec _⟩, ⟨_, ?_, wrap32_spec _⟩, ?_,
    ⟨_, ?_, wrap32_spec _⟩⟩
  · simp only [init_fold_const, fold_switch_int32 env _ a b dtype hk]
  · simp only [init_fold_const, fold_switch_int32 env _ a b dtype hk]
  · simp only [init_fold_const, fold_switch_int32 env _ a b dtype hk]
  · intro hb
    refine ⟨wrap32 (Int.tdiv a b), ?_, wrap32_spec _, ?_⟩
    · simp only [init_fold_const, fold_switch_int32 env _ a b dtype hk, if_neg hb]
    · intro h1 h2 hov
      obtain ⟨h3, h4⟩ := tdiv_int32 a b h1 h2 hb hov
      exact wrap32_id _ h3 h4
  · simp only [init_fold_const, fold_switch_int32 env _ a 0 dtype hk, if_true]

/-- C13 at the type `integer` of the examples: `2147483647 + 1` wraps,
`-7 / 2` is `-3`, and `5 / 0` reports error 98. -/
theorem C13_integer_folding_witness :
    is_int32_kind (exEnv.DTY 5) = true ∧
    init_fold_const exEnv OP.ADD 2147483647 1 5 = (-2147483648, []) ∧
    init_fold_const exEnv OP.DIV (-7) 2 5 = (-3, []) ∧
    (∃ v, init_fold_const exEnv OP.DIV 5 0 5 = (v, [Diag.errsev 98]) ∧
      is_int32_of v (Int.tdiv 5 1)) :=
  ⟨by decide, by decide, by decide, (C13_integer_folding exEnv 5 0 5 (by decide)).2.2.2.2⟩

/-- The loop of the exponentiation cases multiplies the base into the
accumulator `k` times, modulo `2^32`. -/
theorem fold_power_spec (env : Env) (x : Int) (dtype : Nat)
    (hk : is_int32_kind (env.DTY dtype) = true) :
    ∀ (k : Nat) (acc : Int) (ds : List Diag),
      ∃ v, fold_power env x dtype k (acc, ds) = (v, ds) ∧
        v % 4294967296 = (acc * x ^ k) % 4294967296 ∧
        ((-2147483648 ≤ acc ∧ acc < 2147483648) → (-2147483648 ≤ v ∧ v < 2147483648)) := by
  intro k
  induction k with
  | zero =>
    intro acc ds
    exact ⟨acc, rfl, by simp, fun h => h⟩
  | succ k ih =>
    intro acc ds
    obtain ⟨v, hv, hmod, hrange⟩ := ih (wrap32 (acc * x)) ds
    refine ⟨v, ?_, ?_, ?_⟩
    · simp only [fold_power, fold_switch_int32 env _ acc x dtype hk, List.append_nil]
      exact hv
    · rw [hmod, Int.mul_emod, (wrap32_spec (acc * x)).1, ← Int.mul_emod]
      congr 1
      ring
    · intro _
      exact hrange (wrap32_spec (acc * x)).2

/-- C14, as stated, fails for a negative exponent when the product of the
factors is 0 modulo `2^32`: `2 ^ (-32)` at the type `integer` is folded to 1
with `errsev(98)`, whereas the truncated quotient `1 / 2 ^ 32` is 0; and
`0 ^ (-1)`, for which `1 / 0 ^ 1` is no value, is folded to 1 with the same
error. -/
theorem C14_counterexample :
    exEnv.DT_INT = 5 ∧ is_int32_kind (exEnv.DTY 5) = true ∧
    init_fold_const exEnv OP.XTOI 2 (-32) 5 = (1, [Diag.errsev 98]) ∧
    Int.tdiv 1 (2 ^ (-32 : Int).natAbs) = 0 ∧
    (init_fold_const exEnv OP.XTOI 2 (-32) 5).1 ≠ Int.tdiv 1 (2 ^ (-32 : Int).natAbs) ∧
    init_fold_const exEnv OP.XTOI 0 (-1) 5 = (1, [Diag.errsev 98]) := by
  refine ⟨rfl, by decide, ?_, by decide, ?_, by decide⟩
  · decide!
  · decide!

/-- C14 (amended): integer exponentiation `OP_XTOI` at a type of one 32-bit
integer word (`DT_INT`, or a type at which `cngcon` leaves the constant 1
unchanged).  For an exponent `n ≥ 0` the result is `x ^ n` modulo `2^32` (1
multiplied by `x` exactly `n` times), with no diagnostic.  For `n < 0` the
same product `p` of `|n|` factors is formed modulo `2^32`; when `p ≠ 0` the
result is the truncated quotient `1 / p` (equal to `1 / x ^ |n|` whenever
that power is a 32-bit integer), with no diagnostic; when `p = 0` the
division reports `errsev(98)` and the result is 1.  Only integer
multiplications and one integer division are made. -/
theorem C14_integer_power (env : Env) (x n : Int) (dtype : Nat)
    (hterm : dtype ≠ env.DT_INT → env.cngcon 1 env.DT_INT dtype = 1)
    (hk : is_int32_kind (env.DTY dtype) = true) :
    (0 ≤ n → ∃ v, init_fold_const env OP.XTOI x n dtype = (v, []) ∧
      is_int32_of v (x ^ n.toNat)) ∧
    (n < 0 → ∃ p, is_int32_of p (x ^ n.natAbs) ∧
      (p ≠ 0 → init_fold_const env OP.XTOI x n dtype = (Int.tdiv 1 p, [])) ∧
      (p = 0 → init_fold_const env OP.XTOI x n dtype = (1, [Diag.errsev 98])) ∧
      (-2147483648 ≤ x ^ n.natAbs → x ^ n.natAbs < 2147483648 → p = x ^ n.natAbs)) := by
  have hne : (if dtype ≠ env.DT_INT then env.cngcon 1 env.DT_INT dtype else 1) = 1 := by
    split_ifs with h
    · exact hterm h
    · rfl
  obtain ⟨v, hv, hmod, hrange⟩ := fold_power_spec env x dtype hk n.natAbs 1 []
  have hr := hrange (by decide)
  rw [one_mul] at hmod
  constructor
  · intro hn
    have hge : n ≥ 0 := hn
    have e : n.toNat = n.natAbs := by omega
    refine ⟨v, ?_, ?_⟩
    · simp only [init_fold_const, hne, hv, if_pos hge]
    · rw [e]
      exact ⟨hmod, hr⟩
  · intro hn
    have hge : ¬ n ≥ 0 := by omega
    refine ⟨v, ⟨hmod, hr⟩, ?_, ?_, ?_⟩
    · intro hp
      have hq : -2147483648 ≤ Int.tdiv 1 v ∧ Int.tdiv 1 v < 2147483648 :=
        tdiv_int32 1 v (by decide) (by decide) hp (by omega)
      simp only [init_fold_const, hne, hv, if_neg hge,
        fold_switch_int32 env _ 1 v dtype hk, if_neg hp, List.append_nil,
        wrap32_id _ hq.1 hq.2]
    · intro hp
      subst hp
      have hd : fold_switch env OP.DIV 1 0 dtype = (1, [Diag.errsev 98]) := by
        rw [fold_switch_int32 env _ 1 0 dtype hk]
        rfl
      simp only [init_fold_const, hne, hv, if_neg hge, hd, List.nil_append]
    · intro h1 h2
      have e1 : v % 4294967296 = v + 4294967296 * (if v < 0 then 1 else 0) := by
        split_ifs <;> omega
      omega

/-- C14 (amended) at the type `integer` of the examples: `3 ^ 4 = 81`,
`2 ^ (-1)` is `1 / 2 = 0`, `(-1) ^ (-3)` is `1 / (-1) = -1`, and `0 ^ (-1)`
reports error 98. -/
theorem C14_integer_power_witness :
    exEnv.DT_INT = 5 ∧ is_int32_kind (exEnv.DTY 5) = true ∧
    init_fold_const exEnv OP.XTOI 3 4 5 = (81, []) ∧
    init_fold_const exEnv OP.XTOI 2 (-1) 5 = (0, []) ∧
    init_fold_const exEnv OP.XTOI (-1) (-3) 5 = (-1, []) ∧
    init_fold_const exEnv OP.XTOI 0 (-1) 5 = (1, [Diag.errsev 98]) ∧
    (∃ v, init_fold_const exEnv OP.XTOI 3 4 5 = (v, []) ∧ is_int32_of v (3 ^ (4 : Int).toNat)) :=
  ⟨rfl, by decide, by decide, by decide, by decide, by decide,
    (C14_integer_power exEnv 3 4 5 (fun h => absurd rfl h) (by decide)).1 (by decide)⟩

/-! ## C15: comparison of character constants -/

/-- The comparison loop returns the first difference of the two strings read
from the name table. -/
theorem char_cmp_bytes (env : Env) :
    ∀ (n : Nat) (p q : Int),
      char_cmp env n p q =
        bytes_cmp ((List.range n).map fun (i : Nat) => env.n_base (p + (i : Int)))
          ((List.range n).map fun (i : Nat) => env.n_base (q + (i : Int))) := by
  intro n
  induction n with
  | zero =>
    intro p q
    simp [char_cmp, bytes_cmp]
  | succ n ih =>
    intro p q
    have e : ∀ r : Int, ((List.range (n + 1)).map fun (i : Nat) => env.n_base (r + (i : Int))) =
        env.n_base r :: (List.range n).map fun (i : Nat) => env.n_base (r + 1 + (i : Int)) := by
      intro r
      rw [List.range_succ_eq_map, List.map_cons, List.map_map]
      simp only [Nat.cast_zero, add_zero, List.cons.injEq, true_and]
      apply List.map_congr_left
      intro i _
      simp only [Function.comp_apply, Nat.cast_succ]
      congr 1
      ring
    rw [e p, e q]
    simp only [char_cmp, bytes_cmp, ih]

theorem blank_padded_self (env : Env) (c : Int) (n : Nat) :
    blank_padded env c n n = char_bytes env c n := by
  unfold blank_padded char_bytes
  apply List.map_congr_left
  intro i hi
  simp [List.mem_range.1 hi]

/-- C15, as stated, fails for an operand of length 0: the empty string and the
one-blank string compare equal once the shorter is padded with blanks, but
`init_fold_const` returns the difference of the lengths, -1. -/
theorem C15_counterexample :
    char_len exEnvChar 200 = 0 ∧ char_len exEnvChar 201 = 1 ∧
    bytes_cmp (blank_padded exEnvChar 200 0 1) (blank_padded exEnvChar 201 1 1) = 0 ∧
    init_fold_const exEnvChar OP.CMP 200 201 30 = (-1, []) := by
  decide

/-- C15 (amended): for character constants `a` and `b` of non-zero lengths,
where `cngcon` pads the shorter constant with blanks to the length of the
longer, `init_fold_const(OP_CMP, a, b)` is the difference of the characters at
the first position where the blank-padded strings differ, and 0 when they do
not differ, so it is negative, zero or positive as the comparison of the padded
strings; when one of the lengths is 0 the result is the difference of the
lengths, whatever the other string holds. -/
theorem C15_char_compare (env : Env) (a b : Int) (dtype : Nat) (n1 n2 : Nat)
    (hk : env.DTY dtype = TY.CHAR)
    (h1 : char_len env a = (n1 : Int)) (h2 : char_len env b = (n2 : Int))
    (hpad1 : n1 < n2 →
      char_bytes env (env.cngcon a (env.DTYPEG a.toNat) (env.DTYPEG b.toNat)) n2 =
        blank_padded env a n1 n2)
    (hpad2 : n2 ≤ n1 →
      char_bytes env (env.cngcon b (env.DTYPEG b.toNat) (env.DTYPEG a.toNat)) n1 =
        blank_padded env b n2 n1) :
    (0 < n1 → 0 < n2 →
      init_fold_const env OP.CMP a b dtype =
        (bytes_cmp (blank_padded env a n1 (max n1 n2)) (blank_padded env b n2 (max n1 n2)),
          [])) ∧
    (n1 = 0 ∨ n2 = 0 →
      init_fold_const env OP.CMP a b dtype = ((n1 : Int) - (n2 : Int), [])) := by
  unfold char_len at h1 h2
  have hf : init_fold_const env OP.CMP a b dtype = fold_char env OP.CMP a b := by
    simp only [init_fold_const, fold_switch, hk]
  constructor
  · intro hp1 hp2
    have hz : ¬ ((n1 : Int) = 0 ∨ (n2 : Int) = 0) := by omega
    by_cases hlt : n1 < n2
    · have hlt2 : (n1 : Int) < (n2 : Int) := by omega
      have hm : max n1 n2 = n2 := by omega
      rw [hf, hm, blank_padded_self, ← hpad1 hlt]
      simp only [fold_char, ne_eq, not_true_eq_false, if_false, h1, h2, hz, hlt2, if_true,
        Int.toNat_ofNat, char_cmp_bytes]
      rfl
    · have hlt2 : ¬ (n1 : Int) < (n2 : Int) := by omega
      have hm : max n1 n2 = n1 := by omega
      rw [hf, hm, blank_padded_self, ← hpad2 (by omega)]
      simp only [fold_char, ne_eq, not_true_eq_false, if_false, h1, h2, hz, hlt2,
        Int.toNat_ofNat, char_cmp_bytes]
      rfl
  · intro hz
    have hz2 : (n1 : Int) = 0 ∨ (n2 : Int) = 0 := by omega
    rw [hf]
    simp only [fold_char, ne_eq, not_true_eq_false, if_false, h1, h2, hz2, if_true]

/-- C15 (amended) at `"a"` and `"ab"`: the padded `"a "` is below `"ab"` by the
difference of a blank and `b`. -/
theorem C15_char_compare_witness :
    exEnvChar.DTY 31 = TY.CHAR ∧ char_len exEnvChar 202 = 1 ∧ char_len exEnvChar 203 = 2 ∧
    init_fold_const exEnvChar OP.CMP 202 203 31 =
      (bytes_cmp (blank_padded exEnvChar 202 1 (max 1 2)) (blank_padded exEnvChar 203 2 (max 1 2)),
        []) ∧
    bytes_cmp (blank_padded exEnvChar 202 1 (max 1 2)) (blank_padded exEnvChar 203 2 (max 1 2)) =
      -66 :=
  ⟨by decide, by decide, by decide,
    (C15_char_compare exEnvChar 202 203 31 1 2 (by decide) (by decide) (by decide)
      (fun _ => by decide) (fun h => absurd h (by decide))).1 (by decide) (by decide),
    by decide⟩

/-! ## C16: flattening of array constructors -/

/-- A loop over a list whose body returns a list for each node and leaves the
state alone returns the concatenation. -/
theorem append_each_pure (f : CONST → St → Res (List CONST × St)) (g : CONST → List CONST) :
    ∀ (l : List CONST) (st : St), (∀ c ∈ l, ∀ s, f c s = Res.ok (g c, s)) →
      append_each f l st = Res.ok ((l.map g).flatten, st) := by
  intro l
  induction l with
  | nil =>
    intro st _
    simp [append_each]
  | cons c rest ih =>
    intro st h
    have h1 := h c (List.mem_cons_self c rest) st
    have h2 := ih st (fun c' hc' s => h c' (List.mem_cons_of_mem c hc') s)
    simp [append_each, h1, h2, Res.bind]

theorem flatten_map_singleton (l : List CONST) : (l.map fun c => [c]).flatten = l := by
  induction l with
  | nil => rfl
  | cons c rest ih => simp [ih]

theorem eval_item_leaf (env : Env) (fuel : Nat) (c : CONST) (st : St)
    (hc : c.id = ACID.CONST) :
    eval_init_expr_item env (fuel + 1) c st = Res.ok ([c], st) := by
  unfold eval_init_expr_item
  simp [hc]

theorem ac_leaves_are_leaves : ∀ (d : Nat) (e : CONST), ac_tree d e = true →
    ∀ c ∈ ac_leaves d e, c.id = ACID.CONST := by
  intro d
  induction d with
  | zero =>
    intro e h c hc
    simp only [ac_tree, List.all_eq_true, beq_iff_eq] at h
    exact h c hc
  | succ d ih =>
    intro e h c hc
    simp only [ac_tree, List.all_eq_true, Bool.or_eq_true, Bool.and_eq_true, beq_iff_eq] at h
    simp only [ac_leaves, List.mem_flatten, List.mem_map] at hc
    obtain ⟨l, ⟨x, hx, hl⟩, hcl⟩ := hc
    rcases h x hx with hleaf | ⟨hac, ht⟩
    · have hne : ¬ x.id = ACID.ACONST := by
        rw [hleaf]
        decide
      rw [if_neg hne] at hl
      rw [← hl] at hcl
      simp only [List.mem_singleton] at hcl
      rw [hcl]
      exact hleaf
    · rw [if_pos hac] at hl
      rw [← hl] at hcl
      exact ih x ht c hcl

/-- With fuel above the nesting depth, `eval_array_constructor` returns the
leaves of a nested constructor and leaves the state as it was. -/
theorem eval_array_constructor_flat (env : Env) : ∀ (d : Nat) (e : CONST) (fuel : Nat) (st : St),
    ac_tree d e = true → d + 2 ≤ fuel →
    eval_array_constructor env fuel e st = Res.ok (ac_leaves d e, st) := by
  intro d
  induction d with
  | zero =>
    intro e fuel st h hf
    obtain ⟨k, rfl⟩ : ∃ k, fuel = k + 2 := ⟨fuel - 2, by omega⟩
    simp only [ac_tree, List.all_eq_true, beq_iff_eq] at h
    unfold eval_array_constructor
    rw [append_each_pure _ (fun c => [c]) e.subc st, flatten_map_singleton]
    · rfl
    · intro c hc s
      have hleaf := h c hc
      have hne : ¬ c.id = ACID.ACONST := by
        rw [hleaf]
        decide
      simp [hne, eval_item_leaf env k c s hleaf, Res.bind, hleaf]
  | succ d ih =>
    intro e fuel st h hf
    obtain ⟨k, rfl⟩ : ∃ k, fuel = k + 1 := ⟨fuel - 1, by omega⟩
    obtain ⟨j, hj⟩ : ∃ j, k = j + 1 := ⟨k - 1, by omega⟩
    simp only [ac_tree, List.all_eq_true, Bool.or_eq_true, Bool.and_eq_true, beq_iff_eq] at h
    unfold eval_array_constructor
    rw [append_each_pure _ (fun c => if c.id = ACID.ACONST then ac_leaves d c else [c]) e.subc st]
    · rfl
    · intro c hc s
      rcases h c hc with hleaf | ⟨hac, ht⟩
      · have hne : ¬ c.id = ACID.ACONST := by
          rw [hleaf]
          decide
        subst hj
        simp [hne, eval_item_leaf env j c s hleaf, Res.bind, hleaf]
      · simp only [hac, if_true]
        exact ih c k s ht (by omega)

/-- C16: for an array constructor whose items are leaves or array
constructors nested at most `d` deep, `eval_array_constructor` returns (with
fuel `d + 2` or more) one list that holds no array-constructor node: the leaves
of the input from left to right, each the node of the input, so with its value
and repeat count; the state is not changed. -/
theorem C16_constructor_flattening (env : Env) (d : Nat) (e : CONST) (fuel : Nat) (st : St)
    (h : ac_tree d e = true) (hf : d + 2 ≤ fuel) :
    eval_array_constructor env fuel e st = Res.ok (ac_leaves d e, st) ∧
    (∀ c ∈ ac_leaves d e, c.id = ACID.CONST) :=
  ⟨eval_array_constructor_flat env d e fuel st h hf, ac_leaves_are_leaves d e h⟩

/-- C16 at `(/ 1, (/ 2*2, (/ 3 /) /), 4 /)`. -/
theorem C16_constructor_flattening_witness :
    ac_tree 2 exCtorNested = true ∧
    ac_leaves 2 exCtorNested =
      [CONST.leaf 5 1 1, CONST.leaf 5 2 2, CONST.leaf 5 1 3, CONST.leaf 5 1 4] ∧
    eval_array_constructor exEnv 4 exCtorNested exSt =
      Res.ok (ac_leaves 2 exCtorNested, exSt) :=
  ⟨by decide, rfl,
    (C16_constructor_flattening exEnv 2 exCtorNested 4 exSt (by decide) (by decide)).1⟩

/-! ## C17: element-wise arithmetic on arrays -/

/-- The step to the next element of an operand drops the first element of what
is left of its expansion. -/
theorem operand_step_expand (c : CONST) (rest : List CONST) (repeatc : Int)
    (h : 1 ≤ repeatc) (hrest : ∀ x ∈ rest, 1 ≤ x.repeatc) :
    expand_at (c :: rest) repeatc =
      c :: expand_at (operand_step c rest repeatc).1 (operand_step c rest repeatc).2 ∧
    ((operand_step c rest repeatc).1 = [] ∨ 1 ≤ (operand_step c rest repeatc).2) ∧
    (∀ x ∈ (operand_step c rest repeatc).1, x = c ∨ x ∈ rest) := by
  unfold operand_step
  by_cases h1 : repeatc - 1 ≤ 0
  · have e : repeatc = 1 := by omega
    subst e
    simp only [h1, if_true]
    refine ⟨?_, ?_, fun x hx => Or.inr hx⟩
    · cases rest with
      | nil => simp [expand_at, expand]
      | cons n rest2 => simp [expand_at, expand]
    · cases rest with
      | nil => exact Or.inl rfl
      | cons n rest2 => exact Or.inr (hrest n (List.mem_cons_self n rest2))
  · simp only [h1, if_false]
    refine ⟨?_, Or.inr (by omega), fun x hx => ?_⟩
    · obtain ⟨k, hk⟩ : ∃ k : Nat, repeatc.toNat = k + 1 := ⟨repeatc.toNat - 1, by omega⟩
      have hk2 : (repeatc - 1).toNat = k := by omega
      simp [expand_at, hk, hk2, List.replicate_succ]
    · simpa using hx

/-- The loop of "array <binop> array" folds the expansions of its operands
element by element. -/
theorem eval_init_op_arrays_spec (env : Env) (o : OP) (dt : Nat) :
    ∀ (fuel : Nat) (l r : List CONST) (lrep rrep : Int),
      (∀ c ∈ l, 1 ≤ c.repeatc) → (∀ c ∈ r, 1 ≤ c.repeatc) →
      (l = [] ∨ 1 ≤ lrep) → (r = [] ∨ 1 ≤ rrep) →
      min (expand_at l lrep).length (expand_at r rrep).length < fuel →
      eval_init_op_arrays env o dt fuel l r lrep rrep =
        Res.ok (elementwise env o dt (expand_at l lrep) (expand_at r rrep)) := by
  intro fuel
  induction fuel with
  | zero =>
    intro l r lrep rrep _ _ _ _ hf
    omega
  | succ fuel ih =>
    intro l r lrep rrep hl hr hlr hrr hf
    cases l with
    | nil => simp [eval_init_op_arrays, elementwise, expand_at]
    | cons cl lrest =>
      cases r with
      | nil => simp [eval_init_op_arrays, elementwise, expand_at]
      | cons cr rrest =>
        have h1 : 1 ≤ lrep := by
          rcases hlr with h | h
          · cases h
          · exact h
        have h2 : 1 ≤ rrep := by
          rcases hrr with h | h
          · cases h
          · exact h
        obtain ⟨el, hl2, hl3⟩ := operand_step_expand cl lrest lrep h1
          (fun x hx => hl x (List.mem_cons_of_mem cl hx))
        obtain ⟨er, hr2, hr3⟩ := operand_step_expand cr rrest rrep h2
          (fun x hx => hr x (List.mem_cons_of_mem cr hx))
        have hrec := ih (operand_step cl lrest lrep).1 (operand_step cr rrest rrep).1
          (operand_step cl lrest lrep).2 (operand_step cr rrest rrep).2
          (fun x hx => by
            rcases hl3 x hx with h | h
            · rw [h]
              exact hl cl (List.mem_cons_self cl lrest)
            · exact hl x (List.mem_cons_of_mem cl h))
          (fun x hx => by
            rcases hr3 x hx with h | h
            · rw [h]
              exact hr cr (List.mem_cons_self cr rrest)
            · exact hr x (List.mem_cons_of_mem cr h))
          hl2 hr2
          (by
            rw [el, er] at hf
            simp only [List.length_cons] at hf
            omega)
        simp only [eval_init_op_arrays, hrec, Res.bind]
        rw [el, er]
        simp [elementwise]

theorem elementwise_length (env : Env) (o : OP) (dt : Nat) (xs ys : List CONST) :
    (elementwise env o dt xs ys).1.length = min xs.length ys.length := by
  simp [elementwise]

theorem elementwise_repeat (env : Env) (o : OP) (dt : Nat) (xs ys : List CONST) :
    ∀ c ∈ (elementwise env o dt xs ys).1, c.repeatc = 1 ∧ c.id = ACID.CONST := by
  intro c hc
  simp only [elementwise, List.mem_map] at hc
  obtain ⟨v, _, hv⟩ := hc
  rw [← hv]
  exact ⟨rfl, rfl⟩

theorem elementwise_get (env : Env) (o : OP) (dt : Nat) (xs ys : List CONST) (k : Nat)
    (a b : CONST) (ha : xs.get? k = some a) (hb : ys.get? k = some b) :
    (elementwise env o dt xs ys).1.get? k =
      some (CONST.leaf dt 1 (fold_elements env o dt a b).1) := by
  have ha2 : xs[k]? = some a := by simpa using ha
  have hb2 : ys[k]? = some b := by simpa using hb
  simp [elementwise, List.getElem?_zipWith, ha2, hb2]

/-- C17: for an arithmetic operator (`AC_ADD`, `AC_SUB`, `AC_MUL`, `AC_DIV`)
applied to two folded array operands, both non-empty and with repeat counts of
at least 1, `eval_init_op` returns (with fuel above the length of the result)
the element-wise result over the run-length expansions of the operands: as many
leaves as the shorter expansion has elements, each of repeat count 1, the
`k`-th holding the fold of the operator on the `k`-th elements of the two
expansions (converted to the element type of the result); the diagnostics of
the folds are reported. -/
theorem C17_elementwise_arrays (env : Env) (fuel : Nat) (op : ACOP) (o : OP)
    (lop rop l r : List CONST) (ldtype rdtype sptr dtype : Nat) (st : St)
    (hop : arith_op op = some o)
    (hla : env.DTY ldtype = TY.ARRAY) (hra : env.DTY rdtype = TY.ARRAY)
    (hl : operand_list lop = Res.ok l) (hr : operand_list rop = Res.ok r)
    (hln : l ≠ []) (hrn : r ≠ [])
    (hlr : ∀ c ∈ l, 1 ≤ c.repeatc) (hrr : ∀ c ∈ r, 1 ≤ c.repeatc)
    (hf : min (expand l).length (expand r).length < fuel) :
    eval_init_op env (fuel + 1) op lop ldtype rop rdtype sptr dtype st =
      Res.ok ((elementwise env o (env.DDTG dtype) (expand l) (expand r)).1,
        reports (elementwise env o (env.DDTG dtype) (expand l) (expand r)).2 st) ∧
    (elementwise env o (env.DDTG dtype) (expand l) (expand r)).1.length =
      min (expand l).length (expand r).length ∧
    (∀ c ∈ (elementwise env o (env.DDTG dtype) (expand l) (expand r)).1, c.repeatc = 1) ∧
    (∀ (k : Nat) (a b : CONST), (expand l).get? k = some a → (expand r).get? k = some b →
      (elementwise env o (env.DDTG dtype) (expand l) (expand r)).1.get? k =
        some (CONST.leaf (env.DDTG dtype) 1 (fold_elements env o (env.DDTG dtype) a b).1)) := by
  refine ⟨?_, elementwise_length _ _ _ _ _,
    fun c hc => (elementwise_repeat _ _ _ _ _ c hc).1,
    fun k a b ha hb => elementwise_get _ _ _ _ _ k a b ha hb⟩
  obtain ⟨l0, lt, rfl⟩ : ∃ l0 lt, l = l0 :: lt := by
    cases l with
    | nil => exact absurd rfl hln
    | cons a t => exact ⟨a, t, rfl⟩
  obtain ⟨r0, rt, rfl⟩ : ∃ r0 rt, r = r0 :: rt := by
    cases r with
    | nil => exact absurd rfl hrn
    | cons a t => exact ⟨a, t, rfl⟩
  have hloop := eval_init_op_arrays_spec env o (env.DDTG dtype) fuel (l0 :: lt) (r0 :: rt)
    l0.repeatc r0.repeatc hlr hrr (Or.inr (hlr l0 (List.mem_cons_self l0 lt)))
    (Or.inr (hrr r0 (List.mem_cons_self r0 rt))) hf
  rw [expand_at_head, expand_at_head] at hloop
  unfold eval_init_op
  cases op <;> simp only [arith_op, Option.some.injEq, reduceCtorEq] at hop <;> subst hop <;>
    simp [hla, hra, hl, hr, Res.bind, deref, get_ast_op, hloop]

/-- C17 at `(/ 2*10, 20 /) + (/ 3*1 /)`: three leaves `11, 11, 21`. -/
theorem C17_elementwise_arrays_witness :
    operand_list [exCtor [CONST.leaf 5 2 10, CONST.leaf 5 1 20]] =
      Res.ok [CONST.leaf 5 2 10, CONST.leaf 5 1 20] ∧
    (elementwise exEnv OP.ADD 5 (expand [CONST.leaf 5 2 10, CONST.leaf 5 1 20])
      (expand [CONST.leaf 5 3 1])).1 =
      [CONST.leaf 5 1 11, CONST.leaf 5 1 11, CONST.leaf 5 1 21] ∧
    eval_init_op exEnv 5 ACOP.ADD [exCtor [CONST.leaf 5 2 10, CONST.leaf 5 1 20]] 6
        [CONST.leaf 5 3 1] 6 0 6 exSt =
      Res.ok ((elementwise exEnv OP.ADD (exEnv.DDTG 6)
          (expand [CONST.leaf 5 2 10, CONST.leaf 5 1 20]) (expand [CONST.leaf 5 3 1])).1,
        reports (elementwise exEnv OP.ADD (exEnv.DDTG 6)
          (expand [CONST.leaf 5 2 10, CONST.leaf 5 1 20]) (expand [CONST.leaf 5 3 1])).2 exSt) :=
  ⟨rfl, rfl,
    (C17_elementwise_arrays exEnv 4 ACOP.ADD OP.ADD [exCtor [CONST.leaf 5 2 10, CONST.leaf 5 1 20]]
      [CONST.leaf 5 3 1] [CONST.leaf 5 2 10, CONST.leaf 5 1 20] [CONST.leaf 5 3 1] 6 6 0 6 exSt
      rfl (by decide) (by decide) rfl rfl (by simp) (by simp)
      (by
        intro c hc
        simp only [List.mem_cons, List.mem_singleton, List.not_mem_nil, or_false] at hc
        rcases hc with rfl | rfl <;> decide)
      (by
        intro c hc
        simp only [List.mem_singleton] at hc
        subst hc
        decide)
      (by decide)).1⟩

/-! ## C18: the table of saved initialisers -/

/-- C18: for a symbol that already has a saved entry, `save_init` changes
nothing: the saved list of every symbol (this one and all others), the fill
count `cur_init` of the table and the diagnostics are as before; so of two
saves for one symbol the first one stays. -/
theorem C18_save_init_first_wins (env : Env) (ict : List CONST) (sptr : Nat) (st : St)
    (h : st.PARAMVALG sptr ≠ 0) :
    save_init env ict sptr st = st ∧
    (∀ s, saved_list (save_init env ict sptr st) s = saved_list st s) ∧
    (save_init env ict sptr st).cur_init = st.cur_init ∧
    (∀ ict0 st0, st0.PARAMVALG sptr = 0 → st0.cur_init < env.init_list_count →
      saved_list (save_init env ict0 sptr st0) sptr = some ict0 ∧
      save_init env ict sptr (save_init env ict0 sptr st0) = save_init env ict0 sptr st0) := by
  have e : save_init env ict sptr st = st := by
    unfold save_init
    rw [if_pos h]
  refine ⟨e, fun s => by rw [e], by rw [e], ?_⟩
  intro ict0 st0 h0 hc
  have hc2 : ¬ st0.cur_init ≥ env.init_list_count := by omega
  have hp : (save_init env ict0 sptr st0).PARAMVALG sptr = st0.cur_init + 1 := by
    simp [save_init, h0, hc2, upd]
  constructor
  · simp [saved_list, save_init, h0, hc2, upd]
  · have hne : (save_init env ict0 sptr st0).PARAMVALG sptr ≠ 0 := by
      rw [hp]
      omega
    generalize save_init env ict0 sptr st0 = s1 at hne
    unfold save_init
    rw [if_pos hne]

/-- C18 at the symbol 12 after a first save. -/
theorem C18_save_init_first_wins_witness :
    (save_init exEnv [CONST.leaf 5 1 7] 12 exSt).PARAMVALG 12 ≠ 0 ∧
    save_init exEnv [CONST.leaf 5 1 9] 12 (save_init exEnv [CONST.leaf 5 1 7] 12 exSt) =
      save_init exEnv [CONST.leaf 5 1 7] 12 exSt :=
  ⟨by decide, (C18_save_init_first_wins exEnv [CONST.leaf 5 1 9] 12
    (save_init exEnv [CONST.leaf 5 1 7] 12 exSt) (by decide)).1⟩

/-! ## C19, C20: RESHAPE -/

theorem reshape_order_identity (env : Env) (rank : Nat) :
    ∀ (l : List CONST) (i : Nat), identity_order env l i = true →
      (reshape_order env rank l i).2 = false := by
  intro l
  induction l with
  | nil =>
    intro i _
    rfl
  | cons c rest ih =>
    intro i h
    simp only [identity_order, Bool.and_eq_true, beq_iff_eq] at h
    unfold reshape_order
    by_cases hi : i < rank
    · have hv : (if env.DT_ISWORD c.dtype = true then c.conval - 1
          else env.ad_val_of c.conval - 1) = (i : Int) := by
        have := h.1
        unfold order_entry at this
        split_ifs at this ⊢ <;> omega
      simp only [hi, if_true, hv, bne_self_eq_false, Bool.false_or]
      exact ih (i + 1) h.2
    · simp only [hi, if_false]

/-- Without a fourth argument, or with one that is a plain `AC_CONST` node,
`eval_reshape` has no order argument. -/
theorem pad_order_none (recItem : CONST → St → Res (List CONST × St)) (args : List CONST)
    (st : St) (po : List CONST × List CONST × St)
    (hno : ∀ o, (args.drop 1).head? = some o → o.id = ACID.CONST)
    (h : reshape_pad_order recItem args st = Res.ok po) : po.2.1 = [] := by
  unfold reshape_pad_order at h
  cases args with
  | nil =>
    simp only [Res.ok.injEq] at h
    rw [← h]
  | cons p rest =>
    simp only at h
    obtain ⟨pd, _, h⟩ := bind_eq_ok h
    cases rest with
    | nil =>
      simp only [Res.ok.injEq] at h
      rw [← h]
    | cons o orest =>
      have ho : o.id = ACID.CONST := hno o (by simp)
      simp only [ho, ne_eq, not_true_eq_false, if_false, Res.ok.injEq] at h
      rw [← h]

theorem reshape_orderarg_none (env : Env) (fuel : Nat) (arg : List CONST) (st : St)
    (hno : ∀ o, (arg.drop 3).head? = some o → o.id = ACID.CONST) :
    ∀ l, reshape_orderarg env fuel arg st = some l → l = [] := by
  intro l h
  unfold reshape_orderarg at h
  split at h
  · rename_i l2 hl
    simp only [Option.some.injEq] at h
    subst h
    obtain ⟨a0, _, hl⟩ := bind_eq_ok hl
    obtain ⟨src, _, hl⟩ := bind_eq_ok hl
    obtain ⟨a1, _, hl⟩ := bind_eq_ok hl
    obtain ⟨shp, _, hl⟩ := bind_eq_ok hl
    obtain ⟨po, hpo, hl⟩ := bind_eq_ok hl
    simp only [Res.ok.injEq] at hl
    rw [← hl]
    exact pad_order_none _ _ _ po (by simpa [List.drop_drop] using hno) hpo
  · simp at h

/-- C19: when no order argument is given, or the order argument that was
evaluated is the identity permutation, and the element counts of the source
and of the result type are equal, `eval_reshape` returns the list that folding
its source argument gave, unchanged (`reshape_source`). -/
theorem C19_reshape_identity (env : Env) (fuel : Nat) (arg : List CONST) (a0 : CONST)
    (rest : List CONST) (dtype : Nat) (st : St)
    (harg : arg = a0 :: rest) (hrank : env.numdim_d dtype ≤ 7)
    (hsz : env.numelm_d a0.dtype = env.numelm_d dtype)
    (hord : ∀ l, reshape_orderarg env fuel arg st = some l →
      l = [] ∨ identity_order env (order_nodes l) 0 = true) :
    eval_reshape env fuel arg dtype st = reshape_source env fuel arg st := by
  subst harg
  unfold eval_reshape reshape_source
  unfold reshape_orderarg at hord
  simp only [deref, Res.bind] at hord ⊢
  cases h1 : eval_init_expr_item env fuel a0 st with
  | fuel => rfl
  | undef => rfl
  | ok src =>
    simp only [h1] at hord ⊢
    cases h2 : deref (List.drop 1 (a0 :: rest)) with
    | fuel => simp [deref] at h2 ⊢; simp [h2]
    | undef => simp [deref] at h2 ⊢; simp [h2]
    | ok a1 =>
      simp only [deref] at h2
      simp only [h2] at hord ⊢
      cases h3 : eval_init_expr_item env fuel a1 src.2 with
      | fuel => rfl
      | undef => rfl
      | ok shp =>
        simp only [h3] at hord ⊢
        cases h4 : reshape_pad_order (eval_init_expr_item env fuel)
            (List.drop 2 (a0 :: rest)) shp.2 with
        | fuel => rfl
        | undef => rfl
        | ok po =>
          simp only [h4] at hord ⊢
          have hr : ¬ env.numdim_d dtype > 7 := by omega
          rw [if_neg hr]
          rcases hord po.2.1 rfl with h | h
          · simp only [h, hsz, if_true]
          · cases hp : po.2.1 with
            | nil => simp only [hsz, if_true]
            | cons o orest =>
              rw [hp] at h
              have := reshape_order_identity env (env.numdim_d dtype) _ 0 h
              simp only [order_nodes] at this
              simp only [this, hsz, and_self, if_true]

/-- C19 at `RESHAPE((/1, 2, 3, 4/), (/2, 2/))`: the four values come back in
the order of the source. -/
theorem C19_reshape_identity_witness :
    eval_reshape exEnvReshape 10
        [exCtorOf 41 [CONST.leaf 5 1 1, CONST.leaf 5 1 2, CONST.leaf 5 1 3, CONST.leaf 5 1 4],
          exCtorOf 44 [CONST.leaf 5 1 2, CONST.leaf 5 1 2]] 40 exSt =
      reshape_source exEnvReshape 10
        [exCtorOf 41 [CONST.leaf 5 1 1, CONST.leaf 5 1 2, CONST.leaf 5 1 3, CONST.leaf 5 1 4],
          exCtorOf 44 [CONST.leaf 5 1 2, CONST.leaf 5 1 2]] exSt ∧
    reshape_view (reshape_source exEnvReshape 10
        [exCtorOf 41 [CONST.leaf 5 1 1, CONST.leaf 5 1 2, CONST.leaf 5 1 3, CONST.leaf 5 1 4],
          exCtorOf 44 [CONST.leaf 5 1 2, CONST.leaf 5 1 2]] exSt) =
      Res.ok [(1, 1), (2, 1), (3, 1), (4, 1)] :=
  ⟨C19_reshape_identity exEnvReshape 10 _ _ _ 40 exSt rfl (by decide) (by decide)
    (fun l h => Or.inl (reshape_orderarg_none exEnvReshape 10 _ exSt (by simp) l h)),
   by decide!⟩

/-- C20 at two inputs with the order argument `(/2, 1/)` and equal element
counts.  For `RESHAPE((/1, 2, 3, 4/), (/2, 2/), pad, (/2, 1/))` the result
holds the four values of the source, transposed.  For the source `(/2*5, 7/)`
(the value 5 with a repeat count of 2, then 7) and the shape `(/1, 3/)` the
result holds 5 with a repeat count of 2 twice, then 7: five elements, four of
them 5, for a source of three elements, two of them 5. -/
theorem C20_reshape_repeated_leaf :
    reshape_view (eval_reshape exEnvReshape 10
      [exCtorOf 41 [CONST.leaf 5 1 1, CONST.leaf 5 1 2, CONST.leaf 5 1 3, CONST.leaf 5 1 4],
        exCtorOf 44 [CONST.leaf 5 1 2, CONST.leaf 5 1 2], CONST.leaf 5 1 0,
        exCtorOf 44 [CONST.leaf 5 1 2, CONST.leaf 5 1 1]] 40 exSt) =
      Res.ok [(1, 1), (3, 1), (2, 1), (4, 1)] ∧
    reshape_view (eval_reshape exEnvReshape 10
      [exCtorOf 43 [CONST.leaf 5 2 5, CONST.leaf 5 1 7],
        exCtorOf 44 [CONST.leaf 5 1 1, CONST.leaf 5 1 3], CONST.leaf 5 1 0,
        exCtorOf 44 [CONST.leaf 5 1 2, CONST.leaf 5 1 1]] 42 exSt) =
      Res.ok [(5, 2), (5, 2), (7, 1)] := by
  decide!

theorem quiet_refl (s : St) : quiet s s := ⟨rfl, rfl⟩

theorem quiet_trans {a b c : St} (h1 : quiet a b) (h2 : quiet b c) : quiet a c :=
  ⟨h2.1.trans h1.1, h2.2.trans h1.2⟩

theorem quiet_report (d : Diag) (s : St) : quiet s (report d s) := ⟨rfl, rfl⟩

theorem quiet_set_error (s : St) : quiet s (set_dinit_error s) := ⟨rfl, rfl⟩

theorem quiet_buf (s : St) (b : EFFADR) : quiet s { s with buf := b } := ⟨rfl, rfl⟩

theorem quiet_eval (env : Env) (e : IExpr) : ∀ s : St, quiet s (eval env e s).2 := by
  induction e with
  | LD sp =>
    intro s
    simp only [eval]
    split
    · exact quiet_refl s
    · exact quiet_trans (quiet_report _ s) (quiet_set_error _)
  | KCON c => intro s; exact quiet_refl s
  | ICON c => intro s; exact quiet_refl s
  | NEG x ih => intro s; exact ih s
  | ADD x y ihx ihy => intro s; exact quiet_trans (ihx s) (ihy _)
  | SUB x y ihx ihy => intro s; exact quiet_trans (ihx s) (ihy _)
  | MUL x y ihx ihy => intro s; exact quiet_trans (ihx s) (ihy _)
  | DIV x y ihx ihy => intro s; exact quiet_trans (ihx s) (ihy _)
  | ITOI8 x ih => intro s; exact ih s
  | NARROW x ih => intro s; exact ih s
  | OTHER => intro s; exact quiet_trans (quiet_report _ s) (quiet_set_error _)

theorem quiet_dinit_ok (env : Env) (sptr : Nat) (s : St) : quiet s (dinit_ok env sptr s).2 := by
  have hf : ∀ d, quiet s (dinit_ok_fail d s).2 := fun d =>
    quiet_trans (quiet_report d s) (quiet_set_error _)
  have ha : quiet s (dinit_ok_array env sptr s).2 := by
    unfold dinit_ok_array
    split_ifs <;> first | exact hf _ | exact quiet_refl s
  unfold dinit_ok
  split <;> (try split_ifs) <;> first | exact hf _ | exact ha

theorem quiet_mkeffadr_subs (env : Env) (mem : Nat) : ∀ (subs : List IExpr) (i : Nat)
    (tot : Int) (s : St), quiet s (mkeffadr_subs env mem subs i tot s).2 := by
  intro subs
  induction subs with
  | nil => intro i tot s; exact quiet_refl s
  | cons e es ih =>
    intro i tot s
    simp only [mkeffadr_subs]
    split_ifs
    · exact quiet_trans (quiet_eval env e s) (quiet_trans (quiet_report _ _) (quiet_set_error _))
    · exact quiet_trans (quiet_eval env e s) (ih _ _ _)

theorem quiet_mkeffadr (env : Env) (r : IRef) : ∀ s : St, quiet s (mkeffadr env r s) := by
  induction r with
  | BASE sp =>
    intro s
    simp only [mkeffadr]
    split_ifs
    · exact quiet_trans (quiet_dinit_ok env sp s) (quiet_buf _ _)
    · exact quiet_dinit_ok env sp s
  | PLD b _ => intro s; exact quiet_trans (quiet_buf s _) (quiet_set_error _)
  | MEMBER b m ih =>
    intro s
    simp only [mkeffadr]
    split_ifs
    · exact ih s
    · exact quiet_trans (ih s) (quiet_buf _ _)
  | ELEMENT b subs ih =>
    intro s
    simp only [mkeffadr]
    split_ifs
    · exact ih s
    · exact quiet_trans (ih s) (quiet_trans (quiet_mkeffadr_subs env _ subs 0 0 _)
        (quiet_buf _ _))
  | SUBS b lw up ih =>
    intro s
    simp only [mkeffadr]
    split_ifs
    · exact ih s
    · refine quiet_trans (ih s) ?_
      unfold mkeffadr_substr
      exact quiet_trans (quiet_eval env lw _) (quiet_trans (quiet_buf _ _)
        (quiet_trans (quiet_eval env up _) ⟨rfl, rfl⟩))
  | NSUBS b lw up ih =>
    intro s
    simp only [mkeffadr]
    split_ifs
    · exact ih s
    · refine quiet_trans (ih s) ?_
      unfold mkeffadr_substr
      exact quiet_trans (quiet_eval env lw _) (quiet_trans (quiet_buf _ _)
        (quiet_trans (quiet_eval env up _) ⟨rfl, rfl⟩))
  | FUNC o =>
    intro s
    exact quiet_trans (quiet_buf s _) (quiet_trans (quiet_report _ _) (quiet_set_error _))
  | OTHER => intro s; exact quiet_trans (quiet_buf s _) (quiet_set_error _)

theorem quiet_save_init (env : Env) (ict : List CONST) (sptr : Nat) (s : St) :
    quiet s (save_init env ict sptr s) := by
  unfold save_init
  split_ifs <;> exact ⟨rfl, rfl⟩

theorem quiet_varref_target (env : Env) (ivl : Option Varref) (member : Nat) (base_off : Int)
    (st : St) (r : Option VarrefTarget × St)
    (h : varref_target env ivl member base_off st = Res.ok r) : quiet st r.2 := by
  unfold varref_target at h
  simp only [] at h
  split at h
  all_goals (try split_ifs at h)
  all_goals (try split at h)
  all_goals (try split_ifs at h)
  all_goals first
    | (simp at h; done)
    | (simp only [Res.ok.injEq] at h
       rw [← h]
       first
         | exact quiet_refl st
         | exact quiet_dinit_ok env _ st
         | exact quiet_mkeffadr env _ st)

theorem quiet_error_exit (rep : Int) (st : St) : quiet st (varref_error_exit rep st).2.2 :=
  ⟨rfl, rfl⟩

/-- Without an error, `mkeffadr` leaves the symbol of the `IM_BASE` ILM in
`effadr->sptr`. -/
theorem mkeffadr_sptr (env : Env) : ∀ (r : IRef) (st : St),
    (mkeffadr env r st).dinit_error = 0 → r.root = some (mkeffadr env r st).buf.sptr := by
  intro r
  induction r with
  | BASE s =>
    intro st h
    simp only [mkeffadr] at h ⊢
    by_cases hok : (dinit_ok env s st).1 = true
    · simp [hok, IRef.root]
    · simp only [Bool.not_eq_true] at hok
      simp only [hok, Bool.false_eq_true, if_false] at h
      rw [(dinit_ok_fail_state env s st hok).1] at h
      omega
  | PLD b _ =>
    intro st h
    simp [mkeffadr, set_dinit_error] at h
  | MEMBER b m ih =>
    intro st h
    simp only [mkeffadr] at h ⊢
    by_cases he : truthy (mkeffadr env b st).dinit_error = true
    · simp only [he, if_true] at h
      simp [truthy, h] at he
    · simp only [he, Bool.false_eq_true, if_false] at h ⊢
      simp only [truthy, bne_iff_ne, ne_eq, not_not] at he
      exact ih st he
  | ELEMENT b subs ih =>
    intro st h
    simp only [mkeffadr] at h ⊢
    by_cases he : truthy (mkeffadr env b st).dinit_error = true
    · simp only [he, if_true] at h
      simp [truthy, h] at he
    · simp only [he, Bool.false_eq_true, if_false] at h ⊢
      simp only [truthy, bne_iff_ne, ne_eq, not_not] at he
      simp only [buf_add, (mkeffadr_subs_frame env _ subs 0 0 _).2.2.2]
      exact ih st he
  | SUBS b lw up ih =>
    intro st h
    simp only [mkeffadr] at h ⊢
    by_cases he : truthy (mkeffadr env b st).dinit_error = true
    · simp only [he, if_true] at h
      simp [truthy, h] at he
    · simp only [he, Bool.false_eq_true, if_false] at h ⊢
      simp only [truthy, bne_iff_ne, ne_eq, not_not] at he
      simp only [mkeffadr_substr, buf_add, (eval_frame env _ _).2.2.2]
      exact ih st he
  | NSUBS b lw up ih =>
    intro st h
    simp only [mkeffadr] at h ⊢
    by_cases he : truthy (mkeffadr env b st).dinit_error = true
    · simp only [he, if_true] at h
      simp [truthy, h] at he
    · simp only [he, Bool.false_eq_true, if_false] at h ⊢
      simp only [truthy, bne_iff_ne, ne_eq, not_not] at he
      simp only [mkeffadr_substr, buf_add, (eval_frame env _ _).2.2.2]
      exact ih st he
  | FUNC o =>
    intro st h
    simp [mkeffadr, set_dinit_error] at h
  | OTHER =>
    intro st h
    simp [mkeffadr, set_dinit_error] at h

/-- The target that `dinit_varref` resolves has the owner of the reference as
its `sptr`, whatever the state. -/
theorem varref_target_owner (env : Env) (ivl : Option Varref) (member : Nat) (base_off : Int)
    (st st1 : St) (t : VarrefTarget)
    (h : varref_target env ivl member base_off st = Res.ok (some t, st1)) :
    owner ivl member = some t.sptr := by
  unfold varref_target at h
  unfold owner
  cases ivl with
  | none =>
    simp only [] at h ⊢
    split_ifs at h with hm
    · simp only [Res.ok.injEq, Prod.mk.injEq, Option.some.injEq] at h
      rw [← h.1]
      simp [hm]
  | some v =>
    simp only [] at h ⊢
    by_cases hid : v.id = SID.S_IDENT
    · simp only [hid, if_true] at h ⊢
      cases hp : ident_sptr v.ptr with
      | none => simp [hp] at h
      | some sp =>
        simp only [hp] at h
        split_ifs at h
        · simp only [Res.ok.injEq, Prod.mk.injEq, Option.some.injEq] at h
          rw [← h.1]
        · simp at h
    · simp only [hid, if_false] at h ⊢
      by_cases hm : member ≠ 0
      · rw [if_pos hm] at h ⊢
        simp only [Res.ok.injEq, Prod.mk.injEq, Option.some.injEq] at h
        rw [← h.1]
      · rw [if_neg hm] at h ⊢
        by_cases he : truthy (mkeffadr env v.ptr st).dinit_error = true
        · simp [he] at h
        · simp only [he, Bool.false_eq_true, if_false] at h
          simp only [truthy, bne_iff_ne, ne_eq, not_not] at he
          have hr := mkeffadr_sptr env v.ptr st he
          split_ifs at h
          all_goals
            simp only [Res.ok.injEq, Prod.mk.injEq, Option.some.injEq] at h
            rw [← h.1]
            exact hr

theorem outer_storage_quiet (env : Env) (sp : Nat) (s s' : St) (hq : quiet s s')
    (h : outer_storage env sp s) : outer_storage env sp s' := by
  unfold outer_storage at *
  rw [hq.2]
  exact h

theorem put_value_outer (env : Env) (sp : Nat) (st : St) (h : outer_storage env sp st) :
    put_value env sp st = false := by
  unfold outer_storage at h
  unfold put_value
  rcases h with h | ⟨h1, h2⟩
  · simp [h]
  · simp [h1, h2]

/-- One iteration of the loop of `dinit_varref` with `put_value` false writes
no record and sets no DINIT flag, if the recursive call for an array
constructor does not. -/
theorem quiet_varref_body (env : Env)
    (recV : List CONST → St → Res (List CONST × Int × St))
    (recD : List CONST → Nat → Int → St → Res St)
    (t : VarrefTarget) (ivl : Option Varref) (member : Nat) (base_off : Int)
    (s : VarrefLoop) (r : VarrefLoop ⊕ (Bool × VarrefLoop))
    (hV : ∀ ic x, recV ic s.st = Res.ok x → quiet s.st x.2.2)
    (h : varref_body env recV recD t ivl member false base_off s = Res.ok r) :
    quiet s.st (varref_iter_state r) := by
  unfold varref_body at h
  simp only [Bool.false_eq_true, if_false] at h
  split_ifs at h
  all_goals (try split at h)
  all_goals (try split_ifs at h)
  all_goals first
    | (simp only [Res.ok.injEq] at h
       rw [← h]
       first
         | exact quiet_refl _
         | (rw [varref_iter_state_advance]
            exact quiet_refl _))
    | (obtain ⟨a, ha, hk⟩ := bind_eq_ok h
       simp only [Res.ok.injEq] at hk
       rw [← hk, varref_iter_state_advance]
       exact hV _ _ ha)

theorem quiet_varref_finish (env : Env) (t : VarrefTarget) (member : Nat)
    (saved_ict : List CONST) (s : VarrefLoop) (r : List CONST × Int × St)
    (h : varref_finish env t member saved_ict false s = Res.ok r) : quiet s.st r.2.2 := by
  unfold varref_finish at h
  simp only [Bool.false_eq_true, if_false] at h
  split_ifs at h
  all_goals first
    | (simp only [Res.ok.injEq] at h
       rw [← h]
       exact quiet_refl _)
    | (obtain ⟨a, _, hk⟩ := bind_eq_ok h
       simp only [Res.ok.injEq] at hk
       rw [← hk]
       exact quiet_save_init _ _ _ _)

/-- The walk of a reference whose owner is of an outer scope, or a member of a
common block without its DINIT flag, writes no record and sets no DINIT flag,
array constructors in the constant list included. -/
theorem quiet_walk (env : Env) (sp : Nat) : ∀ (fuel : Nat) (ivl : Option Varref) (member : Nat)
    (ict : List CONST) (dtype : Nat) (rep base_off : Int) (st : St) (x : List CONST × Int × St),
    owner ivl member = some sp → outer_storage env sp st →
    dinit_varref env fuel ivl member ict dtype rep base_off st = Res.ok x → quiet st x.2.2 := by
  intro fuel
  induction fuel with
  | zero =>
    intro ivl member ict dtype rep base_off st x _ _ h
    simp [dinit_varref] at h
  | succ fuel ih =>
    intro ivl member ict dtype rep base_off st x hown hout h
    unfold dinit_varref at h
    obtain ⟨tg, htg, h⟩ := bind_eq_ok h
    have q1 : quiet st tg.2 := quiet_varref_target env ivl member base_off st tg htg
    split at h
    · simp only [Res.ok.injEq] at h
      rw [← h]
      exact quiet_trans q1 (quiet_error_exit _ _)
    · rename_i t ht
      have htg2 : varref_target env ivl member base_off st = Res.ok (some t, tg.2) := by
        rw [htg, ← ht]
      have hsp : sp = t.sptr := by
        have := varref_target_owner env ivl member base_off st tg.2 t htg2
        rw [hown] at this
        exact Option.some.inj this
      subst hsp
      have hpv : put_value env t.sptr tg.2 = false :=
        put_value_outer env _ _ (outer_storage_quiet env _ _ _ q1 hout)
      simp only [hpv] at h
      obtain ⟨fin, hfin, h⟩ := bind_eq_ok h
      have hbody : ∀ (s : VarrefLoop) (r : VarrefLoop ⊕ (Bool × VarrefLoop)),
          quiet st s.st →
          varref_body env
            (fun ic st1 => dinit_varref env fuel ivl member ic dtype 0 base_off st1)
            (fun ic dt off st1 => dinit_data env fuel [] none ic dt off st1)
            t ivl member false base_off s = Res.ok r →
          quiet st (varref_iter_state r) := by
        intro s r hI hb
        exact quiet_trans hI (quiet_varref_body env _ _ t ivl member base_off s r
          (fun ic x1 hx => ih ivl member ic dtype 0 base_off s.st x1 hown
            (outer_storage_quiet env _ _ _ hI hout) hx) hb)
      have q2 : quiet st fin.2.st :=
        loopN_invariant _ (fun s => quiet st s.st) (fun r => quiet st r.2.st)
          (fun s s' hI hb => hbody s _ hI hb)
          (fun s r hI hb => hbody s _ hI hb)
          fuel _ fin q1 hfin
      split_ifs at h
      · exact quiet_trans q2 (quiet_varref_finish env t member ict fin.2 x h)
      · simp only [Res.ok.injEq] at h
        rw [← h]
        exact quiet_trans q2 (quiet_trans (quiet_report _ _) (quiet_error_exit _ _))

/-- C25, as stated, fails for a member of an empty type inside an object that
has data: `dinit_varref` tests the type of the containing object, not the type
of the target.  For the reference `x%e`, whose target (symbol 24) is of a type
with no data components while the variable `x` (symbol 20) is not, and the
list `empty(), 7`: the record `SetLocation(x)` is written and the first
constant is consumed, the position returned is at the constant 7. -/
theorem C25_counterexample :
    exEnvEmptyMember.no_data_components
      (exEnvEmptyMember.DDTG (exEnvEmptyMember.DTYPEG 24)) = true ∧
    exEnvEmptyMember.no_data_components
      (exEnvEmptyMember.DDTG (exEnvEmptyMember.DTYPEG 20)) = false ∧
    target_view (varref_target exEnvEmptyMember (some exRefEmptyMember) 0 0 exSt) =
      Res.ok (some (20, 24, 1, 1)) ∧
    varref_view (dinit_varref exEnvEmptyMember 5 (some exRefEmptyMember) 0
      [exEmptyCtor, CONST.leaf 5 1 7] 0 0 0 exSt) =
      Res.ok ([(7, 1)], 1, [Directive.SetLocation 20], [], 0) := by
  refine ⟨by decide, by decide, by decide!, by decide!⟩

/-- C25 (amended): empty types.  For every reference (or member walked
without one) whose containing object `sptr` (the variable named, the member
walked, or the variable at the base of a reference `x%m`) has an element type
with no data components, `dinit_varref` leaves its loop at the first test,
before it looks at the constant list: it returns (2 units of fuel suffice)
the constant list it was given, with `*repeat` the count of the position it
was given, and the dinit file is as it was; a null constant list needs that
the symbol is not one whose initialiser is saved.  For such a symbol
`dinit_val` writes nothing either, and it writes nothing for a target
`init_sym` whose own element type has no data components. -/
theorem C25_empty_types (env : Env) (fuel : Nat) (ivl : Option Varref) (member : Nat)
    (ict : List CONST) (dtype : Nat) (rep base_off : Int) (st st1 : St) (t : VarrefTarget)
    (htg : varref_target env ivl member base_off st = Res.ok (some t, st1))
    (hnd : env.no_data_components (env.DDTG (env.DTYPEG t.sptr)) = true)
    (hsave : ict = [] → ¬ (member = 0 ∧ env.PARAMG t.sptr = true) ∧ env.CCSYMG t.sptr = false)
    (hfuel : 2 ≤ fuel) :
    (∃ st', dinit_varref env fuel ivl member ict dtype rep base_off st =
        Res.ok (ict, repeat_start ict rep, st') ∧ st'.out = st.out) ∧
    (∀ (dtypev : Nat) (val : Int) (s : St), dinit_val env t.sptr dtypev val s = s) ∧
    (env.no_data_components (env.DDTG (env.DTYPEG t.init_sym)) = true →
      ∀ (dtypev : Nat) (val : Int) (s : St), dinit_val env t.init_sym dtypev val s = s) := by
  refine ⟨?_, ?_, ?_⟩
  · obtain ⟨k, rfl⟩ : ∃ k, fuel = k + 2 := ⟨fuel - 2, by omega⟩
    have hq := (quiet_varref_target env ivl member base_off st _ htg).1
    simp only [] at hq
    unfold dinit_varref
    simp only [htg, Res.bind]
    rw [loopN_exit _ _ _ (true, VarrefLoop.mk ict (repeat_start ict rep) t.offset t.num_elem true st1)
      (by simp [varref_body, hnd])]
    simp only [if_true]
    cases hict : ict with
    | nil =>
      obtain ⟨h1, h2⟩ := hsave hict
      unfold varref_finish
      simp only [h1, h2, Bool.false_eq_true, false_and, or_self, if_false]
      refine ⟨_, rfl, ?_⟩
      split_ifs
      · rw [(sym_is_dinitd_out env _ _).1]
        exact hq
      · exact hq
    | cons c rest =>
      obtain ⟨st', hf1, hf2, _⟩ := varref_finish_ok env t member c rest (put_value env t.sptr st1)
        (VarrefLoop.mk (c :: rest) (repeat_start (c :: rest) rep) t.offset t.num_elem true st1)
      exact ⟨st', hf1, hf2.trans hq⟩
  · intro dtypev val s
    simp [dinit_val, hnd]
  · intro hm dtypev val s
    simp [dinit_val, hm]

/-- C25 (amended), at the variable of the empty derived type and the list
`2 * 7`: the list is returned whole and nothing is written. -/
theorem C25_empty_types_witness :
    (∃ st', dinit_varref exEnvEmpty 2 (some exRefEmpty) 0 [CONST.leaf 5 2 7] 0 0 0 exSt =
        Res.ok ([CONST.leaf 5 2 7], repeat_start [CONST.leaf 5 2 7] 0, st') ∧
      st'.out = exSt.out) ∧
    (∀ (dtypev : Nat) (val : Int) (s : St),
      dinit_val exEnvEmpty (VarrefTarget.mk 30 30 0 0 1).sptr dtypev val s = s) ∧
    (exEnvEmpty.no_data_components
        (exEnvEmpty.DDTG (exEnvEmpty.DTYPEG (VarrefTarget.mk 30 30 0 0 1).init_sym)) = true →
      ∀ (dtypev : Nat) (val : Int) (s : St),
        dinit_val exEnvEmpty (VarrefTarget.mk 30 30 0 0 1).init_sym dtypev val s = s) :=
  C25_empty_types exEnvEmpty 2 (some exRefEmpty) 0 [CONST.leaf 5 2 7] 0 0 0 exSt exSt
    (VarrefTarget.mk 30 30 0 0 1)
    (ident_scalar_target exEnvEmpty exSt exRefEmpty 30 0 0 rfl rfl (by decide) (by decide))
    (by decide) (by simp) (by decide)

/-- C26: storage of an outer scope and of a foreign common block.  For every
reference whose target resolves to a symbol that is `UPLEVEL`, or a member of
a common block whose DINIT flag is not set: (1) `put_value` is false;
(2) whatever the constant list (array constructors and a list that is too
short included) and the fuel, a call of `dinit_varref` that returns has
written no record and set no DINIT flag, so the symbol is not marked as
initialised; (3) on a flat list of leaves that holds the `n` elements of the
target the call returns, at the position `n` elements further, as for a
reference that is written. -/
theorem C26_outer_storage (env : Env) (st st1 : St) (v : Varref) (t : VarrefTarget)
    (ict : List CONST) (dtype : Nat) (rep base_off : Int) (fuel : Nat)
    (htg : varref_target env (some v) 0 base_off st = Res.ok (some t, st1))
    (hout : outer_storage env t.sptr st)
    (hn : 1 ≤ t.num_elem) (hfuel : t.num_elem.toNat + 1 ≤ fuel)
    (hdata : env.no_data_components (env.DDTG (env.DTYPEG t.sptr)) = false)
    (hns : DTYG env v.dtype ≠ TY.STRUCT)
    (hflat : flat_leaves env ict) (hwf : position_wf ict (repeat_start ict rep))
    (hlen : t.num_elem.toNat ≤ (expand_at ict (repeat_start ict rep)).length) :
    put_value env t.sptr st1 = false ∧
    (∀ (fuel2 : Nat) (ict2 : List CONST) (dtype2 : Nat) (rep2 : Int)
      (x : List CONST × Int × St),
      dinit_varref env fuel2 (some v) 0 ict2 dtype2 rep2 base_off st = Res.ok x →
      x.2.2.out = st.out ∧ x.2.2.DINITG = st.DINITG) ∧
    (∃ ict' rep' st',
      dinit_varref env fuel (some v) 0 ict dtype rep base_off st = Res.ok (ict', rep', st') ∧
      st'.out = st.out ∧ st'.DINITG = st.DINITG ∧
      expand_at ict' rep' = (expand_at ict (repeat_start ict rep)).drop t.num_elem.toNat ∧
      ict' <:+ ict ∧ position_wf ict' rep') := by
  have hown := varref_target_owner env (some v) 0 base_off st st1 t htg
  have hq := quiet_varref_target env (some v) 0 base_off st _ htg
  have hall : ∀ (fuel2 : Nat) (ict2 : List CONST) (dtype2 : Nat) (rep2 : Int)
      (x : List CONST × Int × St),
      dinit_varref env fuel2 (some v) 0 ict2 dtype2 rep2 base_off st = Res.ok x →
      x.2.2.out = st.out ∧ x.2.2.DINITG = st.DINITG :=
    fun fuel2 ict2 dtype2 rep2 x hx =>
      quiet_walk env t.sptr fuel2 (some v) 0 ict2 dtype2 rep2 base_off st x hown hout hx
  refine ⟨put_value_outer env _ _ (outer_storage_quiet env _ _ _ hq hout), hall, ?_⟩
  obtain ⟨ict', rep', st', h1, h2, h3, h4⟩ := dinit_varref_flat env st st1 v t ict dtype rep
    base_off fuel htg hn hfuel hdata hns hflat hwf hlen
  have h5 := hall fuel ict dtype rep _ h1
  exact ⟨ict', rep', st', h1, h5.1, h5.2, h2, h3, h4⟩

/-- C26, at the array `b` of three integers made a symbol of an outer scope,
and the list `2 * 7, 4 * 0`: three elements are consumed and nothing is
written. -/
theorem C26_outer_storage_witness :
    put_value exEnvUplevel
      (VarrefTarget.mk 11 11 0 (Int.tdiv (exEnvUplevel.size_of (exEnvUplevel.DTYPEG 11)) 3) 3).sptr
      exSt = false ∧
    (∀ (fuel2 : Nat) (ict2 : List CONST) (dtype2 : Nat) (rep2 : Int)
      (x : List CONST × Int × St),
      dinit_varref exEnvUplevel fuel2 (some exRefB) 0 ict2 dtype2 rep2 0 exSt = Res.ok x →
      x.2.2.out = exSt.out ∧ x.2.2.DINITG = exSt.DINITG) ∧
    (∃ ict' rep' st',
      dinit_varref exEnvUplevel 4 (some exRefB) 0 [CONST.leaf 5 2 7, CONST.leaf 5 4 0] 0 0 0 exSt =
        Res.ok (ict', rep', st') ∧
      st'.out = exSt.out ∧ st'.DINITG = exSt.DINITG ∧
      expand_at ict' rep' =
        (expand_at [CONST.leaf 5 2 7, CONST.leaf 5 4 0]
          (repeat_start [CONST.leaf 5 2 7, CONST.leaf 5 4 0] 0)).drop
          (VarrefTarget.mk 11 11 0
            (Int.tdiv (exEnvUplevel.size_of (exEnvUplevel.DTYPEG 11)) 3) 3).num_elem.toNat ∧
      ict' <:+ [CONST.leaf 5 2 7, CONST.leaf 5 4 0] ∧ position_wf ict' rep') :=
  C26_outer_storage exEnvUplevel exSt exSt exRefB
    (VarrefTarget.mk 11 11 0 (Int.tdiv (exEnvUplevel.size_of (exEnvUplevel.DTYPEG 11)) 3) 3)
    [CONST.leaf 5 2 7, CONST.leaf 5 4 0] 0 0 0 4
    (ident_array_target exEnvUplevel exSt exRefB 11 0 0 3 rfl rfl (by decide) rfl rfl (by decide)
      rfl (by decide))
    (Or.inl rfl)
    (by decide) (by decide) rfl (by decide)
    (by
      intro c hc
      simp only [List.mem_cons, List.mem_singleton, List.not_mem_nil, or_false] at hc
      rcases hc with rfl | rfl <;> decide)
    (by simp only [position_wf, repeat_start]; decide) (by decide)

theorem eval_top (env : Env) (e : IExpr) (s : St) : (eval env e s).2.top = s.top :=
  (frame_eval env e s).2.1

theorem chk_doindex_top : ∀ (e : IExpr) (s : St), (chk_doindex e s).2.top = s.top := by
  intro e
  induction e with
  | NARROW x ih => intro s; simpa [chk_doindex] using ih s
  | LD sp => intro s; simp [chk_doindex]
  | _ => intro s; simp [chk_doindex, set_dinit_error, report]

/-- The `Dostart` case keeps the depth of the implied-do stack within
`MAXDEPTH`. -/
theorem data_dostart_top (env : Env) (vars : List VAR) (pc : Nat)
    (indvar lowbd upbd step : IExpr) (s : DataLoop) (r : DataLoop ⊕ St)
    (h : data_dostart env vars pc indvar lowbd upbd step s = Res.ok r)
    (hs : s.st.top ≤ MAXDEPTH) : (data_iter_state r).top ≤ MAXDEPTH := by
  unfold data_dostart at h
  by_cases hfull : s.st.top = MAXDEPTH
  · simp only [hfull, if_true, Res.ok.injEq] at h
    rw [← h]
    exact hs
  · simp only [hfull, if_false] at h
    split_ifs at h
    · simp only [Res.ok.injEq] at h
      rw [← h]
      simp only [data_iter_state, chk_doindex_top]
      exact hs
    · split at h
      · simp at h
      · simp only [Res.ok.injEq] at h
        rw [← h, data_advance_state]
        simp only [eval_top, chk_doindex_top]
        exact hs
    · simp only [Res.ok.injEq] at h
      rw [← h, data_advance_state]
      simp only [eval_top, chk_doindex_top]
      omega

theorem data_doend_top (env : Env) (vars : List VAR) (pc dostart : Nat)
    (s : DataLoop) (r : DataLoop ⊕ St)
    (h : data_doend env vars pc dostart s = Res.ok r)
    (hs : s.st.top ≤ MAXDEPTH) : (data_iter_state r).top ≤ MAXDEPTH := by
  unfold data_doend at h
  split at h
  · simp at h
  · rename_i t ht
    simp only [] at h
    split_ifs at h
    all_goals
      simp only [Res.ok.injEq] at h
      rw [← h, data_advance_state]
      simp only []
      omega

/-- One iteration of the loop of `dinit_data` keeps the depth of the
implied-do stack within `MAXDEPTH`, if the call of `dinit_varref` leaves the
stack alone. -/
theorem data_body_top (env : Env)
    (recV : Option Varref → Nat → List CONST → Int → St → Res (List CONST × Int × St))
    (hV : ∀ v m ic rp st x, recV v m ic rp st = Res.ok x → frame st x.2.2)
    (vars : List VAR) (s : DataLoop) (r : DataLoop ⊕ St)
    (h : data_body env recV vars s = Res.ok r)
    (hs : s.st.top ≤ MAXDEPTH) : (data_iter_state r).top ≤ MAXDEPTH := by
  unfold data_body at h
  simp only [] at h
  split at h
  all_goals (try split at h)
  all_goals (try split_ifs at h)
  all_goals first
    | (simp at h; done)
    | exact data_dostart_top env vars _ _ _ _ _ _ r h hs
    | exact data_doend_top env vars _ _ _ r h hs
    | (simp only [Res.ok.injEq] at h
       rw [← h]
       exact hs)
    | (obtain ⟨a, ha, hk⟩ := bind_eq_ok h
       simp only [Res.ok.injEq] at hk
       rw [← hk, data_advance_state]
       rw [(hV _ _ _ _ _ _ ha).2.1]
       exact hs)

theorem iterN_invariant {σ ρ : Type} (body : σ → Res (σ ⊕ ρ)) (I : σ → Prop) (J : ρ → Prop)
    (hstep : ∀ s s', I s → body s = Res.ok (Sum.inl s') → I s')
    (hexit : ∀ s r, I s → body s = Res.ok (Sum.inr r) → J r) :
    ∀ (n : Nat) (s : σ), I s →
      (∀ s', iterN body n s = Res.ok (Sum.inl s') → I s') ∧
      (∀ r, iterN body n s = Res.ok (Sum.inr r) → J r) := by
  intro n
  induction n with
  | zero =>
    intro s hI
    constructor
    · intro s' h
      simp only [iterN, Res.ok.injEq, Sum.inl.injEq] at h
      rw [← h]
      exact hI
    · intro r h
      simp [iterN] at h
  | succ n ih =>
    intro s hI
    unfold iterN
    split
    · rename_i s' hb
      exact ih s' (hstep s s' hI hb)
    · rename_i r0 hne
      cases hb : body s with
      | ok x =>
        cases x with
        | inl s' => exact absurd hb (hne s')
        | inr r =>
          constructor
          · intro s' h
            simp at h
          · intro r' h
            simp only [Res.ok.injEq, Sum.inr.injEq] at h
            rw [← h]
            exact hexit s r hI hb
      | fuel => constructor <;> (intro _ h; simp at h)
      | undef => constructor <;> (intro _ h; simp at h)

/-- C23: the bound of the implied-do stack.  From a state with at most
`MAXDEPTH = 8` active entries (a statement starts with none), for every
variable list: (1) after any number of iterations of the loop of `dinit_data`
the stack holds at most `MAXDEPTH` entries, whether the loop is still running
or has ended; (2) so does the state that the loop returns; (3) a `Dostart` met
with `MAXDEPTH` active entries ends the loop at once, the state being the one
before with only the diagnostic 34 added: nothing is pushed. -/
theorem C23_dostack_bound (env : Env) (fuel : Nat) (vars : List VAR) (dtype : Nat)
    (base_off : Int) (s0 : DataLoop) (h0 : s0.st.top ≤ MAXDEPTH) :
    (∀ (n : Nat) (x : DataLoop ⊕ St),
      data_iter env fuel vars dtype base_off n s0 = Res.ok x →
      (data_iter_state x).top ≤ MAXDEPTH) ∧
    (∀ (n : Nat) (r : St),
      data_loop env fuel vars dtype base_off n s0 = Res.ok r → r.top ≤ MAXDEPTH) ∧
    (∀ (s : DataLoop) (pc : Nat) (indvar lowbd upbd step : IExpr),
      s.ivl = some pc → s.member = 0 →
      vars.get? pc = some (VAR.Dostart indvar lowbd upbd step) → s.st.top = MAXDEPTH →
      data_body env
        (fun v member ic rep st1 => dinit_varref env fuel v member ic dtype rep base_off st1)
        vars s = Res.ok (Sum.inr (report (Diag.errsev 34) s.st))) := by
  have hV : ∀ (v : Option Varref) (m : Nat) (ic : List CONST) (rp : Int) (st : St)
      (x : List CONST × Int × St),
      dinit_varref env fuel v m ic dtype rp base_off st = Res.ok x → frame st x.2.2 :=
    fun v m ic rp st x hx => (frame_walk env fuel).1 v m ic dtype rp base_off st x hx
  have hstep := data_body_top env
    (fun v member ic rep st1 => dinit_varref env fuel v member ic dtype rep base_off st1) hV vars
  refine ⟨?_, ?_, ?_⟩
  · intro n x hx
    have hinv := iterN_invariant _ (fun s : DataLoop => s.st.top ≤ MAXDEPTH)
      (fun r : St => r.top ≤ MAXDEPTH)
      (fun s s' hI hb => hstep s _ hb hI) (fun s r hI hb => hstep s _ hb hI) n s0 h0
    cases x with
    | inl s' => exact hinv.1 s' hx
    | inr r => exact hinv.2 r hx
  · intro n r hr
    exact loopN_invariant _ (fun s : DataLoop => s.st.top ≤ MAXDEPTH)
      (fun r : St => r.top ≤ MAXDEPTH)
      (fun s s' hI hb => hstep s _ hb hI) (fun s r hI hb => hstep s _ hb hI) n s0 r h0 hr
  · intro s pc indvar lowbd upbd step hivl hmem hget htop
    have hget2 : vars[pc]? = some (VAR.Dostart indvar lowbd upbd step) := by simpa using hget
    simp [data_body, hivl, hmem, member_head, hget, hget2, data_dostart, htop]

/-- C23, at a DATA statement with nine nested implied do loops: after eight
iterations eight entries are active; the ninth `Dostart` ends the walk with
the diagnostic 34, eight entries on the stack and nothing written. -/
theorem C23_dostack_bound_witness :
    ((∀ (n : Nat) (x : DataLoop ⊕ St),
      data_iter exEnv 5 exVarsDeep 0 0 n ⟨some 0, 0, exIctIdo, 0, exSt⟩ = Res.ok x →
      (data_iter_state x).top ≤ MAXDEPTH) ∧
    (∀ (n : Nat) (r : St),
      data_loop exEnv 5 exVarsDeep 0 0 n ⟨some 0, 0, exIctIdo, 0, exSt⟩ = Res.ok r →
      r.top ≤ MAXDEPTH) ∧
    (∀ (s : DataLoop) (pc : Nat) (indvar lowbd upbd step : IExpr),
      s.ivl = some pc → s.member = 0 →
      exVarsDeep.get? pc = some (VAR.Dostart indvar lowbd upbd step) → s.st.top = MAXDEPTH →
      data_body exEnv
        (fun v member ic rep st1 => dinit_varref exEnv 5 v member ic 0 rep 0 st1)
        exVarsDeep s = Res.ok (Sum.inr (report (Diag.errsev 34) s.st)))) ∧
    depth_view (data_iter exEnv 5 exVarsDeep 0 0 8 ⟨some 0, 0, exIctIdo, 0, exSt⟩) =
      Res.ok (8, [], []) ∧
    depth_view (data_iter exEnv 5 exVarsDeep 0 0 9 ⟨some 0, 0, exIctIdo, 0, exSt⟩) =
      Res.ok (8, [Diag.errsev 34], []) :=
  ⟨C23_dostack_bound exEnv 5 exVarsDeep 0 0 ⟨some 0, 0, exIctIdo, 0, exSt⟩ (by decide),
    by decide!, by decide!⟩

theorem enqueue_all_df : ∀ (calls : List Deferred) (st : St),
    (enqueue_all calls st).df = if calls.isEmpty then st.df else some (queue st ++ calls) := by
  intro calls
  induction calls with
  | nil => intro st; rfl
  | cons d rest ih =>
    intro st
    show (enqueue_all rest (dinit d.ivl d.ict { st with lineno := d.lineno, findex := d.findex })).df
      = _
    rw [ih]
    have hd : (dinit d.ivl d.ict { st with lineno := d.lineno, findex := d.findex }).df =
        some (queue st ++ [d]) := by
      cases d
      rfl
    cases rest with
    | nil => simp [hd]
    | cons e tl => simp [queue, hd]

/-- The log does not change what the loop of `do_dinit` does, and it holds the
records that are not skipped, in the order of the file, with the position each
was saved with. -/
theorem do_dinit_log_spec (env : Env) (fuel : Nat) : ∀ (q : List Deferred) (st : St),
    do_dinit_loop env fuel q st = (do_dinit_log env fuel q st).bind (fun r => Res.ok r.2) ∧
    ∀ log st1, do_dinit_log env fuel q st = Res.ok (log, st1) →
      log = q.filter (fun d => !skip_record env d.ict) := by
  intro q
  induction q with
  | nil =>
    intro st
    refine ⟨rfl, ?_⟩
    intro log st1 h
    simp only [do_dinit_log, Res.ok.injEq, Prod.mk.injEq] at h
    simp [← h.1]
  | cons d rest ih =>
    intro st
    by_cases hs : skip_record env d.ict = true
    · simp only [do_dinit_loop, do_dinit_log, hs, if_true]
      refine ⟨(ih _).1, ?_⟩
      intro log st1 h
      rw [(ih _).2 log st1 h]
      simp [hs]
    · simp only [do_dinit_loop, do_dinit_log, hs, Bool.false_eq_true, if_false]
      cases hdf : df_dinit env fuel d.ivl d.ict { st with lineno := d.lineno, findex := d.findex } with
      | ok st2 =>
        simp only [Res.bind]
        constructor
        · rw [(ih st2).1]
          cases do_dinit_log env fuel rest st2 <;> rfl
        · intro log st1 h
          cases hl : do_dinit_log env fuel rest st2 with
          | ok r =>
            rw [hl] at h
            simp only [Res.ok.injEq, Prod.mk.injEq] at h
            have := (ih st2).2 r.1 r.2 hl
            rw [← h.1, this]
            cases d
            simp at hs
            simp [hs]
          | fuel => rw [hl] at h; simp at h
          | undef => rw [hl] at h; simp at h
      | fuel => simp [Res.bind]
      | undef => simp [Res.bind]

/-- C27: the order of the deferred queue.  After a non-empty sequence of calls
of `dinit`, each made at its own source position, the file holds the records
it held before followed by one record per call, in the order of the calls,
each with the position of its call.  A `do_dinit` that returns has then made
the calls of `df_dinit` logged by `do_dinit_log`: one for every record that is
not skipped, in the order of the file and so of the calls, each with
`gbl.lineno` and `gbl.findex` set to the position saved with the record; the
file is closed (`df` is null), and a further `do_dinit`, with any fuel, returns
the state unchanged: no record is processed a second time. -/
theorem C27_deferred_queue (env : Env) (fuel : Nat) (calls : List Deferred) (st : St)
    (hne : calls ≠ []) :
    (enqueue_all calls st).df = some (queue st ++ calls) ∧
    ∀ s2, do_dinit env fuel (enqueue_all calls st) = Res.ok s2 →
      (∃ log st1,
        do_dinit_log env fuel (queue st ++ calls)
          { enqueue_all calls st with init_const := fun _ => [] } = Res.ok (log, st1) ∧
        log = (queue st ++ calls).filter (fun d => !skip_record env d.ict) ∧
        s2 = { st1 with df := none }) ∧
      s2.df = none ∧ ∀ fuel2, do_dinit env fuel2 s2 = Res.ok s2 := by
  have hdf : (enqueue_all calls st).df = some (queue st ++ calls) := by
    rw [enqueue_all_df]
    cases calls with
    | nil => exact absurd rfl hne
    | cons d rest => rfl
  refine ⟨hdf, ?_⟩
  intro s2 h
  unfold do_dinit at h
  split at h
  · rename_i hnone
    rw [hdf] at hnone
    cases hnone
  rename_i q hq
  rw [hdf] at hq
  cases hq
  obtain ⟨st1, h1, h2⟩ := bind_eq_ok h
  simp only [Res.ok.injEq] at h2
  have hs := do_dinit_log_spec env fuel (queue st ++ calls)
    { enqueue_all calls st with init_const := fun _ => [] }
  rw [hs.1] at h1
  obtain ⟨r, hr, hr2⟩ := bind_eq_ok h1
  simp only [Res.ok.injEq] at hr2
  refine ⟨⟨r.1, st1, ?_, ?_, h2.symm⟩, ?_, ?_⟩
  · rw [hr, ← hr2]
  · exact hs.2 r.1 r.2 hr
  · rw [← h2]
  · intro fuel2
    rw [← h2]
    rfl

/-- C27, at the two statements `DATA k /7/` (line 3) and `DATA a(2) /8/`
(line 9) saved in this order: `df_dinit` is called for the first with line 3
and then for the second with line 9, and the records of `k` come before those
of `a(2)`. -/
theorem C27_deferred_queue_witness :
    ((enqueue_all exCalls exSt).df = some (queue exSt ++ exCalls) ∧
    ∀ s2, do_dinit exEnv 10 (enqueue_all exCalls exSt) = Res.ok s2 →
      (∃ log st1,
        do_dinit_log exEnv 10 (queue exSt ++ exCalls)
          { enqueue_all exCalls exSt with init_const := fun _ => [] } = Res.ok (log, st1) ∧
        log = (queue exSt ++ exCalls).filter (fun d => !skip_record exEnv d.ict) ∧
        s2 = { st1 with df := none }) ∧
      s2.df = none ∧ ∀ fuel2, do_dinit exEnv fuel2 s2 = Res.ok s2) ∧
    log_view (do_dinit_log exEnv 10 exCalls exSt) =
      Res.ok [([VAR.Varref exRefK], 3, 1), ([VAR.Varref exRefA2], 9, 1)] ∧
    drain_view (do_dinit exEnv 10 (enqueue_all exCalls exSt)) =
      Res.ok ([Directive.SetLocation 12, Directive.StoreValue 5 7,
        Directive.SetLocation 10, Directive.SetOffset 4, Directive.StoreValue 5 8], [], 0) :=
  ⟨C27_deferred_queue exEnv 10 exCalls exSt (List.cons_ne_nil _ _), by decide!, by decide!⟩

/-- C28 at two statements whose constants are `7, 8, 9`.  In
`DATA ((a(i), i = 1, 0), b(l), l = 1, 3)` the zero-trip loop has no loop in
its body: the walk resumes after its `Doend`, `a` is not touched, the three
elements of `b` are written and the stack is empty at the end.  In
`DATA (((a(i), i = 1, 2), j = 1, 0), b(l), l = 1, 3)` the zero-trip loop over
`j` (node 1, matching `Doend` at node 5) holds the loop over `i`: the skip
stops at the `Doend` of the inner loop (node 4), the `Doend` of the loop over
`j` then pops the entry of the loop over `l`, and the walk runs the body of
the zero-trip loop: `a(1)`, `a(2)` and `a(1)` again are written, no element of
`b` is, and the walk ends with error 66 and two entries on the stack. -/
theorem C28_zero_trip_nested :
    walk_view (dinit_data exEnv 40 exVarsZeroTrip (some 0) exIctIdo 0 0 exSt) =
      Res.ok ([Directive.SetLocation 11, Directive.StoreValue 5 7,
        Directive.SetLocation 11, Directive.SetOffset 4, Directive.StoreValue 5 8,
        Directive.SetLocation 11, Directive.SetOffset 8, Directive.StoreValue 5 9], [], 0, 0) ∧
    skip_to_doend exVarsZeroTripNested 7 1 = some 4 ∧
    walk_view (dinit_data exEnv 40 exVarsZeroTripNested (some 0) exIctIdo 0 0 exSt) =
      Res.ok ([Directive.SetLocation 10, Directive.StoreValue 5 7,
        Directive.SetLocation 10, Directive.SetOffset 4, Directive.StoreValue 5 8,
        Directive.SetLocation 10, Directive.StoreValue 5 9], [Diag.errsev 66], 1, 2) := by
  decide!

/-- With every subscript within its bounds, the subscript loop of `mkeffadr`
accumulates the element offset of the subscript values. -/
theorem mkeffadr_subs_value (env : Env) (mem : Nat) : ∀ (subs : List IExpr) (i : Nat)
    (tot : Int) (s : St),
    in_bounds env mem (subs.map fun e => (eval env e s).1) i = true →
    (mkeffadr_subs env mem subs i tot s).1 =
      tot + element_offset env mem (subs.map fun e => (eval env e s).1) i := by
  intro subs
  induction subs with
  | nil => intro i tot s _; simp [mkeffadr_subs, element_offset]
  | cons e es ih =>
    intro i tot s hin
    simp only [List.map_cons, in_bounds, Bool.and_eq_true, decide_eq_true_eq] at hin
    obtain ⟨⟨h1, h2⟩, h3⟩ := hin
    have hmap : (es.map fun x => (eval env x (eval env e s).2).1) =
        es.map fun x => (eval env x s).1 := by
      apply List.map_congr_left
      intro x _
      exact eval_value_congr env x _ _ (eval_frame env e s).2.1 (eval_frame env e s).2.2.1
    simp only [mkeffadr_subs, List.map_cons, element_offset]
    rw [if_neg (by omega)]
    rw [ih (i + 1) _ _ (by rw [hmap]; exact h3), hmap]
    ring

/-- The mixed-radix bound: with subscripts within their bounds and
column-major multipliers from a non-negative multiplier `mlpyr_i` on, the
element offset is non-negative and, with one more `mlpyr_i`, at most `mlpyr_i`
times the number of elements. -/
theorem element_offset_bound (env : Env) (mem : Nat) : ∀ (vals : List Int) (i : Nat),
    in_bounds env mem vals i = true → 0 ≤ env.mlpyr mem i →
    (∀ j, j + 1 < vals.length →
      env.mlpyr mem (i + j + 1) =
        env.mlpyr mem (i + j) * (env.upbd mem (i + j) - env.lwbd mem (i + j) + 1)) →
    0 ≤ element_offset env mem vals i ∧
    element_offset env mem vals i + env.mlpyr mem i ≤
      env.mlpyr mem i * extent_product env mem vals.length i := by
  intro vals
  induction vals with
  | nil =>
    intro i _ hm _
    simp [element_offset, extent_product]
  | cons v vs ih =>
    intro i hin hm hcm
    simp only [in_bounds, Bool.and_eq_true, decide_eq_true_eq] at hin
    obtain ⟨⟨h1, h2⟩, h3⟩ := hin
    simp only [element_offset, List.length_cons, extent_product]
    have hd : 0 ≤ (v - env.lwbd mem i) * env.mlpyr mem i := mul_nonneg (by omega) hm
    have hd1 : (v - env.lwbd mem i + 1) * env.mlpyr mem i ≤
        (env.upbd mem i - env.lwbd mem i + 1) * env.mlpyr mem i :=
      mul_le_mul_of_nonneg_right (by omega) hm
    cases vs with
    | nil =>
      simp only [element_offset, List.length_nil, extent_product]
      constructor
      · linarith
      · nlinarith
    | cons w ws =>
      have hm1 : env.mlpyr mem (i + 1) =
          env.mlpyr mem i * (env.upbd mem i - env.lwbd mem i + 1) := by
        have := hcm 0 (by simp)
        simpa using this
      have hm1n : 0 ≤ env.mlpyr mem (i + 1) := by
        rw [hm1]
        exact mul_nonneg hm (by omega)
      obtain ⟨a1, a2⟩ := ih (i + 1) h3 hm1n (by
        intro j hj
        have := hcm (j + 1) (by simp at hj ⊢; omega)
        have e1 : i + (j + 1) + 1 = i + 1 + j + 1 := by omega
        have e2 : i + (j + 1) = i + 1 + j := by omega
        rw [e1, e2] at this
        exact this)
      constructor
      · linarith
      · rw [hm1] at a2
        nlinarith

/-- C30: the address of an array element.  For every `IM_ELEMENT` reference
whose base resolves without error to an address with member `mem`, and whose
subscript values all lie within the declared bounds of `mem`: `mkeffadr`
returns the symbol and member of the base, and the offset of the base plus
the element size times the sum of `(s_i - lb_i) * mlpyr_i`.  With
column-major multipliers and a positive element size, the bytes added are at
least 0 and fewer than the element size times the number of elements, the
size of the array. -/
theorem C30_element_address (env : Env) (st : St) (base : IRef) (subs : List IExpr)
    (hbase : (mkeffadr env base st).dinit_error = 0)
    (hin : in_bounds env (mkeffadr env base st).buf.mem
      (subs.map fun e => (eval env e (mkeffadr env base st)).1) 0 = true) :
    (mkeffadr env (IRef.ELEMENT base subs) st).buf.sptr = (mkeffadr env base st).buf.sptr ∧
    (mkeffadr env (IRef.ELEMENT base subs) st).buf.mem = (mkeffadr env base st).buf.mem ∧
    (mkeffadr env (IRef.ELEMENT base subs) st).buf.offset =
      (mkeffadr env base st).buf.offset +
        env.size_of (env.DDTG (env.DTYPEG (mkeffadr env base st).buf.mem)) *
          element_offset env (mkeffadr env base st).buf.mem
            (subs.map fun e => (eval env e (mkeffadr env base st)).1) 0 ∧
    (column_major env (mkeffadr env base st).buf.mem subs.length →
      0 < env.size_of (env.DDTG (env.DTYPEG (mkeffadr env base st).buf.mem)) →
      0 ≤ env.size_of (env.DDTG (env.DTYPEG (mkeffadr env base st).buf.mem)) *
          element_offset env (mkeffadr env base st).buf.mem
            (subs.map fun e => (eval env e (mkeffadr env base st)).1) 0 ∧
      env.size_of (env.DDTG (env.DTYPEG (mkeffadr env base st).buf.mem)) *
          element_offset env (mkeffadr env base st).buf.mem
            (subs.map fun e => (eval env e (mkeffadr env base st)).1) 0 <
        env.size_of (env.DDTG (env.DTYPEG (mkeffadr env base st).buf.mem)) *
          extent_product env (mkeffadr env base st).buf.mem subs.length 0) := by
  have hval := mkeffadr_subs_value env (mkeffadr env base st).buf.mem subs 0 0
    (mkeffadr env base st) hin
  have hbuf := (mkeffadr_subs_frame env (mkeffadr env base st).buf.mem subs 0 0
    (mkeffadr env base st)).2.2.2
  have hE : mkeffadr env (IRef.ELEMENT base subs) st =
      buf_add ((mkeffadr_subs env (mkeffadr env base st).buf.mem subs 0 0
          (mkeffadr env base st)).1 *
        env.size_of (env.DDTG (env.DTYPEG (mkeffadr_subs env (mkeffadr env base st).buf.mem
          subs 0 0 (mkeffadr env base st)).2.buf.mem)))
        (mkeffadr_subs env (mkeffadr env base st).buf.mem subs 0 0 (mkeffadr env base st)).2 := by
    simp [mkeffadr, truthy, hbase]
  refine ⟨?_, ?_, ?_, ?_⟩
  · rw [hE]
    simp only [buf_add, hbuf]
  · rw [hE]
    simp only [buf_add, hbuf]
  · rw [hE]
    simp only [buf_add, hbuf, hval]
    ring
  · intro hcm hsz
    obtain ⟨b1, b2⟩ := element_offset_bound env (mkeffadr env base st).buf.mem
      (subs.map fun e => (eval env e (mkeffadr env base st)).1) 0 hin
      (by rw [hcm.1]; decide)
      (by
        intro j hj
        have := hcm.2 j (by simp at hj; omega)
        simpa using this)
    rw [hcm.1, List.length_map] at b2
    constructor
    · exact mul_nonneg (le_of_lt hsz) b1
    · apply mul_lt_mul_of_pos_left _ hsz
      linarith

/-- C30, at the element `c(2, 3)` of `integer c(2, 3)`: the offset is
`4 * ((2 - 1) * 1 + (3 - 1) * 2) = 20`, below the 24 bytes of the array. -/
theorem C30_element_address_witness :
    ((mkeffadr exEnv2D (IRef.ELEMENT (IRef.BASE 40) [IExpr.ICON 102, IExpr.ICON 103])
        exSt).buf.sptr = (mkeffadr exEnv2D (IRef.BASE 40) exSt).buf.sptr ∧
    (mkeffadr exEnv2D (IRef.ELEMENT (IRef.BASE 40) [IExpr.ICON 102, IExpr.ICON 103])
        exSt).buf.mem = (mkeffadr exEnv2D (IRef.BASE 40) exSt).buf.mem ∧
    (mkeffadr exEnv2D (IRef.ELEMENT (IRef.BASE 40) [IExpr.ICON 102, IExpr.ICON 103])
        exSt).buf.offset =
      (mkeffadr exEnv2D (IRef.BASE 40) exSt).buf.offset +
        exEnv2D.size_of (exEnv2D.DDTG (exEnv2D.DTYPEG (mkeffadr exEnv2D (IRef.BASE 40) exSt).buf.mem)) *
          element_offset exEnv2D (mkeffadr exEnv2D (IRef.BASE 40) exSt).buf.mem
            ([IExpr.ICON 102, IExpr.ICON 103].map fun e =>
              (eval exEnv2D e (mkeffadr exEnv2D (IRef.BASE 40) exSt)).1) 0 ∧
    (column_major exEnv2D (mkeffadr exEnv2D (IRef.BASE 40) exSt).buf.mem
        [IExpr.ICON 102, IExpr.ICON 103].length →
      0 < exEnv2D.size_of (exEnv2D.DDTG (exEnv2D.DTYPEG (mkeffadr exEnv2D (IRef.BASE 40) exSt).buf.mem)) →
      0 ≤ exEnv2D.size_of (exEnv2D.DDTG (exEnv2D.DTYPEG (mkeffadr exEnv2D (IRef.BASE 40) exSt).buf.mem)) *
          element_offset exEnv2D (mkeffadr exEnv2D (IRef.BASE 40) exSt).buf.mem
            ([IExpr.ICON 102, IExpr.ICON 103].map fun e =>
              (eval exEnv2D e (mkeffadr exEnv2D (IRef.BASE 40) exSt)).1) 0 ∧
      exEnv2D.size_of (exEnv2D.DDTG (exEnv2D.DTYPEG (mkeffadr exEnv2D (IRef.BASE 40) exSt).buf.mem)) *
          element_offset exEnv2D (mkeffadr exEnv2D (IRef.BASE 40) exSt).buf.mem
            ([IExpr.ICON 102, IExpr.ICON 103].map fun e =>
              (eval exEnv2D e (mkeffadr exEnv2D (IRef.BASE 40) exSt)).1) 0 <
        exEnv2D.size_of (exEnv2D.DDTG (exEnv2D.DTYPEG (mkeffadr exEnv2D (IRef.BASE 40) exSt).buf.mem)) *
          extent_product exEnv2D (mkeffadr exEnv2D (IRef.BASE 40) exSt).buf.mem
            [IExpr.ICON 102, IExpr.ICON 103].length 0)) ∧
    (mkeffadr exEnv2D exRefC23 exSt).buf = EFFADR.mk 40 40 20 ∧
    column_major exEnv2D 40 2 ∧
    exEnv2D.size_of 5 * extent_product exEnv2D 40 2 0 = 24 :=
  ⟨C30_element_address exEnv2D exSt (IRef.BASE 40) [IExpr.ICON 102, IExpr.ICON 103]
      (by decide) (by decide),
    by decide, ⟨by decide, by decide⟩, by decide⟩

/-- On a list whose nodes all have a repeat count of at most 1, the lookup
loop of `eval_sb` ends at the node `k` positions further. -/
theorem sb_lookup_plain : ∀ (v : List CONST) (k : Nat), (∀ c ∈ v, c.repeatc ≤ 1) →
    sb_lookup (k + 1) v (k : Int) = Res.ok (v.drop k) := by
  intro v
  induction v with
  | nil => intro k _; simp [sb_lookup]
  | cons c next ih =>
    intro k h
    cases k with
    | zero => simp [sb_lookup]
    | succ k =>
      have hc : ¬ c.repeatc > 1 := by
        have := h c (List.mem_cons_self c next)
        omega
      have hk : ((k + 1 : Nat) : Int) ≠ 0 := by omega
      simp only [sb_lookup, hk, if_false, hc, List.drop_succ_cons]
      have e : ((k + 1 : Nat) : Int) - 1 = (k : Int) := by omega
      rw [e]
      exact ih k (fun d hd => h d (List.mem_cons_of_mem c hd))

/-- C29 at the array values `(/5, 6, 7/)` and `(/2*5, 7/)` (the value 5 with a
repeat count of 2, then 7), both of three elements, and the section `(1:3:1)`.
For the first the lookup at offset 2 ends at the node 7 and the section is
`5, 6, 7`.  For the second, whose run-length expansion is `5, 5, 7`, the
lookup at offset 2 ends at the node 5, and the section is `5, 5, 5`. -/
theorem C29_section_lookup :
    leaf_view (sb_lookup 10 [CONST.leaf 5 1 5, CONST.leaf 5 1 6, CONST.leaf 5 1 7] 2) =
      Res.ok [(7, 1)] ∧
    section_view (eval_const_array_section exEnv (eval_init_expr_item exEnv 10)
      (eval_array_constructor exEnv 10) 10 ⟨[], [], 1, [exTriple 1 3 1], []⟩
      [CONST.leaf 5 1 5, CONST.leaf 5 1 6, CONST.leaf 5 1 7] 7 7 exSt) =
      Res.ok [(5, 1), (6, 1), (7, 1)] ∧
    (expand [CONST.leaf 5 2 5, CONST.leaf 5 1 7]).map (fun c => c.conval) = [5, 5, 7] ∧
    leaf_view (sb_lookup 10 [CONST.leaf 5 2 5, CONST.leaf 5 1 7] 2) =
      Res.ok [(5, 2), (7, 1)] ∧
    section_view (eval_const_array_section exEnv (eval_init_expr_item exEnv 10)
      (eval_array_constructor exEnv 10) 10 ⟨[], [], 1, [exTriple 1 3 1], []⟩
      [CONST.leaf 5 2 5, CONST.leaf 5 1 7] 7 7 exSt) =
      Res.ok [(5, 1), (5, 1), (5, 1)] := by
  decide!

/-- C22 at the arguments `(/1, 5/)`, `(/3, 2/)`, `(/4, 0/)`.  With a result
type of kind `TY_INT` the minimum is `(/1, 0/)` and the maximum `(/4, 5/)`.
With the array type of the arguments as result type (kind `TY_ARRAY`), and
for two-byte integer arrays with the two-byte integer type (kind `TY_SINT`) or
their array type as result type, the `switch` has no case: the minimum and
the maximum of `(/1, 5/)` and `(/3, 2/)` are returned as `(/1, 5/)`, the first
argument. -/
theorem C22_min_max_arrays :
    reshape_view (eval_min exEnvMinMax (eval_init_expr_item exEnvMinMax 10)
      [exCtorOf 44 [CONST.leaf 5 1 1, CONST.leaf 5 1 5],
        exCtorOf 44 [CONST.leaf 5 1 3, CONST.leaf 5 1 2],
        exCtorOf 44 [CONST.leaf 5 1 4, CONST.leaf 5 1 0]] 5 exSt) =
      Res.ok [(1, 1), (0, 1)] ∧
    reshape_view (eval_max exEnvMinMax (eval_init_expr_item exEnvMinMax 10)
      [exCtorOf 44 [CONST.leaf 5 1 1, CONST.leaf 5 1 5],
        exCtorOf 44 [CONST.leaf 5 1 3, CONST.leaf 5 1 2],
        exCtorOf 44 [CONST.leaf 5 1 4, CONST.leaf 5 1 0]] 5 exSt) =
      Res.ok [(4, 1), (5, 1)] ∧
    reshape_view (eval_min exEnvMinMax (eval_init_expr_item exEnvMinMax 10)
      [exCtorOf 44 [CONST.leaf 5 1 1, CONST.leaf 5 1 5],
        exCtorOf 44 [CONST.leaf 5 1 3, CONST.leaf 5 1 2]] 44 exSt) =
      Res.ok [(1, 1), (5, 1)] ∧
    reshape_view (eval_min exEnvMinMax (eval_init_expr_item exEnvMinMax 10)
      [exCtorOf 46 [CONST.leaf 2 1 1, CONST.leaf 2 1 5],
        exCtorOf 46 [CONST.leaf 2 1 3, CONST.leaf 2 1 2]] 2 exSt) =
      Res.ok [(1, 1), (5, 1)] ∧
    reshape_view (eval_min exEnvMinMax (eval_init_expr_item exEnvMinMax 10)
      [exCtorOf 46 [CONST.leaf 2 1 1, CONST.leaf 2 1 5],
        exCtorOf 46 [CONST.leaf 2 1 3, CONST.leaf 2 1 2]] 46 exSt) =
      Res.ok [(1, 1), (5, 1)] ∧
    reshape_view (eval_max exEnvMinMax (eval_init_expr_item exEnvMinMax 10)
      [exCtorOf 46 [CONST.leaf 2 1 1, CONST.leaf 2 1 5],
        exCtorOf 46 [CONST.leaf 2 1 3, CONST.leaf 2 1 2]] 2 exSt) =
      Res.ok [(1, 1), (5, 1)] := by
  decide!

theorem Good.setSptr {c : CONST} (h : Good c) (v : Nat) : Good (c.setSptr v) := by
  cases h with
  | mk id subc repeatc sptr mbr dtype nd conval op lop rop iv a b c h1 h2 h3 h4 h5 h6 h7 =>
    exact Good.mk _ _ _ _ _ _ _ _ _ _ _ _ _ _ _ h1 h2 h3 h4 h5 h6 h7

theorem Good.setConval {c : CONST} (h : Good c) (v : Int) : Good (c.setConval v) := by
  cases h with
  | mk id subc repeatc sptr mbr dtype nd conval op lop rop iv a b c h1 h2 h3 h4 h5 h6 h7 =>
    exact Good.mk _ _ _ _ _ _ _ _ _ _ _ _ _ _ _ h1 h2 h3 h4 h5 h6 h7

theorem Good.setDtype {c : CONST} (h : Good c) (v : Nat) : Good (c.setDtype v) := by
  cases h with
  | mk id subc repeatc sptr mbr dtype nd conval op lop rop iv a b c h1 h2 h3 h4 h5 h6 h7 =>
    exact Good.mk _ _ _ _ _ _ _ _ _ _ _ _ _ _ _ h1 h2 h3 h4 h5 h6 h7

theorem Good.setSubc {c : CONST} (h : Good c) {l : List CONST} (hl : GoodL l) :
    Good (c.setSubc l) := by
  cases h with
  | mk id subc repeatc sptr mbr dtype nd conval op lop rop iv a b c h1 h2 h3 h4 h5 h6 h7 =>
    exact Good.mk _ _ _ _ _ _ _ _ _ _ _ _ _ _ _ h1 hl h3 h4 h5 h6 h7

theorem Good.setId {c : CONST} (h : Good c) (v : ACID)
    (hv : ¬ (v = ACID.CONST ∨ v = ACID.CONVAL)) : Good (c.setId v) := by
  cases h with
  | mk id subc repeatc sptr mbr dtype nd conval op lop rop iv a b c h1 h2 h3 h4 h5 h6 h7 =>
    exact Good.mk _ _ _ _ _ _ _ _ _ _ _ _ _ _ _ (fun e => absurd e hv) h2 h3 h4 h5 h6 h7

theorem good_leaf (dtype : Nat) (repeatc conval : Int) (h : 1 ≤ repeatc) :
    Good (CONST.leaf dtype repeatc conval) :=
  Good.mk _ _ _ _ _ _ _ _ _ _ _ _ _ _ _ (fun _ => h) (by simp) (by simp) (by simp) (by simp)
    (by simp) (by simp)

theorem buf_write_inside (b : Nat → Int) (p : Nat) (l : List Int) (i : Nat)
    (h1 : p ≤ i) (h2 : i < p + l.length) : buf_write b p l i = l.getD (i - p) 0 := by
  simp [buf_write, h1, h2]

theorem buf_write_outside (b : Nat → Int) (p : Nat) (l : List Int) (i : Nat)
    (h : i < p ∨ p + l.length ≤ i) : buf_write b p l i = b i := by
  unfold buf_write
  rw [if_neg]
  omega

theorem buf_read_length (buf : Nat → Int) (q n : Nat) : (buf_read buf q n).length = n := by
  simp [buf_read]

theorem buf_read_getD (buf : Nat → Int) (q n j : Nat) (h : j < n) :
    (buf_read buf q n).getD j 0 = buf (q + j) := by
  simp [buf_read, List.getD_eq_getElem?_getD, h]

theorem store_int_in (env : Env) (buf b : Nat → Int) (k i : Nat) (hw : word_ok env buf k)
    (h1 : 4 * k ≤ i) (h2 : i < 4 * k + 4) :
    store_int env b 0 k (load_int env buf 0 k) i = buf i := by
  unfold store_int
  unfold word_ok at hw
  rw [hw, buf_write_inside _ _ _ _ (by omega) (by rw [buf_read_length]; omega),
    buf_read_getD _ _ _ _ (by omega)]
  congr 1
  omega

theorem store_int_out (env : Env) (buf b : Nat → Int) (k i : Nat) (hw : word_ok env buf k)
    (h : i < 4 * k ∨ 4 * k + 4 ≤ i) :
    store_int env b 0 k (load_int env buf 0 k) i = b i := by
  unfold store_int
  unfold word_ok at hw
  rw [hw, buf_write_outside _ _ _ _ (by rw [buf_read_length]; omega)]

/-- Storing the value that `transfer_load` reads from a buffer gives back the
first bytes of that buffer, as many as the result type has. -/
theorem transfer_roundtrip (env : Env) (rdtype : Nat) (buf : Nat → Int)
    (h : transfer_ok env rdtype buf) (b : Nat → Int) (i : Nat)
    (hi : (i : Int) < env.size_of rdtype) :
    (transfer_store env (transfer_load env rdtype buf 0).1 rdtype b 0).1 i = buf i := by
  unfold transfer_ok at h
  by_cases hw : env.DT_ISWORD rdtype = true
  · simp only [hw, if_true] at h
    simp only [transfer_store, transfer_load, hw, if_true]
    exact store_int_in env buf b 0 i h.2 (by omega) (by omega)
  · simp only [hw, Bool.false_eq_true, if_false] at h
    simp only [transfer_store, transfer_load, hw, Bool.false_eq_true, if_false]
    cases hk : env.DTY rdtype <;> simp only [hk] at h ⊢ <;>
      first
        | exact absurd h id
        | (obtain ⟨hs, w0, w1, hc⟩ := h
           simp only [(hc _ _ _).1, (hc _ _ _).2]
           by_cases h4 : i < 4
           · rw [store_int_out env buf _ 1 i w1 (by omega)]
             exact store_int_in env buf b 0 i w0 (by omega) (by omega)
           · exact store_int_in env buf _ 1 i w1 (by omega) (by omega))
        | (obtain ⟨hs, w0, w1, w2, w3, hc⟩ := h
           simp only [(hc _ _ _).1, (hc _ _ _).2]
           by_cases h12 : 12 ≤ i
           · exact store_int_in env buf _ 3 i w3 (by omega) (by omega)
           · rw [store_int_out env buf _ 3 i w3 (by omega)]
             by_cases h8 : 8 ≤ i
             · exact store_int_in env buf _ 2 i w2 (by omega) (by omega)
             · rw [store_int_out env buf _ 2 i w2 (by omega)]
               by_cases h4 : 4 ≤ i
               · exact store_int_in env buf _ 1 i w1 (by omega) (by omega)
               · rw [store_int_out env buf _ 1 i w1 (by omega)]
                 exact store_int_in env buf b 0 i w0 (by omega) (by omega))
        | (have hn : i < (env.size_of rdtype).toNat := by omega
           rw [buf_write_inside _ _ _ _ (by omega)
             (by rw [List.length_map, List.length_range]; omega)]
           simp only [Nat.sub_zero]
           rw [List.getD_eq_getElem?_getD]
           simp only [List.getElem?_map, List.getElem?_range hn, Option.map_some',
             Option.getD_some]
           rw [h _ i (by rw [buf_read_length]; exact hn), buf_read_getD _ _ _ _ hn]
           simp)

/-- With a result narrower than a source element, the fill loop stores the
first source element and stops. -/
theorem transfer_fill_once (env : Env) (sdtype : Nat) (ssize rsize pad : Int) (k : Nat)
    (c0 : CONST) (rest : List CONST) (buf : Nat → Int) (hpos : 0 < rsize) (hlt : rsize < ssize) :
    transfer_fill env sdtype ssize rsize pad (k + 2) (c0 :: rest) 0 0 buf =
      Res.ok { src := rest, bp := ssize.toNat, avail := ssize,
               buf := (transfer_store env c0.conval sdtype buf 0).1,
               diags := (transfer_store env c0.conval sdtype buf 0).2 ++ [] } := by
  have h1 : ¬ (ssize < rsize) := by omega
  simp [transfer_fill, hpos, h1, Res.bind]

/-- C21, as stated, fails for a word type of less than four bytes: at
`TRANSFER((/ 70000, 1 /), mold)` with a two-byte integer mold the image of
the source starts with the bytes 112, 17, 1, 0; the two-byte integer whose
image is the first two bytes is 4464, but `eval_transfer` returns a leaf of
the two-byte type whose value is the whole first word, 70000, which is no
two-byte integer. -/
theorem C21_counterexample :
    exEnvTransfer.size_of 2 = 2 ∧ exEnvTransfer.size_of 5 = 4 ∧
    buf_read (transfer_store exEnvTransfer 70000 5 (transfer_buffer exEnvTransfer 5 4) 0).1 0 4 =
      [112, 17, 1, 0] ∧
    short_of_image 112 17 = 4464 ∧
    node_view (eval_transfer exEnvTransfer (eval_init_expr exEnvTransfer 4) 2
      [exCtorOf 44 [CONST.leaf 5 1 70000, CONST.leaf 5 1 1]] 2 exSt) =
      Res.ok [(ACID.CONST, 70000, 1)] ∧
    (∀ b0 b1 : Int, 0 ≤ b0 → b0 < 256 → 0 ≤ b1 → b1 < 256 → short_of_image b0 b1 ≠ 70000) := by
  refine ⟨by decide, by decide, by decide!, by decide, by decide!, ?_⟩
  intro b0 b1 h0 h1 h2 h3
  unfold short_of_image
  split_ifs <;> omega

/-- C21 (amended): transfer to a narrower scalar.  For a folded source with
at least one element `c0` and a scalar result type whose size is positive and
smaller than the size of a source element: the loop of `eval_transfer` stores
the first source element only, so the bytes it holds are the image of `c0`,
the start of the image of the source; the routine returns (2 units of fuel
suffice) one leaf of the result type with repeat count 1 whose value `v` is
what `transfer_load` reads from that image, without any conversion: for a
word type, whatever its size, the whole first four-byte word of the image.
For a result type of a kind that `transfer_load` handles (`transfer_ok`), the
image of `v` as `transfer_store` writes it has, in its first result-size
bytes, exactly the first result-size bytes of the image of the source. -/
theorem C21_transfer_narrower (env : Env) (recE : List CONST → St → Res (List CONST × St))
    (fuel : Nat) (arg : List CONST) (dtype : Nat) (st st1 : St)
    (s0 : CONST) (srcs : List CONST) (c0 : CONST) (rest : List CONST)
    (hsrc : recE arg st = Res.ok (s0 :: srcs, st1))
    (helems : (if s0.id = ACID.ACONST then s0.subc else s0 :: srcs) = c0 :: rest)
    (hscalar : env.DTY dtype ≠ TY.ARRAY)
    (hpos : 0 < env.size_of (env.DDTG dtype))
    (hlt : env.size_of (env.DDTG dtype) < env.size_of (env.DDTG s0.dtype))
    (hfuel : 2 ≤ fuel)
    (hok : transfer_ok env (env.DDTG dtype)
      (transfer_store env c0.conval (env.DDTG s0.dtype)
        (transfer_buffer env (env.DDTG s0.dtype) (env.size_of (env.DDTG s0.dtype))) 0).1) :
    ∃ v st2,
      eval_transfer env recE fuel arg dtype st =
        Res.ok ([CONST.leaf (env.DDTG dtype) 1 v], st2) ∧
      v = (transfer_load env (env.DDTG dtype)
        (transfer_store env c0.conval (env.DDTG s0.dtype)
          (transfer_buffer env (env.DDTG s0.dtype) (env.size_of (env.DDTG s0.dtype))) 0).1 0).1 ∧
      (env.DT_ISWORD (env.DDTG dtype) →
        v = load_int env (transfer_store env c0.conval (env.DDTG s0.dtype)
          (transfer_buffer env (env.DDTG s0.dtype) (env.size_of (env.DDTG s0.dtype))) 0).1 0 0) ∧
      ∀ (b : Nat → Int) (i : Nat), (i : Int) < env.size_of (env.DDTG dtype) →
        (transfer_store env v (env.DDTG dtype) b 0).1 i =
          (transfer_store env c0.conval (env.DDTG s0.dtype)
            (transfer_buffer env (env.DDTG s0.dtype) (env.size_of (env.DDTG s0.dtype))) 0).1 i := by
  obtain ⟨k, rfl⟩ : ∃ k, fuel = k + 2 := ⟨fuel - 2, by omega⟩
  unfold eval_transfer
  simp only [hsrc, Res.bind, deref, helems, hscalar, ne_eq, not_false_eq_true, if_true]
  rw [transfer_fill_once env _ _ _ _ k c0 rest _ hpos hlt]
  refine ⟨_, _, rfl, rfl, ?_, fun b i hi => transfer_roundtrip env _ _ hok b i hi⟩
  intro hw
  simp [transfer_load, hw]

/-- C21 (amended), at `TRANSFER((/ 70000, 1 /), mold)` with a two-byte
integer mold: the result is read from the image of the first element, whose
bytes are 112, 17, 1 and 0; the value held by the result is the word 70000
read from that image, and its image starts with the bytes 112 and 17. -/
theorem C21_transfer_narrower_witness :
    (∃ v st2,
      eval_transfer exEnvTransfer (eval_init_expr exEnvTransfer 4) 2
          [exCtorOf 44 [CONST.leaf 5 1 70000, CONST.leaf 5 1 1]] 2 exSt =
        Res.ok ([CONST.leaf (exEnvTransfer.DDTG 2) 1 v], st2) ∧
      v = (transfer_load exEnvTransfer (exEnvTransfer.DDTG 2)
        (transfer_store exEnvTransfer (CONST.leaf 5 1 70000).conval
          (exEnvTransfer.DDTG (exCtorOf 44 [CONST.leaf 5 1 70000, CONST.leaf 5 1 1]).dtype)
          (transfer_buffer exEnvTransfer
            (exEnvTransfer.DDTG (exCtorOf 44 [CONST.leaf 5 1 70000, CONST.leaf 5 1 1]).dtype)
            (exEnvTransfer.size_of (exEnvTransfer.DDTG
              (exCtorOf 44 [CONST.leaf 5 1 70000, CONST.leaf 5 1 1]).dtype))) 0).1 0).1 ∧
      (exEnvTransfer.DT_ISWORD (exEnvTransfer.DDTG 2) →
        v = load_int exEnvTransfer (transfer_store exEnvTransfer (CONST.leaf 5 1 70000).conval
          (exEnvTransfer.DDTG (exCtorOf 44 [CONST.leaf 5 1 70000, CONST.leaf 5 1 1]).dtype)
          (transfer_buffer exEnvTransfer
            (exEnvTransfer.DDTG (exCtorOf 44 [CONST.leaf 5 1 70000, CONST.leaf 5 1 1]).dtype)
            (exEnvTransfer.size_of (exEnvTransfer.DDTG
              (exCtorOf 44 [CONST.leaf 5 1 70000, CONST.leaf 5 1 1]).dtype))) 0).1 0 0) ∧
      ∀ (b : Nat → Int) (i : Nat), (i : Int) < exEnvTransfer.size_of (exEnvTransfer.DDTG 2) →
        (transfer_store exEnvTransfer v (exEnvTransfer.DDTG 2) b 0).1 i =
          (transfer_store exEnvTransfer (CONST.leaf 5 1 70000).conval
            (exEnvTransfer.DDTG (exCtorOf 44 [CONST.leaf 5 1 70000, CONST.leaf 5 1 1]).dtype)
            (transfer_buffer exEnvTransfer
              (exEnvTransfer.DDTG (exCtorOf 44 [CONST.leaf 5 1 70000, CONST.leaf 5 1 1]).dtype)
              (exEnvTransfer.size_of (exEnvTransfer.DDTG
                (exCtorOf 44 [CONST.leaf 5 1 70000, CONST.leaf 5 1 1]).dtype))) 0).1 i) ∧
    buf_read (transfer_store exEnvTransfer 70000 5 (transfer_buffer exEnvTransfer 5 4) 0).1 0 4 =
      [112, 17, 1, 0] ∧
    (transfer_load exEnvTransfer 2
      (transfer_store exEnvTransfer 70000 5 (transfer_buffer exEnvTransfer 5 4) 0).1 0).1 =
      70000 :=
  ⟨C21_transfer_narrower exEnvTransfer (eval_init_expr exEnvTransfer 4) 2
    [exCtorOf 44 [CONST.leaf 5 1 70000, CONST.leaf 5 1 1]] 2 exSt exSt
    (exCtorOf 44 [CONST.leaf 5 1 70000, CONST.leaf 5 1 1]) [] (CONST.leaf 5 1 70000)
    [CONST.leaf 5 1 1] rfl rfl (by decide) (by decide) (by decide) (le_refl 2)
    ⟨by decide, by unfold word_ok; decide!⟩,
   by decide!, by decide!⟩

/-! ## C34: complex division -/

theorem real_div_eq (frcp : Bool) (x y : ℚ) (hy : y ≠ 0) : real_div frcp x y = some (x / y) := by
  unfold real_div
  rw [if_neg hy]
  cases frcp
  · simp
  · simp [div_eq_mul_inv]

/-- The quotient computed when the real part of the divisor is not larger in
magnitude than the imaginary part. -/
theorem smith_imag (a b c d : ℚ) (hd : d ≠ 0) :
    d * (1 + c / d * (c / d)) ≠ 0 ∧
    (a * (c / d) + b) * (1 / (d * (1 + c / d * (c / d)))) = (a * c + b * d) / (c ^ 2 + d ^ 2) ∧
    (b * (c / d) - a) * (1 / (d * (1 + c / d * (c / d)))) = (b * c - a * d) / (c ^ 2 + d ^ 2) := by
  have hs : c ^ 2 + d ^ 2 ≠ 0 := by positivity
  have e : d * (1 + c / d * (c / d)) = (c ^ 2 + d ^ 2) / d := by
    field_simp
    ring
  rw [e]
  refine ⟨div_ne_zero hs hd, ?_, ?_⟩
  · field_simp
  · field_simp
    ring

/-- The quotient computed when the real part of the divisor is larger in
magnitude than the imaginary part. -/
theorem smith_real (a b c d : ℚ) (hc : c ≠ 0) :
    c * (1 + d / c * (d / c)) ≠ 0 ∧
    (a + b * (d / c)) * (1 / (c * (1 + d / c * (d / c)))) = (a * c + b * d) / (c ^ 2 + d ^ 2) ∧
    (b - a * (d / c)) * (1 / (c * (1 + d / c * (d / c)))) = (b * c - a * d) / (c ^ 2 + d ^ 2) := by
  have hs : c ^ 2 + d ^ 2 ≠ 0 := by positivity
  have e : c * (1 + d / c * (d / c)) = (c ^ 2 + d ^ 2) / c := by
    field_simp
    ring
  rw [e]
  refine ⟨div_ne_zero hs hc, ?_, ?_⟩
  · field_simp
  · field_simp

/-- The magnitude test of the division: in its first branch the imaginary
part of a non-zero divisor is not zero, in its second branch the real part. -/
theorem magnitude_test (c d : ℚ) (h : c ≠ 0 ∨ d ≠ 0) :
    ((if c < 0 then 0 - c else c) ≤ (if d < 0 then 0 - d else d) → d ≠ 0) ∧
    (¬ (if c < 0 then 0 - c else c) ≤ (if d < 0 then 0 - d else d) → c ≠ 0) := by
  constructor
  · intro hle hd
    subst hd
    simp only [lt_self_iff_false, if_false] at hle
    rcases h with h | h
    · split_ifs at hle with hc
      · linarith
      · exact h (le_antisymm hle (not_lt.mp hc))
    · exact h rfl
  · intro hgt hc
    subst hc
    simp only [lt_self_iff_false, if_false] at hgt
    apply hgt
    split_ifs with hd
    · linarith
    · exact not_lt.mp hd

/-- C34: complex division.  With the real primitives taken as exact rational
arithmetic, for every dividend `a + b i`, every divisor `c + d i` other than
zero and both ways `_fdiv`/`_ddiv` divide, the `OP_DIV` cases of `TY_CMPLX`
and of `TY_DCMPLX` return the quotient
`((a c + b d) / (c² + d²), (b c - a d) / (c² + d²))`; a division by zero
would make the result `none`. -/
theorem C34_complex_division (frcp : Bool) (a b c d : ℚ) (h : c ≠ 0 ∨ d ≠ 0) :
    cmplx_div frcp a b c d =
      some ((a * c + b * d) / (c ^ 2 + d ^ 2), (b * c - a * d) / (c ^ 2 + d ^ 2)) ∧
    dcmplx_div frcp a b c d =
      some ((a * c + b * d) / (c ^ 2 + d ^ 2), (b * c - a * d) / (c ^ 2 + d ^ 2)) := by
  obtain ⟨h1, h2⟩ := magnitude_test c d h
  constructor
  · unfold cmplx_div
    simp only []
    by_cases hle : (if c < 0 then 0 - c else c) ≤ (if d < 0 then 0 - d else d)
    · rw [if_pos hle]
      obtain ⟨n1, n2, n3⟩ := smith_imag a b c d (h1 hle)
      rw [real_div_eq _ _ _ (h1 hle)]
      simp only [Option.some_bind]
      rw [real_div_eq _ _ _ n1]
      simp only [Option.some_bind, n2, n3]
    · rw [if_neg hle]
      obtain ⟨n1, n2, n3⟩ := smith_real a b c d (h2 hle)
      rw [real_div_eq _ _ _ (h2 hle)]
      simp only [Option.some_bind]
      rw [real_div_eq _ _ _ n1]
      simp only [Option.some_bind, n2, n3]
  · unfold dcmplx_div
    simp only []
    by_cases hle : (if c < 0 then 0 - c else c) ≤ (if d < 0 then 0 - d else d)
    · rw [if_pos hle]
      obtain ⟨n1, n2, n3⟩ := smith_imag a b c d (h1 hle)
      rw [real_div_eq _ _ _ (h1 hle)]
      simp only [Option.some_bind]
      rw [real_div_eq _ _ _ n1]
      simp only [Option.some_bind, n2, n3]
    · rw [if_neg hle]
      obtain ⟨n1, n2, n3⟩ := smith_real a b c d (h2 hle)
      rw [real_div_eq _ _ _ (h2 hle)]
      simp only [Option.some_bind]
      rw [real_div_eq _ _ _ n1]
      simp only [Option.some_bind, n2, n3]

/-- C34, at `(1 + 2i) / (3 + 4i)` (first branch of the magnitude test) and
`(1 + 2i) / (4 + 3i)` (second branch): the quotients `11/25 + 2/25 i` and
`2/5 + 1/5 i`. -/
theorem C34_complex_division_witness :
    ((cmplx_div false 1 2 3 4 =
        some ((1 * 3 + 2 * 4) / (3 ^ 2 + 4 ^ 2), (2 * 3 - 1 * 4) / (3 ^ 2 + 4 ^ 2)) ∧
      dcmplx_div false 1 2 3 4 =
        some ((1 * 3 + 2 * 4) / (3 ^ 2 + 4 ^ 2), (2 * 3 - 1 * 4) / (3 ^ 2 + 4 ^ 2))) ∧
    cmplx_div false 1 2 3 4 = some (11 / 25, 2 / 25)) ∧
    cmplx_div true 1 2 4 3 = some (2 / 5, 1 / 5) ∧ dcmplx_div true 1 2 4 3 = some (2 / 5, 1 / 5) :=
  ⟨⟨C34_complex_division false 1 2 3 4 (Or.inl (by norm_num)), by decide!⟩,
   by decide!, by decide!⟩

/-! ## C39: SELECTED_CHAR_KIND -/

/-- C39: `eval_selected_char_kind` against `_selected_char_kind`.  For the
names `ASCII` and `ISO_10646` the routine returns an integer leaf of repeat
count 1 that holds the value of the helper, 1 and -1.  For the name `DEFAULT`
the helper gives 1, and the routine returns the address 1 cast to a node
pointer, not a leaf that holds 1. -/
theorem C39_selected_char_kind :
    _selected_char_kind exEnvCharKind 1 = 1 ∧
    char_kind_view (eval_selected_char_kind exEnvCharKind (eval_init_expr exEnvCharKind 4)
      [CONST.leaf 4 1 1] exSt) = Res.ok (Sum.inl (1, exEnvCharKind.DT_INT, 1)) ∧
    _selected_char_kind exEnvCharKind 3 = -1 ∧
    char_kind_view (eval_selected_char_kind exEnvCharKind (eval_init_expr exEnvCharKind 4)
      [CONST.leaf 4 1 3] exSt) = Res.ok (Sum.inl (-1, exEnvCharKind.DT_INT, 1)) ∧
    _selected_char_kind exEnvCharKind 2 = 1 ∧
    char_kind_view (eval_selected_char_kind exEnvCharKind (eval_init_expr exEnvCharKind 4)
      [CONST.leaf 4 1 2] exSt) = Res.ok (Sum.inr 1) := by
  decide!

/-! ## C37: logical results of scalar operations -/

/-- C37: canonical logical results.  (1) For every symbol table and every
pair of scalar operands, each of the six relational operations folds to
`SCFTN_TRUE` or to `SCFTN_FALSE`.  (2) The cases `OP_LEQV` and `OP_LNEQV`
store the C truth value of the comparison, 1 or 0: with `SCFTN_TRUE = -1`,
`.TRUE. .EQV. .TRUE.` and `.TRUE. .NEQV. .FALSE.` fold to 1, which is neither
`SCFTN_TRUE` nor `SCFTN_FALSE`, where `.TRUE. .EQ. .TRUE.` folds to -1. -/
theorem C37_canonical_logicals :
    (∀ (env : Env) (lop rop : CONST) (ldtype dt : Nat),
      (∃ (b : Bool) (d : List Diag), eval_init_op_scalar env ACOP.EQ lop ldtype rop dt =
        Res.ok (CONST.leaf dt 1 (if b then env.SCFTN_TRUE else env.SCFTN_FALSE), d)) ∧
      (∃ (b : Bool) (d : List Diag), eval_init_op_scalar env ACOP.NE lop ldtype rop dt =
        Res.ok (CONST.leaf dt 1 (if b then env.SCFTN_TRUE else env.SCFTN_FALSE), d)) ∧
      (∃ (b : Bool) (d : List Diag), eval_init_op_scalar env ACOP.LT lop ldtype rop dt =
        Res.ok (CONST.leaf dt 1 (if b then env.SCFTN_TRUE else env.SCFTN_FALSE), d)) ∧
      (∃ (b : Bool) (d : List Diag), eval_init_op_scalar env ACOP.LE lop ldtype rop dt =
        Res.ok (CONST.leaf dt 1 (if b then env.SCFTN_TRUE else env.SCFTN_FALSE), d)) ∧
      (∃ (b : Bool) (d : List Diag), eval_init_op_scalar env ACOP.GT lop ldtype rop dt =
        Res.ok (CONST.leaf dt 1 (if b then env.SCFTN_TRUE else env.SCFTN_FALSE), d)) ∧
      (∃ (b : Bool) (d : List Diag), eval_init_op_scalar env ACOP.GE lop ldtype rop dt =
        Res.ok (CONST.leaf dt 1 (if b then env.SCFTN_TRUE else env.SCFTN_FALSE), d))) ∧
    exEnvLogical.SCFTN_TRUE = -1 ∧ exEnvLogical.SCFTN_FALSE = 0 ∧
    leaf_values (eval_init_op exEnvLogical 2 ACOP.LEQV [CONST.leaf 13 1 (-1)] 13
      [CONST.leaf 13 1 (-1)] 13 0 13 exSt) = Res.ok [1] ∧
    leaf_values (eval_init_op exEnvLogical 2 ACOP.LNEQV [CONST.leaf 13 1 (-1)] 13
      [CONST.leaf 13 1 0] 13 0 13 exSt) = Res.ok [1] ∧
    leaf_values (eval_init_op exEnvLogical 2 ACOP.EQ [CONST.leaf 13 1 (-1)] 13
      [CONST.leaf 13 1 (-1)] 13 0 13 exSt) = Res.ok [-1] := by
  refine ⟨fun env lop rop ldtype dt => ⟨⟨_, _, rfl⟩, ⟨_, _, rfl⟩, ⟨_, _, rfl⟩, ⟨_, _, rfl⟩,
    ⟨_, _, rfl⟩, ⟨_, _, rfl⟩⟩, by decide!, by decide!, by decide!, by decide!, by decide!⟩

/-! ## C36: `is_zero` -/

/-- C36, as stated, fails: with the option bit `XBIT(124, 0x400)` clear,
`is_zero` holds for the 64-bit integer constant `2^32`, whose high word is 1,
and `dinit_varref` collapses a run of six of them over the array `a` into
`ZeroFill(48)`. -/
theorem C36_counterexample :
    exEnvInt8.xbit_124_0x400 = false ∧ exEnvInt8.DTY 3 = TY.INT8 ∧
    exEnvInt8.CONVAL1G 200 = 1 ∧ exEnvInt8.CONVAL2G 200 = 0 ∧
    is_zero exEnvInt8 3 200 = true ∧
    varref_view (dinit_varref exEnvInt8 2 (some exRefA) 0 [CONST.leaf 3 6 200] 0 0 0 exSt) =
      Res.ok ([], 0, [Directive.SetLocation 10, Directive.ZeroFill 48], [], 0) := by
  decide!

/-- C36 (amended): when `is_zero` holds for a constant, the type is of one of
the numeric or logical kinds, and: for a kind of at most 32 bits the constant
is 0; for a 64-bit integer or logical the low word `CONVAL2G` is 0, and the
high word `CONVAL1G` is 0 as well if the option bit `XBIT(124, 0x400)` is set
(the high word is not looked at if the bit is clear); a double precision
constant is `stb.dbl0`; both words of a complex constant are 0; both parts of
a double complex constant are `stb.dbl0`.  A run is written as `ZeroFill` by
`run_head` only if it has more than one element and `is_zero` holds for its
constant. -/
theorem C36_is_zero_sound (env : Env) (dtype : Nat) (conval : Int)
    (h : is_zero env dtype conval = true) :
    (env.DTY dtype ∈ [TY.INT, TY.LOG, TY.SINT, TY.SLOG, TY.BINT, TY.BLOG, TY.REAL, TY.INT8,
      TY.LOG8, TY.DBLE, TY.CMPLX, TY.DCMPLX]) ∧
    (env.DTY dtype ∈ [TY.INT, TY.LOG, TY.SINT, TY.SLOG, TY.BINT, TY.BLOG, TY.REAL] →
      conval = 0) ∧
    (env.DTY dtype ∈ [TY.INT8, TY.LOG8] →
      env.CONVAL2G conval = 0 ∧ (env.xbit_124_0x400 = true → env.CONVAL1G conval = 0)) ∧
    (env.DTY dtype = TY.DBLE → conval = env.dbl0) ∧
    (env.DTY dtype = TY.CMPLX → env.CONVAL1G conval = 0 ∧ env.CONVAL2G conval = 0) ∧
    (env.DTY dtype = TY.DCMPLX →
      env.CONVAL1G conval = env.dbl0 ∧ env.CONVAL2G conval = env.dbl0) ∧
    (∀ (t : VarrefTarget) (member : Nat) (c : CONST) (i offset : Int) (nb : Bool) (st : St),
      (run_head env t member c i offset nb st).1 = true →
        1 < i ∧ is_zero env c.dtype c.conval = true) := by
  unfold is_zero at h
  refine ⟨?_, ?_, ?_, ?_, ?_, ?_, ?_⟩
  · cases hk : env.DTY dtype <;> simp [hk] at h ⊢
  · intro hm
    cases hk : env.DTY dtype <;> simp [hk] at h hm ⊢ <;> exact h
  · intro hm
    cases hk : env.DTY dtype <;> simp [hk] at h hm ⊢
    all_goals
      refine ⟨h.1, fun hx => ?_⟩
      rcases h.2 with h2 | h2
      · rw [hx] at h2
        exact absurd h2 (by decide)
      · exact h2
  · intro hk
    simpa [hk] using h
  · intro hk
    simpa [hk] using h
  · intro hk
    simpa [hk] using h
  · intro t member c i offset nb st hr
    unfold run_head at hr
    split_ifs at hr
    all_goals
      rename_i hz
      exact ⟨hz.1, hz.2⟩

/-- C36 (amended), at the 64-bit integer constant zero (symbol 100, both words
0) with the option bit clear. -/
theorem C36_is_zero_sound_witness :
    is_zero exEnvInt8 3 100 = true ∧
    (exEnvInt8.DTY 3 ∈ [TY.INT8, TY.LOG8] →
      exEnvInt8.CONVAL2G 100 = 0 ∧
        (exEnvInt8.xbit_124_0x400 = true → exEnvInt8.CONVAL1G 100 = 0)) :=
  ⟨by decide, (C36_is_zero_sound exEnvInt8 3 100 (by decide)).2.2.1⟩

/-! ## C40: the byte image read back -/

theorem buf_read_write (buf : Nat → Int) (p : Nat) (l : List Int) :
    buf_read (buf_write buf p l) p l.length = l := by
  apply List.ext_getElem
  · simp [buf_read]
  · intro i h1 h2
    simp only [buf_read, List.getElem_map, List.getElem_range]
    rw [buf_write_inside _ _ _ _ (by omega) (by omega)]
    simp [List.getD_eq_getElem?_getD, h2]

theorem buf_read_write_other (buf : Nat → Int) (p q n : Nat) (l : List Int)
    (h : q + n ≤ p ∨ p + l.length ≤ q) :
    buf_read (buf_write buf p l) q n = buf_read buf q n := by
  simp only [buf_read]
  apply List.map_congr_left
  intro i hi
  rw [List.mem_range] at hi
  exact buf_write_outside _ _ _ _ (by omega)

/-- A word read back from where it was stored. -/
theorem load_store_int (env : Env) (buf : Nat → Int) (pos k : Nat) (v : Int)
    (h : int_ok env v) : load_int env (store_int env buf pos k v) pos k = v := by
  unfold load_int store_int
  have := buf_read_write buf (pos + 4 * k) (env.int_bytes v)
  rw [h.1] at this
  rw [this, h.2]

/-- A word read from another place than the one stored to. -/
theorem load_store_int_other (env : Env) (buf : Nat → Int) (pos j k : Nat) (v : Int)
    (h : int_ok env v) (hjk : j ≠ k) :
    load_int env (store_int env buf pos j v) pos k = load_int env buf pos k := by
  unfold load_int store_int
  rw [buf_read_write_other _ _ _ _ _ (by rw [h.1]; omega)]

/-- C40: transfer byte image round trip.  For every type of a kind that the
two routines handle and every constant `v` of that type, `transfer_load` on
the buffer that `transfer_store` has written `v` to, at any position and
whatever the buffer held before, returns `v`; neither routine reports a
diagnostic. -/
theorem C40_transfer_roundtrip (env : Env) (dtype : Nat) (v : Int) (buf : Nat → Int)
    (pos : Nat) (h : const_ok env dtype v) :
    (transfer_load env dtype (transfer_store env v dtype buf pos).1 pos).1 = v ∧
    (transfer_store env v dtype buf pos).2 = [] ∧
    (transfer_load env dtype (transfer_store env v dtype buf pos).1 pos).2 = [] := by
  unfold const_ok at h
  by_cases hw : env.DT_ISWORD dtype = true
  · simp only [hw, if_true] at h
    simp only [transfer_store, transfer_load, hw, if_true, and_self, and_true]
    exact load_store_int env buf pos 0 v h
  · simp only [hw, Bool.false_eq_true, if_false] at h
    simp only [transfer_store, transfer_load, hw, Bool.false_eq_true, if_false]
    cases hk : env.DTY dtype <;> simp only [hk] at h ⊢ <;>
      first
        | exact absurd h id
        | (obtain ⟨w1, w2, hc⟩ := h
           refine ⟨?_, trivial, trivial⟩
           rw [load_store_int env _ pos 1 _ w1, load_store_int_other env _ pos 1 0 _ w1 (by decide),
             load_store_int env _ pos 0 _ w2]
           exact hc)
        | (obtain ⟨w1, w2, hc⟩ := h
           refine ⟨?_, trivial, trivial⟩
           rw [load_store_int env _ pos 1 _ w2, load_store_int_other env _ pos 1 0 _ w2 (by decide),
             load_store_int env _ pos 0 _ w1]
           exact hc)
        | (obtain ⟨w1, w2, w3, w4, hr, hi, hc⟩ := h
           refine ⟨?_, trivial, trivial⟩
           rw [load_store_int env _ pos 3 _ w3,
             load_store_int_other env _ pos 3 2 _ w3 (by decide),
             load_store_int env _ pos 2 _ w4,
             load_store_int_other env _ pos 3 1 _ w3 (by decide),
             load_store_int_other env _ pos 2 1 _ w4 (by decide),
             load_store_int env _ pos 1 _ w1,
             load_store_int_other env _ pos 3 0 _ w3 (by decide),
             load_store_int_other env _ pos 2 0 _ w4 (by decide),
             load_store_int_other env _ pos 1 0 _ w1 (by decide),
             load_store_int env _ pos 0 _ w2, hr, hi]
           exact hc)
        | (refine ⟨?_, trivial, trivial⟩
           have e := buf_read_write buf pos (const_chars env dtype v)
           have hl : (const_chars env dtype v).length = (env.size_of dtype).toNat := by
             simp [const_chars]
           rw [hl] at e
           unfold const_chars at e h
           rw [e]
           exact h)

/-- C40, at the double precision constant with the words 5 and -7 and at the
integer constant 70000, stored at the positions 8 and 0 of a buffer of
blanks. -/
theorem C40_transfer_roundtrip_witness :
    (const_ok exEnvTransfer 12 (exEnvTransfer.getcon 5 (-7) 12) ∧
      (transfer_load exEnvTransfer 12 (transfer_store exEnvTransfer
          (exEnvTransfer.getcon 5 (-7) 12) 12 (fun _ => 32) 8).1 8).1 =
        exEnvTransfer.getcon 5 (-7) 12 ∧
      (transfer_store exEnvTransfer (exEnvTransfer.getcon 5 (-7) 12) 12 (fun _ => 32) 8).2 = [] ∧
      (transfer_load exEnvTransfer 12 (transfer_store exEnvTransfer
          (exEnvTransfer.getcon 5 (-7) 12) 12 (fun _ => 32) 8).1 8).2 = []) ∧
    (transfer_load exEnvTransfer 5 (transfer_store exEnvTransfer 70000 5 (fun _ => 32) 0).1 0).1 =
      70000 :=
  ⟨⟨⟨by unfold int_ok; decide!, by unfold int_ok; decide!, by decide!⟩,
    C40_transfer_roundtrip exEnvTransfer 12 (exEnvTransfer.getcon 5 (-7) 12) (fun _ => 32) 8
      ⟨by unfold int_ok; decide!, by unfold int_ok; decide!, by decide!⟩⟩,
   by decide!⟩

/-! ## C38: termination of `eval_do` -/

/-- With a zero step and an initial value that does not pass the limit, the
first `for` loop of `eval_do` is never left: whatever the fuel, `eval_do` does
not return. -/
theorem eval_do_zero_step (env : Env) (fuel : Nat) (ido : CONST) (st : St)
    (e1 e2 e3 initict limitict stepict : CONST) (r1 r2 r3 : List CONST × St)
    (hd1 : deref ido.initval = Res.ok e1)
    (he1 : eval_init_expr_item env fuel e1 st = Res.ok r1)
    (hd2 : deref ido.limitval = Res.ok e2)
    (he2 : eval_init_expr_item env fuel e2 r1.2 = Res.ok r2)
    (hd3 : deref ido.stepval = Res.ok e3)
    (he3 : eval_init_expr_item env fuel e3 r2.2 = Res.ok r3)
    (hi1 : deref r1.1 = Res.ok initict) (hi2 : deref r2.1 = Res.ok limitict)
    (hi3 : deref r3.1 = Res.ok stepict)
    (hstep : get_ival env stepict.dtype stepict.conval = 0)
    (hle : get_ival env initict.dtype initict.conval ≤
      get_ival env limitict.dtype limitict.conval)
    (r : List CONST × St) : eval_do env (fuel + 1) ido st ≠ Res.ok r := by
  intro h
  unfold eval_do at h
  simp only [hd1, he1, hd2, he2, hd3, he3, hi1, hi2, hi3, Res.bind, hstep] at h
  split at h
  · rename_i x hx
    refine loopN_invariant _
      (fun s => s.1 = get_ival env initict.dtype initict.conval) (fun _ => False)
      ?_ ?_ fuel _ x rfl hx
    · intro s s' hI hb
      unfold eval_do_body at hb
      simp only [ge_iff_le, le_refl, decide_True, if_true, hI, hle] at hb
      simp only [Res.bind] at hb
      split at hb
      · split at hb
        · simp only [Res.ok.injEq, Sum.inl.injEq] at hb
          rw [← hb]
          simp
        · exact absurd hb (by simp)
        · exact absurd hb (by simp)
      · exact absurd hb (by simp)
      · exact absurd hb (by simp)
    · intro s y hI hb
      unfold eval_do_body at hb
      simp only [ge_iff_le, le_refl, decide_True, if_true, hI, hle] at hb
      simp only [Res.bind] at hb
      split at hb
      · split at hb
        · simp at hb
        · exact absurd hb (by simp)
        · exact absurd hb (by simp)
      · exact absurd hb (by simp)
      · exact absurd hb (by simp)
  · exact absurd h (by simp)
  · exact absurd h (by simp)

/-- A loop whose body, from the states of `I`, either goes on in `I` or runs
out of fuel, runs out of fuel. -/
theorem loopN_stuck {σ ρ : Type} (body : σ → Res (σ ⊕ ρ)) (I : σ → Prop)
    (h : ∀ s, I s → (∃ s', body s = Res.ok (Sum.inl s') ∧ I s') ∨ body s = Res.fuel) :
    ∀ (n : Nat) (s : σ), I s → loopN body n s = Res.fuel := by
  intro n
  induction n with
  | zero =>
    intro s _
    rfl
  | succ k ih =>
    intro s hs
    rcases h s hs with ⟨s', hb, hs'⟩ | hb
    · rw [loopN_step _ _ _ _ hb]
      exact ih s' hs'
    · simp [loopN, hb]

/-- The generator `(7, i = 1, 2, 0)` is never expanded: with any amount of
fuel `eval_do` runs out of it, at the latest in the loop
`for (i = initval; i <= limitval; i += stepval)`, which a zero step never
leaves. -/
theorem step_zero_stuck :
    ∀ (fuel : Nat), eval_do exEnv fuel exIdoStepZero exSt = Res.fuel := by
  intro fuel
  cases fuel with
  | zero => rfl
  | succ k =>
    cases k with
    | zero => rfl
    | succ j =>
      have key : ∀ st1 : St,
          eval_init_expr exEnv (j + 1) [CONST.leaf 5 1 7] st1 = Res.fuel ∨
          eval_init_expr exEnv (j + 1) [CONST.leaf 5 1 7] st1 =
            Res.ok ([CONST.leaf 5 1 7], st1) := by
        intro st1
        cases j with
        | zero => exact Or.inl rfl
        | succ i => exact Or.inr rfl
      have hloop : loopN (eval_do_body exEnv
          (fun st1 => eval_init_expr exEnv (j + 1) [CONST.leaf 5 1 7] st1) (IdxLoc.slot 0)
          true 2 0) (j + 1) (1, [], false, (eval_do_index exEnv 13 exSt).2) = Res.fuel := by
        refine loopN_stuck _ (fun s => s.1 = 1 ∧ s.2.2.2.init_const 0 ≠ []) ?_ _ _
          ⟨rfl, by simp [eval_do_index, save_init, exSt, exEnv, upd]⟩
        intro s hs
        obtain ⟨h1, h2⟩ := hs
        obtain ⟨c, rest, hc⟩ : ∃ c rest, s.2.2.2.init_const 0 = c :: rest := by
          cases hl : s.2.2.2.init_const 0 with
          | nil => exact absurd hl h2
          | cons c rest => exact ⟨c, rest, rfl⟩
        have hb : eval_do_body exEnv
            (fun st1 => eval_init_expr exEnv (j + 1) [CONST.leaf 5 1 7] st1) (IdxLoc.slot 0)
            true 2 0 s =
            (eval_init_expr exEnv (j + 1) [CONST.leaf 5 1 7]
              (idx_store (IdxLoc.slot 0) (idx_conval exEnv c.dtype s.1) s.2.2.2)).bind fun r =>
              Res.ok (Sum.inl (s.1 + 0, s.2.1 ++ r.1, true, r.2)) := by
          simp [eval_do_body, h1, idx_dtype, hc, Res.bind]
        rw [hb]
        rcases key (idx_store (IdxLoc.slot 0) (idx_conval exEnv c.dtype s.1) s.2.2.2) with hk | hk
        · right
          rw [hk]
          rfl
        · left
          rw [hk]
          refine ⟨_, rfl, by simp [h1], ?_⟩
          simp [idx_store, hc, upd]
      have hdo : eval_do exEnv (j + 1 + 1) exIdoStepZero exSt =
          Res.bind (loopN (eval_do_body exEnv
            (fun st1 => eval_init_expr exEnv (j + 1) [CONST.leaf 5 1 7] st1) (IdxLoc.slot 0)
            true 2 0) (j + 1) (1, [], false, (eval_do_index exEnv 13 exSt).2)) _ := rfl
      rw [hdo, hloop]
      rfl

/-- While no increment of the index leaves the range of `ISZ_T`, the loop of
`eval_do` with the increment of that type is the loop with the increment of
the integers. -/
theorem eval_do_loop_isz (w : Nat) (env : Env) (recE : St → Res (List CONST × St))
    (loc : IdxLoc) (up : Bool) (limit step : Int) :
    ∀ (n : Nat) (i : Int) (root : List CONST) (flag : Bool) (st : St) (fuel : Nat),
      (∀ k : Nat, k < n → (if up then i + (k : Int) * step ≤ limit
        else i + (k : Int) * step ≥ limit)) →
      ¬ (if up then i + (n : Int) * step ≤ limit else i + (n : Int) * step ≥ limit) →
      (∀ k : Nat, k ≤ n → isz_ok w (i + (k : Int) * step) = true) →
      loopN (eval_do_body_isz w env recE loc up limit step) fuel (i, root, flag, st) =
        loopN (eval_do_body env recE loc up limit step) fuel (i, root, flag, st) := by
  intro n
  induction n with
  | zero =>
    intro i root flag st fuel _ hstop _
    cases fuel with
    | zero => rfl
    | succ k =>
      have hstop2 : ¬ (if up then i ≤ limit else i ≥ limit) := by simpa using hstop
      rw [loopN_exit _ _ _ (root, flag, st), loopN_exit _ _ _ (root, flag, st)]
      · simp only [eval_do_body]
        rw [if_neg hstop2]
      · simp only [eval_do_body_isz]
        rw [if_neg hstop2]
  | succ n ih =>
    intro i root flag st fuel hgo hstop hr
    cases fuel with
    | zero => rfl
    | succ k =>
      have hgo0 : (if up then i ≤ limit else i ≥ limit) := by simpa using hgo 0 (by omega)
      have hr1 : isz_ok w (i + step) = true := by simpa using hr 1 (by omega)
      cases hdt : idx_dtype loc st with
      | fuel => simp [loopN, eval_do_body_isz, eval_do_body, hgo0, hdt, Res.bind]
      | undef => simp [loopN, eval_do_body_isz, eval_do_body, hgo0, hdt, Res.bind]
      | ok dt =>
        cases hre : recE (idx_store loc (idx_conval env dt i) st) with
        | fuel => simp [loopN, eval_do_body_isz, eval_do_body, hgo0, hdt, hre, Res.bind]
        | undef => simp [loopN, eval_do_body_isz, eval_do_body, hgo0, hdt, hre, Res.bind]
        | ok r =>
          have hb : eval_do_body env recE loc up limit step (i, root, flag, st) =
              Res.ok (Sum.inl (i + step, root ++ r.1, true, r.2)) := by
            simp only [eval_do_body]
            rw [if_pos hgo0]
            simp [hdt, hre, Res.bind]
          have hb2 : eval_do_body_isz w env recE loc up limit step (i, root, flag, st) =
              Res.ok (Sum.inl (i + step, root ++ r.1, true, r.2)) := by
            simp only [eval_do_body_isz]
            rw [if_pos hgo0]
            simp [hdt, hre, Res.bind, hr1]
          rw [loopN_step _ _ _ _ hb, loopN_step _ _ _ _ hb2]
          apply ih
          · intro j hj
            have := hgo (j + 1) (by omega)
            have e : i + step + (j : Int) * step = i + ((j + 1 : Nat) : Int) * step := by
              push_cast; ring
            rw [e]
            exact this
          · have e : i + step + (n : Int) * step = i + ((n + 1 : Nat) : Int) * step := by
              push_cast; ring
            rw [e]
            exact hstop
          · intro j hj
            have := hr (j + 1) (by omega)
            have e : i + step + (j : Int) * step = i + ((j + 1 : Nat) : Int) * step := by
              push_cast; ring
            rw [e]
            exact this

/-- The index values between two values of `ISZ_T` are values of `ISZ_T`. -/
theorem isz_ok_between (w : Nat) (i step : Int) (n k : Nat) (hk : k ≤ n)
    (h0 : isz_ok w i = true) (h1 : isz_ok w (i + (n : Int) * step) = true) :
    isz_ok w (i + (k : Int) * step) = true := by
  simp only [isz_ok, Bool.and_eq_true, decide_eq_true_eq] at h0 h1 ⊢
  have hkn : (k : Int) ≤ (n : Int) := by exact_mod_cast hk
  have hk0 : (0 : Int) ≤ (k : Int) := Int.natCast_nonneg k
  rcases le_total 0 step with hs | hs
  · have a1 : 0 ≤ (k : Int) * step := mul_nonneg hk0 hs
    have a2 : (k : Int) * step ≤ (n : Int) * step := mul_le_mul_of_nonneg_right hkn hs
    constructor <;> omega
  · have a1 : (k : Int) * step ≤ 0 := mul_nonpos_of_nonneg_of_nonpos hk0 hs
    have a2 : (n : Int) * step ≤ (k : Int) * step := mul_le_mul_of_nonpos_right hkn hs
    constructor <;> omega

/-- C38, as stated, fails.  (1) The generator `(7, i = 1, 2, 0)`, whose body
is a constant, is never expanded: `eval_do` does not return with 1000 units of
fuel, nor with any other amount: it runs out of fuel in the loop
`for (i = initval; i <= limitval; i += stepval)`, which a zero step never
leaves.  (2) With a step of 1 and a limit that is the largest `ISZ_T` value,
the increment `i += stepval` after the last iteration overflows: the routine
with the index of 64 bits is undefined, with any fuel above 2. -/
theorem C38_counterexample :
    (eval_do exEnv 1000 exIdoStepZero exSt = Res.fuel ∧
      ∀ (fuel : Nat), eval_do exEnv fuel exIdoStepZero exSt = Res.fuel) ∧
    get_ival exEnvIsz 3 300 = 9223372036854775807 ∧ get_ival exEnvIsz 3 101 = 1 ∧
    isz_ok 64 9223372036854775807 = true ∧ isz_ok 64 (9223372036854775807 + 1) = false ∧
    leaf_values (eval_do_isz 64 exEnvIsz 3 exIdoLast exSt) = Res.undef ∧
    leaf_values (eval_do_isz 64 exEnvIsz 1000 exIdoLast exSt) = Res.undef := by
  refine ⟨⟨step_zero_stuck 1000, step_zero_stuck⟩, ?_, ?_, ?_, ?_, ?_, ?_⟩
  · decide!
  · decide!
  · decide!
  · decide!
  · decide!
  · decide!

/-- The index values of an implied do whose step is not zero, or whose
initial value is past the limit, are exactly those for which the loop test of
`eval_do` holds. -/
theorem trip_count_spec_entered (init limit step : Int) (hs : step ≠ 0 ∨ limit < init) :
    (∀ k : Nat, k < trip_count init limit step →
      (if decide (step ≥ 0) = true then init + (k : Int) * step ≤ limit
        else init + (k : Int) * step ≥ limit)) ∧
    ¬ (if decide (step ≥ 0) = true then init + (trip_count init limit step : Int) * step ≤ limit
        else init + (trip_count init limit step : Int) * step ≥ limit) := by
  by_cases h0 : step = 0
  · subst h0
    have hl : limit < init := by
      rcases hs with h | h
      · exact absurd rfl h
      · exact h
    simp [trip_count]
    omega
  · exact trip_count_spec init limit step h0

/-- The unrolled expansion returns when the fold of the body returns from
every state of `Ok` and leaves a state of `Ok`. -/
theorem ido_unroll_returns (env : Env) (recE : St → Res (List CONST × St)) (loc : IdxLoc)
    (Ok : St → Prop)
    (hbody : ∀ s, Ok s → (∃ dt, idx_dtype loc s = Res.ok dt) ∧
      ∀ v, ∃ r, recE (idx_store loc v s) = Res.ok r ∧ Ok r.2) :
    ∀ (vs : List Int) (s : St), Ok s →
      ∃ r, ido_unroll env recE loc vs s = Res.ok r ∧ Ok r.2 := by
  intro vs
  induction vs with
  | nil =>
    intro s hs
    exact ⟨_, rfl, hs⟩
  | cons v vs ih =>
    intro s hs
    obtain ⟨⟨dt, hdt⟩, hrec⟩ := hbody s hs
    obtain ⟨r, hr, hok⟩ := hrec (idx_conval env dt v)
    obtain ⟨r2, hr2, hok2⟩ := ih r.2 hok
    exact ⟨(r.1 ++ r2.1, r2.2), by simp [ido_unroll, hdt, hr, hr2, Res.bind], hok2⟩

/-- C38 (amended): `eval_do` returns for a step that is not zero, and for a
zero step when the initial value is past the limit, when no increment of the
index overflows.  When the three bounds fold (with the fuel given) to such an
initial value, limit and step, the initial value and the first index value
`init + n * step` that passes the limit (`n` the number of index values that
do not pass it) are values of the type `ISZ_T` of `w` bits, and the fold of
the body returns from every state of a set `Ok` that holds the state in which
the loop is entered and is closed under the assignments to the index node and
under the fold of the body, then `eval_do` returns as soon as the fuel exceeds
`n`: the loop makes `n` iterations, none of its increments leaves the range of
`ISZ_T`, and the routine with the index of that type returns the same
result. -/
theorem C38_eval_do_returns (w : Nat) (env : Env) (fuel : Nat) (ido : CONST) (st : St)
    (e1 e2 e3 initict limitict stepict : CONST) (r1 r2 r3 : List CONST × St)
    (Ok : St → Prop)
    (hd1 : deref ido.initval = Res.ok e1)
    (he1 : eval_init_expr_item env fuel e1 st = Res.ok r1)
    (hd2 : deref ido.limitval = Res.ok e2)
    (he2 : eval_init_expr_item env fuel e2 r1.2 = Res.ok r2)
    (hd3 : deref ido.stepval = Res.ok e3)
    (he3 : eval_init_expr_item env fuel e3 r2.2 = Res.ok r3)
    (hi1 : deref r1.1 = Res.ok initict) (hi2 : deref r2.1 = Res.ok limitict)
    (hi3 : deref r3.1 = Res.ok stepict)
    (hstep : get_ival env stepict.dtype stepict.conval ≠ 0 ∨
      get_ival env limitict.dtype limitict.conval < get_ival env initict.dtype initict.conval)
    (hr0 : isz_ok w (get_ival env initict.dtype initict.conval) = true)
    (hr1 : isz_ok w (get_ival env initict.dtype initict.conval +
      (trip_count (get_ival env initict.dtype initict.conval)
        (get_ival env limitict.dtype limitict.conval)
        (get_ival env stepict.dtype stepict.conval) : Int) *
        get_ival env stepict.dtype stepict.conval) = true)
    (hok : Ok (eval_do_index env ido.index_var r3.2).2)
    (hbody : ∀ s, Ok s →
      (∃ dt, idx_dtype (eval_do_index env ido.index_var r3.2).1 s = Res.ok dt) ∧
      (∃ r, eval_init_expr env fuel ido.subc s = Res.ok r) ∧
      ∀ v, ∃ r, eval_init_expr env fuel ido.subc
        (idx_store (eval_do_index env ido.index_var r3.2).1 v s) = Res.ok r ∧ Ok r.2)
    (hfuel : trip_count (get_ival env initict.dtype initict.conval)
      (get_ival env limitict.dtype limitict.conval)
      (get_ival env stepict.dtype stepict.conval) + 1 ≤ fuel) :
    ∃ r, eval_do_isz w env (fuel + 1) ido st = Res.ok r ∧
      eval_do env (fuel + 1) ido st = Res.ok r := by
  obtain ⟨hgo, hstop⟩ := trip_count_spec_entered (get_ival env initict.dtype initict.conval)
    (get_ival env limitict.dtype limitict.conval) (get_ival env stepict.dtype stepict.conval)
    hstep
  have hsame : eval_do_isz w env (fuel + 1) ido st = eval_do env (fuel + 1) ido st := by
    unfold eval_do_isz eval_do
    simp only [hd1, he1, hd2, he2, hd3, he3, hi1, hi2, hi3, Res.bind]
    rw [eval_do_loop_isz w env _ _ _ _ _ _ _ _ _ _ fuel hgo hstop
      (fun k hk => isz_ok_between w _ _ _ k hk hr0 hr1)]
  obtain ⟨u, hu, hou⟩ := ido_unroll_returns env (fun s => eval_init_expr env fuel ido.subc s)
    (eval_do_index env ido.index_var r3.2).1 Ok
    (fun s hs => ⟨(hbody s hs).1, (hbody s hs).2.2⟩)
    ((List.range (trip_count (get_ival env initict.dtype initict.conval)
      (get_ival env limitict.dtype limitict.conval)
      (get_ival env stepict.dtype stepict.conval))).map fun (k : Nat) =>
        get_ival env initict.dtype initict.conval +
          (k : Int) * get_ival env stepict.dtype stepict.conval)
    _ hok
  rw [hsame]
  unfold eval_do
  simp only [hd1, he1, hd2, he2, hd3, he3, hi1, hi2, hi3, Res.bind]
  rw [eval_do_loop_unroll env _ _ _ _ _ _ _ _ _ _ fuel hfuel hgo hstop]
  simp only [hu, Res.bind]
  obtain ⟨x, hx⟩ := (hbody u.2 hou).2.1
  split_ifs
  · simp only [hx]
    exact ⟨_, rfl, rfl⟩
  · exact ⟨_, rfl, rfl⟩

/-- C38 (amended), at the generator `(7, i = 1, 3, 1)`: three iterations,
with 5 units of fuel for the bounds and the body; the index values 1 to 4 are
values of an `ISZ_T` of 64 bits. -/
theorem C38_eval_do_returns_witness :
    (∃ r, eval_do_isz 64 exEnv (5 + 1) exIdoSevens exSt = Res.ok r ∧
      eval_do exEnv (5 + 1) exIdoSevens exSt = Res.ok r) ∧
    trip_count 1 3 1 = 3 ∧
    leaf_values (eval_do exEnv (5 + 1) exIdoSevens exSt) = Res.ok [7, 7, 7] ∧
    leaf_values (eval_do_isz 64 exEnv (5 + 1) exIdoSevens exSt) = Res.ok [7, 7, 7] :=
  ⟨C38_eval_do_returns 64 exEnv 5 exIdoSevens exSt (CONST.leaf 5 1 1) (CONST.leaf 5 1 3)
    (CONST.leaf 5 1 1) (CONST.leaf 5 1 1) (CONST.leaf 5 1 3) (CONST.leaf 5 1 1)
    ([CONST.leaf 5 1 1], exSt) ([CONST.leaf 5 1 3], exSt) ([CONST.leaf 5 1 1], exSt)
    (fun s => s.init_const 0 ≠ [])
    rfl rfl rfl rfl rfl rfl rfl rfl rfl (Or.inl (by decide)) (by decide!) (by decide!)
    (by simp [eval_do_index, save_init, exSt, exEnv, upd])
    (by
      intro s hs
      obtain ⟨c, rest, hc⟩ : ∃ c rest, s.init_const 0 = c :: rest := by
        cases hl : s.init_const 0 with
        | nil => exact absurd hl hs
        | cons c rest => exact ⟨c, rest, rfl⟩
      refine ⟨⟨c.dtype, ?_⟩, ⟨_, rfl⟩, fun v => ⟨_, rfl, ?_⟩⟩
      · show idx_dtype (IdxLoc.slot 0) s = Res.ok c.dtype
        simp [idx_dtype, hc]
      · show (idx_store (IdxLoc.slot 0) v s).init_const 0 ≠ []
        simp [idx_store, hc, upd])
    (by decide),
   by decide, by decide!, by decide!⟩

/-! ## C31, C32: concatenation of arrays, INDEX -/

/-- C31: element-wise concatenation of two arrays.  For the left operand
`'a', 2 * 'b'` and the right operand `'x', 'y', 'z'`, both of three elements,
the specification asks for `'ax', 'by', 'bz'`; the code returns the two
leaves `'ax', 'bx'`: when the count of the left node `'a'` is used up, the
repeat count 2 of the next left node is assigned to `r_repeatc`, so the right
operand stays at `'x'`, and the count of the left operand, never loaded again,
ends the left list after one more element.  With all repeat counts 1 (`'a',
'b'` and `'x', 'y'`) the code returns what the specification asks for. -/
theorem C31_concat_arrays :
    str_view exEnvStr (eval_init_op_cat exEnvStr 10
      [exCtorOf 2001 [exStr [97], (exStr [98]).setRepeatc 2]] 2001
      [exCtorOf 2001 [exStr [120], exStr [121], exStr [122]]] 2001) =
      Res.ok [([97, 120], 1), ([98, 120], 1)] ∧
    str_view exEnvStr (Res.ok (spec_cat_elementwise exEnvStr 2001 2001
      [exStr [97], (exStr [98]).setRepeatc 2] [exStr [120], exStr [121], exStr [122]])) =
      Res.ok [([97, 120], 1), ([98, 121], 1), ([98, 122], 1)] ∧
    str_view exEnvStr (eval_init_op_cat exEnvStr 10
      [exCtorOf 2001 [exStr [97], exStr [98]]] 2001
      [exCtorOf 2001 [exStr [120], exStr [121]]] 2001) =
      str_view exEnvStr (Res.ok (spec_cat_elementwise exEnvStr 2001 2001
        [exStr [97], exStr [98]] [exStr [120], exStr [121]])) := by
  decide!

/-- C32: INDEX.  For the string `abab` and the substring `ab`: without BACK
the code returns 3, the position of the last occurrence, where the first
occurrence is at 1; with BACK true it returns 1, the position of the first
occurrence, where the last is at 3: neither search loop stops at a match, so
each ends with the match it meets last.  For the substring `c`, which does
not occur, the code returns 0 either way. -/
theorem C32_index :
    index_view (eval_index exEnvStr (eval_init_expr_item exEnvStr 4)
      [exStr [97, 98, 97, 98], exStr [97, 98]] exSt) = Res.ok [(3, exEnvStr.DT_INT, 1)] ∧
    spec_first_occurrence [97, 98, 97, 98] [97, 98] = 1 ∧
    index_view (eval_index exEnvStr (eval_init_expr_item exEnvStr 4)
      [exStr [97, 98, 97, 98], exStr [97, 98], CONST.leaf 5 1 1] exSt) =
      Res.ok [(1, exEnvStr.DT_INT, 1)] ∧
    spec_last_occurrence [97, 98, 97, 98] [97, 98] = 3 ∧
    index_view (eval_index exEnvStr (eval_init_expr_item exEnvStr 4)
      [exStr [97, 98, 97, 98], exStr [99]] exSt) = Res.ok [(0, exEnvStr.DT_INT, 1)] ∧
    index_view (eval_index exEnvStr (eval_init_expr_item exEnvStr 4)
      [exStr [97, 98, 97, 98], exStr [99], CONST.leaf 5 1 1] exSt) =
      Res.ok [(0, exEnvStr.DT_INT, 1)] ∧
    spec_first_occurrence [97, 98, 97, 98] [99] = 0 ∧
    spec_last_occurrence [97, 98, 97, 98] [99] = 0 := by
  decide!

/-! ## C35: too few initialisers -/

theorem run_head_error (env : Env) (t : VarrefTarget) (member : Nat) (c : CONST)
    (i offset : Int) (nb : Bool) (st : St) :
    (run_head env t member c i offset nb st).2.2.dinit_error = st.dinit_error := by
  unfold run_head
  split_ifs <;> simp [dinit_put]

theorem dinit_val_error (env : Env) (sptr dtypev : Nat) (val : Int) (st : St) :
    (dinit_val env sptr dtypev val st).dinit_error = st.dinit_error := by
  by_cases h : env.no_data_components (env.DDTG (env.DTYPEG sptr)) = true
  · simp [dinit_val, h]
  · obtain ⟨_, _, h2⟩ := dinit_val_out env sptr dtypev val st (by simpa using h)
    exact h2

/-- One iteration of the loop of `dinit_varref` on a plain leaf leaves
`sem.dinit_error` as it is. -/
theorem varref_body_leaf_error (env : Env)
    (recV : List CONST → St → Res (List CONST × Int × St))
    (recD : List CONST → Nat → Int → St → Res St)
    (t : VarrefTarget) (ivl : Option Varref) (pv : Bool) (base_off : Int)
    (s : VarrefLoop) (c : CONST) (next : List CONST)
    (hdata : env.no_data_components (env.DDTG (env.DTYPEG t.sptr)) = false)
    (hict : s.ict = c :: next) (hleaf : c.id = ACID.CONST)
    (hns : ivl_struct env ivl = false) (hval : env.DTY c.dtype ≠ TY.STRUCT) :
    ∃ nb st', varref_body env recV recD t ivl 0 pv base_off s =
      Res.ok (Sum.map id (Prod.mk true)
        (varref_advance t c next (run_count ivl 0 s.num_elem s.repeat_) s.repeat_ s nb st')) ∧
      st'.dinit_error = s.st.dinit_error := by
  unfold varref_body
  simp only [hdata, hict, hleaf, hns, hval, Bool.false_eq_true, if_false, ne_eq,
    not_true_eq_false, false_and]
  by_cases hpv : pv = true
  · simp only [hpv, if_true]
    by_cases hz : (run_head env t 0 c (run_count ivl 0 s.num_elem s.repeat_) s.offset
        s.new_block s.st).1 = true
    · simp only [hz, if_true]
      exact ⟨_, _, rfl, run_head_error _ _ _ _ _ _ _ _⟩
    · simp only [hz, if_false]
      exact ⟨_, _, rfl, (dinit_val_error _ _ _ _ _).trans (run_head_error _ _ _ _ _ _ _ _)⟩
  · simp only [hpv, if_false]
    exact ⟨_, _, rfl, rfl⟩

/-- The loop of `dinit_varref` over a flat list of leaves that holds fewer
elements than the reference has: it is left at the end of the list, with
elements of the reference still to initialise. -/
theorem leaf_loop_short (env : Env)
    (recV : List CONST → St → Res (List CONST × Int × St))
    (recD : List CONST → Nat → Int → St → Res St)
    (t : VarrefTarget) (ivl : Option Varref) (pv : Bool) (base_off : Int)
    (hdata : env.no_data_components (env.DDTG (env.DTYPEG t.sptr)) = false)
    (hns : ivl_struct env ivl = false) :
    ∀ (fuel : Nat) (s : VarrefLoop), 1 ≤ s.num_elem →
      (expand_at s.ict s.repeat_).length + 1 ≤ fuel →
      flat_leaves env s.ict → position_wf s.ict s.repeat_ →
      (expand_at s.ict s.repeat_).length < s.num_elem.toNat →
      ∃ s', loopN (varref_body env recV recD t ivl 0 pv base_off) fuel s = Res.ok (false, s') ∧
        s'.ict = [] ∧ 0 < s'.num_elem ∧ s'.st.dinit_error = s.st.dinit_error := by
  intro fuel
  induction fuel with
  | zero =>
    intro s h1 h2
    omega
  | succ k ih =>
    intro s hn hfuel hflat hwf hlen
    cases hict : s.ict with
    | nil =>
      have hb : varref_body env recV recD t ivl 0 pv base_off s = Res.ok (Sum.inr (false, s)) := by
        simp [varref_body, hdata, hict]
      rw [loopN_exit _ _ _ _ hb]
      exact ⟨s, rfl, hict, by omega, rfl⟩
    | cons c next =>
      rw [hict] at hflat hwf hlen hfuel
      simp only [position_wf] at hwf
      obtain ⟨hc1, hc2, hc3⟩ := hflat c (List.mem_cons_self c next)
      have hflat2 : flat_leaves env next := fun d hd => hflat d (List.mem_cons_of_mem c hd)
      obtain ⟨nb, st', hb, herr⟩ := varref_body_leaf_error env recV recD t ivl pv base_off s c
        next hdata hict hc1 hns hc2
      obtain ⟨hi1, hi2, hi3⟩ := run_count_bounds ivl s.num_elem s.repeat_ hn hwf.1
      obtain ⟨hp1, hp2⟩ := advance_position env c next (run_count ivl 0 s.num_elem s.repeat_)
        s.repeat_ hi1 hi3 hflat2
      have hp2 := hp2 hwf.2
      have hsuf : (if s.repeat_ - run_count ivl 0 s.num_elem s.repeat_ = 0 then next
          else c :: next) <:+ c :: next := by
        split_ifs
        · exact List.suffix_cons c next
        · exact List.suffix_refl _
      have hlen0 : s.repeat_.toNat ≤ (expand_at (c :: next) s.repeat_).length := by
        simp [expand_at]
      simp only [varref_advance] at hb
      have hgo : s.num_elem - run_count ivl 0 s.num_elem s.repeat_ > 0 := by omega
      simp only [hgo, if_true, Sum.map_inl, id] at hb
      rw [loopN_step _ _ _ _ hb]
      obtain ⟨s', h1, h2, h3, h4⟩ := ih
        (VarrefLoop.mk
          (if s.repeat_ - run_count ivl 0 s.num_elem s.repeat_ = 0 then next else c :: next)
          (if s.repeat_ - run_count ivl 0 s.num_elem s.repeat_ = 0 then next_repeat next
            else s.repeat_ - run_count ivl 0 s.num_elem s.repeat_)
          (s.offset + run_count ivl 0 s.num_elem s.repeat_ * t.elsize)
          (s.num_elem - run_count ivl 0 s.num_elem s.repeat_) nb st')
        (by show 1 ≤ s.num_elem - run_count ivl 0 s.num_elem s.repeat_; omega)
        (by
          show (expand_at _ _).length + 1 ≤ k
          rw [hp1, List.length_drop]
          omega)
        (fun d hd => hflat d (hsuf.subset hd)) hp2
        (by
          show (expand_at _ _).length < (s.num_elem - run_count ivl 0 s.num_elem s.repeat_).toNat
          rw [hp1, List.length_drop]
          omega)
      exact ⟨s', h1, h2, h3, h4.trans herr⟩

/-- A reference with more elements than the flat list of leaves holds:
`dinit_varref` leaves through `error_exit` after error 66. -/
theorem dinit_varref_short (env : Env) (st st1 : St) (v : Varref) (t : VarrefTarget)
    (ict : List CONST) (dtype : Nat) (rep base_off : Int) (fuel : Nat)
    (htg : varref_target env (some v) 0 base_off st = Res.ok (some t, st1))
    (hn : 1 ≤ t.num_elem)
    (hfuel : (expand_at ict (repeat_start ict rep)).length + 2 ≤ fuel)
    (hdata : env.no_data_components (env.DDTG (env.DTYPEG t.sptr)) = false)
    (hns : DTYG env v.dtype ≠ TY.STRUCT)
    (hflat : flat_leaves env ict) (hwf : position_wf ict (repeat_start ict rep))
    (hlen : (expand_at ict (repeat_start ict rep)).length < t.num_elem.toNat) :
    ∃ rep' st2,
      dinit_varref env fuel (some v) 0 ict dtype rep base_off st =
        Res.ok (varref_error_exit rep' (report (Diag.errsev 66) st2)) ∧
      st2.dinit_error = st1.dinit_error := by
  obtain ⟨k, rfl⟩ : ∃ k, fuel = k + 1 := ⟨fuel - 1, by omega⟩
  have hivl : ivl_struct env (some v) = false := by simp [ivl_struct, hns]
  obtain ⟨s', h1, _, _, h4⟩ := leaf_loop_short env
    (fun ic st1 => dinit_varref env k (some v) 0 ic dtype 0 base_off st1)
    (fun ic dt off st1 => dinit_data env k [] none ic dt off st1)
    t (some v) (put_value env t.sptr st1) base_off hdata hivl k
    (VarrefLoop.mk ict (repeat_start ict rep) t.offset t.num_elem true st1)
    hn (by show (expand_at ict (repeat_start ict rep)).length + 1 ≤ k; omega) hflat hwf hlen
  unfold dinit_varref
  simp only [htg, Res.bind, h1, Bool.false_eq_true, if_false]
  exact ⟨_, _, rfl, h4⟩

/-- The walk of a DATA statement with one reference returns the state that
`dinit_varref` leaves, whatever is left of the constant list. -/
theorem dinit_data_one (env : Env) (fuel : Nat) (v : Varref) (ict : List CONST) (dtype : Nat)
    (base_off : Int) (st : St) (r : List CONST × Int × St) (hfuel : 1 ≤ fuel)
    (hr : dinit_varref env fuel (some v) 0 ict dtype 0 base_off st = Res.ok r) :
    dinit_data env (fuel + 1) [VAR.Varref v] (some 0) ict dtype base_off st = Res.ok r.2.2 := by
  obtain ⟨k, rfl⟩ : ∃ k, fuel = k + 1 := ⟨fuel - 1, by omega⟩
  unfold dinit_data
  have hb : data_body env
      (fun v member ic rep st1 => dinit_varref env (k + 1) v member ic dtype rep base_off st1)
      [VAR.Varref v] ⟨some 0, first_member env (some 0) dtype, ict, 0, st⟩ =
      Res.ok (Sum.inr r.2.2) := by
    unfold data_body
    simp [first_member, member_head, hr, Res.bind, data_advance]
  rw [loopN_exit _ _ _ _ hb]

/-- C35: too few initialisers.  (1) For a reference that resolves to a target
of a type with data components, walked over a flat list of leaves entered at a
well-formed position that holds fewer elements than the target has,
`dinit_varref` reports error 66, adds 1 to `sem.dinit_error` and returns a
null list.  (2) The walk of a DATA statement with one reference ends in the
state that `dinit_varref` leaves: `dinit_data` looks neither at the list nor
at the count that `dinit_varref` returns, so constants left over are reported
by nothing, and the error of (1) ends the walk. -/
theorem C35_too_few_initializers :
    (∀ (env : Env) (st st1 : St) (v : Varref) (t : VarrefTarget)
      (ict : List CONST) (dtype : Nat) (rep base_off : Int) (fuel : Nat),
      varref_target env (some v) 0 base_off st = Res.ok (some t, st1) →
      1 ≤ t.num_elem → (expand_at ict (repeat_start ict rep)).length + 2 ≤ fuel →
      env.no_data_components (env.DDTG (env.DTYPEG t.sptr)) = false →
      DTYG env v.dtype ≠ TY.STRUCT →
      flat_leaves env ict → position_wf ict (repeat_start ict rep) →
      (expand_at ict (repeat_start ict rep)).length < t.num_elem.toNat →
      ∃ (rep' : Int) (st2 st' : St),
        dinit_varref env fuel (some v) 0 ict dtype rep base_off st = Res.ok ([], rep', st') ∧
        st'.errs = st2.errs ++ [Diag.errsev 66] ∧
        st'.dinit_error = st1.dinit_error + 1) ∧
    (∀ (env : Env) (fuel : Nat) (v : Varref) (ict : List CONST) (dtype : Nat)
      (base_off : Int) (st : St) (r : List CONST × Int × St),
      1 ≤ fuel → dinit_varref env fuel (some v) 0 ict dtype 0 base_off st = Res.ok r →
      dinit_data env (fuel + 1) [VAR.Varref v] (some 0) ict dtype base_off st = Res.ok r.2.2) := by
  refine ⟨?_, fun env fuel v ict dtype base_off st r h1 h2 =>
    dinit_data_one env fuel v ict dtype base_off st r h1 h2⟩
  intro env st st1 v t ict dtype rep base_off fuel h1 h2 h3 h4 h5 h6 h7 h8
  obtain ⟨rep', st2, hr, he⟩ := dinit_varref_short env st st1 v t ict dtype rep base_off fuel
    h1 h2 h3 h4 h5 h6 h7 h8
  refine ⟨rep', st2, _, hr, ?_, ?_⟩
  · simp [report]
  · simp [report, he]

/-- C35, at the array `b` of three integers: with the list `2 * 7` the walk
writes the two values it has, reports error 66 and counts one error; with the
list `5 * 7` it writes three values and reports nothing about the two that are
left. -/
theorem C35_too_few_initializers_witness :
    (∃ (rep' : Int) (st2 st' : St),
      dinit_varref exEnv 4 (some exRefB) 0 [CONST.leaf 5 2 7] 0 0 0 exSt =
        Res.ok ([], rep', st') ∧
      st'.errs = st2.errs ++ [Diag.errsev 66] ∧ st'.dinit_error = exSt.dinit_error + 1) ∧
    (∃ r, dinit_varref exEnv 4 (some exRefB) 0 [CONST.leaf 5 5 7] 0 0 0 exSt = Res.ok r ∧
      dinit_data exEnv (4 + 1) [VAR.Varref exRefB] (some 0) [CONST.leaf 5 5 7] 0 0 exSt =
        Res.ok r.2.2) ∧
    drain_view (dinit_data exEnv (4 + 1) [VAR.Varref exRefB] (some 0) [CONST.leaf 5 2 7] 0 0
      exSt) = Res.ok ([Directive.SetLocation 11, Directive.StoreValue 5 7,
        Directive.StoreValue 5 7], [Diag.errsev 66], 1) ∧
    drain_view (dinit_data exEnv (4 + 1) [VAR.Varref exRefB] (some 0) [CONST.leaf 5 5 7] 0 0
      exSt) = Res.ok ([Directive.SetLocation 11, Directive.StoreValue 5 7,
        Directive.StoreValue 5 7, Directive.StoreValue 5 7], [], 0) := by
  have htg := ident_array_target exEnv exSt exRefB 11 0 0 3 rfl rfl (by decide) rfl rfl
    (by decide) rfl (by decide)
  refine ⟨?_, ?_, by decide!, by decide!⟩
  · exact C35_too_few_initializers.1 exEnv exSt exSt exRefB _ [CONST.leaf 5 2 7] 0 0 0 4 htg
      (by decide) (by decide) rfl (by decide)
      (by
        intro c hc
        simp only [List.mem_singleton] at hc
        subst hc
        decide)
      (by simp only [position_wf, repeat_start]; decide) (by decide)
  · obtain ⟨ict', rep', st', h, _⟩ := dinit_varref_flat exEnv exSt exSt exRefB _
      [CONST.leaf 5 5 7] 0 0 0 4 htg (by decide) (by decide) rfl (by decide)
      (by
        intro c hc
        simp only [List.mem_singleton] at hc
        subst hc
        decide)
      (by simp only [position_wf, repeat_start]; decide) (by decide)
    exact ⟨(ict', rep', st'), h,
      C35_too_few_initializers.2 exEnv 4 exRefB [CONST.leaf 5 5 7] 0 0 exSt (ict', rep', st')
        (by decide) h⟩

/-! ## C33: TRIM and LEN_TRIM -/

theorem skip_trailing_blanks_spec (env : Env) (base : Int) :
    ∀ n : Nat, skip_trailing_blanks env base n ≤ n ∧
      (∀ i : Nat, skip_trailing_blanks env base n ≤ i → i < n → env.n_base (base + (i : Int)) = 32) ∧
      (0 < skip_trailing_blanks env base n →
        env.n_base (base + ((skip_trailing_blanks env base n - 1 : Nat) : Int)) ≠ 32) := by
  intro n
  induction n with
  | zero => simp [skip_trailing_blanks]
  | succ k ih =>
    unfold skip_trailing_blanks
    by_cases h : env.n_base (base + (k : Int)) ≠ 32
    · rw [if_pos h]
      refine ⟨le_refl _, fun i h1 h2 => by omega, fun _ => ?_⟩
      simpa using h
    · rw [if_neg h]
      obtain ⟨h1, h2, h3⟩ := ih
      refine ⟨by omega, fun i hi1 hi2 => ?_, h3⟩
      by_cases hik : i = k
      · subst hik
        simpa using h
      · exact h2 i hi1 (by omega)

/-- C33, as stated, fails for an all-blank string: for the string of two
blanks `eval_len_trim` gives 0 and `eval_trim` gives a constant of declared
length 0 whose value is the string `" "`, which has one character and is not
the empty string that is left when the trailing blanks are removed. -/
theorem C33_counterexample :
    trim_view (eval_trim exEnvStr (eval_init_expr exEnvStr 4) [exStr [32, 32]] 1002 exSt) =
      Res.ok ([32], 0, 1) ∧
    leaf_values (eval_len_trim exEnvStr (eval_init_expr_item exEnvStr 4) [exStr [32, 32]]
      exSt) = Res.ok [0] ∧
    ([32] : List Int).length ≠ 0 ∧ exStrChars (str_code []) = [] := by
  decide!

/-- C33 (amended): trim and length-trim.  For a character constant `c` that
the argument folds to, with `len` the size of its type, there is a length
`n ≤ len` such that the characters of `c` from `n` on are blanks and, if `n`
is not 0, the character before is not a blank; `eval_len_trim` turns the node
into an integer leaf of repeat count 1 that holds `n`; `eval_trim` gives the
node the type `get_type(2, DTY(dtype), n)` and, if `n` is not 0, the value
`getstring` of the first `n` characters of `c`, which is `c` without its
trailing blanks; if `n` is 0 (an empty or all-blank string) the value is the
one-character string `" "`. -/
theorem C33_trim_len_trim (env : Env) (recE : List CONST → St → Res (List CONST × St))
    (recI : CONST → St → Res (List CONST × St)) (arg : List CONST) (a : CONST) (dtype : Nat)
    (st st1 st2 : St) (c : CONST) (rest rest2 : List CONST)
    (harg : deref arg = Res.ok a)
    (hE : recE arg st = Res.ok (c :: rest, st1))
    (hI : recI a st = Res.ok (c :: rest2, st2))
    (hc : c.id ≠ ACID.ACONST) :
    ∃ n : Nat,
      n ≤ (env.size_of c.dtype).toNat ∧
      (∀ i : Nat, n ≤ i → i < (env.size_of c.dtype).toNat →
        env.n_base (env.CONVAL1G c.conval + (i : Int)) = 32) ∧
      (0 < n → env.n_base (env.CONVAL1G c.conval + ((n - 1 : Nat) : Int)) ≠ 32) ∧
      eval_len_trim env recI arg st =
        Res.ok (len_trim_node env c :: rest2.map (len_trim_node env), st2) ∧
      (len_trim_node env c).conval = (n : Int) ∧ (len_trim_node env c).dtype = env.DT_INT ∧
      (len_trim_node env c).repeatc = 1 ∧ (len_trim_node env c).id = ACID.CONST ∧
      eval_trim env recE arg dtype st =
        Res.ok ((c.setConval (if n = 0 then env.getstring [32]
            else env.getstring (chars_of env c.conval (n : Int)))).setDtype
          (env.get_type (env.DTY dtype) (n : Int)) :: rest, st1) := by
  obtain ⟨h1, h2, h3⟩ := skip_trailing_blanks_spec env (env.CONVAL1G c.conval)
    (env.size_of c.dtype).toNat
  refine ⟨skip_trailing_blanks env (env.CONVAL1G c.conval) (env.size_of c.dtype).toNat,
    h1, h2, h3, ?_, ?_, ?_, ?_, ?_, ?_⟩
  · simp [eval_len_trim, harg, hI, Res.bind, hc]
  · cases c
    rfl
  · cases c
    rfl
  · cases c
    rfl
  · cases c
    rfl
  · simp [eval_trim, hE, Res.bind]

/-- C33 (amended), at the string `"ab "`: the length is 2 and the value is
`"ab"`, of declared length 2. -/
theorem C33_trim_len_trim_witness :
    (∃ n : Nat,
      n ≤ (exEnvStr.size_of (exStr [97, 98, 32]).dtype).toNat ∧
      (∀ i : Nat, n ≤ i → i < (exEnvStr.size_of (exStr [97, 98, 32]).dtype).toNat →
        exEnvStr.n_base (exEnvStr.CONVAL1G (exStr [97, 98, 32]).conval + (i : Int)) = 32) ∧
      (0 < n →
        exEnvStr.n_base (exEnvStr.CONVAL1G (exStr [97, 98, 32]).conval + ((n - 1 : Nat) : Int)) ≠
          32) ∧
      eval_len_trim exEnvStr (eval_init_expr_item exEnvStr 4) [exStr [97, 98, 32]] exSt =
        Res.ok (len_trim_node exEnvStr (exStr [97, 98, 32]) ::
          ([] : List CONST).map (len_trim_node exEnvStr), exSt) ∧
      (len_trim_node exEnvStr (exStr [97, 98, 32])).conval = (n : Int) ∧
      (len_trim_node exEnvStr (exStr [97, 98, 32])).dtype = exEnvStr.DT_INT ∧
      (len_trim_node exEnvStr (exStr [97, 98, 32])).repeatc = 1 ∧
      (len_trim_node exEnvStr (exStr [97, 98, 32])).id = ACID.CONST ∧
      eval_trim exEnvStr (eval_init_expr exEnvStr 4) [exStr [97, 98, 32]] 1003 exSt =
        Res.ok (((exStr [97, 98, 32]).setConval (if n = 0 then exEnvStr.getstring [32]
            else exEnvStr.getstring (chars_of exEnvStr (exStr [97, 98, 32]).conval
              (n : Int)))).setDtype
          (exEnvStr.get_type (exEnvStr.DTY 1003) (n : Int)) :: [], exSt)) ∧
    trim_view (eval_trim exEnvStr (eval_init_expr exEnvStr 4) [exStr [97, 98, 32]] 1003 exSt) =
      Res.ok ([97, 98], 2, 1) ∧
    leaf_values (eval_len_trim exEnvStr (eval_init_expr_item exEnvStr 4) [exStr [97, 98, 32]]
      exSt) = Res.ok [2] :=
  ⟨C33_trim_len_trim exEnvStr (eval_init_expr exEnvStr 4) (eval_init_expr_item exEnvStr 4)
    [exStr [97, 98, 32]] (exStr [97, 98, 32]) 1003 exSt exSt exSt (exStr [97, 98, 32]) [] []
    rfl rfl rfl (by decide),
   by decide!, by decide!⟩

/-! ## C24: the leaves that `eval_reshape` and the other embedded routines return -/

theorem Good.setRepeatc {c : CONST} (h : Good c) (v : Int) (hv : 1 ≤ v) :
    Good (c.setRepeatc v) := by
  cases h with
  | mk id subc repeatc sptr mbr dtype nd conval op lop rop iv a b c h1 h2 h3 h4 h5 h6 h7 =>
    exact Good.mk _ _ _ _ _ _ _ _ _ _ _ _ _ _ _ (fun _ => hv) h2 h3 h4 h5 h6 h7

theorem Good.setU1 {c d : CONST} (hc : Good c) (hd : Good d) : Good (c.setU1 d) := by
  cases hc with
  | mk id subc repeatc sptr mbr dtype nd conval op lop rop iv a b c h1 h2 h3 h4 h5 h6 h7 =>
    cases hd with
    | mk id2 subc2 repeatc2 sptr2 mbr2 dtype2 nd2 conval2 op2 lop2 rop2 iv2 a2 b2 c2 g1 g2 g3 g4
        g5 g6 g7 =>
      exact Good.mk _ _ _ _ _ _ _ _ _ _ _ _ _ _ _ h1 h2 g3 g4 g5 g6 g7

/-- Routine `eval_selected_char_kind`: a node that it returns is a leaf of
repeat count 1. -/
theorem good_selected_char_kind (env : Env) (recE : List CONST → St → Res (List CONST × St))
    (hrec : ∀ e st r, GoodL e → GoodSt st → recE e st = Res.ok r → GoodL r.1 ∧ GoodSt r.2)
    (arg : List CONST) (harg : GoodL arg) (st : St) (hst : GoodSt st) (c : CONST) (st2 : St)
    (h : eval_selected_char_kind env recE arg st = Res.ok (ConstPtr.node c, st2)) :
    Good c ∧ c.id = ACID.CONST ∧ c.repeatc = 1 ∧ GoodSt st2 := by
  unfold eval_selected_char_kind at h
  obtain ⟨a, ha, h⟩ := bind_eq_ok h
  obtain ⟨x, hx, h⟩ := bind_eq_ok h
  obtain ⟨_, g2⟩ := hrec _ _ _ harg hst ha
  simp only [] at h
  split_ifs at h
  · simp only [Res.ok.injEq, Prod.mk.injEq, ConstPtr.node.injEq] at h
    obtain ⟨rfl, rfl⟩ := h
    exact ⟨good_leaf _ _ _ (le_refl 1), rfl, rfl, g2⟩
  · simp at h
  · simp only [Res.ok.injEq, Prod.mk.injEq, ConstPtr.node.injEq] at h
    obtain ⟨rfl, rfl⟩ := h
    exact ⟨good_leaf _ _ _ (le_refl 1), rfl, rfl, g2⟩

/-- C1 (amended), at the array `a` of six integers. -/
theorem C1_zero_run_witness :
    ∃ st', dinit_varref exEnv 2 (some exRefA) 0 [CONST.leaf 5 6 0] 0 0 0 exSt =
        Res.ok ([], 0, st') ∧
      st'.out = exSt.out ++ [Directive.SetLocation (10 : Nat),
        Directive.ZeroFill (6 * (Int.tdiv (exEnv.size_of (exEnv.DTYPEG 10)) 6))] :=
  C1_zero_run exEnv exSt exRefA 10 (CONST.leaf 5 6 0) 0 0 6 2 (by decide) rfl rfl (by decide)
    rfl rfl (by decide) rfl (by decide) (by decide) rfl (by decide) rfl rfl (by decide)

end Dinit
